import Mathlib

/-!
# The trading core: ledger, bounce detector, classifier, backtesting engine

A shallow embedding of four modules of the repository and the proofs of their contracts:

* `src/src/modules/simulated-trading.js` (class `SimulatedTrading`), the paper-trading ledger;
* `src/src/modules/bounce-detector.js` (class `BounceDetector`), the signal detector;
* `src/src/modules/ml-filter.js` (class `MLFilter`), the signal classifier;
* `src/src/modules/backtesting-engine.js` (class `BacktestEngine`), the replay of a strategy
  over a series of data points.

Modelling conventions:

* JavaScript numbers are modelled as exact rationals (`ℚ`): the contracts are stated and
  proved in exact arithmetic. Where rounding decides a contract (the total cost of a BUY,
  which the ledger and the engine write in two ways), the expression is also evaluated in
  binary64 (`roundDouble`). The numbers a caller passes are finite. The balance and the
  positions of the ledger stay finite; the equity the ledger reports, the detector, the
  classifier, the performance report and the engine compute values that may be NaN or
  infinite, and there a number is a `JSNum`, which has them.
* The mutable object is modelled by explicit state passing: a method returns its result
  together with the object after the call.
* `Date.now()` is an explicit argument `now` (one clock reading per call).
* The positions array is a `List Position` in array order; `Array.prototype.find` is
  `List.find?`, the in-place mutation of the found element is `modifyFirst`.
* An object used as a lookup table (`prices`, `dataPoint.prices`, `positions`) is given by
  its own entries, and a symbol is any string: a key the object does not own is looked up in
  `Object.prototype` (`lookupIn`, `lookupPosition`), where `toString`, `constructor`,
  `__proto__` and the like are found.
* A quotient of the ledger whose divisor is zero is not a finite number in the source; such
  quotients are outside the model (a position's quantity is positive on every ledger
  reachable by calls with positive quantities, so the divisor of the average-price update is
  positive there).
-/

namespace RedPill

/-! ## Numbers that may be non-finite

The signal detector and the classifier divide by values computed from their input, the
performance report divides by the configured initial balance, and a table of prices can
hand out a value that is not a number. Where that happens a number is a `JSNum`: a finite
value, one of the two infinities, or NaN, with the arithmetic and the comparisons of
IEEE 754 on them (rounding error left out, the two zeros identified). -/

/-- A JavaScript number: finite, `Infinity`, `-Infinity` or `NaN`. -/
inductive JSNum (K : Type) where
  | fin (x : K)
  | posInf
  | negInf
  | nan
deriving DecidableEq

namespace JSNum

variable {K : Type} [LinearOrderedField K]

/-- Unary minus. -/
def neg : JSNum K → JSNum K
  | fin x => fin (-x)
  | posInf => negInf
  | negInf => posInf
  | nan => nan

/-- The operator `+`. -/
def add : JSNum K → JSNum K → JSNum K
  | fin x, fin y => fin (x + y)
  | fin _, posInf => posInf
  | fin _, negInf => negInf
  | posInf, fin _ => posInf
  | posInf, posInf => posInf
  | posInf, negInf => nan
  | negInf, fin _ => negInf
  | negInf, posInf => nan
  | negInf, negInf => negInf
  | nan, _ => nan
  | _, nan => nan

/-- The operator `-`. -/
def sub (a b : JSNum K) : JSNum K :=
  add a (neg b)

/-- The infinity with the sign of `x`, NaN when `x` is zero. -/
def signedInf (x : K) : JSNum K :=
  if 0 < x then posInf else if x < 0 then negInf else nan

/-- The operator `*`. -/
def mul : JSNum K → JSNum K → JSNum K
  | fin x, fin y => fin (x * y)
  | fin x, posInf => signedInf x
  | fin x, negInf => signedInf (-x)
  | posInf, fin y => signedInf y
  | posInf, posInf => posInf
  | posInf, negInf => negInf
  | negInf, fin y => signedInf (-y)
  | negInf, posInf => negInf
  | negInf, negInf => posInf
  | nan, _ => nan
  | _, nan => nan

/-- The operator `/`. A zero divisor counts as `+0`. -/
def div : JSNum K → JSNum K → JSNum K
  | fin x, fin y => if y = 0 then signedInf x else fin (x / y)
  | fin _, posInf => fin 0
  | fin _, negInf => fin 0
  | posInf, fin y => if y < 0 then negInf else posInf
  | negInf, fin y => if y < 0 then posInf else negInf
  | posInf, posInf => nan
  | posInf, negInf => nan
  | negInf, posInf => nan
  | negInf, negInf => nan
  | nan, _ => nan
  | _, nan => nan

/-- The comparison `a >= b`: false as soon as one side is NaN. -/
def ge : JSNum K → JSNum K → Bool
  | fin x, fin y => decide (y ≤ x)
  | fin _, posInf => false
  | fin _, negInf => true
  | posInf, fin _ => true
  | posInf, posInf => true
  | posInf, negInf => true
  | negInf, fin _ => false
  | negInf, posInf => false
  | negInf, negInf => true
  | nan, _ => false
  | _, nan => false

/-- `Math.min(a, b)`: NaN as soon as one argument is NaN. -/
def min : JSNum K → JSNum K → JSNum K
  | fin x, fin y => fin (Min.min x y)
  | fin x, posInf => fin x
  | fin _, negInf => negInf
  | posInf, fin y => fin y
  | posInf, posInf => posInf
  | posInf, negInf => negInf
  | negInf, fin _ => negInf
  | negInf, posInf => negInf
  | negInf, negInf => negInf
  | nan, _ => nan
  | _, nan => nan

/-- `Math.round(a)`: the nearest integer, a tie going up. -/
def round [FloorRing K] : JSNum K → JSNum K
  | fin x => fin ((⌊x + 1 / 2⌋ : ℤ) : K)
  | posInf => posInf
  | negInf => negInf
  | nan => nan

/-- `a || 0` on a number: NaN and zero are falsy. -/
def orZero : JSNum K → JSNum K
  | fin x => fin x
  | posInf => posInf
  | negInf => negInf
  | nan => fin 0

/-- `Math.exp(a)`, given the exponential `e` of the finite numbers. -/
def exp (e : K → K) : JSNum K → JSNum K
  | fin x => fin (e x)
  | posInf => posInf
  | negInf => fin 0
  | nan => nan

/-- Whether the number is finite. -/
def isFinite : JSNum K → Bool
  | fin _ => true
  | _ => false

end JSNum

/-! ## Objects used as tables

A table of prices (`prices`, `dataPoint.prices`) and the `positions` object of the engine are
plain objects. A plain object is given by its own entries, and a key it does not own is
looked up in `Object.prototype`: for the names below the lookup returns the inherited member
(a method, or the prototype itself for `__proto__`), which is truthy and is NaN as an
operand of arithmetic. -/

/-- The names of the members of `Object.prototype`. -/
def objectPrototypeKeys : List String :=
  ["constructor", "__defineGetter__", "__defineSetter__", "hasOwnProperty",
   "__lookupGetter__", "__lookupSetter__", "isPrototypeOf", "propertyIsEnumerable",
   "toString", "valueOf", "__proto__", "toLocaleString"]

/-- Whether a key names a member every plain object inherits. -/
def inheritedKey (key : String) : Bool :=
  decide (key ∈ objectPrototypeKeys)

/-- The value of `table[key]` on a plain object whose own entries are numbers: `undefined`,
an own number, or an inherited member. -/
inductive Lookup where
  | absent
  | number (x : ℚ)
  | member
deriving DecidableEq

/-- `table[key]`, the plain object being given by its own entries. -/
def lookupIn (table : String → Option ℚ) (key : String) : Lookup :=
  match table key with
  | some x => Lookup.number x
  | none => if inheritedKey key then Lookup.member else Lookup.absent

/-- The value of `table[key] || d` as an operand of arithmetic: an own number other than 0
is itself, `undefined` and 0 give `d`, and an inherited member, which is truthy, is NaN. -/
def Lookup.orElse (l : Lookup) (d : JSNum ℚ) : JSNum ℚ :=
  match l with
  | Lookup.absent => d
  | Lookup.number x => if x = 0 then d else JSNum.fin x
  | Lookup.member => JSNum.nan

/-! ## Data model -/

/-- The `config` object handed to the constructor; an absent key is `none`. -/
structure ConfigInput where
  initialBalance : Option ℚ := none
  commissionRate : Option ℚ := none
  slippage : Option ℚ := none
deriving DecidableEq

/-- The resolved `this.config`. -/
structure Config where
  initialBalance : ℚ
  commissionRate : ℚ
  slippage : ℚ
deriving DecidableEq

/-- An entry of `this.positions`. -/
structure Position where
  symbol : String
  quantity : ℚ
  averagePrice : ℚ
  entryTime : Nat
deriving DecidableEq

/-- The `type` field of a trade record. -/
inductive TradeType where
  | BUY
  | SELL
deriving DecidableEq

/-- An entry of `this.trades`. `id` is the numeric suffix of the string `TRADE_<ms>`.
`totalCost` is present on BUY records only; `netRevenue`, `pnl` and `pnlPercent` on SELL
records only. `pnlPercent` is the numeric value of the formatted string, `none` when the
source formats a non-finite number (zero cost basis). -/
structure Trade where
  id : Nat
  type : TradeType
  symbol : String
  quantity : ℚ
  price : ℚ
  commission : ℚ
  slippage : ℚ
  totalCost : Option ℚ
  netRevenue : Option ℚ
  pnl : Option ℚ
  pnlPercent : Option ℚ
  timestamp : Nat
deriving DecidableEq

/-- An entry of `this.equity`. -/
structure EquitySample where
  timestamp : Nat
  equity : JSNum ℚ
deriving DecidableEq

/-- The object state of a `SimulatedTrading` instance. -/
structure SimulatedTrading where
  config : Config
  balance : ℚ
  positions : List Position
  trades : List Trade
  equity : List EquitySample
deriving DecidableEq

/-- The record returned by `getAccount`. -/
structure Account where
  balance : ℚ
  positionValue : JSNum ℚ
  totalEquity : JSNum ℚ
  positions : Nat
  trades : Nat
deriving DecidableEq

/-- The record returned by `buy` and `sell`: `{success: false, error}` or
`{success: true, trade}`. -/
inductive Result where
  | failure (error : String)
  | ok (trade : Trade)
deriving DecidableEq

/-- The `success` field of a result. -/
def Result.success : Result → Bool
  | .failure _ => false
  | .ok _ => true

/-- The `error` field of a result (`undefined` on success). -/
def Result.error : Result → Option String
  | .failure e => some e
  | .ok _ => none

/-- The `trade` field of a result (`undefined` on failure). -/
def Result.trade : Result → Option Trade
  | .failure _ => none
  | .ok t => some t

/-! ## Helpers for JavaScript idioms -/

/-- `x || d` for an optional number: `undefined` and `0` are falsy. -/
def orElse (x : Option ℚ) (d : ℚ) : ℚ :=
  match x with
  | some v => if v = 0 then d else v
  | none => d

/-- The value of key `k` in `{ k: config.k || d, ...config }`: the spread copies the own
value of `config.k` over the defaulted one whenever the key is present. -/
def spreadOver (x : Option ℚ) (d : ℚ) : ℚ :=
  match x with
  | some v => v
  | none => orElse x d

/-- In-place update of the element returned by `find(p => p.symbol === symbol)`: the first
position with that symbol is replaced by its image, the array order is kept. -/
def modifyFirst (symbol : String) (f : Position → Position) : List Position → List Position
  | [] => []
  | p :: ps => if p.symbol = symbol then f p :: ps else p :: modifyFirst symbol f ps

/-- `this.positions.find(p => p.symbol === symbol)`. -/
def findPosition (positions : List Position) (symbol : String) : Option Position :=
  positions.find? (fun p => decide (p.symbol = symbol))

/-- Numeric value of `x.toFixed(2)`: the nearest hundredth, a tie going away from zero. -/
def toFixed2 (x : ℚ) : ℚ :=
  if 0 ≤ x then ((⌊x * 100 + 1 / 2⌋ : ℤ) : ℚ) / 100
  else -(((⌊-x * 100 + 1 / 2⌋ : ℤ) : ℚ) / 100)

/-- The own entries of the empty price table `{}` that `getAccount` passes by default: it
has none, and its inherited members are found by `lookupIn`. -/
def noPrices : String → Option ℚ := fun _ => none

/-! ## Operations -/

namespace SimulatedTrading

/-- `new SimulatedTrading(config)`. -/
def create (config : ConfigInput) : SimulatedTrading :=
  let cfg : Config :=
    { initialBalance := spreadOver config.initialBalance 10000
      commissionRate := spreadOver config.commissionRate (1 / 1000)
      slippage := spreadOver config.slippage (2 / 1000) }
  { config := cfg
    balance := cfg.initialBalance
    positions := []
    trades := []
    equity := [] }

/-- `calculatePositionValue(prices)`, `prices` being a plain object given by its own
entries. -/
def calculatePositionValue (s : SimulatedTrading) (prices : String → Option ℚ) : JSNum ℚ :=
  s.positions.foldl
    (fun total pos =>
      let currentPrice :=
        Lookup.orElse (lookupIn prices pos.symbol) (JSNum.fin pos.averagePrice)
      JSNum.add total (JSNum.mul (JSNum.fin pos.quantity) currentPrice))
    (JSNum.fin 0)

/-- `getAccount()`. -/
def getAccount (s : SimulatedTrading) : Account :=
  let positionValue := s.calculatePositionValue noPrices
  { balance := s.balance
    positionValue := positionValue
    totalEquity := JSNum.add (JSNum.fin s.balance) positionValue
    positions := s.positions.length
    trades := s.trades.length }

/-- `recordEquity()`. -/
def recordEquity (s : SimulatedTrading) (now : Nat) : SimulatedTrading :=
  let account := s.getAccount
  { s with equity := s.equity ++ [{ timestamp := now, equity := account.totalEquity }] }

/-- `buy(symbol, quantity, price)`. -/
def buy (s : SimulatedTrading) (symbol : String) (quantity price : ℚ) (now : Nat) :
    Result × SimulatedTrading :=
  let cost := quantity * price
  let commission := cost * s.config.commissionRate
  let slippage := cost * s.config.slippage
  let totalCost := cost + commission + slippage
  if totalCost > s.balance then
    (Result.failure "Insufficient balance", s)
  else
    let trade : Trade :=
      { id := now
        type := TradeType.BUY
        symbol := symbol
        quantity := quantity
        price := price
        commission := commission
        slippage := slippage
        totalCost := some totalCost
        netRevenue := none
        pnl := none
        pnlPercent := none
        timestamp := now }
    let positions :=
      match findPosition s.positions symbol with
      | some _ =>
        modifyFirst symbol
          (fun existingPos =>
            let totalQuantity := existingPos.quantity + quantity
            { existingPos with
              averagePrice :=
                (existingPos.averagePrice * existingPos.quantity + price * quantity)
                  / totalQuantity
              quantity := totalQuantity })
          s.positions
      | none =>
        s.positions ++
          [{ symbol := symbol, quantity := quantity, averagePrice := price, entryTime := now }]
    let s1 : SimulatedTrading :=
      { s with
        balance := s.balance - totalCost
        trades := s.trades ++ [trade]
        positions := positions }
    (Result.ok trade, s1.recordEquity now)

/-- `sell(symbol, quantity, price)`. -/
def sell (s : SimulatedTrading) (symbol : String) (quantity price : ℚ) (now : Nat) :
    Result × SimulatedTrading :=
  match findPosition s.positions symbol with
  | none => (Result.failure "Insufficient position", s)
  | some position =>
    if position.quantity < quantity then
      (Result.failure "Insufficient position", s)
    else
      let revenue := quantity * price
      let commission := revenue * s.config.commissionRate
      let slippage := revenue * s.config.slippage
      let netRevenue := revenue - commission - slippage
      let pnl := (price - position.averagePrice) * quantity - commission - slippage
      let trade : Trade :=
        { id := now
          type := TradeType.SELL
          symbol := symbol
          quantity := quantity
          price := price
          commission := commission
          slippage := slippage
          totalCost := none
          netRevenue := some netRevenue
          pnl := some pnl
          pnlPercent :=
            if position.averagePrice * quantity = 0 then none
            else some (toFixed2 (pnl / (position.averagePrice * quantity) * 100))
          timestamp := now }
      let positions :=
        if position.quantity = quantity then
          s.positions.filter (fun p => decide (p.symbol ≠ symbol))
        else
          modifyFirst symbol (fun p => { p with quantity := p.quantity - quantity }) s.positions
      let s1 : SimulatedTrading :=
        { s with
          balance := s.balance + netRevenue
          trades := s.trades ++ [trade]
          positions := positions }
      (Result.ok trade, s1.recordEquity now)

/-- `reset()`. -/
def reset (s : SimulatedTrading) : SimulatedTrading :=
  { s with balance := s.config.initialBalance, positions := [], trades := [], equity := [] }

end SimulatedTrading

/-! ## Sequences of calls -/

/-- One call made on a ledger by its client. -/
inductive Call where
  | buy (symbol : String) (quantity price : ℚ) (now : Nat)
  | sell (symbol : String) (quantity price : ℚ) (now : Nat)
deriving DecidableEq

/-- The `symbol` argument of a call. -/
def Call.symbol : Call → String
  | .buy symbol _ _ _ => symbol
  | .sell symbol _ _ _ => symbol

/-- The `quantity` argument of a call. -/
def Call.quantity : Call → ℚ
  | .buy _ q _ _ => q
  | .sell _ q _ _ => q

/-- The `price` argument of a call. -/
def Call.price : Call → ℚ
  | .buy _ _ p _ => p
  | .sell _ _ p _ => p

/-- The ledger after one call (the returned record is dropped). -/
def applyCall (s : SimulatedTrading) : Call → SimulatedTrading
  | .buy symbol q p now => (s.buy symbol q p now).2
  | .sell symbol q p now => (s.sell symbol q p now).2

/-- The ledger after a sequence of calls, made in list order. -/
def applyCalls (s : SimulatedTrading) (calls : List Call) : SimulatedTrading :=
  calls.foldl applyCall s

/-- The mark-to-cost value of a list of positions: the sum of `quantity * averagePrice`. -/
def costValue (positions : List Position) : ℚ :=
  (positions.map (fun p => p.quantity * p.averagePrice)).sum

/-- Numeric value of `a.toFixed(2)` for a number that may be non-finite (the strings
`Infinity`, `-Infinity` and `NaN` read back as themselves). -/
def JSNum.toFixed2 : JSNum ℚ → JSNum ℚ
  | JSNum.fin x => JSNum.fin (RedPill.toFixed2 x)
  | JSNum.posInf => JSNum.posInf
  | JSNum.negInf => JSNum.negInf
  | JSNum.nan => JSNum.nan

/-! ## Performance report of the ledger -/

/-- The record returned by `getPerformance`. `returnPercent` and `winRate` are the numeric
values of the strings returned, without the trailing `%`. -/
structure Performance where
  initialBalance : ℚ
  currentEquity : JSNum ℚ
  totalPnL : JSNum ℚ
  returnPercent : JSNum ℚ
  totalTrades : Nat
  winningTrades : Nat
  losingTrades : Nat
  winRate : ℚ
deriving DecidableEq

/-- The filter `t => t.type === 'SELL' && t.pnl > 0`. -/
def isWinningTrade (t : Trade) : Bool :=
  decide (t.type = TradeType.SELL) &&
    (match t.pnl with
     | some v => decide (v > 0)
     | none => false)

/-- The filter `t => t.type === 'SELL' && t.pnl < 0`. -/
def isLosingTrade (t : Trade) : Bool :=
  decide (t.type = TradeType.SELL) &&
    (match t.pnl with
     | some v => decide (v < 0)
     | none => false)

/-- `getPerformance()`: the report, and the ledger after the call. -/
def SimulatedTrading.getPerformance (s : SimulatedTrading) : Performance × SimulatedTrading :=
  let account := s.getAccount
  let totalPnL := JSNum.sub account.totalEquity (JSNum.fin s.config.initialBalance)
  let returnPercent :=
    JSNum.toFixed2
      (JSNum.mul (JSNum.div totalPnL (JSNum.fin s.config.initialBalance))
        (JSNum.fin 100))
  let winningTrades := (s.trades.filter isWinningTrade).length
  let losingTrades := (s.trades.filter isLosingTrade).length
  let winRate : ℚ :=
    if winningTrades + losingTrades > 0 then
      toFixed2 ((winningTrades : ℚ) / ((winningTrades + losingTrades : Nat) : ℚ) * 100)
    else 0
  ({ initialBalance := s.config.initialBalance
     currentEquity := account.totalEquity
     totalPnL := totalPnL
     returnPercent := returnPercent
     totalTrades := s.trades.length
     winningTrades := winningTrades
     losingTrades := losingTrades
     winRate := winRate }, s)

/-! ## Bounce detector

A shallow embedding of `src/src/modules/bounce-detector.js` (class `BounceDetector`).
Observations carry finite numbers; what the detector computes from them is a `JSNum`. -/

/-- The `config` object handed to the detector's constructor; an absent key is `none`. -/
structure DetectorConfigInput where
  minBouncePercent : Option ℚ := none
  timeWindow : Option ℚ := none
  volumeThreshold : Option ℚ := none
deriving DecidableEq

/-- The resolved `this.config` of a detector. -/
structure DetectorConfig where
  minBouncePercent : ℚ
  timeWindow : ℚ
  volumeThreshold : ℚ
deriving DecidableEq

/-- An entry of `this.priceHistory`. -/
structure PricePoint where
  price : ℚ
  volume : ℚ
  timestamp : ℚ
deriving DecidableEq

/-- An entry of `this.signals`. `bouncePercent` and `volumeRatio` are the numeric values of
the two-decimal strings stored in the record. -/
structure Signal where
  type : String
  timestamp : ℚ
  price : ℚ
  low : JSNum ℚ
  bouncePercent : JSNum ℚ
  volumeRatio : JSNum ℚ
  strength : JSNum ℚ
deriving DecidableEq

/-- The object state of a `BounceDetector` instance. -/
structure BounceDetector where
  config : DetectorConfig
  priceHistory : List PricePoint
  signals : List Signal
deriving DecidableEq

/-- The record returned by `getStats`. -/
structure DetectorStats where
  totalSignals : Nat
  dataPoints : Nat
  avgStrength : JSNum ℚ
deriving DecidableEq

/-- `Math.min(...prices)`: `Infinity` for no argument. -/
def minOfPrices : List ℚ → JSNum ℚ
  | [] => JSNum.posInf
  | p :: ps => JSNum.fin (ps.foldl min p)

/-- `array.slice(-10)`: the last ten elements, all of them when there are fewer. -/
def lastTen {α : Type} (l : List α) : List α :=
  l.drop (l.length - 10)

/-- The pruning filter of `addPricePoint`: the points with `timestamp > cutoff`. -/
def pruneHistory (cutoff : ℚ) (history : List PricePoint) : List PricePoint :=
  history.filter (fun p => decide (p.timestamp > cutoff))

namespace BounceDetector

/-- `new BounceDetector(config)`. -/
def create (config : DetectorConfigInput) : BounceDetector :=
  { config :=
      { minBouncePercent := spreadOver config.minBouncePercent 5
        timeWindow := spreadOver config.timeWindow 300000
        volumeThreshold := spreadOver config.volumeThreshold (3 / 2) }
    priceHistory := []
    signals := [] }

/-- `calculateStrength(bouncePercent, volumeRatio)`. -/
def calculateStrength (d : BounceDetector) (bouncePercent volumeRatio : JSNum ℚ) : JSNum ℚ :=
  let bounceScore :=
    JSNum.min
      (JSNum.mul (JSNum.div bouncePercent (JSNum.fin d.config.minBouncePercent)) (JSNum.fin 50))
      (JSNum.fin 50)
  let volumeScore :=
    JSNum.min
      (JSNum.mul (JSNum.div volumeRatio (JSNum.fin d.config.volumeThreshold)) (JSNum.fin 50))
      (JSNum.fin 50)
  JSNum.round (JSNum.add bounceScore volumeScore)

/-- The recent window of `detectBounce`: `this.priceHistory.slice(-10)`. -/
def recentPoints (d : BounceDetector) : List PricePoint :=
  lastTen d.priceHistory

/-- The `low` of `detectBounce`: the least price of the recent window. -/
def low (d : BounceDetector) : JSNum ℚ :=
  minOfPrices (d.recentPoints.map (fun p => p.price))

/-- The `bouncePercent` of `detectBounce`: `((current - low) / low) * 100`. -/
def bouncePercent (d : BounceDetector) (currentPoint : PricePoint) : JSNum ℚ :=
  JSNum.mul (JSNum.div (JSNum.sub (JSNum.fin currentPoint.price) d.low) d.low) (JSNum.fin 100)

/-- The `avgVolume` of `detectBounce`: the volumes of the recent window summed from 0, over
their number. -/
def avgVolume (d : BounceDetector) : JSNum ℚ :=
  JSNum.div (JSNum.fin (d.recentPoints.foldl (fun sum p => sum + p.volume) 0))
    (JSNum.fin (d.recentPoints.length : ℚ))

/-- The `volumeRatio` of `detectBounce`: `currentPoint.volume / avgVolume`. -/
def volumeRatio (d : BounceDetector) (currentPoint : PricePoint) : JSNum ℚ :=
  JSNum.div (JSNum.fin currentPoint.volume) d.avgVolume

/-- `detectBounce(currentPoint)`: the signal or `null`, and the detector after the call. -/
def detectBounce (d : BounceDetector) (currentPoint : PricePoint) :
    Option Signal × BounceDetector :=
  if d.priceHistory.length < 3 then
    (none, d)
  else
    let bouncePercent := d.bouncePercent currentPoint
    let volumeRatio := d.volumeRatio currentPoint
    if JSNum.ge bouncePercent (JSNum.fin d.config.minBouncePercent) &&
        JSNum.ge volumeRatio (JSNum.fin d.config.volumeThreshold) then
      let signal : Signal :=
        { type := "BOUNCE"
          timestamp := currentPoint.timestamp
          price := currentPoint.price
          low := d.low
          bouncePercent := JSNum.toFixed2 bouncePercent
          volumeRatio := JSNum.toFixed2 volumeRatio
          strength := d.calculateStrength bouncePercent volumeRatio }
      (some signal, { d with signals := d.signals ++ [signal] })
    else
      (none, d)

/-- The first two statements of `addPricePoint`: the point is pushed on the history and the
history is pruned to the points with `timestamp > point.timestamp - timeWindow`. -/
def pushAndPrune (d : BounceDetector) (point : PricePoint) : BounceDetector :=
  let cutoff := point.timestamp - d.config.timeWindow
  { d with priceHistory := pruneHistory cutoff (d.priceHistory ++ [point]) }

/-- `addPricePoint(price, volume, timestamp)`. The caller passes the clock reading when the
source would default `timestamp` to `Date.now()`. -/
def addPricePoint (d : BounceDetector) (price volume timestamp : ℚ) :
    Option Signal × BounceDetector :=
  let point : PricePoint := { price := price, volume := volume, timestamp := timestamp }
  (d.pushAndPrune point).detectBounce point

/-- `getStats()`. -/
def getStats (d : BounceDetector) : DetectorStats :=
  { totalSignals := d.signals.length
    dataPoints := d.priceHistory.length
    avgStrength :=
      if d.signals.length > 0 then
        JSNum.div (d.signals.foldl (fun sum s => JSNum.add sum s.strength) (JSNum.fin 0))
          (JSNum.fin (d.signals.length : ℚ))
      else JSNum.fin 0 }

/-- `getRecentSignals(count)`: `this.signals.slice(-count)`, which is the whole array for
`count = 0`. -/
def getRecentSignals (d : BounceDetector) (count : Nat) : List Signal :=
  if count = 0 then d.signals else d.signals.drop (d.signals.length - count)

/-- `clearOldSignals(maxAge)`, `now` being the clock reading. -/
def clearOldSignals (d : BounceDetector) (maxAge now : ℚ) : BounceDetector :=
  { d with signals := d.signals.filter (fun s => decide (s.timestamp > now - maxAge)) }

end BounceDetector

/-- The detector after a sequence of observations `(price, volume, timestamp)`, fed in list
order (the returned signals are dropped). -/
def feedAll (d : BounceDetector) (observations : List (ℚ × ℚ × ℚ)) : BounceDetector :=
  observations.foldl (fun acc o => (acc.addPricePoint o.1 o.2.1 o.2.2).2) d

/-! ## Classifier

A shallow embedding of `src/src/modules/ml-filter.js` (class `MLFilter`). It is generic in
the ordered field `K` of the finite numbers, so that it runs on `ℚ` and is reasoned about on
`ℝ`. The library functions it calls are a parameter (`Builtins`). A field of a signal object
holds a number, a string, or is absent. -/

/-- A value found in a field of a signal object. -/
inductive JSValue (K : Type) where
  | undefined
  | number (x : JSNum K)
  | string (s : String)
deriving DecidableEq

/-- The library functions the classifier calls: `Math.exp` on the finite numbers,
`parseFloat` on a string, and the conversion of a string to a number that `*` applies. -/
structure Builtins (K : Type) where
  exp : K → K
  parseFloat : String → JSNum K
  toNumber : String → JSNum K

/-- The signal object handed to `predict`: the five fields the classifier reads. -/
structure SignalInput (K : Type) where
  bouncePercent : JSValue K
  volumeRatio : JSValue K
  strength : JSValue K
  priceChange : JSValue K
  momentum : JSValue K
deriving DecidableEq

/-- The resolved `this.config` of a classifier. -/
structure FilterConfig (K : Type) where
  confidenceThreshold : K
  learningRate : K

/-- The `config` object handed to the classifier's constructor; an absent key is `none`. -/
structure FilterConfigInput (K : Type) where
  confidenceThreshold : Option K := none
  learningRate : Option K := none

/-- The object `this.model`. `weights` maps a feature name to its weight when it has one. -/
structure Model (K : Type) where
  weights : String → Option (JSNum K)
  bias : JSNum K
  trainingData : List (SignalInput K × JSNum K)

/-- An entry of `this.predictions`, also the record returned by `predict`. -/
structure Prediction (K : Type) where
  signal : SignalInput K
  probability : JSNum K
  confidence : JSNum K
  shouldTrade : Bool
  timestamp : Nat
deriving DecidableEq

/-- The object state of an `MLFilter` instance. -/
structure MLFilter (K : Type) where
  config : FilterConfig K
  model : Model K
  predictions : List (Prediction K)

namespace JSValue

variable {K : Type} [LinearOrderedField K]

/-- `parseFloat(v)`: a number reads back as itself, `undefined` gives NaN. -/
def parseFloat (B : Builtins K) : JSValue K → JSNum K
  | undefined => JSNum.nan
  | number x => x
  | string s => B.parseFloat s

/-- `v || 0` on a field value: `undefined`, NaN, zero and the empty string are falsy. -/
def orZero : JSValue K → JSValue K
  | undefined => number (JSNum.fin 0)
  | number x => number (JSNum.orZero x)
  | string s => if s = "" then number (JSNum.fin 0) else string s

/-- The number a value stands for as an operand of `*`. -/
def toNumber (B : Builtins K) : JSValue K → JSNum K
  | undefined => JSNum.nan
  | number x => x
  | string s => B.toNumber s

end JSValue

/-- `x || d` followed by the spread of `config`, for a key of the classifier's
configuration. -/
def spreadOverIn {K : Type} [LinearOrderedField K] (x : Option K) (d : K) : K :=
  match x with
  | some v => v
  | none => d

namespace MLFilter

variable {K : Type} [LinearOrderedField K]

/-- `new MLFilter(config)`. -/
def create (config : FilterConfigInput K) : MLFilter K :=
  { config :=
      { confidenceThreshold := spreadOverIn config.confidenceThreshold (7 / 10)
        learningRate := spreadOverIn config.learningRate (1 / 100) }
    model := { weights := fun _ => none, bias := JSNum.fin 0, trainingData := [] }
    predictions := [] }

/-- `extractFeatures(signal)`: the entries of the returned object, in the order of
`Object.entries`. -/
def extractFeatures (B : Builtins K) (signal : SignalInput K) : List (String × JSValue K) :=
  [("bouncePercent", JSValue.orZero (JSValue.number (JSValue.parseFloat B signal.bouncePercent))),
   ("volumeRatio", JSValue.orZero (JSValue.number (JSValue.parseFloat B signal.volumeRatio))),
   ("strength", JSValue.orZero signal.strength),
   ("priceChange", JSValue.orZero signal.priceChange),
   ("momentum", JSValue.orZero signal.momentum)]

/-- `this.model.weights[key] || 0`. -/
def weightOrZero (m : Model K) (key : String) : JSNum K :=
  match m.weights key with
  | some w => JSNum.orZero w
  | none => JSNum.fin 0

/-- The `score` of `predict`: the bias, to which the loop over the features adds
`weight * value`. -/
def score (B : Builtins K) (m : Model K) (features : List (String × JSValue K)) : JSNum K :=
  features.foldl
    (fun score kv => JSNum.add score (JSNum.mul (weightOrZero m kv.1) (JSValue.toNumber B kv.2)))
    m.bias

/-- The sigmoid of `predict`: `1 / (1 + Math.exp(-score))`. -/
def sigmoid (B : Builtins K) (score : JSNum K) : JSNum K :=
  JSNum.div (JSNum.fin 1) (JSNum.add (JSNum.fin 1) (JSNum.exp B.exp (JSNum.neg score)))

/-- `predict(signal)`: the prediction, and the classifier after the call. -/
def predict (B : Builtins K) (f : MLFilter K) (signal : SignalInput K) (now : Nat) :
    Prediction K × MLFilter K :=
  let features := extractFeatures B signal
  let probability := sigmoid B (score B f.model features)
  let prediction : Prediction K :=
    { signal := signal
      probability := probability
      confidence := probability
      shouldTrade := JSNum.ge probability (JSNum.fin f.config.confidenceThreshold)
      timestamp := now }
  (prediction, { f with predictions := f.predictions ++ [prediction] })

/-- `reset()`. -/
def reset (f : MLFilter K) : MLFilter K :=
  { f with
    model := { weights := fun _ => none, bias := JSNum.fin 0, trainingData := [] }
    predictions := [] }

end MLFilter

/-- The finite value of a number, 0 for a non-finite one. It is used to state results in the
arithmetic of `K` where the numbers at hand are known to be finite. -/
def JSNum.toFin {K : Type} [LinearOrderedField K] : JSNum K → K
  | JSNum.fin x => x
  | _ => 0

/-- The finite value of a field value that is a finite number, 0 otherwise. -/
def JSValue.toFin {K : Type} [LinearOrderedField K] : JSValue K → K
  | JSValue.number x => JSNum.toFin x
  | _ => 0

/-- The weight of a feature as the specification words it: the stored weight, an absent
weight counting as 0. -/
def specWeight {K : Type} [LinearOrderedField K] (m : Model K) (key : String) : JSNum K :=
  (m.weights key).getD (JSNum.fin 0)

/-- The weight of a feature as the amended contract words it: an absent weight and a NaN
weight count as 0. -/
def specWeightOrZero {K : Type} [LinearOrderedField K] (m : Model K) (key : String) : JSNum K :=
  match m.weights key with
  | none => JSNum.fin 0
  | some JSNum.nan => JSNum.fin 0
  | some w => w

/-- A model whose only stored weight is the weight `w` of `strength`, with bias 0. -/
def strengthOnlyModel {K : Type} [LinearOrderedField K] (w : JSNum K) : Model K :=
  { weights := fun key => if key = "strength" then some w else none
    bias := JSNum.fin 0
    trainingData := [] }

/-- The score as the specification words it, over the finite numbers: the bias plus the sum
over the features of `weight * value`. -/
def specScore {K : Type} [LinearOrderedField K] (m : Model K)
    (features : List (String × JSValue K)) : K :=
  JSNum.toFin m.bias
    + (features.map (fun kv => JSNum.toFin (specWeight m kv.1) * JSValue.toFin kv.2)).sum

/-- The mean volume of a list of points, as the specification words it: the sum of the
volumes over their number. It is compared with the detector's `avgVolume` below. -/
def meanVolume (points : List PricePoint) : ℚ :=
  (points.map (fun p => p.volume)).sum / (points.length : ℚ)

/-- The observation `(price, volume, timestamp)` as the point stored in the history. -/
def toPoint (o : ℚ × ℚ × ℚ) : PricePoint :=
  { price := o.1, volume := o.2.1, timestamp := o.2.2 }

/-! ## Training and filtering

`Math.random()` is a parameter: `random n` is the value its `n`-th call returns during one
`train`. `Array.prototype.sort` is a stable sort; it is modelled by a stable insertion sort,
which returns the one stable arrangement whenever the comparator is consistent on the
array. -/

namespace JSNum

variable {K : Type} [LinearOrderedField K]

/-- The comparison `a > b`: false as soon as one side is NaN. -/
def gt : JSNum K → JSNum K → Bool
  | fin x, fin y => decide (y < x)
  | fin _, posInf => false
  | fin _, negInf => true
  | posInf, fin _ => true
  | posInf, posInf => false
  | posInf, negInf => true
  | negInf, fin _ => false
  | negInf, posInf => false
  | negInf, negInf => false
  | nan, _ => false
  | _, nan => false

/-- The comparison `a < b`. -/
def lt (a b : JSNum K) : Bool :=
  gt b a

/-- Truthiness of a number: NaN and zero are falsy. -/
def isTruthy : JSNum K → Bool
  | fin x => decide (x ≠ 0)
  | posInf => true
  | negInf => true
  | nan => false

/-- `Math.abs(a)`. -/
def abs : JSNum K → JSNum K
  | fin x => fin |x|
  | posInf => posInf
  | negInf => posInf
  | nan => nan

/-- `Math.floor(a)`. -/
def floor [FloorRing K] : JSNum K → JSNum K
  | fin x => fin ((⌊x⌋ : ℤ) : K)
  | posInf => posInf
  | negInf => negInf
  | nan => nan

end JSNum

/-- Insertion of `a` into a list arranged by `before`: `a` goes in front of the first
element it may precede. -/
def insertBy {α : Type} (before : α → α → Bool) (a : α) : List α → List α
  | [] => [a]
  | b :: l => if before a b then a :: b :: l else b :: insertBy before a l

/-- Stable sort: each element is inserted in front of the part of the array that followed
it. `before a b` says that the comparator does not put `a` after `b`. -/
def sortBy {α : Type} (before : α → α → Bool) : List α → List α
  | [] => []
  | a :: l => insertBy before a (sortBy before l)

namespace MLFilter

variable {K : Type} [LinearOrderedField K]

/-- The test `!this.model.weights[key]`: no weight, a zero weight or a NaN weight. -/
def weightMissing (weights : String → Option (JSNum K)) (key : String) : Bool :=
  match weights key with
  | some w => !(JSNum.isTruthy w)
  | none => true

/-- One turn of the loop that updates the weights, on the weights and the number of calls of
`Math.random()` made so far: the weight is drawn as `Math.random() * 0.1 - 0.05` when the
test above holds, then `learningRate * error * value` is added to it. -/
def updateWeight (B : Builtins K) (random : Nat → K) (learningRate : K) (error : JSNum K)
    (acc : (String → Option (JSNum K)) × Nat) (kv : String × JSValue K) :
    (String → Option (JSNum K)) × Nat :=
  let drawn := weightMissing acc.1 kv.1
  let w0 : JSNum K :=
    if drawn then JSNum.fin (random acc.2 * (1 / 10) - 1 / 20)
    else (acc.1 kv.1).getD (JSNum.fin 0)
  let w1 :=
    JSNum.add w0
      (JSNum.mul (JSNum.mul (JSNum.fin learningRate) error) (JSValue.toNumber B kv.2))
  (fun k => if k = kv.1 then some w1 else acc.1 k, if drawn then acc.2 + 1 else acc.2)

/-- The `error` of one sample: `label - probability`, the probability being computed from the
model as it stands. -/
def sampleError (B : Builtins K) (m : Model K) (sample : SignalInput K × JSNum K) : JSNum K :=
  JSNum.sub sample.2 (sigmoid B (score B m (extractFeatures B sample.1)))

/-- One turn of the loop of `train`, on the model and the number of calls of `Math.random()`
made so far. -/
def trainSample (B : Builtins K) (random : Nat → K) (learningRate : K)
    (acc : Model K × Nat) (sample : SignalInput K × JSNum K) : Model K × Nat :=
  let error := sampleError B acc.1 sample
  let updated :=
    (extractFeatures B sample.1).foldl (updateWeight B random learningRate error)
      (acc.1.weights, acc.2)
  ({ acc.1 with
     weights := updated.1
     bias := JSNum.add acc.1.bias (JSNum.mul (JSNum.fin learningRate) error) },
   updated.2)

/-- `train(signals, labels)`: the outcome (the exception thrown, if any) and the classifier
after the call. -/
def train (B : Builtins K) (random : Nat → K) (f : MLFilter K)
    (signals : List (SignalInput K)) (labels : List (JSNum K)) :
    Except String Unit × MLFilter K :=
  if signals.length ≠ labels.length then
    (Except.error "Signals and labels must have the same length", f)
  else
    let recorded : Model K :=
      { f.model with trainingData := f.model.trainingData ++ signals.zip labels }
    let trained :=
      (signals.zip labels).foldl (trainSample B random f.config.learningRate) (recorded, 0)
    (Except.ok (), { f with model := trained.1 })

/-- `signals.map(signal => this.predict(signal))`: the predictions in input order, and the
classifier after the calls. -/
def predictEach (B : Builtins K) (f : MLFilter K) (signals : List (SignalInput K))
    (now : Nat) : List (Prediction K) × MLFilter K :=
  signals.foldl
    (fun acc signal => (acc.1 ++ [(predict B acc.2 signal now).1], (predict B acc.2 signal now).2))
    ([], f)

/-- The comparator of `filterSignals`: `(a, b) => b.confidence - a.confidence`. -/
def compareConfidence (a b : Prediction K) : JSNum K :=
  JSNum.sub b.confidence a.confidence

/-- Whether the comparator does not put `a` after `b`: its value is not positive. -/
def notAfter (a b : Prediction K) : Bool :=
  !(JSNum.gt (compareConfidence a b) (JSNum.fin 0))

/-- `filterSignals(signals)`: the sorted list returned, and the classifier after the call. -/
def filterSignals (B : Builtins K) (f : MLFilter K) (signals : List (SignalInput K))
    (now : Nat) : List (Prediction K) × MLFilter K :=
  let predicted := predictEach B f signals now
  (sortBy notAfter (predicted.1.filter (fun pred => pred.shouldTrade)), predicted.2)

end MLFilter

/-! ## Backtesting engine

`src/src/modules/backtesting-engine.js` (class `BacktestEngine`). The capital, the prices
and the quantities of a run are `JSNum ℚ`: the price of a trade is `undefined` when neither
the data point nor the instruction gives one, and the position size divides by the price.
`undefined` is modelled as NaN wherever it stands for a number: the engine applies only
arithmetic, comparisons and `||` to such a value, and in each of them `undefined` behaves as
NaN does. The `positions` object is an association list in insertion order, which is the
order of `Object.entries` for keys that are not array indices. The strategy is an object
with a method `evaluate`; it is modelled by a transition function on its own state, and it
does not write to the `positions` object it is shown.

Both `dataPoint.prices` and `positions` are plain objects, and a symbol is any string. A
symbol the price table does not own is looked up in `Object.prototype` (`lookupIn`), so a
price may be an inherited member: a `Price` is a number or such a member. The assignment
`positions['__proto__'] = position` creates no entry: it installs `position` as the
prototype of `positions`. The association list records the installed prototype as the entry
with the key `__proto__`; that entry is no own entry (`ownEntries` leaves it out, `delete`
does not remove it), and the fields of the installed prototype are found by the lookup of
`quantity`, `entryPrice` and `entryTime` (`lookupPosition`). -/

/-- The `config` object handed to the constructor of the engine; an absent key is `none`. -/
structure BacktestConfigInput where
  initialCapital : Option ℚ := none
  commission : Option ℚ := none
  slippage : Option ℚ := none
deriving DecidableEq

/-- The resolved `this.config` of the engine. -/
structure BacktestConfig where
  initialCapital : ℚ
  commission : ℚ
  slippage : ℚ
deriving DecidableEq

/-- An element of `historicalData`: a time and a table of prices by symbol. -/
structure DataPoint where
  timestamp : ℚ
  prices : String → Option ℚ

/-- The object returned by `strategy.evaluate` (called `signal` in the source); `quantity`
and `price` are optional. -/
structure Instruction where
  action : String
  symbol : String
  quantity : Option ℚ := none
  price : Option ℚ := none
deriving DecidableEq

/-- The value of `dataPoint.prices[symbol] || signal.price`, which a trade record and a
position store: a number (`undefined` reading as NaN), or a member inherited from
`Object.prototype`. -/
inductive Price where
  | num (x : JSNum ℚ)
  | member
deriving DecidableEq

/-- A price as an operand of arithmetic: an inherited member is NaN. -/
def Price.toNum : Price → JSNum ℚ
  | Price.num x => x
  | Price.member => JSNum.nan

/-- A value of the `positions` object. -/
structure BacktestPosition where
  quantity : JSNum ℚ
  entryPrice : Price
  entryTime : ℚ
deriving DecidableEq

/-- The `positions` object: its entries in insertion order, one per key. -/
abbrev Positions := List (String × BacktestPosition)

/-- A successful record returned by `executeBacktestTrade` and pushed on `this.trades`.
`cost` is present on BUY records only; `revenue`, `profit`, `profitPercent` and `holdTime` on
SELL records only. `profitPercent` is the numeric value of the formatted string. -/
structure BacktestTrade where
  action : String
  symbol : String
  quantity : JSNum ℚ
  price : Price
  cost : Option (JSNum ℚ)
  revenue : Option (JSNum ℚ)
  profit : Option (JSNum ℚ)
  profitPercent : Option (JSNum ℚ)
  holdTime : Option (JSNum ℚ)
  timestamp : ℚ
deriving DecidableEq

/-- The record returned by `executeBacktestTrade`: `{success: false, error}` or a trade
record with `success: true`. -/
inductive BacktestResult where
  | failure (error : String)
  | ok (trade : BacktestTrade)
deriving DecidableEq

/-- An element of the equity curve. The first one carries `historicalData[0]?.timestamp`,
which is `undefined` for an empty series. -/
structure EquityPoint where
  timestamp : Option ℚ
  value : JSNum ℚ
deriving DecidableEq

/-- The record returned by `calculateMetrics`, with the `executionTime` that `runBacktest`
adds. The fields formatted with `toFixed(2)` hold the numeric value of the string. -/
structure Metrics where
  initialCapital : JSNum ℚ
  finalEquity : JSNum ℚ
  totalReturn : JSNum ℚ
  returnPercent : JSNum ℚ
  totalTrades : Nat
  completedTrades : Nat
  winningTrades : Nat
  losingTrades : Nat
  winRate : JSNum ℚ
  avgWin : JSNum ℚ
  avgLoss : JSNum ℚ
  profitFactor : JSNum ℚ
  maxDrawdown : JSNum ℚ
  equityCurve : List EquityPoint
  executionTime : Option ℤ
deriving DecidableEq

/-- The object state of a `BacktestEngine` instance. -/
structure BacktestEngine where
  config : BacktestConfig
  results : Option Metrics
  trades : List BacktestTrade
deriving DecidableEq

/-- The local variables of `runBacktest` during the loop, with the state of the strategy. -/
structure RunState (σ : Type) where
  strategy : σ
  capital : JSNum ℚ
  positions : Positions
  equity : List EquityPoint
  trades : List BacktestTrade

/-- `a || b` on numbers. -/
def JSNum.orElse {K : Type} [LinearOrderedField K] (a b : JSNum K) : JSNum K :=
  if a.isTruthy then a else b

/-- The number an optional number stands for: `undefined` reads as NaN. -/
def optNum : Option ℚ → JSNum ℚ
  | some x => JSNum.fin x
  | none => JSNum.nan

/-- Truthiness of a price: an inherited member is truthy. -/
def Price.isTruthy : Price → Bool
  | Price.num x => x.isTruthy
  | Price.member => true

/-- `table[key] || d` where `d` is a price: an own number other than 0 is itself,
`undefined` and 0 give `d`, and an inherited member, which is truthy, is the result. -/
def Lookup.orPrice (l : Lookup) (d : Price) : Price :=
  match l with
  | Lookup.absent => d
  | Lookup.number x => if x = 0 then d else Price.num (JSNum.fin x)
  | Lookup.member => Price.member

/-- The value of `positions[symbol]` as `executeBacktestTrade` and `runBacktest` use it:
`undefined` or a falsy value (`absent`), a position object (`found`), or a truthy value that
has none of the fields `quantity`, `entryPrice` and `entryTime` (`member`). -/
inductive PositionLookup where
  | absent
  | found (position : BacktestPosition)
  | member
deriving DecidableEq

/-- The own entries of the `positions` object, as `Object.entries` lists them. -/
def ownEntries (positions : Positions) : Positions :=
  positions.filter (fun kv => decide (kv.1 ≠ "__proto__"))

/-- The object installed as the prototype of `positions` by an assignment to
`positions['__proto__']`, if there was one. -/
def installedPrototype (positions : Positions) : Option BacktestPosition :=
  (positions.find? (fun kv => decide (kv.1 = "__proto__"))).map Prod.snd

/-- Truthiness of the field of a position object that `key` names, if it names one. -/
def fieldTruthy (position : BacktestPosition) (key : String) : Option Bool :=
  if key = "quantity" then some position.quantity.isTruthy
  else if key = "entryPrice" then some position.entryPrice.isTruthy
  else if key = "entryTime" then some (decide (position.entryTime ≠ 0))
  else none

/-- `positions[symbol]`. An own entry is found first; for `__proto__` the value is the
installed prototype. A key that is not own is looked up in the installed prototype, where it
may name a field, a number, and then in `Object.prototype`. -/
def lookupPosition (positions : Positions) (symbol : String) : PositionLookup :=
  match positions.find? (fun kv => decide (kv.1 = symbol)) with
  | some kv => PositionLookup.found kv.2
  | none =>
    match (installedPrototype positions).bind (fun position => fieldTruthy position symbol) with
    | some true => PositionLookup.member
    | some false => PositionLookup.absent
    | none => if inheritedKey symbol then PositionLookup.member else PositionLookup.absent

/-- The values of `position.quantity`, `position.entryPrice` and `position.entryTime` as
operands of arithmetic, when `position` is truthy: a field that is not there is `undefined`,
which reads as NaN. -/
def positionFields : PositionLookup → Option (JSNum ℚ × JSNum ℚ × JSNum ℚ)
  | PositionLookup.absent => none
  | PositionLookup.found position =>
    some (position.quantity, position.entryPrice.toNum, JSNum.fin position.entryTime)
  | PositionLookup.member => some (JSNum.nan, JSNum.nan, JSNum.nan)

/-- `positions[symbol] = p`: the value of an existing key is replaced where it stands, a new
key goes last. For `__proto__` the entry is the installed prototype, which the assignment
replaces. -/
def setPosition (symbol : String) (p : BacktestPosition) : Positions → Positions
  | [] => [(symbol, p)]
  | kv :: rest => if kv.1 = symbol then (symbol, p) :: rest else kv :: setPosition symbol p rest

/-- `delete positions[symbol]`: it removes an own entry, and `__proto__` is none. -/
def deletePosition (symbol : String) (positions : Positions) : Positions :=
  if symbol = "__proto__" then positions
  else positions.filter (fun kv => decide (kv.1 ≠ symbol))

namespace BacktestEngine

/-- `new BacktestEngine(config)`. -/
def create (config : BacktestConfigInput) : BacktestEngine :=
  let cfg : BacktestConfig :=
    { initialCapital := spreadOver config.initialCapital 10000
      commission := spreadOver config.commission (1 / 1000)
      slippage := spreadOver config.slippage (2 / 1000) }
  { config := cfg
    results := none
    trades := [] }

/-- `calculatePositionSize(capital, price)`. -/
def calculatePositionSize (capital price : JSNum ℚ) : JSNum ℚ :=
  let maxInvestment := JSNum.mul capital (JSNum.fin (1 / 10))
  JSNum.floor (JSNum.div maxInvestment price)

/-- `calculatePositionValue(positions, currentPrices)`. -/
def calculatePositionValue (positions : Positions) (currentPrices : String → Option ℚ) :
    JSNum ℚ :=
  (ownEntries positions).foldl
    (fun total kv =>
      let currentPrice := Lookup.orPrice (lookupIn currentPrices kv.1) kv.2.entryPrice
      JSNum.add total (JSNum.mul kv.2.quantity currentPrice.toNum))
    (JSNum.fin 0)

/-- The `price` of `executeBacktestTrade`: `dataPoint.prices[signal.symbol] || signal.price`. -/
def tradePrice (signal : Instruction) (dataPoint : DataPoint) : Price :=
  Lookup.orPrice (lookupIn dataPoint.prices signal.symbol) (Price.num (optNum signal.price))

/-- The `quantity` of `executeBacktestTrade`:
`signal.quantity || this.calculatePositionSize(capital, price)`. -/
def tradeQuantity (signal : Instruction) (dataPoint : DataPoint) (capital : JSNum ℚ) :
    JSNum ℚ :=
  JSNum.orElse (optNum signal.quantity)
    (calculatePositionSize capital (tradePrice signal dataPoint).toNum)

/-- The `totalCost` of the BUY branch of `executeBacktestTrade`. -/
def buyTotalCost (e : BacktestEngine) (signal : Instruction) (dataPoint : DataPoint)
    (capital : JSNum ℚ) : JSNum ℚ :=
  let cost :=
    JSNum.mul (tradeQuantity signal dataPoint capital) (tradePrice signal dataPoint).toNum
  JSNum.mul cost (JSNum.fin (1 + e.config.commission + e.config.slippage))

/-- `executeBacktestTrade(signal, dataPoint, capital, positions)`. -/
def executeBacktestTrade (e : BacktestEngine) (signal : Instruction) (dataPoint : DataPoint)
    (capital : JSNum ℚ) (positions : Positions) : BacktestResult :=
  let price := tradePrice signal dataPoint
  let quantity := tradeQuantity signal dataPoint capital
  if signal.action = "BUY" then
    let totalCost := buyTotalCost e signal dataPoint capital
    if JSNum.gt totalCost capital then
      BacktestResult.failure "Insufficient capital"
    else
      BacktestResult.ok
        { action := "BUY"
          symbol := signal.symbol
          quantity := quantity
          price := price
          cost := some totalCost
          revenue := none
          profit := none
          profitPercent := none
          holdTime := none
          timestamp := dataPoint.timestamp }
  else if signal.action = "SELL" then
    match positionFields (lookupPosition positions signal.symbol) with
    | none => BacktestResult.failure "No position to sell"
    | some (positionQuantity, entryPrice, entryTime) =>
      let sellQuantity := JSNum.orElse (optNum signal.quantity) positionQuantity
      let revenue := JSNum.mul sellQuantity price.toNum
      let netRevenue :=
        JSNum.mul revenue (JSNum.fin (1 - e.config.commission - e.config.slippage))
      let profit := JSNum.sub netRevenue (JSNum.mul entryPrice sellQuantity)
      let profitPercent :=
        JSNum.mul (JSNum.div profit (JSNum.mul entryPrice sellQuantity))
          (JSNum.fin 100)
      BacktestResult.ok
        { action := "SELL"
          symbol := signal.symbol
          quantity := sellQuantity
          price := price
          cost := none
          revenue := some netRevenue
          profit := some profit
          profitPercent := some (JSNum.toFixed2 profitPercent)
          holdTime := some (JSNum.sub (JSNum.fin dataPoint.timestamp) entryTime)
          timestamp := dataPoint.timestamp }
  else
    BacktestResult.failure "Invalid action"

/-- The body of `if (trade.success)` in `runBacktest`, the push on `this.trades` apart: the
capital and the positions after a successful trade. A field the record lacks reads as
`undefined`. -/
def applyTrade (signal : Instruction) (dataPoint : DataPoint) (trade : BacktestTrade)
    (capital : JSNum ℚ) (positions : Positions) : JSNum ℚ × Positions :=
  if signal.action = "BUY" then
    (JSNum.sub capital (trade.cost.getD JSNum.nan),
      setPosition signal.symbol ⟨trade.quantity, trade.price, dataPoint.timestamp⟩ positions)
  else if signal.action = "SELL" ∧
      lookupPosition positions signal.symbol ≠ PositionLookup.absent then
    (JSNum.add capital (trade.revenue.getD JSNum.nan), deletePosition signal.symbol positions)
  else
    (capital, positions)

/-- The body of `if (signal && signal.action)` in `runBacktest`, guard included: the
capital, the positions and the trade log after the value returned by the strategy has been
handled. An empty `action` is falsy. -/
def applySignal (e : BacktestEngine) (signal : Option Instruction) (dataPoint : DataPoint)
    (capital : JSNum ℚ) (positions : Positions) (trades : List BacktestTrade) :
    JSNum ℚ × Positions × List BacktestTrade :=
  match signal with
  | none => (capital, positions, trades)
  | some signal =>
    if signal.action = "" then
      (capital, positions, trades)
    else
      match e.executeBacktestTrade signal dataPoint capital positions with
      | BacktestResult.failure _ => (capital, positions, trades)
      | BacktestResult.ok trade =>
        let applied := applyTrade signal dataPoint trade capital positions
        (applied.1, applied.2, trades ++ [trade])

/-- One turn of the loop of `runBacktest`. -/
def tick {σ : Type} (e : BacktestEngine)
    (evaluate : σ → DataPoint → Positions → Option Instruction × σ)
    (st : RunState σ) (dataPoint : DataPoint) : RunState σ :=
  let evaluated := evaluate st.strategy dataPoint st.positions
  let after := e.applySignal evaluated.1 dataPoint st.capital st.positions st.trades
  let positionValue := calculatePositionValue after.2.1 dataPoint.prices
  { strategy := evaluated.2
    capital := after.1
    positions := after.2.1
    equity :=
      st.equity ++
        [{ timestamp := some dataPoint.timestamp, value := JSNum.add after.1 positionValue }]
    trades := after.2.2 }

/-- The local variables of `runBacktest` when the loop is entered. -/
def initialState {σ : Type} (e : BacktestEngine) (strategy : σ)
    (historicalData : List DataPoint) : RunState σ :=
  { strategy := strategy
    capital := JSNum.fin e.config.initialCapital
    positions := []
    equity :=
      [{ timestamp := historicalData.head?.map DataPoint.timestamp
         value := JSNum.fin e.config.initialCapital }]
    trades := [] }

/-- The local variables of `runBacktest` when the loop is left. -/
def runLoop {σ : Type} (e : BacktestEngine)
    (evaluate : σ → DataPoint → Positions → Option Instruction × σ) (strategy : σ)
    (historicalData : List DataPoint) : RunState σ :=
  historicalData.foldl (tick e evaluate) (initialState e strategy historicalData)

/-- One turn of the drawdown loop of `calculateMetrics` on the pair `(peak, maxDrawdown)`. -/
def drawdownStep (acc : JSNum ℚ × JSNum ℚ) (point : EquityPoint) : JSNum ℚ × JSNum ℚ :=
  let peak := if JSNum.gt point.value acc.1 then point.value else acc.1
  let drawdown := JSNum.mul (JSNum.div (JSNum.sub peak point.value) peak) (JSNum.fin 100)
  (peak, if JSNum.gt drawdown acc.2 then drawdown else acc.2)

/-- The drawdown loop of `calculateMetrics`: the value of `maxDrawdown` after it, `first`
being `equity[0]`. -/
def maxDrawdownLoop (first : EquityPoint) (equity : List EquityPoint) : JSNum ℚ :=
  (equity.foldl drawdownStep (first.value, JSNum.fin 0)).2

/-- `ts.reduce((sum, t) => sum + t.profit, 0)`. -/
def sumProfit (ts : List BacktestTrade) : JSNum ℚ :=
  ts.foldl (fun sum t => JSNum.add sum (t.profit.getD JSNum.nan)) (JSNum.fin 0)

/-- `calculateMetrics(equity, trades)`; `none` stands for the TypeError that reading
`equity[0].value` raises on an empty curve. -/
def calculateMetrics (equity : List EquityPoint) (trades : List BacktestTrade) :
    Option Metrics :=
  match equity.head?, equity.getLast? with
  | some first, some last =>
    let initialEquity := first.value
    let finalEquity := last.value
    let totalReturn := JSNum.sub finalEquity initialEquity
    let returnPercent := JSNum.mul (JSNum.div totalReturn initialEquity) (JSNum.fin 100)
    let completedTrades := trades.filter (fun t => decide (t.action = "SELL"))
    let winningTrades :=
      completedTrades.filter (fun t => JSNum.gt (t.profit.getD JSNum.nan) (JSNum.fin 0))
    let losingTrades :=
      completedTrades.filter (fun t => JSNum.lt (t.profit.getD JSNum.nan) (JSNum.fin 0))
    let winRate : JSNum ℚ :=
      if 0 < completedTrades.length then
        JSNum.fin ((winningTrades.length : ℚ) / (completedTrades.length : ℚ) * 100)
      else JSNum.fin 0
    let avgWin : JSNum ℚ :=
      if 0 < winningTrades.length then
        JSNum.div (sumProfit winningTrades) (JSNum.fin (winningTrades.length : ℚ))
      else JSNum.fin 0
    let avgLoss : JSNum ℚ :=
      if 0 < losingTrades.length then
        JSNum.div (sumProfit losingTrades) (JSNum.fin (losingTrades.length : ℚ))
      else JSNum.fin 0
    let profitFactor : JSNum ℚ :=
      if avgLoss ≠ JSNum.fin 0 then JSNum.abs (JSNum.div avgWin avgLoss) else JSNum.fin 0
    let maxDrawdown := maxDrawdownLoop first equity
    some
      { initialCapital := initialEquity
        finalEquity := JSNum.toFixed2 finalEquity
        totalReturn := JSNum.toFixed2 totalReturn
        returnPercent := JSNum.toFixed2 returnPercent
        totalTrades := trades.length
        completedTrades := completedTrades.length
        winningTrades := winningTrades.length
        losingTrades := losingTrades.length
        winRate := JSNum.toFixed2 winRate
        avgWin := JSNum.toFixed2 avgWin
        avgLoss := JSNum.toFixed2 avgLoss
        profitFactor := JSNum.toFixed2 profitFactor
        maxDrawdown := JSNum.toFixed2 maxDrawdown
        equityCurve := equity
        executionTime := none }
  | _, _ => none

/-- `runBacktest(strategy, historicalData)`: the record returned and the engine after the
call. `startTime` and `endTime` are the two readings of the clock. -/
def runBacktest {σ : Type} (e : BacktestEngine)
    (evaluate : σ → DataPoint → Positions → Option Instruction × σ) (strategy : σ)
    (historicalData : List DataPoint) (startTime endTime : Nat) :
    Option Metrics × BacktestEngine :=
  let st := runLoop e evaluate strategy historicalData
  match calculateMetrics st.equity st.trades with
  | none => (none, { e with trades := st.trades })
  | some metrics =>
    let results : Metrics :=
      { metrics with executionTime := some ((endTime : ℤ) - (startTime : ℤ)) }
    (some results, { e with results := some results, trades := st.trades })

/-- `getResults()`. -/
def getResults (e : BacktestEngine) : Option Metrics :=
  e.results

/-- `getTradeHistory()`. -/
def getTradeHistory (e : BacktestEngine) : List BacktestTrade :=
  e.trades

end BacktestEngine

/-! ## Contract-side definitions for the backtesting engine

The quantities the contracts of the engine are worded with, to be compared with what the
source computes. -/

/-- The sum of a list of numbers. -/
def sumNum (l : List (JSNum ℚ)) : JSNum ℚ :=
  l.foldr JSNum.add (JSNum.fin 0)

/-- The price a position is marked at when every listed price counts: the price the table
lists for the symbol, the entry price of the position when the table lists none. -/
def listedOrEntryPrice (prices : String → Option ℚ) (kv : String × BacktestPosition) :
    JSNum ℚ :=
  match prices kv.1 with
  | some p => JSNum.fin p
  | none => kv.2.entryPrice.toNum

/-- The price a position is marked at, as an operand of arithmetic, when a listed price of
0 counts as no price and a symbol the table does not list may name a member of
`Object.prototype`: the price the table lists for the symbol if it is not 0; the entry price
of the position if the table lists 0, or lists none and the symbol names no such member; and
NaN, the inherited member, if the table lists none and the symbol names one. -/
def markPrice (prices : String → Option ℚ) (kv : String × BacktestPosition) : JSNum ℚ :=
  match prices kv.1 with
  | some p => if p = 0 then kv.2.entryPrice.toNum else JSNum.fin p
  | none => if inheritedKey kv.1 then JSNum.nan else kv.2.entryPrice.toNum

/-- The largest value among the samples `0..t` of a curve. -/
def runningPeak (vs : List ℚ) (t : Nat) : ℚ :=
  (vs.take (t + 1)).foldl max (vs.headD 0)

/-- The drawdown at sample `t`, in percent: `(peak_t - value_t) / peak_t * 100`. -/
def drawdownAt (vs : List ℚ) (t : Nat) : ℚ :=
  (runningPeak vs t - vs.getD t 0) / runningPeak vs t * 100

/-- The largest drawdown among the samples `0..n-1` of a curve, 0 for no sample. -/
def maxDrawdownUpTo (vs : List ℚ) (n : Nat) : ℚ :=
  ((List.range n).map (drawdownAt vs)).foldl max 0

/-! ## The trade statistics of `calculateMetrics`

The values `calculateMetrics` computes before it formats them, each under the name of its
local variable. -/

namespace BacktestEngine

/-- The local `completedTrades` of `calculateMetrics`. -/
def completedTradesOf (trades : List BacktestTrade) : List BacktestTrade :=
  trades.filter (fun t => decide (t.action = "SELL"))

/-- The local `winningTrades` of `calculateMetrics`. -/
def winningTradesOf (trades : List BacktestTrade) : List BacktestTrade :=
  (completedTradesOf trades).filter
    (fun t => JSNum.gt (t.profit.getD JSNum.nan) (JSNum.fin 0))

/-- The local `losingTrades` of `calculateMetrics`. -/
def losingTradesOf (trades : List BacktestTrade) : List BacktestTrade :=
  (completedTradesOf trades).filter
    (fun t => JSNum.lt (t.profit.getD JSNum.nan) (JSNum.fin 0))

/-- The local `avgWin` of `calculateMetrics`. -/
def avgWinOf (trades : List BacktestTrade) : JSNum ℚ :=
  if 0 < (winningTradesOf trades).length then
    JSNum.div (sumProfit (winningTradesOf trades))
      (JSNum.fin ((winningTradesOf trades).length : ℚ))
  else JSNum.fin 0

/-- The local `avgLoss` of `calculateMetrics`. -/
def avgLossOf (trades : List BacktestTrade) : JSNum ℚ :=
  if 0 < (losingTradesOf trades).length then
    JSNum.div (sumProfit (losingTradesOf trades))
      (JSNum.fin ((losingTradesOf trades).length : ℚ))
  else JSNum.fin 0

/-- The local `profitFactor` of `calculateMetrics`. -/
def profitFactorOf (trades : List BacktestTrade) : JSNum ℚ :=
  if avgLossOf trades ≠ JSNum.fin 0 then
    JSNum.abs (JSNum.div (avgWinOf trades) (avgLossOf trades))
  else JSNum.fin 0

end BacktestEngine

/-! ## Contract-side definitions, continued -/

/-- The profit of a trade record as a rational, 0 when the record has no finite profit. -/
def profitValue (t : BacktestTrade) : ℚ :=
  match t.profit with
  | some (JSNum.fin x) => x
  | _ => 0

/-- The mean profit of a list of trade records, 0 for the empty list. -/
def meanProfit (ts : List BacktestTrade) : ℚ :=
  if ts = [] then 0 else (ts.map profitValue).sum / (ts.length : ℚ)

/-- The SELL records with a profit above 0. -/
def sellWinners (trades : List BacktestTrade) : List BacktestTrade :=
  trades.filter (fun t => decide (t.action = "SELL" ∧ 0 < profitValue t))

/-- The SELL records with a profit below 0. -/
def sellLosers (trades : List BacktestTrade) : List BacktestTrade :=
  trades.filter (fun t => decide (t.action = "SELL" ∧ profitValue t < 0))

/-- The execution price when every listed price counts: the price the data point lists for
the symbol of the instruction, the price field of the instruction when it lists none. -/
def listedOrOwnPrice (signal : Instruction) (dataPoint : DataPoint) : JSNum ℚ :=
  match dataPoint.prices signal.symbol with
  | some p => JSNum.fin p
  | none => optNum signal.price

/-- The total quantity of the records of one action and one symbol in a trade log. -/
def tradedQuantity (action symbol : String) (trades : List BacktestTrade) : JSNum ℚ :=
  sumNum ((trades.filter (fun t => decide (t.action = action ∧ t.symbol = symbol))).map
    (fun t => t.quantity))

/-- The quantity held in a symbol, 0 when the symbol has no position. -/
def heldQuantity (positions : Positions) (symbol : String) : JSNum ℚ :=
  match lookupPosition positions symbol with
  | PositionLookup.found position => position.quantity
  | _ => JSNum.fin 0

/-- The sum of `pnl` over the SELL records of the trade log of a ledger. -/
def realizedPnl (trades : List Trade) : ℚ :=
  ((trades.filter (fun t => decide (t.type = TradeType.SELL))).map
    (fun t => t.pnl.getD 0)).sum

/-- The sum of `commission + slippage` over the BUY records of the trade log of a ledger. -/
def buyCosts (trades : List Trade) : ℚ :=
  ((trades.filter (fun t => decide (t.type = TradeType.BUY))).map
    (fun t => t.commission + t.slippage)).sum

/-! ## Binary64 arithmetic

The numbers of the source are IEEE 754 doubles, and each arithmetic operation rounds its
exact result to the nearest double. The two expressions for the total cost of a BUY, that of
the ledger and that of the engine, are evaluated here with that rounding, so that they can be
compared where exact arithmetic makes them equal. -/

/-- The integer nearest to `x`, a tie going to the even one. -/
def roundHalfEven (x : ℚ) : ℤ :=
  if x - ⌊x⌋ < 1 / 2 then ⌊x⌋
  else if 1 / 2 < x - ⌊x⌋ then ⌊x⌋ + 1
  else if ⌊x⌋ % 2 = 0 then ⌊x⌋ else ⌊x⌋ + 1

/-- The double nearest to `x`, for `x` in the range of the normal doubles: `x` is rounded to
53 significant bits, a tie going to the even significand. -/
def roundDouble (x : ℚ) : ℚ :=
  if x = 0 then 0
  else (roundHalfEven (x / 2 ^ (Int.log 2 |x| - 52)) : ℚ) * 2 ^ (Int.log 2 |x| - 52)

/-- The `totalCost` of `buy` of the ledger in binary64: `cost + commission + slippage` with
`cost = quantity * price`, `commission = cost * commissionRate` and
`slippage = cost * this.config.slippage`. -/
def SimulatedTrading.totalCostDouble (quantity price commissionRate slippage : ℚ) : ℚ :=
  let cost := roundDouble (quantity * price)
  let commission := roundDouble (cost * commissionRate)
  let slippageCost := roundDouble (cost * slippage)
  roundDouble (roundDouble (cost + commission) + slippageCost)

/-- The `totalCost` of the BUY branch of `executeBacktestTrade` in binary64:
`cost * (1 + commission + slippage)` with `cost = quantity * price`. -/
def BacktestEngine.totalCostDouble (quantity price commission slippage : ℚ) : ℚ :=
  let cost := roundDouble (quantity * price)
  roundDouble (cost * roundDouble (roundDouble (1 + commission) + slippage))

/-! ## Auxiliary lemmas -/

theorem foldl_add_eq_sum (f : Position → ℚ) (l : List Position) (a : ℚ) :
    l.foldl (fun total pos => total + f pos) a = a + (l.map f).sum := by
  induction l generalizing a with
  | nil => simp
  | cons p ps ih => simp [List.foldl_cons, ih, add_assoc]

/-- The lookup of a key that is not inherited in the empty table finds nothing. -/
theorem lookupIn_noPrices (key : String) (h : inheritedKey key = false) :
    lookupIn noPrices key = Lookup.absent := by
  simp [lookupIn, noPrices, h]

/-- The lookup of an inherited key in the empty table finds the inherited member. -/
theorem lookupIn_noPrices_inherited (key : String) (h : inheritedKey key = true) :
    lookupIn noPrices key = Lookup.member := by
  simp [lookupIn, noPrices, h]

/-- The loop of `calculatePositionValue` on the empty table, over positions none of whose
symbols is inherited: it adds the cost value. -/
theorem foldl_value_noPrices (l : List Position)
    (h : ∀ p ∈ l, inheritedKey p.symbol = false) :
    ∀ a : ℚ,
      l.foldl
          (fun total pos =>
            JSNum.add total
              (JSNum.mul (JSNum.fin pos.quantity)
                (Lookup.orElse (lookupIn noPrices pos.symbol) (JSNum.fin pos.averagePrice))))
          (JSNum.fin a)
        = JSNum.fin (a + (l.map (fun p => p.quantity * p.averagePrice)).sum) := by
  induction l with
  | nil => intro a; simp
  | cons p ps ih =>
    intro a
    have hp := h p (List.mem_cons_self p ps)
    have hstep : JSNum.add (JSNum.fin a)
        (JSNum.mul (JSNum.fin p.quantity)
          (Lookup.orElse (lookupIn noPrices p.symbol) (JSNum.fin p.averagePrice)))
        = JSNum.fin (a + p.quantity * p.averagePrice) := by
      rw [lookupIn_noPrices p.symbol hp]
      rfl
    rw [List.foldl_cons, hstep, ih (fun x hx => h x (List.mem_cons_of_mem p hx))]
    simp [add_assoc]

/-- On a ledger none of whose held symbols is inherited, `calculatePositionValue()` is the
cost value. -/
theorem calculatePositionValue_noPrices (s : SimulatedTrading)
    (h : ∀ p ∈ s.positions, inheritedKey p.symbol = false) :
    s.calculatePositionValue noPrices = JSNum.fin (costValue s.positions) := by
  unfold SimulatedTrading.calculatePositionValue costValue
  have hf := foldl_value_noPrices s.positions h 0
  rw [zero_add] at hf
  exact hf

/-- On a ledger none of whose held symbols is inherited, the total equity `getAccount`
reports is the balance plus the cost value. -/
theorem totalEquity_eq (s : SimulatedTrading)
    (h : ∀ p ∈ s.positions, inheritedKey p.symbol = false) :
    s.getAccount.totalEquity = JSNum.fin (s.balance + costValue s.positions) := by
  simp only [SimulatedTrading.getAccount, calculatePositionValue_noPrices s h, JSNum.add]

theorem findPosition_modifyFirst (symbol : String) (f : Position → Position)
    (hf : ∀ p, (f p).symbol = p.symbol) (l : List Position) :
    findPosition (modifyFirst symbol f l) symbol = (findPosition l symbol).map f := by
  induction l with
  | nil => simp [modifyFirst, findPosition]
  | cons p ps ih =>
    unfold findPosition at ih ⊢
    by_cases h : p.symbol = symbol
    · simp [modifyFirst, h, hf]
    · simp [modifyFirst, h, ih]

theorem filter_ne_modifyFirst (symbol : String) (f : Position → Position)
    (hf : ∀ p, (f p).symbol = p.symbol) (l : List Position) :
    (modifyFirst symbol f l).filter (fun p => decide (p.symbol ≠ symbol))
      = l.filter (fun p => decide (p.symbol ≠ symbol)) := by
  induction l with
  | nil => simp [modifyFirst]
  | cons p ps ih =>
    by_cases h : p.symbol = symbol
    · simp [modifyFirst, h, hf]
    · simp only [modifyFirst, h, if_false, List.filter_cons, ih]

theorem mem_modifyFirst (symbol : String) (f : Position → Position) (l : List Position)
    (q : Position) (hq : q ∈ modifyFirst symbol f l) :
    q ∈ l ∨ ∃ p0, findPosition l symbol = some p0 ∧ q = f p0 := by
  induction l with
  | nil => simp [modifyFirst] at hq
  | cons p ps ih =>
    unfold findPosition at ih ⊢
    by_cases h : p.symbol = symbol
    · simp only [modifyFirst, h, if_true, List.mem_cons] at hq
      rcases hq with hq | hq
      · right
        exact ⟨p, by simp [h], hq⟩
      · left
        exact List.mem_cons_of_mem _ hq
    · simp only [modifyFirst, h, if_false, List.mem_cons] at hq
      rcases hq with hq | hq
      · left
        simp [hq]
      · rcases ih hq with h1 | ⟨p0, h1, h2⟩
        · left
          exact List.mem_cons_of_mem _ h1
        · right
          exact ⟨p0, by simp [h, h1], h2⟩

theorem findPosition_append_single (l : List Position) (x : Position) (symbol : String)
    (hl : findPosition l symbol = none) (hx : x.symbol = symbol) :
    findPosition (l ++ [x]) symbol = some x := by
  unfold findPosition at hl ⊢
  rw [List.find?_append, hl]
  simp [hx]

theorem findPosition_filter_ne (l : List Position) (symbol : String) :
    findPosition (l.filter (fun p => decide (p.symbol ≠ symbol))) symbol = none := by
  unfold findPosition
  simp [List.find?_eq_none]

theorem filter_ne_of_findPosition_none (l : List Position) (symbol : String)
    (hl : findPosition l symbol = none) :
    l.filter (fun p => decide (p.symbol ≠ symbol)) = l := by
  unfold findPosition at hl
  rw [List.find?_eq_none] at hl
  rw [List.filter_eq_self]
  intro p hp
  simpa using hl p hp

/-- The ledger after a rejected `buy` is the ledger before it. -/
theorem buy_of_gt (s : SimulatedTrading) (symbol : String) (quantity price : ℚ) (now : Nat)
    (h : quantity * price + quantity * price * s.config.commissionRate
      + quantity * price * s.config.slippage > s.balance) :
    s.buy symbol quantity price now = (Result.failure "Insufficient balance", s) := by
  simp only [SimulatedTrading.buy]
  rw [if_pos h]

/-- The fields of the ledger after an accepted `buy`. -/
theorem buy_of_not_gt (s : SimulatedTrading) (symbol : String) (quantity price : ℚ) (now : Nat)
    (h : ¬ quantity * price + quantity * price * s.config.commissionRate
      + quantity * price * s.config.slippage > s.balance) :
    (s.buy symbol quantity price now).1.success = true ∧
    (s.buy symbol quantity price now).2.config = s.config ∧
    (s.buy symbol quantity price now).2.balance
      = s.balance - (quantity * price + quantity * price * s.config.commissionRate
          + quantity * price * s.config.slippage) := by
  simp only [SimulatedTrading.buy]
  rw [if_neg h]
  simp [Result.success, SimulatedTrading.recordEquity]

/-- The position list after an accepted `buy`. -/
theorem buy_positions_of_not_gt (s : SimulatedTrading) (symbol : String) (quantity price : ℚ)
    (now : Nat)
    (h : ¬ quantity * price + quantity * price * s.config.commissionRate
      + quantity * price * s.config.slippage > s.balance) :
    (s.buy symbol quantity price now).2.positions =
      match findPosition s.positions symbol with
      | some _ =>
        modifyFirst symbol
          (fun existingPos =>
            { existingPos with
              averagePrice :=
                (existingPos.averagePrice * existingPos.quantity + price * quantity)
                  / (existingPos.quantity + quantity)
              quantity := existingPos.quantity + quantity })
          s.positions
      | none =>
        s.positions ++
          [{ symbol := symbol, quantity := quantity, averagePrice := price, entryTime := now }] := by
  simp only [SimulatedTrading.buy]
  rw [if_neg h]
  simp [SimulatedTrading.recordEquity]

/-- A `sell` of a symbol without a position is rejected and changes nothing. -/
theorem sell_of_none (s : SimulatedTrading) (symbol : String) (quantity price : ℚ) (now : Nat)
    (h : findPosition s.positions symbol = none) :
    s.sell symbol quantity price now = (Result.failure "Insufficient position", s) := by
  simp only [SimulatedTrading.sell, h]

/-- A `sell` of more than the held quantity is rejected and changes nothing. -/
theorem sell_of_lt (s : SimulatedTrading) (symbol : String) (quantity price : ℚ) (now : Nat)
    (position : Position) (h : findPosition s.positions symbol = some position)
    (hlt : position.quantity < quantity) :
    s.sell symbol quantity price now = (Result.failure "Insufficient position", s) := by
  simp only [SimulatedTrading.sell, h]
  rw [if_pos hlt]

/-- The fields of the ledger after an accepted `sell`. -/
theorem sell_of_not_lt (s : SimulatedTrading) (symbol : String) (quantity price : ℚ) (now : Nat)
    (position : Position) (h : findPosition s.positions symbol = some position)
    (hle : ¬ position.quantity < quantity) :
    (s.sell symbol quantity price now).1.success = true ∧
    (s.sell symbol quantity price now).2.config = s.config ∧
    (s.sell symbol quantity price now).2.balance
      = s.balance + (quantity * price - quantity * price * s.config.commissionRate
          - quantity * price * s.config.slippage) ∧
    (s.sell symbol quantity price now).2.positions =
      (if position.quantity = quantity then
        s.positions.filter (fun p => decide (p.symbol ≠ symbol))
      else
        modifyFirst symbol (fun p => { p with quantity := p.quantity - quantity })
          s.positions) := by
  simp only [SimulatedTrading.sell, h]
  rw [if_neg hle]
  simp [Result.success, SimulatedTrading.recordEquity]

/-- A property kept by every admissible call holds after every sequence of them. -/
theorem applyCalls_preserves (P : SimulatedTrading → Prop) (good : Call → Prop)
    (hstep : ∀ s c, P s → good c → P (applyCall s c)) :
    ∀ (calls : List Call) (s : SimulatedTrading),
      P s → (∀ c ∈ calls, good c) → P (applyCalls s calls) := by
  intro calls
  induction calls with
  | nil => intro s hs _; simpa [applyCalls] using hs
  | cons c cs ih =>
    intro s hs hall
    have hc : good c := hall c (List.mem_cons_self _ _)
    have hcs : ∀ d ∈ cs, good d := fun d hd => hall d (List.mem_cons_of_mem _ hd)
    have := ih (applyCall s c) (hstep s c hs hc) hcs
    simpa [applyCalls] using this

/-- One call with positive quantity and price keeps a non-negative balance non-negative
when the two rates are the default ones. -/
theorem applyCall_balance_nonneg (s : SimulatedTrading) (c : Call)
    (hs : 0 ≤ s.balance ∧ s.config.commissionRate = 1 / 1000 ∧ s.config.slippage = 2 / 1000)
    (hc : 0 < c.quantity ∧ 0 < c.price) :
    0 ≤ (applyCall s c).balance ∧ (applyCall s c).config.commissionRate = 1 / 1000
      ∧ (applyCall s c).config.slippage = 2 / 1000 := by
  obtain ⟨hb, hcr, hsl⟩ := hs
  cases c with
  | buy symbol q p now =>
    simp only [applyCall]
    by_cases h : q * p + q * p * s.config.commissionRate + q * p * s.config.slippage > s.balance
    · rw [buy_of_gt s symbol q p now h]
      exact ⟨hb, hcr, hsl⟩
    · obtain ⟨_, h2, h3⟩ := buy_of_not_gt s symbol q p now h
      rw [h2, h3]
      refine ⟨?_, hcr, hsl⟩
      linarith [not_lt.mp h]
  | sell symbol q p now =>
    simp only [applyCall]
    simp only [Call.quantity, Call.price] at hc
    cases hf : findPosition s.positions symbol with
    | none =>
      rw [sell_of_none s symbol q p now hf]
      exact ⟨hb, hcr, hsl⟩
    | some position =>
      by_cases hlt : position.quantity < q
      · rw [sell_of_lt s symbol q p now position hf hlt]
        exact ⟨hb, hcr, hsl⟩
      · obtain ⟨_, h2, h3, _⟩ := sell_of_not_lt s symbol q p now position hf hlt
        rw [h2, h3]
        refine ⟨?_, hcr, hsl⟩
        have hqp : 0 < q * p := mul_pos hc.1 hc.2
        rw [hcr, hsl]
        linarith

/-- One call with positive quantity keeps every held quantity positive. -/
theorem applyCall_quantity_pos (s : SimulatedTrading) (c : Call)
    (hs : ∀ x ∈ s.positions, 0 < x.quantity) (hc : 0 < c.quantity ∧ 0 < c.price) :
    ∀ x ∈ (applyCall s c).positions, 0 < x.quantity := by
  cases c with
  | buy symbol q p now =>
    simp only [applyCall]
    simp only [Call.quantity, Call.price] at hc
    by_cases h : q * p + q * p * s.config.commissionRate + q * p * s.config.slippage > s.balance
    · rw [buy_of_gt s symbol q p now h]
      exact hs
    · rw [buy_positions_of_not_gt s symbol q p now h]
      cases hf : findPosition s.positions symbol with
      | none =>
        intro x hx
        simp only [List.mem_append, List.mem_singleton] at hx
        rcases hx with hx | hx
        · exact hs x hx
        · rw [hx]
          exact hc.1
      | some position =>
        intro x hx
        rcases mem_modifyFirst _ _ _ _ hx with hx | ⟨p0, hp0, hx⟩
        · exact hs x hx
        · have hmem : p0 ∈ s.positions := List.mem_of_find?_eq_some hp0
          have := hs p0 hmem
          rw [hx]
          show 0 < p0.quantity + q
          linarith [hc.1]
  | sell symbol q p now =>
    simp only [applyCall]
    simp only [Call.quantity, Call.price] at hc
    cases hf : findPosition s.positions symbol with
    | none =>
      rw [sell_of_none s symbol q p now hf]
      exact hs
    | some position =>
      by_cases hlt : position.quantity < q
      · rw [sell_of_lt s symbol q p now position hf hlt]
        exact hs
      · obtain ⟨_, _, _, h4⟩ := sell_of_not_lt s symbol q p now position hf hlt
        rw [h4]
        by_cases heq : position.quantity = q
        · rw [if_pos heq]
          intro x hx
          exact hs x (List.mem_of_mem_filter hx)
        · rw [if_neg heq]
          intro x hx
          rcases mem_modifyFirst _ _ _ _ hx with hx | ⟨p0, hp0, hx⟩
          · exact hs x hx
          · rw [hf] at hp0
            cases hp0
            rw [hx]
            show 0 < position.quantity - q
            have h1 : q ≤ position.quantity := not_lt.mp hlt
            have h2 : q ≠ position.quantity := fun e => heq e.symm
            have := lt_of_le_of_ne h1 h2
            linarith

/-- An accepted `buy` is one whose total cost does not exceed the balance. -/
theorem not_gt_of_buy_success (s : SimulatedTrading) (symbol : String) (quantity price : ℚ)
    (now : Nat) (hok : (s.buy symbol quantity price now).1.success = true) :
    ¬ quantity * price + quantity * price * s.config.commissionRate
      + quantity * price * s.config.slippage > s.balance := by
  intro h
  rw [buy_of_gt s symbol quantity price now h] at hok
  simp [Result.success] at hok

/-- What `recordEquity` appends, and what it leaves alone. -/
theorem recordEquity_fields (s : SimulatedTrading) (now : Nat) :
    (s.recordEquity now).equity
      = s.equity ++ [{ timestamp := now, equity := s.getAccount.totalEquity }] ∧
    (s.recordEquity now).balance = s.balance ∧
    (s.recordEquity now).positions = s.positions ∧
    (s.recordEquity now).trades = s.trades ∧
    (s.recordEquity now).config = s.config := by
  simp [SimulatedTrading.recordEquity]

/-- The record returned by an accepted `buy`. -/
theorem buy_result_of_not_gt (s : SimulatedTrading) (symbol : String) (quantity price : ℚ)
    (now : Nat)
    (h : ¬ quantity * price + quantity * price * s.config.commissionRate
      + quantity * price * s.config.slippage > s.balance) :
    (s.buy symbol quantity price now).1 =
      Result.ok
        { id := now
          type := TradeType.BUY
          symbol := symbol
          quantity := quantity
          price := price
          commission := quantity * price * s.config.commissionRate
          slippage := quantity * price * s.config.slippage
          totalCost := some (quantity * price + quantity * price * s.config.commissionRate
            + quantity * price * s.config.slippage)
          netRevenue := none
          pnl := none
          pnlPercent := none
          timestamp := now } := by
  simp only [SimulatedTrading.buy]
  rw [if_neg h]

/-- The record returned by an accepted `sell`. -/
theorem sell_result_of_not_lt (s : SimulatedTrading) (symbol : String) (quantity price : ℚ)
    (now : Nat) (position : Position) (h : findPosition s.positions symbol = some position)
    (hle : ¬ position.quantity < quantity) :
    (s.sell symbol quantity price now).1 =
      Result.ok
        { id := now
          type := TradeType.SELL
          symbol := symbol
          quantity := quantity
          price := price
          commission := quantity * price * s.config.commissionRate
          slippage := quantity * price * s.config.slippage
          totalCost := none
          netRevenue := some (quantity * price - quantity * price * s.config.commissionRate
            - quantity * price * s.config.slippage)
          pnl := some ((price - position.averagePrice) * quantity
            - quantity * price * s.config.commissionRate
            - quantity * price * s.config.slippage)
          pnlPercent :=
            if position.averagePrice * quantity = 0 then none
            else some (toFixed2 (((price - position.averagePrice) * quantity
              - quantity * price * s.config.commissionRate
              - quantity * price * s.config.slippage) / (position.averagePrice * quantity)
              * 100))
          timestamp := now } := by
  simp only [SimulatedTrading.sell, h]
  rw [if_neg hle]

/-! ## The ledger's contract -/

/-- C1: `buy` is rejected exactly when `totalCost = quantity*price +
quantity*price*commissionRate + quantity*price*slippage` exceeds the balance; the rejection
carries the error `Insufficient balance` and leaves the balance, the positions, the trade
log and the equity log as they were. It holds for every quantity and price, in particular
for positive ones. -/
theorem buy_rejected_iff_cost_exceeds_balance (s : SimulatedTrading) (symbol : String)
    (quantity price : ℚ) (now : Nat) :
    ((s.buy symbol quantity price now).1.success = false ↔
      quantity * price + quantity * price * s.config.commissionRate
        + quantity * price * s.config.slippage > s.balance) ∧
    ((s.buy symbol quantity price now).1.success = false →
      (s.buy symbol quantity price now).1.error = some "Insufficient balance" ∧
      (s.buy symbol quantity price now).2.balance = s.balance ∧
      (s.buy symbol quantity price now).2.positions = s.positions ∧
      (s.buy symbol quantity price now).2.trades = s.trades ∧
      (s.buy symbol quantity price now).2.equity = s.equity) := by
  by_cases h : quantity * price + quantity * price * s.config.commissionRate
      + quantity * price * s.config.slippage > s.balance
  · rw [buy_of_gt s symbol quantity price now h]
    simp [Result.success, Result.error, h]
  · have hok := (buy_of_not_gt s symbol quantity price now h).1
    constructor
    · constructor
      · intro hf
        rw [hok] at hf
        cases hf
      · intro hgt
        exact absurd hgt h
    · intro hf
      rw [hok] at hf
      cases hf

/-- C2: on a ledger constructed with a non-negative initial balance and the default rates
(commission 0.001, slippage 0.002), the balance is non-negative after every prefix of every
sequence of `buy` and `sell` calls with positive quantity and price. -/
theorem balance_never_negative (config : ConfigInput) (calls : List Call)
    (hb : 0 ≤ (SimulatedTrading.create config).config.initialBalance)
    (hcr : (SimulatedTrading.create config).config.commissionRate = 1 / 1000)
    (hsl : (SimulatedTrading.create config).config.slippage = 2 / 1000)
    (hcalls : ∀ c ∈ calls, 0 < c.quantity ∧ 0 < c.price) (k : Nat) :
    0 ≤ (applyCalls (SimulatedTrading.create config) (calls.take k)).balance := by
  have hinit : 0 ≤ (SimulatedTrading.create config).balance
      ∧ (SimulatedTrading.create config).config.commissionRate = 1 / 1000
      ∧ (SimulatedTrading.create config).config.slippage = 2 / 1000 := ⟨hb, hcr, hsl⟩
  have hpre : ∀ c ∈ calls.take k, 0 < c.quantity ∧ 0 < c.price :=
    fun c hc => hcalls c (List.mem_of_mem_take hc)
  exact (applyCalls_preserves
    (fun s => 0 ≤ s.balance ∧ s.config.commissionRate = 1 / 1000
      ∧ s.config.slippage = 2 / 1000)
    (fun c => 0 < c.quantity ∧ 0 < c.price)
    applyCall_balance_nonneg (calls.take k) _ hinit hpre).1

/-- Witness of C2: a ledger opened with 500, a buy and a partial sell. -/
theorem balance_never_negative_witness :
    (∀ c ∈ [Call.buy "MEME" 100 1 0, Call.sell "MEME" 40 2 1], 0 < c.quantity ∧ 0 < c.price) ∧
    0 ≤ (applyCalls (SimulatedTrading.create { initialBalance := some 500 })
      ([Call.buy "MEME" 100 1 0, Call.sell "MEME" 40 2 1].take 2)).balance :=
  ⟨by simp [Call.quantity, Call.price],
   balance_never_negative { initialBalance := some 500 }
    [Call.buy "MEME" 100 1 0, Call.sell "MEME" 40 2 1]
    (by simp [SimulatedTrading.create, spreadOver])
    (by simp [SimulatedTrading.create, spreadOver, orElse])
    (by simp [SimulatedTrading.create, spreadOver, orElse])
    (by simp [Call.quantity, Call.price]) 2⟩

/-- C3: after every prefix of every sequence of `buy` and `sell` calls with positive
quantity and price on a constructed ledger, every position in the positions array has a
strictly positive quantity; and on any ledger a `sell` of exactly the quantity held in a
symbol succeeds and leaves no position of that symbol in the array. -/
theorem position_quantity_positive (config : ConfigInput) (calls : List Call)
    (hcalls : ∀ c ∈ calls, 0 < c.quantity ∧ 0 < c.price) :
    (∀ k, ∀ x ∈ (applyCalls (SimulatedTrading.create config) (calls.take k)).positions,
      0 < x.quantity) ∧
    (∀ (s : SimulatedTrading) (symbol : String) (price : ℚ) (now : Nat) (held : Position),
      findPosition s.positions symbol = some held →
      (s.sell symbol held.quantity price now).1.success = true ∧
      findPosition (s.sell symbol held.quantity price now).2.positions symbol = none ∧
      ∀ x ∈ (s.sell symbol held.quantity price now).2.positions, x.symbol ≠ symbol) := by
  constructor
  · intro k
    have hinit : ∀ x ∈ (SimulatedTrading.create config).positions, 0 < x.quantity := by
      simp [SimulatedTrading.create]
    have hpre : ∀ c ∈ calls.take k, 0 < c.quantity ∧ 0 < c.price :=
      fun c hc => hcalls c (List.mem_of_mem_take hc)
    exact applyCalls_preserves (fun s => ∀ x ∈ s.positions, 0 < x.quantity)
      (fun c => 0 < c.quantity ∧ 0 < c.price) applyCall_quantity_pos (calls.take k) _ hinit hpre
  · intro s symbol price now held hf
    obtain ⟨h1, _, _, h4⟩ :=
      sell_of_not_lt s symbol held.quantity price now held hf (lt_irrefl _)
    rw [h4, if_pos rfl]
    refine ⟨h1, findPosition_filter_ne _ _, ?_⟩
    intro x hx
    simpa using (List.mem_filter.mp hx).2

/-- Witness of C3: a buy, a second buy of the same symbol and a sale of everything. -/
theorem position_quantity_positive_witness :
    (∀ c ∈ [Call.buy "MEME" 100 1 0, Call.buy "MEME" 50 2 1, Call.sell "MEME" 150 3 2],
      0 < c.quantity ∧ 0 < c.price) ∧
    (∀ x ∈ (applyCalls (SimulatedTrading.create {})
        ([Call.buy "MEME" 100 1 0, Call.buy "MEME" 50 2 1, Call.sell "MEME" 150 3 2].take 2)).positions,
      0 < x.quantity) :=
  ⟨by simp [Call.quantity, Call.price],
   (position_quantity_positive {}
    [Call.buy "MEME" 100 1 0, Call.buy "MEME" 50 2 1, Call.sell "MEME" 150 3 2]
    (by simp [Call.quantity, Call.price])).1 2⟩

/-- C4, as stated, fails: with a commission rate of `-2` the total cost of a buy is negative,
the buy is accepted and the balance grows from 10 to 10.998. -/
theorem buy_balance_smaller_counterexample :
    ((SimulatedTrading.create { initialBalance := some 10, commissionRate := some (-2) }).buy
        "MEME" 1 1 0).1.success = true ∧
    (SimulatedTrading.create { initialBalance := some 10, commissionRate := some (-2) }).balance
      < ((SimulatedTrading.create { initialBalance := some 10, commissionRate := some (-2) }).buy
        "MEME" 1 1 0).2.balance := by
  constructor
  · simp [SimulatedTrading.create, SimulatedTrading.buy, spreadOver, orElse, Result.success]
    norm_num
  · simp [SimulatedTrading.create, SimulatedTrading.buy, spreadOver, orElse,
      SimulatedTrading.recordEquity]
    norm_num

/-- C4, amended: an accepted `buy` with positive quantity and price debits exactly
`quantity*price*(1 + commissionRate + slippage)`; the balance is strictly smaller afterwards
whenever `1 + commissionRate + slippage > 0`; and on a ledger opened with 10000 at rates
0.001 and 0.002, `buy('MEME', 100, 1.0)` is accepted, costs 100.3 and leaves 9899.70. -/
theorem buy_debits_total_cost (s : SimulatedTrading) (symbol : String) (quantity price : ℚ)
    (now : Nat) (hq : 0 < quantity) (hp : 0 < price)
    (hok : (s.buy symbol quantity price now).1.success = true) :
    (s.buy symbol quantity price now).2.balance
      = s.balance - quantity * price * (1 + s.config.commissionRate + s.config.slippage) ∧
    (0 < 1 + s.config.commissionRate + s.config.slippage →
      (s.buy symbol quantity price now).2.balance < s.balance) ∧
    (((SimulatedTrading.create ⟨some 10000, some (1 / 1000), some (2 / 1000)⟩).buy "MEME" 100 1 now).1.trade.bind Trade.totalCost
      = some (1003 / 10)) ∧
    ((SimulatedTrading.create ⟨some 10000, some (1 / 1000), some (2 / 1000)⟩).buy "MEME" 100 1 now).2.balance = 98997 / 10 := by
  have hng := not_gt_of_buy_success s symbol quantity price now hok
  obtain ⟨_, _, hbal⟩ := buy_of_not_gt s symbol quantity price now hng
  refine ⟨?_, ?_, ?_, ?_⟩
  · rw [hbal]
    ring
  · intro hr
    rw [hbal]
    have hqp : 0 < quantity * price := mul_pos hq hp
    have := mul_pos hqp hr
    linarith
  · simp [SimulatedTrading.create, SimulatedTrading.buy, spreadOver, Result.trade]
    norm_num
  · simp [SimulatedTrading.create, SimulatedTrading.buy, spreadOver,
      SimulatedTrading.recordEquity]
    norm_num

/-- Witness of C4 (amended): the scenario of the test suite, ten units at price 1. -/
theorem buy_debits_total_cost_witness :
    ((SimulatedTrading.create { initialBalance := some 10000 }).buy "MEME" 10 1 0).2.balance
      = (SimulatedTrading.create { initialBalance := some 10000 }).balance
        - 10 * 1 * (1 + (SimulatedTrading.create { initialBalance := some 10000 }).config.commissionRate
          + (SimulatedTrading.create { initialBalance := some 10000 }).config.slippage) :=
  (buy_debits_total_cost (SimulatedTrading.create { initialBalance := some 10000 }) "MEME" 10 1 0
    (by norm_num) (by norm_num)
    (by
      simp [SimulatedTrading.create, SimulatedTrading.buy, spreadOver, orElse, Result.success]
      norm_num)).1

/-- C5: an accepted `buy` of a symbol that has a position merges into it, the quantity
becoming `oldQty + q` and the average price `(oldAvg*oldQty + p*q) / (oldQty + q)`; of a
symbol that has none it creates the position `(q, p)`; and the positions of the other symbols
are the same records in the same order. -/
theorem buy_updates_position (s : SimulatedTrading) (symbol : String) (quantity price : ℚ)
    (now : Nat) (hok : (s.buy symbol quantity price now).1.success = true) :
    (∀ old, findPosition s.positions symbol = some old →
      findPosition (s.buy symbol quantity price now).2.positions symbol
        = some { old with
            quantity := old.quantity + quantity
            averagePrice :=
              (old.averagePrice * old.quantity + price * quantity) / (old.quantity + quantity) }) ∧
    (findPosition s.positions symbol = none →
      findPosition (s.buy symbol quantity price now).2.positions symbol
        = some { symbol := symbol, quantity := quantity, averagePrice := price,
                 entryTime := now }) ∧
    (s.buy symbol quantity price now).2.positions.filter (fun p => decide (p.symbol ≠ symbol))
      = s.positions.filter (fun p => decide (p.symbol ≠ symbol)) := by
  have hng := not_gt_of_buy_success s symbol quantity price now hok
  rw [buy_positions_of_not_gt s symbol quantity price now hng]
  refine ⟨?_, ?_, ?_⟩
  · intro old hold
    rw [hold]
    simp only
    rw [findPosition_modifyFirst, hold]
    · rfl
    · intro x
      rfl
  · intro hnone
    rw [hnone]
    exact findPosition_append_single _ _ _ hnone rfl
  · cases hf : findPosition s.positions symbol with
    | none => simp
    | some old =>
      simp only
      exact filter_ne_modifyFirst _ _ (by intro x; rfl) _

/-- Witness of C5: a second buy of a symbol already held; 100 at 1 and 50 at 2 merge into
150 at 4/3. -/
theorem buy_updates_position_witness :
    (((SimulatedTrading.create {}).buy "MEME" 100 1 0).2.buy "MEME" 50 2 1).1.success = true ∧
    findPosition
      (((SimulatedTrading.create {}).buy "MEME" 100 1 0).2.buy "MEME" 50 2 1).2.positions "MEME"
      = some { symbol := "MEME", quantity := 100 + 50,
               averagePrice := (1 * 100 + 2 * 50) / (100 + 50), entryTime := 0 } :=
  ⟨by
    simp [SimulatedTrading.create, SimulatedTrading.buy, spreadOver, orElse, Result.success,
      SimulatedTrading.recordEquity]
    norm_num,
   (buy_updates_position ((SimulatedTrading.create {}).buy "MEME" 100 1 0).2 "MEME" 50 2 1
    (by
      simp [SimulatedTrading.create, SimulatedTrading.buy, spreadOver, orElse, Result.success,
        SimulatedTrading.recordEquity]
      norm_num)).1
    { symbol := "MEME", quantity := 100, averagePrice := 1, entryTime := 0 }
    (by
      simp [SimulatedTrading.create, SimulatedTrading.buy, spreadOver, orElse,
        SimulatedTrading.recordEquity, findPosition]
      norm_num)⟩

/-- C6: a `sell` of at most the held quantity succeeds; its trade record has
`commission = quantity*price*commissionRate`, `slippage = quantity*price*slippage`,
`netRevenue = quantity*price - commission - slippage` and
`pnl = (price - averagePrice)*quantity - commission - slippage`; the balance grows by exactly
`netRevenue`; the held quantity drops by `quantity`, and the position is removed when nothing
is left. It holds for every price and every quantity up to the held one, in particular for
positive ones. -/
theorem sell_accepted (s : SimulatedTrading) (symbol : String) (quantity price : ℚ) (now : Nat)
    (held : Position) (hf : findPosition s.positions symbol = some held)
    (hle : quantity ≤ held.quantity) :
    ∃ trade : Trade,
      (s.sell symbol quantity price now).1 = Result.ok trade ∧
      trade.type = TradeType.SELL ∧
      trade.commission = quantity * price * s.config.commissionRate ∧
      trade.slippage = quantity * price * s.config.slippage ∧
      trade.netRevenue = some (quantity * price - trade.commission - trade.slippage) ∧
      trade.pnl
        = some ((price - held.averagePrice) * quantity - trade.commission - trade.slippage) ∧
      (s.sell symbol quantity price now).2.balance
        = s.balance + (quantity * price - trade.commission - trade.slippage) ∧
      (s.sell symbol quantity price now).2.trades = s.trades ++ [trade] ∧
      (held.quantity - quantity = 0 →
        findPosition (s.sell symbol quantity price now).2.positions symbol = none) ∧
      (held.quantity - quantity ≠ 0 →
        findPosition (s.sell symbol quantity price now).2.positions symbol
          = some { held with quantity := held.quantity - quantity }) := by
  have hnlt : ¬ held.quantity < quantity := not_lt.mpr hle
  obtain ⟨_, _, _, hpos⟩ := sell_of_not_lt s symbol quantity price now held hf hnlt
  rw [hpos]
  simp only [SimulatedTrading.sell, hf]
  rw [if_neg hnlt]
  refine ⟨_, rfl, rfl, rfl, rfl, rfl, rfl, ?_, ?_, ?_, ?_⟩
  · simp [SimulatedTrading.recordEquity]
  · simp [SimulatedTrading.recordEquity]
  · intro h0
    have heq : held.quantity = quantity := by linarith
    rw [if_pos heq]
    exact findPosition_filter_ne _ _
  · intro h0
    have hne : held.quantity ≠ quantity := fun e => h0 (by rw [e]; ring)
    rw [if_neg hne, findPosition_modifyFirst, hf]
    · rfl
    · intro x
      rfl

/-- Witness of C6: 100 units bought at 1, 40 of them sold at 2. -/
theorem sell_accepted_witness :
    ∃ trade : Trade,
      (((SimulatedTrading.create {}).buy "MEME" 100 1 0).2.sell "MEME" 40 2 1).1
        = Result.ok trade ∧
      trade.type = TradeType.SELL := by
  obtain ⟨trade, h1, h2, _⟩ :=
    sell_accepted ((SimulatedTrading.create {}).buy "MEME" 100 1 0).2 "MEME" 40 2 1
      { symbol := "MEME", quantity := 100, averagePrice := 1, entryTime := 0 }
      (by
        simp [SimulatedTrading.create, SimulatedTrading.buy, spreadOver, orElse,
          SimulatedTrading.recordEquity, findPosition]
        norm_num)
      (by norm_num)
  exact ⟨trade, h1, h2⟩

/-- C7: a `sell` of more than the quantity held in the symbol is rejected and leaves the
balance, the positions (hence the held position, quantity and average price), the trade log
and the equity log as they were. -/
theorem sell_more_than_held_rejected (s : SimulatedTrading) (symbol : String)
    (quantity price : ℚ) (now : Nat) (held : Position)
    (hf : findPosition s.positions symbol = some held) (hgt : held.quantity < quantity) :
    (s.sell symbol quantity price now).1.success = false ∧
    (s.sell symbol quantity price now).2.balance = s.balance ∧
    (s.sell symbol quantity price now).2.positions = s.positions ∧
    findPosition (s.sell symbol quantity price now).2.positions symbol = some held ∧
    (s.sell symbol quantity price now).2.trades = s.trades ∧
    (s.sell symbol quantity price now).2.equity = s.equity := by
  rw [sell_of_lt s symbol quantity price now held hf hgt]
  exact ⟨rfl, rfl, rfl, hf, rfl, rfl⟩

/-- Witness of C7: 100 units held, 101 offered for sale. -/
theorem sell_more_than_held_rejected_witness :
    ((((SimulatedTrading.create {}).buy "MEME" 100 1 0).2.sell "MEME" 101 1 1).1.success = false ∧
    (((SimulatedTrading.create {}).buy "MEME" 100 1 0).2.sell "MEME" 101 1 1).2.balance
      = ((SimulatedTrading.create {}).buy "MEME" 100 1 0).2.balance) :=
  have h := sell_more_than_held_rejected ((SimulatedTrading.create {}).buy "MEME" 100 1 0).2
    "MEME" 101 1 1 { symbol := "MEME", quantity := 100, averagePrice := 1, entryTime := 0 }
    (by
      simp [SimulatedTrading.create, SimulatedTrading.buy, spreadOver, orElse,
        SimulatedTrading.recordEquity, findPosition]
      norm_num)
    (by norm_num)
  ⟨h.1, h.2.1⟩

/-- C8, as stated, fails: the error returned when no position exists and the error returned
when the position is too small are the same value, `Insufficient position`. -/
theorem sell_error_kinds_counterexample :
    findPosition (SimulatedTrading.create {}).positions "MEME" = none ∧
    findPosition ((SimulatedTrading.create {}).buy "MEME" 10 1 0).2.positions "MEME"
      = some { symbol := "MEME", quantity := 10, averagePrice := 1, entryTime := 0 } ∧
    ((SimulatedTrading.create {}).sell "MEME" 20 1 1).1.error = some "Insufficient position" ∧
    (((SimulatedTrading.create {}).buy "MEME" 10 1 0).2.sell "MEME" 20 1 1).1.error
      = ((SimulatedTrading.create {}).sell "MEME" 20 1 1).1.error := by
  have h1 : findPosition (SimulatedTrading.create {}).positions "MEME" = none := by
    simp [SimulatedTrading.create, findPosition]
  have h2 : findPosition ((SimulatedTrading.create {}).buy "MEME" 10 1 0).2.positions "MEME"
      = some { symbol := "MEME", quantity := 10, averagePrice := 1, entryTime := 0 } := by
    simp [SimulatedTrading.create, SimulatedTrading.buy, spreadOver, orElse,
      SimulatedTrading.recordEquity, findPosition]
    norm_num
  refine ⟨h1, h2, ?_, ?_⟩
  · rw [sell_of_none _ _ _ _ _ h1]
    rfl
  · rw [sell_of_none _ _ _ _ _ h1, sell_of_lt _ _ _ _ _ _ h2 (by norm_num)]

/-- C8, amended: `sell` has a single failure kind. It is rejected exactly when no position
exists for the symbol or the position found holds less than `quantity`, and every rejection
returns the same record, with error `Insufficient position`. -/
theorem sell_rejected_iff (s : SimulatedTrading) (symbol : String) (quantity price : ℚ)
    (now : Nat) :
    ((s.sell symbol quantity price now).1.success = false ↔
      findPosition s.positions symbol = none ∨
      ∃ held, findPosition s.positions symbol = some held ∧ held.quantity < quantity) ∧
    ((s.sell symbol quantity price now).1.success = false →
      (s.sell symbol quantity price now).1 = Result.failure "Insufficient position") := by
  cases hf : findPosition s.positions symbol with
  | none =>
    rw [sell_of_none s symbol quantity price now hf]
    simp [Result.success]
  | some held =>
    by_cases hlt : held.quantity < quantity
    · rw [sell_of_lt s symbol quantity price now held hf hlt]
      simp [Result.success, hlt]
    · have hok := (sell_of_not_lt s symbol quantity price now held hf hlt).1
      rw [hok]
      simp [hlt]

/-- C9, as stated, fails. At the default rates, buying 100 at 1 and selling them at 1 gives
a SELL record with `pnl = -0.3`, the costs of the sell leg alone, while the costs of the two
legs add up to 0.6. And with a commission rate of `-0.01` the same round trip records a
positive `pnl` of 0.8. -/
theorem round_trip_pnl_counterexample :
    (findPosition (SimulatedTrading.create {}).positions "MEME" = none ∧
      ((SimulatedTrading.create {}).buy "MEME" 100 1 0).1.success = true ∧
      (((SimulatedTrading.create {}).buy "MEME" 100 1 0).2.sell "MEME" 100 1 1).1.trade.bind
        Trade.pnl = some (-(3 / 10)) ∧
      ((SimulatedTrading.create {}).buy "MEME" 100 1 0).1.trade.map
        (fun t => t.commission + t.slippage) = some (3 / 10) ∧
      (((SimulatedTrading.create {}).buy "MEME" 100 1 0).2.sell "MEME" 100 1 1).1.trade.map
        (fun t => t.commission + t.slippage) = some (3 / 10)) ∧
    (((SimulatedTrading.create ⟨none, some (-(1 / 100)), none⟩).buy "MEME" 100 1 0).1.success
        = true ∧
      (((SimulatedTrading.create ⟨none, some (-(1 / 100)), none⟩).buy "MEME" 100 1 0).2.sell
        "MEME" 100 1 1).1.trade.bind Trade.pnl = some (4 / 5)) := by
  refine ⟨⟨?_, ?_, ?_, ?_, ?_⟩, ?_, ?_⟩
  · simp [SimulatedTrading.create, findPosition]
  · simp [SimulatedTrading.create, SimulatedTrading.buy, spreadOver, orElse, Result.success]
    norm_num
  · simp [SimulatedTrading.create, SimulatedTrading.buy, SimulatedTrading.sell, spreadOver,
      orElse, Result.trade, SimulatedTrading.recordEquity, findPosition]
    norm_num
  · simp [SimulatedTrading.create, SimulatedTrading.buy, spreadOver, orElse, Result.trade]
    norm_num
  · simp [SimulatedTrading.create, SimulatedTrading.buy, SimulatedTrading.sell, spreadOver,
      orElse, Result.trade, SimulatedTrading.recordEquity, findPosition]
    norm_num
  · simp [SimulatedTrading.create, SimulatedTrading.buy, spreadOver, orElse, Result.success]
    norm_num
  · simp [SimulatedTrading.create, SimulatedTrading.buy, SimulatedTrading.sell, spreadOver,
      orElse, Result.trade, SimulatedTrading.recordEquity, findPosition]
    norm_num

/-- C9, amended: on a ledger with no position in the symbol, an accepted `buy(symbol, q, p)`
with `q > 0` and `p > 0` followed at once by `sell(symbol, q, p)` yields a SELL record whose
`pnl` is minus the commission and slippage of the sell leg only; it is never positive when
`commissionRate + slippage ≥ 0`. The costs of both legs are what the balance loses over the
round trip. -/
theorem round_trip_pnl (s : SimulatedTrading) (symbol : String) (q p : ℚ) (now later : Nat)
    (hq : 0 < q) (hp : 0 < p) (hnone : findPosition s.positions symbol = none)
    (hok : (s.buy symbol q p now).1.success = true) :
    ∃ bought sold : Trade,
      (s.buy symbol q p now).1 = Result.ok bought ∧
      ((s.buy symbol q p now).2.sell symbol q p later).1 = Result.ok sold ∧
      sold.type = TradeType.SELL ∧
      sold.pnl = some (-(sold.commission + sold.slippage)) ∧
      (0 ≤ s.config.commissionRate + s.config.slippage →
        ∀ v, sold.pnl = some v → v ≤ 0) ∧
      ((s.buy symbol q p now).2.sell symbol q p later).2.balance
        = s.balance
          - (bought.commission + sold.commission + bought.slippage + sold.slippage) := by
  have hng := not_gt_of_buy_success s symbol q p now hok
  obtain ⟨_, hcfg, hbal⟩ := buy_of_not_gt s symbol q p now hng
  have hpos := buy_positions_of_not_gt s symbol q p now hng
  rw [hnone] at hpos
  have hfind : findPosition (s.buy symbol q p now).2.positions symbol
      = some { symbol := symbol, quantity := q, averagePrice := p, entryTime := now } := by
    rw [hpos]
    exact findPosition_append_single _ _ _ hnone rfl
  have hnlt : ¬ (q < q) := lt_irrefl q
  have hsold := sell_result_of_not_lt (s.buy symbol q p now).2 symbol q p later _ hfind hnlt
  obtain ⟨_, _, hbal2, _⟩ := sell_of_not_lt (s.buy symbol q p now).2 symbol q p later _ hfind hnlt
  rw [hcfg] at hsold hbal2
  refine ⟨_, _, buy_result_of_not_gt s symbol q p now hng, hsold, rfl, ?_, ?_, ?_⟩
  · show some _ = some _
    congr 1
    ring
  · intro hr v hv
    have hv2 : (p - p) * q - q * p * s.config.commissionRate - q * p * s.config.slippage = v :=
      Option.some.inj hv
    have hqp : 0 < q * p := mul_pos hq hp
    have := mul_nonneg hqp.le hr
    rw [← hv2]
    nlinarith
  · rw [hbal2, hbal]
    show _ = s.balance - (q * p * s.config.commissionRate + q * p * s.config.commissionRate
      + q * p * s.config.slippage + q * p * s.config.slippage)
    ring

/-- Witness of C9 (amended): 100 units at price 1 on a fresh default ledger. -/
theorem round_trip_pnl_witness :
    ∃ bought sold : Trade,
      ((SimulatedTrading.create {}).buy "MEME" 100 1 0).1 = Result.ok bought ∧
      (((SimulatedTrading.create {}).buy "MEME" 100 1 0).2.sell "MEME" 100 1 1).1
        = Result.ok sold ∧
      sold.pnl = some (-(sold.commission + sold.slippage)) := by
  obtain ⟨bought, sold, h1, h2, _, h4, _⟩ :=
    round_trip_pnl (SimulatedTrading.create {}) "MEME" 100 1 0 1 (by norm_num) (by norm_num)
      (by simp [SimulatedTrading.create, findPosition])
      (by
        simp [SimulatedTrading.create, SimulatedTrading.buy, spreadOver, orElse, Result.success]
        norm_num)
  exact ⟨bought, sold, h1, h2, h4⟩

/-- The symbols held after a call are not inherited keys when those held before and the
symbol of the call are not. -/
theorem applyCall_not_inherited (s : SimulatedTrading) (c : Call)
    (hs : ∀ x ∈ s.positions, inheritedKey x.symbol = false)
    (hc : inheritedKey c.symbol = false) :
    ∀ x ∈ (applyCall s c).positions, inheritedKey x.symbol = false := by
  cases c with
  | buy symbol q p now =>
    simp only [applyCall]
    simp only [Call.symbol] at hc
    by_cases hgt : q * p + q * p * s.config.commissionRate + q * p * s.config.slippage
        > s.balance
    · rw [buy_of_gt s symbol q p now hgt]
      exact hs
    · rw [buy_positions_of_not_gt s symbol q p now hgt]
      cases hf : findPosition s.positions symbol with
      | none =>
        intro x hx
        simp only [List.mem_append, List.mem_singleton] at hx
        rcases hx with hx | hx
        · exact hs x hx
        · rw [hx]
          exact hc
      | some held =>
        intro x hx
        rcases mem_modifyFirst symbol _ s.positions x hx with h | ⟨p0, hp0, hxp⟩
        · exact hs x h
        · have hmem : p0 ∈ s.positions := by
            unfold findPosition at hp0
            exact List.mem_of_find?_eq_some hp0
          rw [hxp]
          exact hs p0 hmem
  | sell symbol q p now =>
    simp only [applyCall]
    cases hf : findPosition s.positions symbol with
    | none =>
      rw [sell_of_none s symbol q p now hf]
      exact hs
    | some held =>
      by_cases hlt : held.quantity < q
      · rw [sell_of_lt s symbol q p now held hf hlt]
        exact hs
      · rw [(sell_of_not_lt s symbol q p now held hf hlt).2.2.2]
        by_cases heq : held.quantity = q
        · rw [if_pos heq]
          intro x hx
          exact hs x (List.mem_of_mem_filter hx)
        · rw [if_neg heq]
          intro x hx
          rcases mem_modifyFirst symbol _ s.positions x hx with h | ⟨p0, hp0, hxp⟩
          · exact hs x h
          · have hmem : p0 ∈ s.positions := by
              unfold findPosition at hp0
              exact List.mem_of_find?_eq_some hp0
            rw [hxp]
            exact hs p0 hmem

/-- The equity log after an accepted `buy`: one more sample, the total equity of the ledger
after the trade. -/
theorem buy_equity_log (s : SimulatedTrading) (symbol : String) (quantity price : ℚ)
    (now : Nat) (hok : (s.buy symbol quantity price now).1.success = true) :
    ∃ s1 : SimulatedTrading,
      s1.balance = (s.buy symbol quantity price now).2.balance ∧
      s1.positions = (s.buy symbol quantity price now).2.positions ∧
      (s.buy symbol quantity price now).2.equity
        = s.equity ++ [{ timestamp := now, equity := s1.getAccount.totalEquity }] := by
  have hng := not_gt_of_buy_success s symbol quantity price now hok
  simp only [SimulatedTrading.buy]
  rw [if_neg hng]
  exact ⟨_, rfl, rfl, rfl⟩

/-- The equity log after an accepted `sell`: one more sample, the total equity of the ledger
after the trade. -/
theorem sell_equity_log (s : SimulatedTrading) (symbol : String) (quantity price : ℚ)
    (now : Nat) (hok : (s.sell symbol quantity price now).1.success = true) :
    ∃ s1 : SimulatedTrading,
      s1.balance = (s.sell symbol quantity price now).2.balance ∧
      s1.positions = (s.sell symbol quantity price now).2.positions ∧
      (s.sell symbol quantity price now).2.equity
        = s.equity ++ [{ timestamp := now, equity := s1.getAccount.totalEquity }] := by
  cases hf : findPosition s.positions symbol with
  | none =>
    rw [sell_of_none s symbol quantity price now hf] at hok
    simp [Result.success] at hok
  | some held =>
    by_cases hlt : held.quantity < quantity
    · rw [sell_of_lt s symbol quantity price now held hf hlt] at hok
      simp [Result.success] at hok
    · simp only [SimulatedTrading.sell, hf]
      rw [if_neg hlt]
      exact ⟨_, rfl, rfl, rfl⟩

/-- C10, as stated, fails for a symbol that names a member of `Object.prototype`: on a fresh
default ledger `buy('toString', 1, 1)` is accepted and appends a sample whose equity is NaN,
because `getAccount` looks the symbol up in the empty table `{}`, finds the inherited method
and multiplies the quantity by it; the balance after the trade plus `quantity * averagePrice`
is `9998.997 + 1`. -/
theorem equity_sample_inherited_symbol_counterexample :
    ((SimulatedTrading.create {}).buy "toString" 1 1 0).1.success = true ∧
    ((SimulatedTrading.create {}).buy "toString" 1 1 0).2.equity = [⟨0, JSNum.nan⟩] ∧
    ((SimulatedTrading.create {}).buy "toString" 1 1 0).2.balance
      + costValue ((SimulatedTrading.create {}).buy "toString" 1 1 0).2.positions
      = 10000 - 1003 / 1000 + 1 ∧
    (JSNum.nan : JSNum ℚ) ≠ JSNum.fin (10000 - 1003 / 1000 + 1) := by
  refine ⟨?_, ?_, ?_, ?_⟩
  · norm_num [SimulatedTrading.create, SimulatedTrading.buy, spreadOver, orElse,
      Result.success]
  · norm_num [SimulatedTrading.create, SimulatedTrading.buy, spreadOver, orElse,
      SimulatedTrading.recordEquity, SimulatedTrading.getAccount,
      SimulatedTrading.calculatePositionValue, findPosition, lookupIn, noPrices, inheritedKey,
      objectPrototypeKeys, Lookup.orElse, JSNum.mul, JSNum.add]
  · norm_num [SimulatedTrading.create, SimulatedTrading.buy, spreadOver, orElse,
      SimulatedTrading.recordEquity, findPosition, costValue]
  · simp

/-- C10, amended: on a ledger none of whose held symbols names a member of
`Object.prototype`, every accepted `buy` of a symbol that names none and every accepted
`sell` appends exactly one sample to the equity log, after the earlier samples, which are
kept in order; its equity is the balance after the trade plus the sum of
`quantity * averagePrice` over the positions after the trade. -/
theorem trade_appends_equity_sample (s : SimulatedTrading) (symbol : String)
    (quantity price : ℚ) (now : Nat)
    (hheld : ∀ x ∈ s.positions, inheritedKey x.symbol = false) :
    (inheritedKey symbol = false → (s.buy symbol quantity price now).1.success = true →
      (s.buy symbol quantity price now).2.equity
        = s.equity ++
          [{ timestamp := now
             equity := JSNum.fin ((s.buy symbol quantity price now).2.balance
               + costValue (s.buy symbol quantity price now).2.positions) }]) ∧
    ((s.sell symbol quantity price now).1.success = true →
      (s.sell symbol quantity price now).2.equity
        = s.equity ++
          [{ timestamp := now
             equity := JSNum.fin ((s.sell symbol quantity price now).2.balance
               + costValue (s.sell symbol quantity price now).2.positions) }]) := by
  constructor
  · intro hsymbol hok
    obtain ⟨s1, hb, hp, heq⟩ := buy_equity_log s symbol quantity price now hok
    have hafter := applyCall_not_inherited s (Call.buy symbol quantity price now) hheld hsymbol
    simp only [applyCall] at hafter
    rw [heq, totalEquity_eq s1 (by rw [hp]; exact hafter), hb, hp]
  · intro hok
    obtain ⟨s1, hb, hp, heq⟩ := sell_equity_log s symbol quantity price now hok
    have hsym : inheritedKey (Call.sell symbol quantity price now).symbol = false := by
      cases hf : findPosition s.positions symbol with
      | none =>
        rw [sell_of_none s symbol quantity price now hf] at hok
        simp [Result.success] at hok
      | some held =>
        have hmem : held ∈ s.positions := by
          unfold findPosition at hf
          exact List.mem_of_find?_eq_some hf
        have hs : held.symbol = symbol := by
          unfold findPosition at hf
          simpa using List.find?_some hf
        simp only [Call.symbol]
        rw [← hs]
        exact hheld held hmem
    have hafter := applyCall_not_inherited s (Call.sell symbol quantity price now) hheld hsym
    simp only [applyCall] at hafter
    rw [heq, totalEquity_eq s1 (by rw [hp]; exact hafter), hb, hp]

/-- Witness of C10 (amended): the first buy on a fresh default ledger. -/
theorem trade_appends_equity_sample_witness :
    ((SimulatedTrading.create {}).buy "MEME" 100 1 0).2.equity
      = (SimulatedTrading.create {}).equity ++
        [{ timestamp := 0
           equity := JSNum.fin (((SimulatedTrading.create {}).buy "MEME" 100 1 0).2.balance
             + costValue ((SimulatedTrading.create {}).buy "MEME" 100 1 0).2.positions) }] :=
  (trade_appends_equity_sample (SimulatedTrading.create {}) "MEME" 100 1 0
    (by simp [SimulatedTrading.create])).1
    (by simp [inheritedKey, objectPrototypeKeys])
    (by
      simp [SimulatedTrading.create, SimulatedTrading.buy, spreadOver, orElse, Result.success]
      norm_num)

/-! ## Auxiliary lemmas on rounding -/

/-- A non-negative number and its two-decimal rounding differ by at most half a hundredth. -/
theorem toFixed2_close_of_nonneg (x : ℚ) (hx : 0 ≤ x) : |toFixed2 x - x| ≤ 1 / 200 := by
  unfold toFixed2
  rw [if_pos hx]
  have h1 : ((⌊x * 100 + 1 / 2⌋ : ℤ) : ℚ) ≤ x * 100 + 1 / 2 := Int.floor_le _
  have h2 : x * 100 + 1 / 2 < ((⌊x * 100 + 1 / 2⌋ : ℤ) : ℚ) + 1 := Int.lt_floor_add_one _
  rw [abs_le]
  constructor <;> linarith

/-- The two-decimal rounding of `2 / 3 * 100` is `66.67`. -/
theorem toFixed2_two_thirds : toFixed2 ((2 : ℚ) / 3 * 100) = 6667 / 100 := by
  unfold toFixed2
  have hfl : ⌊(2 : ℚ) / 3 * 100 * 100 + 1 / 2⌋ = 6667 := by
    rw [Int.floor_eq_iff]
    constructor <;> norm_num
  rw [if_pos (by norm_num), hfl]
  norm_num

/-! ## The performance report -/

/-- C11, as stated, fails: after two winning sales and a losing one the report gives a win
rate of `66.67`, the two-decimal rounding, where `winners / (winners + losers) * 100` is
`200 / 3`. -/
theorem getPerformance_winRate_counterexample :
    ((applyCalls (SimulatedTrading.create {})
        [Call.buy "MEME" 3 1 0, Call.sell "MEME" 1 2 1, Call.sell "MEME" 1 2 2,
          Call.sell "MEME" 1 (1 / 2) 3]).getPerformance.1.winningTrades = 2) ∧
    ((applyCalls (SimulatedTrading.create {})
        [Call.buy "MEME" 3 1 0, Call.sell "MEME" 1 2 1, Call.sell "MEME" 1 2 2,
          Call.sell "MEME" 1 (1 / 2) 3]).getPerformance.1.losingTrades = 1) ∧
    ((applyCalls (SimulatedTrading.create {})
        [Call.buy "MEME" 3 1 0, Call.sell "MEME" 1 2 1, Call.sell "MEME" 1 2 2,
          Call.sell "MEME" 1 (1 / 2) 3]).getPerformance.1.winRate = 6667 / 100) ∧
    (6667 / 100 : ℚ) ≠ 2 / (2 + 1) * 100 := by
  have hwin : ((applyCalls (SimulatedTrading.create {})
      [Call.buy "MEME" 3 1 0, Call.sell "MEME" 1 2 1, Call.sell "MEME" 1 2 2,
        Call.sell "MEME" 1 (1 / 2) 3]).trades.filter isWinningTrade).length = 2 := by
    norm_num [applyCalls, applyCall, SimulatedTrading.create, SimulatedTrading.buy,
      SimulatedTrading.sell, spreadOver, orElse, SimulatedTrading.recordEquity, findPosition,
      modifyFirst, isWinningTrade, List.filter]
  have hlose : ((applyCalls (SimulatedTrading.create {})
      [Call.buy "MEME" 3 1 0, Call.sell "MEME" 1 2 1, Call.sell "MEME" 1 2 2,
        Call.sell "MEME" 1 (1 / 2) 3]).trades.filter isLosingTrade).length = 1 := by
    norm_num [applyCalls, applyCall, SimulatedTrading.create, SimulatedTrading.buy,
      SimulatedTrading.sell, spreadOver, orElse, SimulatedTrading.recordEquity, findPosition,
      modifyFirst, isLosingTrade, List.filter]
  refine ⟨hwin, hlose, ?_, by norm_num⟩
  simp only [SimulatedTrading.getPerformance, hwin, hlose]
  have h := toFixed2_two_thirds
  norm_num at h ⊢
  exact h

/-- C11, amended: `getPerformance` leaves the ledger as it was; on a ledger none of whose
held symbols names a member of `Object.prototype` (for such a symbol `getAccount` reads the
inherited member in the empty table `{}` and the equity is NaN), `totalPnL` is the balance
plus the sum of `quantity * averagePrice` over the positions, minus the initial balance;
winners and losers are the SELL trades with `pnl > 0` and `pnl < 0`; the win rate reported is
`winners / (winners + losers) * 100` rounded to two decimals (so within 0.005 of it) when
there is a winner or a loser, and 0 otherwise, in particular when there is no SELL trade. -/
theorem getPerformance_report (s : SimulatedTrading) :
    s.getPerformance.2 = s ∧
    ((∀ x ∈ s.positions, inheritedKey x.symbol = false) →
      s.getPerformance.1.totalPnL
        = JSNum.fin (s.balance + costValue s.positions - s.config.initialBalance)) ∧
    (∀ t, isWinningTrade t = true ↔ t.type = TradeType.SELL ∧ ∃ v, t.pnl = some v ∧ 0 < v) ∧
    (∀ t, isLosingTrade t = true ↔ t.type = TradeType.SELL ∧ ∃ v, t.pnl = some v ∧ v < 0) ∧
    s.getPerformance.1.winningTrades = (s.trades.filter isWinningTrade).length ∧
    s.getPerformance.1.losingTrades = (s.trades.filter isLosingTrade).length ∧
    (0 < s.getPerformance.1.winningTrades + s.getPerformance.1.losingTrades →
      s.getPerformance.1.winRate
        = toFixed2 ((s.getPerformance.1.winningTrades : ℚ)
            / ((s.getPerformance.1.winningTrades : ℚ) + (s.getPerformance.1.losingTrades : ℚ))
            * 100) ∧
      |s.getPerformance.1.winRate
        - (s.getPerformance.1.winningTrades : ℚ)
            / ((s.getPerformance.1.winningTrades : ℚ) + (s.getPerformance.1.losingTrades : ℚ))
            * 100| ≤ 1 / 200) ∧
    (s.getPerformance.1.winningTrades + s.getPerformance.1.losingTrades = 0 →
      s.getPerformance.1.winRate = 0) ∧
    ((∀ t ∈ s.trades, t.type ≠ TradeType.SELL) → s.getPerformance.1.winRate = 0) := by
  refine ⟨rfl, ?_, ?_, ?_, rfl, rfl, ?_, ?_, ?_⟩
  · intro hheld
    show JSNum.sub s.getAccount.totalEquity (JSNum.fin s.config.initialBalance) = _
    rw [totalEquity_eq s hheld]
    simp [JSNum.sub, JSNum.neg, JSNum.add, sub_eq_add_neg]
  · intro t
    cases hp : t.pnl <;> simp [isWinningTrade, hp]
  · intro t
    cases hp : t.pnl <;> simp [isLosingTrade, hp]
  · intro hpos
    have hw : s.getPerformance.1.winRate
        = toFixed2 ((s.getPerformance.1.winningTrades : ℚ)
            / ((s.getPerformance.1.winningTrades : ℚ) + (s.getPerformance.1.losingTrades : ℚ))
            * 100) := by
      simp only [SimulatedTrading.getPerformance] at hpos ⊢
      rw [if_pos hpos]
      push_cast
      rfl
    refine ⟨hw, ?_⟩
    rw [hw]
    apply toFixed2_close_of_nonneg
    positivity
  · intro hzero
    simp only [SimulatedTrading.getPerformance] at hzero ⊢
    rw [if_neg (by omega)]
  · intro hnone
    have hw : s.trades.filter isWinningTrade = [] := by
      rw [List.filter_eq_nil_iff]
      intro t ht
      simp [isWinningTrade, hnone t ht]
    have hl : s.trades.filter isLosingTrade = [] := by
      rw [List.filter_eq_nil_iff]
      intro t ht
      simp [isLosingTrade, hnone t ht]
    simp [SimulatedTrading.getPerformance, hw, hl]

/-- Witness of C11 (amended): a default ledger after one buy of 3 units of `MEME`. -/
theorem getPerformance_report_witness :
    (applyCall (SimulatedTrading.create {}) (Call.buy "MEME" 3 1 0)).getPerformance.1.totalPnL
      = JSNum.fin
          ((applyCall (SimulatedTrading.create {}) (Call.buy "MEME" 3 1 0)).balance
            + costValue (applyCall (SimulatedTrading.create {}) (Call.buy "MEME" 3 1 0)).positions
            - (applyCall (SimulatedTrading.create {})
                (Call.buy "MEME" 3 1 0)).config.initialBalance) :=
  (getPerformance_report (applyCall (SimulatedTrading.create {}) (Call.buy "MEME" 3 1 0))).2.1
    (applyCall_not_inherited (SimulatedTrading.create {}) (Call.buy "MEME" 3 1 0)
      (by simp [SimulatedTrading.create])
      (by simp [Call.symbol, inheritedKey, objectPrototypeKeys]))

/-! ## Auxiliary lemmas on the detector -/

/-- `detectBounce` on a history of fewer than three points. -/
theorem detectBounce_of_short (d : BounceDetector) (pt : PricePoint)
    (h : d.priceHistory.length < 3) : d.detectBounce pt = (none, d) := by
  simp only [BounceDetector.detectBounce]
  rw [if_pos h]

/-- `detectBounce` when one of the two tests fails. -/
theorem detectBounce_of_not_fire (d : BounceDetector) (pt : PricePoint)
    (h : ¬ (JSNum.ge (d.bouncePercent pt) (JSNum.fin d.config.minBouncePercent) &&
        JSNum.ge (d.volumeRatio pt) (JSNum.fin d.config.volumeThreshold)) = true) :
    d.detectBounce pt = (none, d) := by
  simp only [BounceDetector.detectBounce]
  by_cases hlen : d.priceHistory.length < 3
  · rw [if_pos hlen]
  · rw [if_neg hlen, if_neg h]

/-- `detectBounce` when the history is long enough and both tests pass. -/
theorem detectBounce_of_fire (d : BounceDetector) (pt : PricePoint)
    (hlen : ¬ d.priceHistory.length < 3)
    (h : (JSNum.ge (d.bouncePercent pt) (JSNum.fin d.config.minBouncePercent) &&
        JSNum.ge (d.volumeRatio pt) (JSNum.fin d.config.volumeThreshold)) = true) :
    d.detectBounce pt =
      (some
        { type := "BOUNCE"
          timestamp := pt.timestamp
          price := pt.price
          low := d.low
          bouncePercent := JSNum.toFixed2 (d.bouncePercent pt)
          volumeRatio := JSNum.toFixed2 (d.volumeRatio pt)
          strength := d.calculateStrength (d.bouncePercent pt) (d.volumeRatio pt) },
       { d with
         signals := d.signals ++
           [{ type := "BOUNCE"
              timestamp := pt.timestamp
              price := pt.price
              low := d.low
              bouncePercent := JSNum.toFixed2 (d.bouncePercent pt)
              volumeRatio := JSNum.toFixed2 (d.volumeRatio pt)
              strength := d.calculateStrength (d.bouncePercent pt) (d.volumeRatio pt) }] }) := by
  simp only [BounceDetector.detectBounce]
  rw [if_neg hlen, if_pos h]

/-- `detectBounce` fires exactly when the history holds three points and both tests pass. -/
theorem detectBounce_isSome_iff (d : BounceDetector) (pt : PricePoint) :
    (d.detectBounce pt).1.isSome = true ↔
      3 ≤ d.priceHistory.length ∧
      JSNum.ge (d.bouncePercent pt) (JSNum.fin d.config.minBouncePercent) = true ∧
      JSNum.ge (d.volumeRatio pt) (JSNum.fin d.config.volumeThreshold) = true := by
  by_cases hlen : d.priceHistory.length < 3
  · rw [detectBounce_of_short d pt hlen]
    simp
    omega
  · by_cases h : (JSNum.ge (d.bouncePercent pt) (JSNum.fin d.config.minBouncePercent) &&
        JSNum.ge (d.volumeRatio pt) (JSNum.fin d.config.volumeThreshold)) = true
    · rw [detectBounce_of_fire d pt hlen h]
      simp only [Bool.and_eq_true] at h
      simp [h]
      omega
    · rw [detectBounce_of_not_fire d pt h]
      simp only [Bool.and_eq_true] at h
      constructor
      · intro hs
        simp at hs
      · intro hs
        exact absurd hs.2 h

/-- `detectBounce` touches neither the history nor the configuration. -/
theorem detectBounce_frame (d : BounceDetector) (pt : PricePoint) :
    (d.detectBounce pt).2.priceHistory = d.priceHistory ∧
    (d.detectBounce pt).2.config = d.config := by
  by_cases hlen : d.priceHistory.length < 3
  · rw [detectBounce_of_short d pt hlen]
    exact ⟨rfl, rfl⟩
  · by_cases h : (JSNum.ge (d.bouncePercent pt) (JSNum.fin d.config.minBouncePercent) &&
        JSNum.ge (d.volumeRatio pt) (JSNum.fin d.config.volumeThreshold)) = true
    · rw [detectBounce_of_fire d pt hlen h]
      exact ⟨rfl, rfl⟩
    · rw [detectBounce_of_not_fire d pt h]
      exact ⟨rfl, rfl⟩

/-- The signal log after `detectBounce`: the old log, followed by the signal when one is
returned. -/
theorem detectBounce_signals (d : BounceDetector) (pt : PricePoint) :
    (d.detectBounce pt).2.signals = d.signals ++ (d.detectBounce pt).1.toList := by
  by_cases hlen : d.priceHistory.length < 3
  · rw [detectBounce_of_short d pt hlen]
    simp
  · by_cases h : (JSNum.ge (d.bouncePercent pt) (JSNum.fin d.config.minBouncePercent) &&
        JSNum.ge (d.volumeRatio pt) (JSNum.fin d.config.volumeThreshold)) = true
    · rw [detectBounce_of_fire d pt hlen h]
      simp
    · rw [detectBounce_of_not_fire d pt h]
      simp

/-- The history and the configuration after `addPricePoint`. -/
theorem addPricePoint_frame (d : BounceDetector) (price volume timestamp : ℚ) :
    (d.addPricePoint price volume timestamp).2.priceHistory
      = pruneHistory (timestamp - d.config.timeWindow)
          (d.priceHistory ++ [{ price := price, volume := volume, timestamp := timestamp }]) ∧
    (d.addPricePoint price volume timestamp).2.config = d.config := by
  simp only [BounceDetector.addPricePoint]
  constructor
  · rw [(detectBounce_frame _ _).1]
    rfl
  · rw [(detectBounce_frame _ _).2]
    rfl

/-- The result of `addPricePoint` is that of `detectBounce` on the detector it leaves, up to
the signal log. -/
theorem addPricePoint_signals (d : BounceDetector) (price volume timestamp : ℚ) :
    (d.addPricePoint price volume timestamp).2.signals
      = d.signals ++ (d.addPricePoint price volume timestamp).1.toList := by
  simp only [BounceDetector.addPricePoint]
  rw [detectBounce_signals]
  rfl

/-- The history after feeding observations that all stay inside the window: nothing is
pruned. -/
theorem feedAll_history (obs : List (ℚ × ℚ × ℚ)) (c : ℚ) :
    ∀ d : BounceDetector,
      (∀ p ∈ d.priceHistory, p.timestamp > c) →
      (∀ o ∈ obs, o.2.2 > c ∧ o.2.2 - d.config.timeWindow ≤ c) →
      (feedAll d obs).priceHistory = d.priceHistory ++ obs.map toPoint := by
  induction obs with
  | nil => intro d _ _; simp [feedAll]
  | cons o os ih =>
    intro d hd hobs
    have ho := hobs o (List.mem_cons_self _ _)
    obtain ⟨hhist, hcfg⟩ := addPricePoint_frame d o.1 o.2.1 o.2.2
    have hkeep : pruneHistory (o.2.2 - d.config.timeWindow)
        (d.priceHistory ++ [{ price := o.1, volume := o.2.1, timestamp := o.2.2 }])
        = d.priceHistory ++ [toPoint o] := by
      unfold pruneHistory
      show List.filter _ (d.priceHistory ++ [toPoint o]) = d.priceHistory ++ [toPoint o]
      rw [List.filter_eq_self]
      intro p hp
      simp only [List.mem_append, List.mem_singleton] at hp
      rcases hp with hp | hp
      · have := hd p hp
        simp only [decide_eq_true_eq]
        linarith [ho.2]
      · rw [hp]
        simp only [decide_eq_true_eq]
        show o.2.2 > o.2.2 - d.config.timeWindow
        linarith [ho.1, ho.2]
    have hd1 : ∀ p ∈ (d.addPricePoint o.1 o.2.1 o.2.2).2.priceHistory, p.timestamp > c := by
      rw [hhist, hkeep]
      intro p hp
      simp only [List.mem_append, List.mem_singleton] at hp
      rcases hp with hp | hp
      · exact hd p hp
      · rw [hp]
        exact ho.1
    have hobs1 : ∀ x ∈ os, x.2.2 > c
        ∧ x.2.2 - (d.addPricePoint o.1 o.2.1 o.2.2).2.config.timeWindow ≤ c := by
      intro x hx
      rw [hcfg]
      exact hobs x (List.mem_cons_of_mem _ hx)
    have := ih (d.addPricePoint o.1 o.2.1 o.2.2).2 hd1 hobs1
    simp only [feedAll, List.foldl_cons] at this ⊢
    rw [this, hhist, hkeep]
    simp

/-- Feeding a fresh window observations in time order that all lie within the time window of
the last one keeps every one of them. -/
theorem feedAll_length_of_sorted (d : BounceDetector) (obs : List (ℚ × ℚ × ℚ))
    (hempty : d.priceHistory = [])
    (hsorted : obs.Pairwise (fun a b => a.2.2 ≤ b.2.2))
    (hwithin : ∀ o ∈ obs, ∀ l ∈ obs.getLast?, o.2.2 > l.2.2 - d.config.timeWindow) :
    (feedAll d obs).priceHistory = obs.map toPoint := by
  rcases List.eq_nil_or_concat obs with hnil | ⟨L, b, hL⟩
  · rw [hnil]
    simp [feedAll, hempty]
  · rw [List.concat_eq_append] at hL
    have hlast : obs.getLast? = some b := by rw [hL, List.getLast?_concat]
    have hle : ∀ o ∈ obs, o.2.2 ≤ b.2.2 := by
      intro o ho
      rw [hL] at ho hsorted
      rw [List.pairwise_append] at hsorted
      simp only [List.mem_append, List.mem_singleton] at ho
      rcases ho with ho | ho
      · exact hsorted.2.2 o ho b (List.mem_singleton_self b)
      · rw [ho]
    have h := feedAll_history obs (b.2.2 - d.config.timeWindow) d
      (by rw [hempty]; intro p hp; cases hp)
      (by
        intro o ho
        refine ⟨hwithin o ho b (by rw [hlast]; rfl), ?_⟩
        linarith [hle o ho])
    rw [h, hempty]
    rfl

/-- Summing from an accumulator with `reduce` is adding the sum of the list. -/
theorem foldl_add_eq_add_sum {α : Type} (f : α → ℚ) (l : List α) (a : ℚ) :
    l.foldl (fun sum x => sum + f x) a = a + (l.map f).sum := by
  induction l generalizing a with
  | nil => simp
  | cons x xs ih => simp [List.foldl_cons, ih, add_assoc]

/-- Folding `min` over a list yields a member that is below every member. -/
theorem foldl_min_spec (ps : List ℚ) (p : ℚ) :
    ps.foldl min p ∈ p :: ps ∧ ∀ x ∈ p :: ps, ps.foldl min p ≤ x := by
  induction ps generalizing p with
  | nil => simp
  | cons q qs ih =>
    obtain ⟨hmem, hle⟩ := ih (min p q)
    simp only [List.foldl_cons]
    constructor
    · simp only [List.mem_cons] at hmem ⊢
      rcases hmem with h | h
      · rw [h]
        rcases min_choice p q with hpq | hpq
        · left; exact hpq
        · right; left; exact hpq
      · right; right; exact h
    · intro x hx
      simp only [List.mem_cons] at hx
      rcases hx with hx | hx | hx
      · rw [hx]
        exact le_trans (hle _ (List.mem_cons_self _ _)) (min_le_left p q)
      · rw [hx]
        exact le_trans (hle _ (List.mem_cons_self _ _)) (min_le_right p q)
      · exact hle x (List.mem_cons_of_mem _ hx)

/-- `Math.min` over a list of prices is its least member. -/
theorem minOfPrices_eq_of_least (l : List ℚ) (lo : ℚ) (hmem : lo ∈ l)
    (hmin : ∀ x ∈ l, lo ≤ x) : minOfPrices l = JSNum.fin lo := by
  cases l with
  | nil => cases hmem
  | cons p ps =>
    obtain ⟨h1, h2⟩ := foldl_min_spec ps p
    simp only [minOfPrices]
    congr 1
    exact le_antisymm (h2 lo hmem) (hmin _ h1)

/-- The recent window is a suffix of the window, of length `min 10 n`. -/
theorem lastTen_spec {α : Type} (l : List α) :
    lastTen l <:+ l ∧ (lastTen l).length = min 10 l.length := by
  unfold lastTen
  refine ⟨List.drop_suffix _ _, ?_⟩
  rw [List.length_drop]
  omega

/-- The detector's `low` is the least price of the recent window. -/
theorem low_eq_of_least (d : BounceDetector) (lo : ℚ)
    (hmem : ∃ p ∈ lastTen d.priceHistory, p.price = lo)
    (hmin : ∀ p ∈ lastTen d.priceHistory, lo ≤ p.price) : d.low = JSNum.fin lo := by
  unfold BounceDetector.low BounceDetector.recentPoints
  apply minOfPrices_eq_of_least
  · obtain ⟨p, hp, hpl⟩ := hmem
    exact List.mem_map.mpr ⟨p, hp, hpl⟩
  · intro x hx
    obtain ⟨p, hp, hpx⟩ := List.mem_map.mp hx
    rw [← hpx]
    exact hmin p hp

/-- The detector's `avgVolume` is the mean volume of the recent window when the window is
not empty. -/
theorem avgVolume_eq_mean (d : BounceDetector) (h : d.priceHistory ≠ []) :
    d.avgVolume = JSNum.fin (meanVolume (lastTen d.priceHistory)) := by
  have hlen : (lastTen d.priceHistory).length ≠ 0 := by
    rw [(lastTen_spec d.priceHistory).2]
    have : d.priceHistory.length ≠ 0 := fun h0 => h (List.length_eq_zero.mp h0)
    omega
  have hq : ((lastTen d.priceHistory).length : ℚ) ≠ 0 := by exact_mod_cast hlen
  have hs := foldl_add_eq_add_sum (fun p : PricePoint => p.volume) (lastTen d.priceHistory) 0
  beta_reduce at hs
  unfold BounceDetector.avgVolume BounceDetector.recentPoints meanVolume
  rw [hs]
  simp [JSNum.div, hq]

/-- The values `detectBounce` computes depend on the window only. -/
theorem detector_values_congr (d e : BounceDetector) (pt : PricePoint)
    (h : d.priceHistory = e.priceHistory) :
    d.low = e.low ∧ d.bouncePercent pt = e.bouncePercent pt ∧
    d.avgVolume = e.avgVolume ∧ d.volumeRatio pt = e.volumeRatio pt := by
  simp [BounceDetector.low, BounceDetector.bouncePercent, BounceDetector.avgVolume,
    BounceDetector.volumeRatio, BounceDetector.recentPoints, h]

/-- The window `addPricePoint` leaves is the pushed and pruned one. -/
theorem addPricePoint_history_eq (d : BounceDetector) (price volume timestamp : ℚ) :
    (d.addPricePoint price volume timestamp).2.priceHistory
      = (d.pushAndPrune
          { price := price, volume := volume, timestamp := timestamp }).priceHistory := by
  simp only [BounceDetector.addPricePoint]
  exact (detectBounce_frame _ _).1

/-- `addPricePoint` fires exactly when the window it leaves holds three points and both
tests pass on it. -/
theorem addPricePoint_isSome_iff (d : BounceDetector) (price volume timestamp : ℚ) :
    (d.addPricePoint price volume timestamp).1.isSome = true ↔
      3 ≤ (d.addPricePoint price volume timestamp).2.priceHistory.length ∧
      JSNum.ge
        ((d.addPricePoint price volume timestamp).2.bouncePercent
          { price := price, volume := volume, timestamp := timestamp })
        (JSNum.fin d.config.minBouncePercent) = true ∧
      JSNum.ge
        ((d.addPricePoint price volume timestamp).2.volumeRatio
          { price := price, volume := volume, timestamp := timestamp })
        (JSNum.fin d.config.volumeThreshold) = true := by
  have hhist := addPricePoint_history_eq d price volume timestamp
  have hc := detector_values_congr (d.addPricePoint price volume timestamp).2
    (d.pushAndPrune { price := price, volume := volume, timestamp := timestamp })
    { price := price, volume := volume, timestamp := timestamp } hhist
  rw [hc.2.1, hc.2.2.2, hhist]
  simp only [BounceDetector.addPricePoint]
  exact detectBounce_isSome_iff _ _

/-- The signal `addPricePoint` returns, in terms of the window it leaves. -/
theorem addPricePoint_signal_fields (d : BounceDetector) (price volume timestamp : ℚ)
    (signal : Signal) (h : (d.addPricePoint price volume timestamp).1 = some signal) :
    signal.type = "BOUNCE" ∧ signal.timestamp = timestamp ∧ signal.price = price ∧
    signal.low = (d.addPricePoint price volume timestamp).2.low ∧
    signal.bouncePercent
      = JSNum.toFixed2 ((d.addPricePoint price volume timestamp).2.bouncePercent
          { price := price, volume := volume, timestamp := timestamp }) ∧
    signal.volumeRatio
      = JSNum.toFixed2 ((d.addPricePoint price volume timestamp).2.volumeRatio
          { price := price, volume := volume, timestamp := timestamp }) ∧
    signal.strength
      = d.calculateStrength
          ((d.addPricePoint price volume timestamp).2.bouncePercent
            { price := price, volume := volume, timestamp := timestamp })
          ((d.addPricePoint price volume timestamp).2.volumeRatio
            { price := price, volume := volume, timestamp := timestamp }) := by
  have hhist := addPricePoint_history_eq d price volume timestamp
  have hc := detector_values_congr (d.addPricePoint price volume timestamp).2
    (d.pushAndPrune { price := price, volume := volume, timestamp := timestamp })
    { price := price, volume := volume, timestamp := timestamp } hhist
  rw [hc.1, hc.2.1, hc.2.2.2]
  simp only [BounceDetector.addPricePoint] at h ⊢
  by_cases hlen : (d.pushAndPrune
      { price := price, volume := volume, timestamp := timestamp }).priceHistory.length < 3
  · rw [detectBounce_of_short _ _ hlen] at h
    cases h
  · by_cases hf : (JSNum.ge
        ((d.pushAndPrune { price := price, volume := volume, timestamp := timestamp }).bouncePercent
          { price := price, volume := volume, timestamp := timestamp })
        (JSNum.fin (d.pushAndPrune
          { price := price, volume := volume, timestamp := timestamp }).config.minBouncePercent) &&
        JSNum.ge
        ((d.pushAndPrune { price := price, volume := volume, timestamp := timestamp }).volumeRatio
          { price := price, volume := volume, timestamp := timestamp })
        (JSNum.fin (d.pushAndPrune
          { price := price, volume := volume, timestamp := timestamp }).config.volumeThreshold))
        = true
    · rw [detectBounce_of_fire _ _ hlen hf] at h
      simp only [Option.some.injEq] at h
      rw [← h]
      exact ⟨rfl, rfl, rfl, rfl, rfl, rfl, rfl⟩
    · rw [detectBounce_of_not_fire _ _ hf] at h
      cases h

/-- Feeding observations leaves the configuration alone. -/
theorem feedAll_config (obs : List (ℚ × ℚ × ℚ)) :
    ∀ d : BounceDetector, (feedAll d obs).config = d.config := by
  induction obs with
  | nil => intro d; rfl
  | cons o os ih =>
    intro d
    have := ih (d.addPricePoint o.1 o.2.1 o.2.2).2
    simp only [feedAll, List.foldl_cons] at this ⊢
    rw [this, (addPricePoint_frame d o.1 o.2.1 o.2.2).2]

/-- The bounce percentage over a zero low: `Infinity`, `-Infinity` or `NaN` with the sign
of the price. -/
theorem bouncePercent_of_zero_low (d : BounceDetector) (pt : PricePoint)
    (hlow : d.low = JSNum.fin 0) :
    d.bouncePercent pt
      = (if 0 < pt.price then JSNum.posInf
         else if pt.price < 0 then JSNum.negInf else JSNum.nan) := by
  unfold BounceDetector.bouncePercent
  rw [hlow]
  by_cases h1 : 0 < pt.price
  · simp [JSNum.sub, JSNum.neg, JSNum.add, JSNum.div, JSNum.mul, JSNum.signedInf, h1]
  · by_cases h2 : pt.price < 0
    · simp [JSNum.sub, JSNum.neg, JSNum.add, JSNum.div, JSNum.mul, JSNum.signedInf, h1, h2]
    · simp [JSNum.sub, JSNum.neg, JSNum.add, JSNum.div, JSNum.mul, JSNum.signedInf, h1, h2]

/-- `Math.round` of an integer is that integer. -/
theorem round_fin_int (n : ℤ) : JSNum.round (JSNum.fin (n : ℚ)) = JSNum.fin (n : ℚ) := by
  simp only [JSNum.round]
  congr 2
  rw [Int.floor_eq_iff]
  constructor <;> linarith

/-- A whole number of hundredths is its own two-decimal rounding. -/
theorem toFixed2_of_hundredths (k : ℕ) : toFixed2 ((k : ℚ) / 100) = (k : ℚ) / 100 := by
  unfold toFixed2
  have hk : (0 : ℚ) ≤ (k : ℚ) / 100 := by positivity
  rw [if_pos hk]
  congr 1
  have hfl : ⌊(k : ℚ) / 100 * 100 + 1 / 2⌋ = (k : ℤ) := by
    rw [Int.floor_eq_iff]
    constructor <;> push_cast <;> linarith
  rw [hfl]
  simp

/-- The two-decimal rounding of `400 / 7` is `57.14`. -/
theorem toFixed2_bounce_scenario : toFixed2 ((400 : ℚ) / 7) = 5714 / 100 := by
  unfold toFixed2
  have hfl : ⌊(400 : ℚ) / 7 * 100 + 1 / 2⌋ = 5714 := by
    rw [Int.floor_eq_iff]
    constructor <;> norm_num
  rw [if_pos (by norm_num), hfl]
  norm_num

/-- `calculateStrength` on finite arguments with positive thresholds: the rounded sum of the
two capped scores. It never exceeds 100, and it is not negative when neither argument is. -/
theorem calculateStrength_of_finite (d : BounceDetector) (b v : ℚ)
    (hm : 0 < d.config.minBouncePercent) (ht : 0 < d.config.volumeThreshold) :
    d.calculateStrength (JSNum.fin b) (JSNum.fin v)
      = JSNum.fin ((⌊min (b / d.config.minBouncePercent * 50) 50
          + min (v / d.config.volumeThreshold * 50) 50 + 1 / 2⌋ : ℤ) : ℚ) ∧
    ⌊min (b / d.config.minBouncePercent * 50) 50
      + min (v / d.config.volumeThreshold * 50) 50 + 1 / 2⌋ ≤ 100 ∧
    (0 ≤ b → 0 ≤ v →
      0 ≤ ⌊min (b / d.config.minBouncePercent * 50) 50
        + min (v / d.config.volumeThreshold * 50) 50 + 1 / 2⌋) := by
  refine ⟨?_, ?_, ?_⟩
  · simp [BounceDetector.calculateStrength, JSNum.div, JSNum.mul, JSNum.min, JSNum.add,
      JSNum.round, hm.ne', ht.ne']
  · have h1 : min (b / d.config.minBouncePercent * 50) 50 ≤ 50 := min_le_right _ _
    have h2 : min (v / d.config.volumeThreshold * 50) 50 ≤ 50 := min_le_right _ _
    have : ⌊min (b / d.config.minBouncePercent * 50) 50
        + min (v / d.config.volumeThreshold * 50) 50 + 1 / 2⌋ < 101 := by
      rw [Int.floor_lt]
      push_cast
      linarith
    omega
  · intro hb hv
    apply Int.floor_nonneg.mpr
    have h1 : 0 ≤ min (b / d.config.minBouncePercent * 50) 50 :=
      le_min (by positivity) (by norm_num)
    have h2 : 0 ≤ min (v / d.config.volumeThreshold * 50) 50 :=
      le_min (by positivity) (by norm_num)
    linarith

/-! ## The detector's contract -/

/-- C13, as stated, fails when the observations do not arrive in time order: with
`timeWindow` 10, the three insertions at the timestamps 5, 20 and 11 all lie within
`timeWindow` of the last, yet the insertion at 20 prunes the entry of 5 and `dataPoints` is 2,
not 3. -/
theorem addPricePoint_window_unordered_counterexample :
    (0 : ℚ) < (BounceDetector.create { timeWindow := some 10 }).config.timeWindow ∧
    (∀ o ∈ [((1 : ℚ), (1 : ℚ), (5 : ℚ)), (1, 1, 20), (1, 1, 11)],
      o.2.2 > 11 - (BounceDetector.create { timeWindow := some 10 }).config.timeWindow) ∧
    (feedAll (BounceDetector.create { timeWindow := some 10 })
      [(1, 1, 5), (1, 1, 20), (1, 1, 11)]).getStats.dataPoints = 2 ∧
    [((1 : ℚ), (1 : ℚ), (5 : ℚ)), (1, 1, 20), (1, 1, 11)].length = 3 := by
  refine ⟨?_, ?_, ?_, rfl⟩
  · norm_num [BounceDetector.create, spreadOver, orElse]
  · norm_num [BounceDetector.create, spreadOver, orElse]
  · have h := fun (d : BounceDetector) (price volume timestamp : ℚ) =>
      (addPricePoint_frame d price volume timestamp).1
    have hc := fun (d : BounceDetector) (price volume timestamp : ℚ) =>
      (addPricePoint_frame d price volume timestamp).2
    simp only [feedAll, List.foldl_cons, List.foldl_nil, BounceDetector.getStats, h, hc]
    norm_num [BounceDetector.create, spreadOver, orElse, pruneHistory, List.filter]

/-- C13, amended: with a positive time window, the window after `addPricePoint(price, volume, t)` is
the previous window followed by the new observation, restricted to the entries with
`timestamp > t - timeWindow`, in arrival order; every entry of it satisfies that bound and the
new observation is its last entry; pruning it again at the same cutoff changes nothing; and
on an empty window, `n` observations fed in time order whose timestamps all lie within
`timeWindow` of the last give `dataPoints = n`. -/
theorem addPricePoint_window (d : BounceDetector) (price volume timestamp : ℚ)
    (htw : 0 < d.config.timeWindow) :
    (d.addPricePoint price volume timestamp).2.priceHistory
      = List.filter (fun p => decide (p.timestamp > timestamp - d.config.timeWindow))
          (d.priceHistory ++ [{ price := price, volume := volume, timestamp := timestamp }]) ∧
    (∀ p ∈ (d.addPricePoint price volume timestamp).2.priceHistory,
      p.timestamp > timestamp - d.config.timeWindow) ∧
    (d.addPricePoint price volume timestamp).2.priceHistory.getLast?
      = some { price := price, volume := volume, timestamp := timestamp } ∧
    pruneHistory (timestamp - d.config.timeWindow)
        (d.addPricePoint price volume timestamp).2.priceHistory
      = (d.addPricePoint price volume timestamp).2.priceHistory ∧
    (∀ obs : List (ℚ × ℚ × ℚ),
      d.priceHistory = [] →
      obs.Pairwise (fun a b => a.2.2 ≤ b.2.2) →
      (∀ o ∈ obs, ∀ l ∈ obs.getLast?, o.2.2 > l.2.2 - d.config.timeWindow) →
      (feedAll d obs).getStats.dataPoints = obs.length) := by
  obtain ⟨hhist, _⟩ := addPricePoint_frame d price volume timestamp
  rw [hhist]
  unfold pruneHistory
  refine ⟨rfl, ?_, ?_, ?_, ?_⟩
  · intro p hp
    simpa using (List.mem_filter.mp hp).2
  · rw [List.filter_append]
    have hself : timestamp > timestamp - d.config.timeWindow := by linarith
    simp [List.filter_cons, hself]
  · rw [List.filter_filter]
    simp
  · intro obs hempty hsorted hwithin
    have h := feedAll_length_of_sorted d obs hempty hsorted hwithin
    simp [BounceDetector.getStats, h]

/-- Witness of C13 (amended): the three observations of the test suite, a second apart, on a fresh
default detector. -/
theorem addPricePoint_window_witness :
    (0 : ℚ) < (BounceDetector.create {}).config.timeWindow ∧
    (feedAll (BounceDetector.create {})
      [(1, 1000, 1000), (9 / 10, 1000, 2000), (11 / 10, 2000, 3000)]).getStats.dataPoints
      = [((1 : ℚ), (1000 : ℚ), (1000 : ℚ)), (9 / 10, 1000, 2000),
          (11 / 10, 2000, 3000)].length :=
  ⟨by norm_num [BounceDetector.create, spreadOver, orElse],
   (addPricePoint_window (BounceDetector.create {}) 1 1000 1000
      (by norm_num [BounceDetector.create, spreadOver, orElse])).2.2.2.2
    [(1, 1000, 1000), (9 / 10, 1000, 2000), (11 / 10, 2000, 3000)]
    (by simp [BounceDetector.create])
    (by norm_num)
    (by norm_num [BounceDetector.create, spreadOver, orElse])⟩

/-- C14: when the window holds fewer than three observations after the insertion and the
pruning, `addPricePoint` returns `null` and the signal log is unchanged, whatever the prices
and the volumes. -/
theorem addPricePoint_insufficient_history (d : BounceDetector) (price volume timestamp : ℚ)
    (hlen : (d.addPricePoint price volume timestamp).2.priceHistory.length < 3) :
    (d.addPricePoint price volume timestamp).1 = none ∧
    (d.addPricePoint price volume timestamp).2.signals = d.signals := by
  have hhist := (addPricePoint_frame d price volume timestamp).1
  rw [hhist] at hlen
  have hnone : (d.addPricePoint price volume timestamp).1 = none := by
    simp only [BounceDetector.addPricePoint]
    rw [detectBounce_of_short _ _ hlen]
  refine ⟨hnone, ?_⟩
  rw [addPricePoint_signals, hnone]
  simp

/-- Witness of C14: the second observation on a fresh detector, with a price jump and a
volume spike that would pass both tests. -/
theorem addPricePoint_insufficient_history_witness :
    (((BounceDetector.create {}).addPricePoint 1 1000 1).2.addPricePoint 2 9000 2).1 = none :=
  (addPricePoint_insufficient_history ((BounceDetector.create {}).addPricePoint 1 1000 1).2
    2 9000 2
    (by
      rw [(addPricePoint_frame _ _ _ _).1, (addPricePoint_frame _ _ _ _).1]
      norm_num [BounceDetector.create, pruneHistory, spreadOver, orElse,
        (addPricePoint_frame _ _ _ _).2])).1

/-- C18: when `addPricePoint` returns a signal, the signal log afterwards is the previous
log with that signal appended at the end; when it returns `null` the log is unchanged. In
both cases the previous log is a prefix of the new one: nothing is removed or reordered. -/
theorem addPricePoint_log_append (d : BounceDetector) (price volume timestamp : ℚ) :
    (∀ signal, (d.addPricePoint price volume timestamp).1 = some signal →
      (d.addPricePoint price volume timestamp).2.signals = d.signals ++ [signal]) ∧
    ((d.addPricePoint price volume timestamp).1 = none →
      (d.addPricePoint price volume timestamp).2.signals = d.signals) ∧
    d.signals <+: (d.addPricePoint price volume timestamp).2.signals := by
  have h := addPricePoint_signals d price volume timestamp
  refine ⟨?_, ?_, ?_⟩
  · intro signal hs
    rw [h, hs]
    rfl
  · intro hs
    rw [h, hs]
    simp
  · rw [h]
    exact List.prefix_append _ _

/-- C12: when the window holds at least three observations after the insertion and the
least price `lo` of the recent window (the last `min 10 n` observations) is positive,
`addPricePoint` returns a signal if and only if `(price - lo) / lo * 100 ≥ minBouncePercent`
and `volume / avgVolume ≥ volumeThreshold`, `avgVolume` being the mean volume of the recent
window; otherwise it returns `null`. The second comparison is the source's: for a non-zero
mean it is the comparison of the quotient, for a zero mean the quotient is `Infinity` or
`NaN` and the comparison holds exactly when the volume is positive. -/
theorem addPricePoint_fires_iff (d : BounceDetector) (price volume timestamp lo : ℚ)
    (hlen : 3 ≤ (d.addPricePoint price volume timestamp).2.priceHistory.length)
    (hmem : ∃ p ∈ lastTen (d.addPricePoint price volume timestamp).2.priceHistory, p.price = lo)
    (hmin : ∀ p ∈ lastTen (d.addPricePoint price volume timestamp).2.priceHistory, lo ≤ p.price)
    (hpos : 0 < lo) :
    (lastTen (d.addPricePoint price volume timestamp).2.priceHistory
        <:+ (d.addPricePoint price volume timestamp).2.priceHistory ∧
      (lastTen (d.addPricePoint price volume timestamp).2.priceHistory).length
        = min 10 (d.addPricePoint price volume timestamp).2.priceHistory.length) ∧
    ((d.addPricePoint price volume timestamp).1.isSome = true ↔
      d.config.minBouncePercent ≤ (price - lo) / lo * 100 ∧
      JSNum.ge
        (JSNum.div (JSNum.fin volume)
          (JSNum.fin (meanVolume (lastTen (d.addPricePoint price volume timestamp).2.priceHistory))))
        (JSNum.fin d.config.volumeThreshold) = true) ∧
    (meanVolume (lastTen (d.addPricePoint price volume timestamp).2.priceHistory) ≠ 0 →
      (JSNum.ge
        (JSNum.div (JSNum.fin volume)
          (JSNum.fin (meanVolume (lastTen (d.addPricePoint price volume timestamp).2.priceHistory))))
        (JSNum.fin d.config.volumeThreshold) = true ↔
      d.config.volumeThreshold
        ≤ volume / meanVolume (lastTen (d.addPricePoint price volume timestamp).2.priceHistory))) ∧
    (meanVolume (lastTen (d.addPricePoint price volume timestamp).2.priceHistory) = 0 →
      (JSNum.ge
        (JSNum.div (JSNum.fin volume)
          (JSNum.fin (meanVolume (lastTen (d.addPricePoint price volume timestamp).2.priceHistory))))
        (JSNum.fin d.config.volumeThreshold) = true ↔
      0 < volume)) := by
  have hne : (d.addPricePoint price volume timestamp).2.priceHistory ≠ [] := by
    intro h0
    rw [h0] at hlen
    simp at hlen
  have hlow := low_eq_of_least _ lo hmem hmin
  have havg := avgVolume_eq_mean _ hne
  refine ⟨lastTen_spec _, ?_, ?_, ?_⟩
  · rw [addPricePoint_isSome_iff]
    unfold BounceDetector.bouncePercent BounceDetector.volumeRatio
    rw [hlow, havg]
    simp [JSNum.sub, JSNum.neg, JSNum.add, JSNum.div, JSNum.mul, JSNum.ge, hpos.ne', hlen,
      sub_eq_add_neg]
  · intro hmean
    simp [JSNum.div, JSNum.ge, hmean]
  · intro hmean
    rw [hmean]
    simp only [JSNum.div, if_true, JSNum.signedInf]
    by_cases hv : 0 < volume
    · simp [hv, JSNum.ge]
    · by_cases hv2 : volume < 0
      · simp [hv, hv2, JSNum.ge]
      · simp [hv, hv2, JSNum.ge]

/-- Witness of C12: the fourth observation of the bounce scenario, low 0.7, price 1.1 and
volume 3000 against a mean of 1500. -/
theorem addPricePoint_fires_iff_witness :
    ((feedAll (BounceDetector.create {})
        [(1, 1000, 1), (9 / 10, 1000, 2), (7 / 10, 1000, 3)]).addPricePoint
        (11 / 10) 3000 4).1.isSome = true ↔
      (feedAll (BounceDetector.create {})
        [(1, 1000, 1), (9 / 10, 1000, 2), (7 / 10, 1000, 3)]).config.minBouncePercent
        ≤ (11 / 10 - 7 / 10) / (7 / 10) * 100 ∧
      JSNum.ge
        (JSNum.div (JSNum.fin 3000)
          (JSNum.fin (meanVolume (lastTen
            ((feedAll (BounceDetector.create {})
              [(1, 1000, 1), (9 / 10, 1000, 2), (7 / 10, 1000, 3)]).addPricePoint
              (11 / 10) 3000 4).2.priceHistory))))
        (JSNum.fin (feedAll (BounceDetector.create {})
          [(1, 1000, 1), (9 / 10, 1000, 2), (7 / 10, 1000, 3)]).config.volumeThreshold)
        = true := by
  have hhist : ((feedAll (BounceDetector.create {})
      [(1, 1000, 1), (9 / 10, 1000, 2), (7 / 10, 1000, 3)]).addPricePoint
      (11 / 10) 3000 4).2.priceHistory
      = [{ price := 1, volume := 1000, timestamp := 1 },
          { price := 9 / 10, volume := 1000, timestamp := 2 },
          { price := 7 / 10, volume := 1000, timestamp := 3 },
          { price := 11 / 10, volume := 3000, timestamp := 4 }] := by
    rw [(addPricePoint_frame _ _ _ _).1, feedAll_config,
      feedAll_length_of_sorted _ _ (by simp [BounceDetector.create]) (by norm_num)
        (by norm_num [BounceDetector.create, spreadOver, orElse])]
    norm_num [BounceDetector.create, pruneHistory, toPoint, spreadOver, orElse]
  exact (addPricePoint_fires_iff _ (11 / 10) 3000 4 (7 / 10)
    (by rw [hhist]; simp)
    (by rw [hhist]; simp [lastTen])
    (by rw [hhist]; norm_num [lastTen])
    (by norm_num)).2.1

/-- C15, at the failing input: on a default detector `calculateStrength(-100, 0)` is
`round(min(-100 / 5 * 50, 50) + min(0 / 1.5 * 50, 50)) = -1000`, an integer outside
`[0, 100]`: the two scores are capped at 50 from above and not bounded from below. -/
theorem calculateStrength_negative_input :
    (BounceDetector.create {}).calculateStrength (JSNum.fin (-100)) (JSNum.fin 0)
      = JSNum.fin (-1000) ∧
    ¬ ((0 : ℚ) ≤ -1000 ∧ (-1000 : ℚ) ≤ 100) := by
  constructor
  · have h := round_fin_int (-1000)
    norm_num at h
    norm_num [BounceDetector.calculateStrength, BounceDetector.create, spreadOver, orElse,
      JSNum.div, JSNum.mul, JSNum.min, JSNum.add]
    exact h
  · norm_num

/-- C16, as stated, fails: after `(1, 1000)` and `(0, 1000)` the observation `(1.1, 3000)`
has a recent-window low of 0, and `addPricePoint` returns and logs a signal whose
`bouncePercent` is `Infinity`. -/
theorem zero_low_counterexample :
    ((feedAll (BounceDetector.create {}) [(1, 1000, 1), (0, 1000, 2)]).addPricePoint
      (11 / 10) 3000 3).2.low = JSNum.fin 0 ∧
    ∃ signal : Signal,
      ((feedAll (BounceDetector.create {}) [(1, 1000, 1), (0, 1000, 2)]).addPricePoint
        (11 / 10) 3000 3).1 = some signal ∧
      signal.bouncePercent = JSNum.posInf ∧
      ((feedAll (BounceDetector.create {}) [(1, 1000, 1), (0, 1000, 2)]).addPricePoint
        (11 / 10) 3000 3).2.signals
        = (feedAll (BounceDetector.create {}) [(1, 1000, 1), (0, 1000, 2)]).signals
          ++ [signal] := by
  have hhist : ((feedAll (BounceDetector.create {}) [(1, 1000, 1), (0, 1000, 2)]).addPricePoint
      (11 / 10) 3000 3).2.priceHistory
      = [{ price := 1, volume := 1000, timestamp := 1 },
          { price := 0, volume := 1000, timestamp := 2 },
          { price := 11 / 10, volume := 3000, timestamp := 3 }] := by
    rw [(addPricePoint_frame _ _ _ _).1, feedAll_config,
      feedAll_length_of_sorted _ _ (by simp [BounceDetector.create]) (by norm_num)
        (by norm_num [BounceDetector.create, spreadOver, orElse])]
    norm_num [BounceDetector.create, pruneHistory, toPoint, spreadOver, orElse]
  have hlow : ((feedAll (BounceDetector.create {}) [(1, 1000, 1), (0, 1000, 2)]).addPricePoint
      (11 / 10) 3000 3).2.low = JSNum.fin 0 := by
    apply low_eq_of_least
    · rw [hhist]
      simp [lastTen]
    · rw [hhist]
      norm_num [lastTen]
  have hsome : ((feedAll (BounceDetector.create {}) [(1, 1000, 1), (0, 1000, 2)]).addPricePoint
      (11 / 10) 3000 3).1.isSome = true := by
    rw [addPricePoint_isSome_iff, bouncePercent_of_zero_low _ _ hlow]
    unfold BounceDetector.volumeRatio
    rw [avgVolume_eq_mean _ (by rw [hhist]; simp), hhist, feedAll_config]
    norm_num [JSNum.ge, JSNum.div, meanVolume, lastTen, BounceDetector.create, spreadOver,
      orElse]
  obtain ⟨signal, hsig⟩ := Option.isSome_iff_exists.mp hsome
  have hf := addPricePoint_signal_fields _ _ _ _ signal hsig
  refine ⟨hlow, signal, hsig, ?_, ?_⟩
  · rw [hf.2.2.2.2.1, bouncePercent_of_zero_low _ _ hlow]
    norm_num [JSNum.toFixed2]
  · rw [addPricePoint_signals, hsig]
    rfl

/-- C16, amended: there is no guard on a zero low. When the least price of the recent window
is 0, `addPricePoint` returns a signal if and only if the window holds at least three
observations, the inserted price is positive (the bounce percentage is then `Infinity`, which
passes the bounce test) and `volumeRatio ≥ volumeThreshold`; the signal returned carries
`bouncePercent = Infinity`. When the inserted price is 0 as well, the bounce percentage is
`NaN`, `addPricePoint` returns `null` and logs nothing. -/
theorem addPricePoint_zero_low (d : BounceDetector) (price volume timestamp : ℚ)
    (hlow : (d.addPricePoint price volume timestamp).2.low = JSNum.fin 0) :
    ((d.addPricePoint price volume timestamp).1.isSome = true ↔
      3 ≤ (d.addPricePoint price volume timestamp).2.priceHistory.length ∧
      0 < price ∧
      JSNum.ge
        ((d.addPricePoint price volume timestamp).2.volumeRatio
          { price := price, volume := volume, timestamp := timestamp })
        (JSNum.fin d.config.volumeThreshold) = true) ∧
    (∀ signal, (d.addPricePoint price volume timestamp).1 = some signal →
      signal.bouncePercent = JSNum.posInf ∧ signal.low = JSNum.fin 0) ∧
    (price = 0 →
      (d.addPricePoint price volume timestamp).2.bouncePercent
          { price := price, volume := volume, timestamp := timestamp } = JSNum.nan ∧
      (d.addPricePoint price volume timestamp).1 = none ∧
      (d.addPricePoint price volume timestamp).2.signals = d.signals) := by
  have hbp := bouncePercent_of_zero_low _
    { price := price, volume := volume, timestamp := timestamp } hlow
  have hiff : (d.addPricePoint price volume timestamp).1.isSome = true ↔
      3 ≤ (d.addPricePoint price volume timestamp).2.priceHistory.length ∧
      0 < price ∧
      JSNum.ge
        ((d.addPricePoint price volume timestamp).2.volumeRatio
          { price := price, volume := volume, timestamp := timestamp })
        (JSNum.fin d.config.volumeThreshold) = true := by
    rw [addPricePoint_isSome_iff, hbp]
    by_cases h1 : 0 < price
    · simp [h1, JSNum.ge]
    · by_cases h2 : price < 0
      · simp [h1, h2, JSNum.ge]
      · simp [h1, h2, JSNum.ge]
  refine ⟨hiff, ?_, ?_⟩
  · intro signal hsig
    have hpos : 0 < price := by
      have : (d.addPricePoint price volume timestamp).1.isSome = true := by rw [hsig]; rfl
      exact (hiff.mp this).2.1
    have hf := addPricePoint_signal_fields d price volume timestamp signal hsig
    rw [hf.2.2.2.2.1, hf.2.2.2.1, hbp, hlow]
    simp [hpos, JSNum.toFixed2]
  · intro h0
    have hnone : (d.addPricePoint price volume timestamp).1 = none := by
      rw [← Option.not_isSome_iff_eq_none]
      intro hs
      have := (hiff.mp hs).2.1
      rw [h0] at this
      exact lt_irrefl _ this
    refine ⟨?_, hnone, ?_⟩
    · rw [hbp]
      simp [h0]
    · rw [addPricePoint_signals, hnone]
      simp

/-- Witness of C16 (amended): a zero low under a positive price and a volume spike. -/
theorem addPricePoint_zero_low_witness :
    ((feedAll (BounceDetector.create {}) [(1, 1000, 1), (0, 1000, 2)]).addPricePoint
      (11 / 10) 3000 3).1.isSome = true ↔
      3 ≤ ((feedAll (BounceDetector.create {}) [(1, 1000, 1), (0, 1000, 2)]).addPricePoint
        (11 / 10) 3000 3).2.priceHistory.length ∧
      (0 : ℚ) < 11 / 10 ∧
      JSNum.ge
        (((feedAll (BounceDetector.create {}) [(1, 1000, 1), (0, 1000, 2)]).addPricePoint
          (11 / 10) 3000 3).2.volumeRatio
          { price := 11 / 10, volume := 3000, timestamp := 3 })
        (JSNum.fin (feedAll (BounceDetector.create {})
          [(1, 1000, 1), (0, 1000, 2)]).config.volumeThreshold) = true :=
  (addPricePoint_zero_low (feedAll (BounceDetector.create {}) [(1, 1000, 1), (0, 1000, 2)])
    (11 / 10) 3000 3
    (by
      have hhist : ((feedAll (BounceDetector.create {})
          [(1, 1000, 1), (0, 1000, 2)]).addPricePoint (11 / 10) 3000 3).2.priceHistory
          = [{ price := 1, volume := 1000, timestamp := 1 },
              { price := 0, volume := 1000, timestamp := 2 },
              { price := 11 / 10, volume := 3000, timestamp := 3 }] := by
        rw [(addPricePoint_frame _ _ _ _).1, feedAll_config,
          feedAll_length_of_sorted _ _ (by simp [BounceDetector.create]) (by norm_num)
            (by norm_num [BounceDetector.create, spreadOver, orElse])]
        norm_num [BounceDetector.create, pruneHistory, toPoint, spreadOver, orElse]
      apply low_eq_of_least
      · rw [hhist]
        simp [lastTen]
      · rw [hhist]
        norm_num [lastTen])).1

/-- The window after one more observation on the scenario detector (thresholds 5 and 1.5,
default time window), when the observations come in time order and all lie within the window
of the new one: nothing has been pruned. -/
theorem scenario_history (obs : List (ℚ × ℚ × ℚ)) (p v t : ℚ)
    (hs : (obs ++ [(p, v, t)]).Pairwise (fun a b => a.2.2 ≤ b.2.2))
    (hin : ∀ o ∈ obs ++ [(p, v, t)], t - 300000 < o.2.2) :
    ((feedAll (BounceDetector.create ⟨some 5, none, some (3 / 2)⟩) obs).addPricePoint
      p v t).2.priceHistory = (obs ++ [(p, v, t)]).map toPoint := by
  have hcfg : (BounceDetector.create ⟨some 5, none, some (3 / 2)⟩).config.timeWindow
      = 300000 := by
    simp [BounceDetector.create, spreadOver, orElse]
  have h := feedAll_length_of_sorted (BounceDetector.create ⟨some 5, none, some (3 / 2)⟩)
    (obs ++ [(p, v, t)]) rfl hs
    (by
      intro o ho l hl
      rw [List.getLast?_concat] at hl
      cases hl
      rw [hcfg]
      exact hin o ho)
  simpa [feedAll] using h

/-- The configuration of the scenario detector after any observations. -/
theorem scenario_config (obs : List (ℚ × ℚ × ℚ)) :
    (feedAll (BounceDetector.create ⟨some 5, none, some (3 / 2)⟩) obs).config
      = { minBouncePercent := 5, timeWindow := 300000, volumeThreshold := 3 / 2 } := by
  rw [feedAll_config]
  simp [BounceDetector.create, spreadOver, orElse]

/-- The strength of the scenario's signal. -/
theorem scenario_strength (d : BounceDetector)
    (hcfg : d.config = { minBouncePercent := 5, timeWindow := 300000, volumeThreshold := 3 / 2 }) :
    d.calculateStrength (JSNum.fin (400 / 7)) (JSNum.fin 2) = JSNum.fin 100 := by
  have hs := round_fin_int 100
  norm_num at hs
  rw [BounceDetector.calculateStrength, hcfg]
  norm_num [JSNum.div, JSNum.mul, JSNum.min, JSNum.add]
  exact hs

/-- The fourth call of the scenario: the values computed and the signal returned. -/
theorem scenario_fourth (t1 t2 t3 t4 : ℚ) (h12 : t1 < t2) (h23 : t2 < t3) (h34 : t3 < t4)
    (hw : t4 - 300000 < t1) :
    ((feedAll (BounceDetector.create ⟨some 5, none, some (3 / 2)⟩)
      [(1, 1000, t1), (9 / 10, 1000, t2), (7 / 10, 1000, t3)]).addPricePoint
        (11 / 10) 3000 t4).2.bouncePercent { price := 11 / 10, volume := 3000, timestamp := t4 }
      = JSNum.fin (400 / 7) ∧
    ((feedAll (BounceDetector.create ⟨some 5, none, some (3 / 2)⟩)
      [(1, 1000, t1), (9 / 10, 1000, t2), (7 / 10, 1000, t3)]).addPricePoint
        (11 / 10) 3000 t4).2.volumeRatio { price := 11 / 10, volume := 3000, timestamp := t4 }
      = JSNum.fin 2 ∧
    ((feedAll (BounceDetector.create ⟨some 5, none, some (3 / 2)⟩)
      [(1, 1000, t1), (9 / 10, 1000, t2), (7 / 10, 1000, t3)]).addPricePoint
        (11 / 10) 3000 t4).1
      = some
          { type := "BOUNCE"
            timestamp := t4
            price := 11 / 10
            low := JSNum.fin (7 / 10)
            bouncePercent := JSNum.fin (5714 / 100)
            volumeRatio := JSNum.fin 2
            strength := JSNum.fin 100 } := by
  have hist4 := scenario_history [(1, 1000, t1), (9 / 10, 1000, t2), (7 / 10, 1000, t3)]
    (11 / 10) 3000 t4
    (by simp [h12.le, h23.le, h34.le, (h12.trans h23).le, (h23.trans h34).le,
      ((h12.trans h23).trans h34).le])
    (by
      intro o ho
      simp only [List.cons_append, List.nil_append, List.mem_cons, List.mem_singleton,
        List.not_mem_nil, or_false] at ho
      rcases ho with h | h | h | h <;> rw [h] <;> show _ - _ < _ <;> linarith)
  simp only [List.nil_append, List.cons_append, List.map_cons, List.map_nil, toPoint] at hist4
  have hcfg := scenario_config [(1, 1000, t1), (9 / 10, 1000, t2), (7 / 10, 1000, t3)]
  have hlow4 := low_eq_of_least
    ((feedAll (BounceDetector.create ⟨some 5, none, some (3 / 2)⟩)
      [(1, 1000, t1), (9 / 10, 1000, t2), (7 / 10, 1000, t3)]).addPricePoint
        (11 / 10) 3000 t4).2 (7 / 10)
    (by rw [hist4]; simp [lastTen]) (by rw [hist4]; norm_num [lastTen])
  have hbp4 : ((feedAll (BounceDetector.create ⟨some 5, none, some (3 / 2)⟩)
      [(1, 1000, t1), (9 / 10, 1000, t2), (7 / 10, 1000, t3)]).addPricePoint
        (11 / 10) 3000 t4).2.bouncePercent { price := 11 / 10, volume := 3000, timestamp := t4 }
      = JSNum.fin (400 / 7) := by
    unfold BounceDetector.bouncePercent
    rw [hlow4]
    norm_num [JSNum.sub, JSNum.neg, JSNum.add, JSNum.div, JSNum.mul]
  have hvr4 : ((feedAll (BounceDetector.create ⟨some 5, none, some (3 / 2)⟩)
      [(1, 1000, t1), (9 / 10, 1000, t2), (7 / 10, 1000, t3)]).addPricePoint
        (11 / 10) 3000 t4).2.volumeRatio { price := 11 / 10, volume := 3000, timestamp := t4 }
      = JSNum.fin 2 := by
    unfold BounceDetector.volumeRatio
    rw [avgVolume_eq_mean _ (by rw [hist4]; simp), hist4]
    norm_num [JSNum.div, meanVolume, lastTen]
  refine ⟨hbp4, hvr4, ?_⟩
  have hsome : ((feedAll (BounceDetector.create ⟨some 5, none, some (3 / 2)⟩)
      [(1, 1000, t1), (9 / 10, 1000, t2), (7 / 10, 1000, t3)]).addPricePoint
        (11 / 10) 3000 t4).1.isSome = true := by
    rw [addPricePoint_isSome_iff, hbp4, hvr4, hist4, hcfg]
    norm_num [JSNum.ge]
  obtain ⟨signal, hsig⟩ := Option.isSome_iff_exists.mp hsome
  have hf := addPricePoint_signal_fields _ _ _ _ signal hsig
  rw [hbp4, hvr4, hlow4, scenario_strength _ hcfg] at hf
  obtain ⟨f1, f2, f3, f4, f5, f6, f7⟩ := hf
  have hb := toFixed2_bounce_scenario
  have hv := toFixed2_of_hundredths 200
  norm_num at hb hv
  simp only [JSNum.toFixed2, hb, hv] at f5 f6
  rw [hsig]
  cases signal
  simp only at f1 f2 f3 f4 f5 f6 f7
  rw [f1, f2, f3, f4, f5, f6, f7]
  norm_num

/-- The first three calls of the scenario return `null`. -/
theorem scenario_first_three (t1 t2 t3 t4 : ℚ) (h12 : t1 < t2) (h23 : t2 < t3) (h34 : t3 < t4)
    (hw : t4 - 300000 < t1) :
    ((BounceDetector.create ⟨some 5, none, some (3 / 2)⟩).addPricePoint 1 1000 t1).1 = none ∧
    ((feedAll (BounceDetector.create ⟨some 5, none, some (3 / 2)⟩)
      [(1, 1000, t1)]).addPricePoint (9 / 10) 1000 t2).1 = none ∧
    ((feedAll (BounceDetector.create ⟨some 5, none, some (3 / 2)⟩)
      [(1, 1000, t1), (9 / 10, 1000, t2)]).addPricePoint (7 / 10) 1000 t3).1 = none := by
  have hist1 := scenario_history [] 1 1000 t1 (by simp) (by simp)
  have hist2 := scenario_history [(1, 1000, t1)] (9 / 10) 1000 t2
    (by simp [h12.le])
    (by
      intro o ho
      simp only [List.cons_append, List.nil_append, List.mem_cons, List.mem_singleton,
        List.not_mem_nil, or_false] at ho
      rcases ho with h | h <;> rw [h] <;> show _ - _ < _ <;> linarith)
  have hist3 := scenario_history [(1, 1000, t1), (9 / 10, 1000, t2)] (7 / 10) 1000 t3
    (by simp [h12.le, h23.le, (h12.trans h23).le])
    (by
      intro o ho
      simp only [List.cons_append, List.nil_append, List.mem_cons, List.mem_singleton,
        List.not_mem_nil, or_false] at ho
      rcases ho with h | h | h <;> rw [h] <;> show _ - _ < _ <;> linarith)
  simp only [List.nil_append, List.cons_append, List.map_cons, List.map_nil, toPoint, feedAll,
    List.foldl_nil] at hist1
  simp only [List.nil_append, List.cons_append, List.map_cons, List.map_nil, toPoint]
    at hist2 hist3
  have hlow3 := low_eq_of_least
    ((feedAll (BounceDetector.create ⟨some 5, none, some (3 / 2)⟩)
      [(1, 1000, t1), (9 / 10, 1000, t2)]).addPricePoint (7 / 10) 1000 t3).2 (7 / 10)
    (by rw [hist3]; simp [lastTen]) (by rw [hist3]; norm_num [lastTen])
  refine ⟨?_, ?_, ?_⟩
  · apply Option.not_isSome_iff_eq_none.mp
    rw [addPricePoint_isSome_iff, hist1]
    simp
  · apply Option.not_isSome_iff_eq_none.mp
    rw [addPricePoint_isSome_iff, hist2]
    simp
  · apply Option.not_isSome_iff_eq_none.mp
    rw [addPricePoint_isSome_iff]
    unfold BounceDetector.bouncePercent
    rw [hlow3, scenario_config]
    norm_num [JSNum.sub, JSNum.neg, JSNum.add, JSNum.div, JSNum.mul, JSNum.ge]

/-- C17: a detector with `minBouncePercent = 5`, `volumeThreshold = 1.5` and the default
time window, fed `(1.0, 1000)`, `(0.9, 1000)`, `(0.7, 1000)`, `(1.1, 3000)` at increasing
timestamps within the window, returns `null` three times and then a BOUNCE signal with
`low = 0.7`, `price = 1.1`, a bounce percentage of `(1.1 - 0.7) / 0.7 * 100` (recorded to two
decimals, 57.14), a volume ratio of `3000 / 1500 = 2` and strength 100. -/
theorem bounce_scenario (t1 t2 t3 t4 : ℚ) (h12 : t1 < t2) (h23 : t2 < t3) (h34 : t3 < t4)
    (hw : t4 - 300000 < t1) :
    ((BounceDetector.create ⟨some 5, none, some (3 / 2)⟩).addPricePoint 1 1000 t1).1 = none ∧
    ((feedAll (BounceDetector.create ⟨some 5, none, some (3 / 2)⟩)
      [(1, 1000, t1)]).addPricePoint (9 / 10) 1000 t2).1 = none ∧
    ((feedAll (BounceDetector.create ⟨some 5, none, some (3 / 2)⟩)
      [(1, 1000, t1), (9 / 10, 1000, t2)]).addPricePoint (7 / 10) 1000 t3).1 = none ∧
    ((feedAll (BounceDetector.create ⟨some 5, none, some (3 / 2)⟩)
      [(1, 1000, t1), (9 / 10, 1000, t2), (7 / 10, 1000, t3)]).addPricePoint
        (11 / 10) 3000 t4).1
      = some
          { type := "BOUNCE"
            timestamp := t4
            price := 11 / 10
            low := JSNum.fin (7 / 10)
            bouncePercent := JSNum.fin (5714 / 100)
            volumeRatio := JSNum.fin 2
            strength := JSNum.fin 100 } ∧
    ((feedAll (BounceDetector.create ⟨some 5, none, some (3 / 2)⟩)
      [(1, 1000, t1), (9 / 10, 1000, t2), (7 / 10, 1000, t3)]).addPricePoint
        (11 / 10) 3000 t4).2.bouncePercent { price := 11 / 10, volume := 3000, timestamp := t4 }
      = JSNum.fin ((11 / 10 - 7 / 10) / (7 / 10) * 100) ∧
    ((feedAll (BounceDetector.create ⟨some 5, none, some (3 / 2)⟩)
      [(1, 1000, t1), (9 / 10, 1000, t2), (7 / 10, 1000, t3)]).addPricePoint
        (11 / 10) 3000 t4).2.volumeRatio { price := 11 / 10, volume := 3000, timestamp := t4 }
      = JSNum.fin (3000 / 1500) := by
  obtain ⟨n1, n2, n3⟩ := scenario_first_three t1 t2 t3 t4 h12 h23 h34 hw
  obtain ⟨hbp, hvr, hsig⟩ := scenario_fourth t1 t2 t3 t4 h12 h23 h34 hw
  refine ⟨n1, n2, n3, hsig, ?_, ?_⟩
  · rw [hbp]
    norm_num
  · rw [hvr]
    norm_num

/-- Witness of C17: the four observations a second apart. -/
theorem bounce_scenario_witness :
    ((feedAll (BounceDetector.create ⟨some 5, none, some (3 / 2)⟩)
      [(1, 1000, 1000), (9 / 10, 1000, 2000), (7 / 10, 1000, 3000)]).addPricePoint
        (11 / 10) 3000 4000).1
      = some
          { type := "BOUNCE"
            timestamp := 4000
            price := 11 / 10
            low := JSNum.fin (7 / 10)
            bouncePercent := JSNum.fin (5714 / 100)
            volumeRatio := JSNum.fin 2
            strength := JSNum.fin 100 } :=
  (bounce_scenario 1000 2000 3000 4000 (by norm_num) (by norm_num) (by norm_num)
    (by norm_num)).2.2.2.1

/-! ## Auxiliary lemmas on the classifier -/

section Classifier

variable {K : Type} [LinearOrderedField K]

/-- Where no stored weight is NaN, `weights[key] || 0` is the stored weight, an absent one
counting as 0. -/
theorem weightOrZero_eq_specWeight (m : Model K)
    (hnan : ∀ key, m.weights key ≠ some JSNum.nan) (key : String) :
    MLFilter.weightOrZero m key = specWeight m key := by
  unfold MLFilter.weightOrZero specWeight
  cases hk : m.weights key with
  | none => rfl
  | some w =>
    cases w with
    | fin x => rfl
    | posInf => rfl
    | negInf => rfl
    | nan => exact absurd hk (hnan key)

/-- The expression `weights[key] || 0` is the stored weight, an absent one and a NaN one
counting as 0. -/
theorem weightOrZero_eq_specWeightOrZero (m : Model K) (key : String) :
    MLFilter.weightOrZero m key = specWeightOrZero m key := by
  unfold MLFilter.weightOrZero specWeightOrZero
  cases hk : m.weights key with
  | none => rfl
  | some w => cases w <;> rfl

/-- The loop of `predict` on finite numbers: it adds the sum of the products. -/
theorem foldl_score_of_finite (B : Builtins K) (m : Model K)
    (hw : ∀ key w, m.weights key = some w → ∃ x, w = JSNum.fin x)
    (features : List (String × JSValue K)) :
    ∀ a : K,
      (∀ kv ∈ features, ∃ x, kv.2 = JSValue.number (JSNum.fin x)) →
      features.foldl
          (fun score kv =>
            JSNum.add score (JSNum.mul (MLFilter.weightOrZero m kv.1) (JSValue.toNumber B kv.2)))
          (JSNum.fin a)
        = JSNum.fin (a
            + (features.map
                (fun kv => JSNum.toFin (specWeight m kv.1) * JSValue.toFin kv.2)).sum) := by
  induction features with
  | nil => intro a _; simp
  | cons kv rest ih =>
    intro a hv
    obtain ⟨x, hx⟩ := hv kv (List.mem_cons_self _ _)
    have hrest : ∀ e ∈ rest, ∃ y, e.2 = JSValue.number (JSNum.fin y) :=
      fun e he => hv e (List.mem_cons_of_mem _ he)
    have hstep : JSNum.add (JSNum.fin a)
        (JSNum.mul (MLFilter.weightOrZero m kv.1) (JSValue.toNumber B kv.2))
        = JSNum.fin (a + JSNum.toFin (specWeight m kv.1) * JSValue.toFin kv.2) := by
      rw [hx]
      unfold MLFilter.weightOrZero specWeight
      cases hk : m.weights kv.1 with
      | none => simp [JSValue.toNumber, JSValue.toFin, JSNum.toFin, JSNum.mul, JSNum.add]
      | some w =>
        obtain ⟨y, hy⟩ := hw kv.1 w hk
        rw [hy]
        simp [JSValue.toNumber, JSValue.toFin, JSNum.toFin, JSNum.mul, JSNum.add,
          JSNum.orZero]
    simp only [List.foldl_cons, List.map_cons, List.sum_cons]
    rw [hstep, ih _ hrest]
    congr 1
    ring

/-- The sigmoid of a finite score, the exponential being positive. -/
theorem sigmoid_of_finite (B : Builtins K) (hexp : ∀ x, 0 < B.exp x) (s : K) :
    MLFilter.sigmoid B (JSNum.fin s) = JSNum.fin (1 / (1 + B.exp (-s))) := by
  have hne : 1 + B.exp (-s) ≠ 0 := by
    have := hexp (-s)
    linarith
  simp [MLFilter.sigmoid, JSNum.neg, JSNum.exp, JSNum.add, JSNum.div, hne]

/-- The probability `predict` returns on finite numbers. -/
theorem predict_of_finite (B : Builtins K) (f : MLFilter K) (signal : SignalInput K)
    (now : Nat) (hexp : ∀ x, 0 < B.exp x)
    (hbias : ∃ b, f.model.bias = JSNum.fin b)
    (hw : ∀ key w, f.model.weights key = some w → ∃ x, w = JSNum.fin x)
    (hv : ∀ kv ∈ MLFilter.extractFeatures B signal, ∃ x, kv.2 = JSValue.number (JSNum.fin x)) :
    (MLFilter.predict B f signal now).1.probability
      = JSNum.fin
          (1 / (1 + B.exp (-(specScore f.model (MLFilter.extractFeatures B signal))))) := by
  obtain ⟨b, hb⟩ := hbias
  have hfold := foldl_score_of_finite B f.model hw (MLFilter.extractFeatures B signal) b hv
  have hscore : MLFilter.score B f.model (MLFilter.extractFeatures B signal)
      = JSNum.fin (specScore f.model (MLFilter.extractFeatures B signal)) := by
    unfold MLFilter.score specScore
    rw [hb, hfold]
    rfl
  show MLFilter.sigmoid B (MLFilter.score B f.model (MLFilter.extractFeatures B signal)) = _
  rw [hscore, sigmoid_of_finite B hexp]

end Classifier

/-! ## The classifier's contract -/

/-- C19, as stated, fails on a model that stores a NaN weight: with the weight of `strength`
NaN and bias 0, `predict` on a signal of strength 80 returns the probability 1/2, because
`this.model.weights[key] || 0` reads the NaN weight as 0, while the formula with
`weight[f] * value[f]`, only an absent weight counting as 0, is NaN. -/
theorem predict_nan_weight_counterexample :
    (MLFilter.predict (⟨Real.exp, fun _ => JSNum.nan, fun _ => JSNum.nan⟩ : Builtins ℝ)
        { (MLFilter.create {} : MLFilter ℝ) with model := strengthOnlyModel JSNum.nan }
        ⟨JSValue.number (JSNum.fin 10), JSValue.number (JSNum.fin 2),
          JSValue.number (JSNum.fin 80), JSValue.undefined, JSValue.undefined⟩ 0).1.probability
      = JSNum.fin (1 / 2) ∧
    JSNum.div (JSNum.fin 1)
        (JSNum.add (JSNum.fin 1)
          (JSNum.exp Real.exp
            (JSNum.neg
              ((MLFilter.extractFeatures
                  (⟨Real.exp, fun _ => JSNum.nan, fun _ => JSNum.nan⟩ : Builtins ℝ)
                  ⟨JSValue.number (JSNum.fin 10), JSValue.number (JSNum.fin 2),
                    JSValue.number (JSNum.fin 80), JSValue.undefined,
                    JSValue.undefined⟩).foldl
                (fun acc kv =>
                  JSNum.add acc
                    (JSNum.mul (specWeight (strengthOnlyModel (JSNum.nan : JSNum ℝ)) kv.1)
                      (JSValue.toNumber
                        (⟨Real.exp, fun _ => JSNum.nan, fun _ => JSNum.nan⟩ : Builtins ℝ) kv.2)))
                (strengthOnlyModel (JSNum.nan : JSNum ℝ)).bias))))
      = JSNum.nan := by
  constructor
  · simp [MLFilter.predict, MLFilter.sigmoid, MLFilter.score, MLFilter.extractFeatures,
      MLFilter.weightOrZero, strengthOnlyModel, JSValue.parseFloat, JSValue.orZero,
      JSNum.orZero, JSValue.toNumber, JSNum.mul, JSNum.add, JSNum.neg, JSNum.exp, JSNum.div]
    norm_num
  · simp [MLFilter.extractFeatures, specWeight, strengthOnlyModel, JSValue.parseFloat,
      JSValue.orZero, JSNum.orZero, JSValue.toNumber, JSNum.mul, JSNum.add, JSNum.neg,
      JSNum.exp, JSNum.div]


/-- C19, amended: `predict` returns `probability = 1 / (1 + exp(-score))`, the score being
the bias plus, over the five extracted features in turn, `weight * value`, where an absent
weight and a NaN weight count as 0; and `shouldTrade` is true exactly when
`probability ≥ confidenceThreshold`. The first part is the source's arithmetic on every model;
on finite numbers it is the formula in the arithmetic of the field, `exp` being positive. -/
theorem predict_probability {K : Type} [LinearOrderedField K] (B : Builtins K)
    (f : MLFilter K) (signal : SignalInput K) (now : Nat) :
    (MLFilter.extractFeatures B signal).map Prod.fst
      = ["bouncePercent", "volumeRatio", "strength", "priceChange", "momentum"] ∧
    (MLFilter.predict B f signal now).1.probability
      = JSNum.div (JSNum.fin 1)
          (JSNum.add (JSNum.fin 1)
            (JSNum.exp B.exp
              (JSNum.neg
                ((MLFilter.extractFeatures B signal).foldl
                  (fun acc kv =>
                    JSNum.add acc
                      (JSNum.mul (specWeightOrZero f.model kv.1) (JSValue.toNumber B kv.2)))
                  f.model.bias)))) ∧
    ((MLFilter.predict B f signal now).1.shouldTrade = true ↔
      JSNum.ge (MLFilter.predict B f signal now).1.probability
        (JSNum.fin f.config.confidenceThreshold) = true) ∧
    ((∀ x, 0 < B.exp x) →
      (∃ b, f.model.bias = JSNum.fin b) →
      (∀ key w, f.model.weights key = some w → ∃ x, w = JSNum.fin x) →
      (∀ kv ∈ MLFilter.extractFeatures B signal, ∃ x, kv.2 = JSValue.number (JSNum.fin x)) →
      (MLFilter.predict B f signal now).1.probability
        = JSNum.fin
            (1 / (1 + B.exp (-(specScore f.model (MLFilter.extractFeatures B signal))))) ∧
      ((MLFilter.predict B f signal now).1.shouldTrade = true ↔
        f.config.confidenceThreshold
          ≤ 1 / (1 + B.exp (-(specScore f.model (MLFilter.extractFeatures B signal)))))) := by
  refine ⟨rfl, ?_, Iff.rfl, ?_⟩
  · show MLFilter.sigmoid B (MLFilter.score B f.model (MLFilter.extractFeatures B signal)) = _
    unfold MLFilter.sigmoid MLFilter.score
    have hfun : (fun (score : JSNum K) (kv : String × JSValue K) =>
          JSNum.add score
            (JSNum.mul (MLFilter.weightOrZero f.model kv.1) (JSValue.toNumber B kv.2)))
        = (fun acc kv =>
          JSNum.add acc
            (JSNum.mul (specWeightOrZero f.model kv.1) (JSValue.toNumber B kv.2))) := by
      funext acc kv
      rw [weightOrZero_eq_specWeightOrZero f.model]
    rw [hfun]
  · intro hexp hbias hw hv
    have hp := predict_of_finite B f signal now hexp hbias hw hv
    refine ⟨hp, ?_⟩
    show JSNum.ge (MLFilter.predict B f signal now).1.probability
      (JSNum.fin f.config.confidenceThreshold) = true ↔ _
    rw [hp]
    simp [JSNum.ge]

/-- C20: on a model whose bias and weights are finite and a signal whose five feature values
are finite, the probability `predict` returns is a finite number strictly between 0 and 1,
in the exact arithmetic of an ordered field on which `exp` is positive (the real numbers with
the real exponential). -/
theorem predict_probability_bounds {K : Type} [LinearOrderedField K] (B : Builtins K)
    (f : MLFilter K) (signal : SignalInput K) (now : Nat)
    (hexp : ∀ x, 0 < B.exp x)
    (hbias : ∃ b, f.model.bias = JSNum.fin b)
    (hw : ∀ key w, f.model.weights key = some w → ∃ x, w = JSNum.fin x)
    (hv : ∀ kv ∈ MLFilter.extractFeatures B signal, ∃ x, kv.2 = JSValue.number (JSNum.fin x)) :
    ∃ p : K, (MLFilter.predict B f signal now).1.probability = JSNum.fin p ∧ 0 < p ∧ p < 1 := by
  refine ⟨_, predict_of_finite B f signal now hexp hbias hw hv, ?_, ?_⟩
  · have := hexp (-(specScore f.model (MLFilter.extractFeatures B signal)))
    positivity
  · have h := hexp (-(specScore f.model (MLFilter.extractFeatures B signal)))
    rw [div_lt_one (by linarith)]
    linarith

/-- Witness of C19 (amended): a classifier over the real numbers with the real exponential
whose model stores the weight 1/100 for `strength`, and a signal with bounce 10, volume
ratio 2 and strength 80; the score is 4/5. -/
theorem predict_probability_witness :
    specScore (strengthOnlyModel (JSNum.fin (1 / 100 : ℝ)))
        (MLFilter.extractFeatures
          (⟨Real.exp, fun _ => JSNum.nan, fun _ => JSNum.nan⟩ : Builtins ℝ)
          ⟨JSValue.number (JSNum.fin 10), JSValue.number (JSNum.fin 2),
            JSValue.number (JSNum.fin 80), JSValue.undefined, JSValue.undefined⟩)
      = 4 / 5 ∧
    (MLFilter.predict (⟨Real.exp, fun _ => JSNum.nan, fun _ => JSNum.nan⟩ : Builtins ℝ)
        { (MLFilter.create {} : MLFilter ℝ) with
          model := strengthOnlyModel (JSNum.fin (1 / 100)) }
        ⟨JSValue.number (JSNum.fin 10), JSValue.number (JSNum.fin 2),
          JSValue.number (JSNum.fin 80), JSValue.undefined, JSValue.undefined⟩ 0).1.probability
      = JSNum.fin
          (1 / (1 + Real.exp (-(specScore (strengthOnlyModel (JSNum.fin (1 / 100 : ℝ)))
            (MLFilter.extractFeatures
              (⟨Real.exp, fun _ => JSNum.nan, fun _ => JSNum.nan⟩ : Builtins ℝ)
              ⟨JSValue.number (JSNum.fin 10), JSValue.number (JSNum.fin 2),
                JSValue.number (JSNum.fin 80), JSValue.undefined, JSValue.undefined⟩))))) :=
  ⟨by
    simp [specScore, specWeight, strengthOnlyModel, MLFilter.extractFeatures,
      JSValue.parseFloat, JSValue.orZero, JSNum.orZero, JSNum.toFin, JSValue.toFin]
    norm_num,
   ((predict_probability (⟨Real.exp, fun _ => JSNum.nan, fun _ => JSNum.nan⟩ : Builtins ℝ)
      { (MLFilter.create {} : MLFilter ℝ) with
        model := strengthOnlyModel (JSNum.fin (1 / 100)) }
      ⟨JSValue.number (JSNum.fin 10), JSValue.number (JSNum.fin 2),
        JSValue.number (JSNum.fin 80), JSValue.undefined, JSValue.undefined⟩ 0).2.2.2
    Real.exp_pos ⟨0, rfl⟩
    (by
      intro key w h
      simp only [strengthOnlyModel] at h
      split at h
      · exact ⟨_, (Option.some.inj h).symm⟩
      · exact absurd h (by simp))
    (by
      intro kv hkv
      simp only [MLFilter.extractFeatures, JSValue.parseFloat, JSValue.orZero, JSNum.orZero,
        List.mem_cons, List.mem_singleton, List.not_mem_nil, or_false] at hkv
      rcases hkv with h | h | h | h | h <;> rw [h] <;> exact ⟨_, rfl⟩)).1⟩

/-- Witness of C20: the same classifier and signal; the probability lies strictly between 0
and 1 over the real numbers. -/
theorem predict_probability_bounds_witness :
    ∃ p : ℝ,
      (MLFilter.predict (⟨Real.exp, fun _ => JSNum.nan, fun _ => JSNum.nan⟩ : Builtins ℝ)
        (MLFilter.create {})
        ⟨JSValue.number (JSNum.fin 10), JSValue.number (JSNum.fin 2),
          JSValue.number (JSNum.fin 80), JSValue.undefined, JSValue.undefined⟩ 0).1.probability
        = JSNum.fin p ∧ 0 < p ∧ p < 1 :=
  predict_probability_bounds (⟨Real.exp, fun _ => JSNum.nan, fun _ => JSNum.nan⟩ : Builtins ℝ)
    (MLFilter.create {})
    ⟨JSValue.number (JSNum.fin 10), JSValue.number (JSNum.fin 2),
      JSValue.number (JSNum.fin 80), JSValue.undefined, JSValue.undefined⟩ 0
    Real.exp_pos ⟨0, rfl⟩ (by intro key w h; simp [MLFilter.create] at h)
    (by
      intro kv hkv
      simp only [MLFilter.extractFeatures, JSValue.parseFloat, JSValue.orZero, JSNum.orZero,
        List.mem_cons, List.mem_singleton, List.not_mem_nil, or_false] at hkv
      rcases hkv with h | h | h | h | h <;> rw [h] <;> exact ⟨_, rfl⟩)

/-! ## Auxiliary lemmas on sorting -/

/-- Insertion adds the element and keeps the others. -/
theorem insertBy_perm {α : Type} (before : α → α → Bool) (a : α) (l : List α) :
    (insertBy before a l).Perm (a :: l) := by
  induction l with
  | nil => exact List.Perm.refl _
  | cons b l ih =>
    simp only [insertBy]
    split
    · exact List.Perm.refl _
    · exact (List.Perm.cons b ih).trans (List.Perm.swap a b l)

/-- The sorted list is a rearrangement of the input. -/
theorem sortBy_perm {α : Type} (before : α → α → Bool) (l : List α) :
    (sortBy before l).Perm l := by
  induction l with
  | nil => exact List.Perm.refl _
  | cons a l ih =>
    simp only [sortBy]
    exact (insertBy_perm before a _).trans (List.Perm.cons a ih)

/-- Insertion keeps a list arranged, for a relation that is transitive and total on the
elements at hand. -/
theorem insertBy_pairwise {α : Type} (before : α → α → Bool) (P : α → Prop)
    (htrans : ∀ a b c, P a → P b → P c →
      before a b = true → before b c = true → before a c = true)
    (htotal : ∀ a b, P a → P b → before a b = false → before b a = true)
    (a : α) (ha : P a) (l : List α) (hl : ∀ x ∈ l, P x)
    (hs : l.Pairwise (fun x y => before x y = true)) :
    (insertBy before a l).Pairwise (fun x y => before x y = true) := by
  induction l with
  | nil => simp [insertBy]
  | cons b l ih =>
    have hb : P b := hl b (List.mem_cons_self _ _)
    have hl' : ∀ x ∈ l, P x := fun x hx => hl x (List.mem_cons_of_mem _ hx)
    rw [List.pairwise_cons] at hs
    simp only [insertBy]
    by_cases hab : before a b = true
    · rw [if_pos hab]
      refine List.pairwise_cons.mpr ⟨?_, List.pairwise_cons.mpr hs⟩
      intro y hy
      rcases List.mem_cons.mp hy with hy | hy
      · rw [hy]
        exact hab
      · exact htrans a b y ha hb (hl' y hy) hab (hs.1 y hy)
    · rw [if_neg hab]
      refine List.pairwise_cons.mpr ⟨?_, ih hl' hs.2⟩
      intro y hy
      have hy' : y ∈ a :: l := (insertBy_perm before a l).mem_iff.mp hy
      rcases List.mem_cons.mp hy' with hy' | hy'
      · rw [hy']
        exact htotal a b ha hb (by simpa using hab)
      · exact hs.1 y hy'

/-- The sorted list is arranged, for a relation that is transitive and total on the elements
of the input. -/
theorem sortBy_pairwise {α : Type} (before : α → α → Bool) (P : α → Prop)
    (htrans : ∀ a b c, P a → P b → P c →
      before a b = true → before b c = true → before a c = true)
    (htotal : ∀ a b, P a → P b → before a b = false → before b a = true)
    (l : List α) (hl : ∀ x ∈ l, P x) :
    (sortBy before l).Pairwise (fun x y => before x y = true) := by
  induction l with
  | nil => simp [sortBy]
  | cons a l ih =>
    have hl' : ∀ x ∈ l, P x := fun x hx => hl x (List.mem_cons_of_mem _ hx)
    simp only [sortBy]
    apply insertBy_pairwise before P htrans htotal a (hl a (List.mem_cons_self _ _))
    · intro x hx
      exact hl' x ((sortBy_perm before l).mem_iff.mp hx)
    · exact ih hl'

/-- Insertion is stable: among elements that may all precede one another, the inserted one
comes first and the others keep their order. -/
theorem insertBy_filter {α : Type} (before : α → α → Bool) (q : α → Bool)
    (hq : ∀ a b, q a = true → q b = true → before a b = true) (a : α) (l : List α) :
    (insertBy before a l).filter q = (a :: l).filter q := by
  induction l with
  | nil => rfl
  | cons b l ih =>
    simp only [insertBy]
    by_cases hab : before a b = true
    · rw [if_pos hab]
    · rw [if_neg hab]
      have hnot : ¬ (q a = true ∧ q b = true) := fun h => hab (hq a b h.1 h.2)
      rw [List.filter_cons, ih]
      by_cases hqa : q a = true
      · have hqb : q b = false := by
          cases h : q b
          · rfl
          · exact absurd ⟨hqa, h⟩ hnot
        simp [List.filter_cons, hqa, hqb]
      · have hqa' : q a = false := by simpa using hqa
        simp [List.filter_cons, hqa']

/-- The sort is stable: elements that may all precede one another keep their input order. -/
theorem sortBy_filter {α : Type} (before : α → α → Bool) (q : α → Bool)
    (hq : ∀ a b, q a = true → q b = true → before a b = true) (l : List α) :
    (sortBy before l).filter q = l.filter q := by
  induction l with
  | nil => rfl
  | cons a l ih =>
    simp only [sortBy]
    rw [insertBy_filter before q hq, List.filter_cons, List.filter_cons, ih]

/-! ## Auxiliary lemmas on training and filtering -/

section Filtering

variable {K : Type} [LinearOrderedField K]

/-- On numbers that are not NaN, "the difference `b - a` is not positive" is `a ≥ b`. -/
theorem not_gt_sub_iff_ge (a b : JSNum K) (ha : a ≠ JSNum.nan) (hb : b ≠ JSNum.nan) :
    (!(JSNum.gt (JSNum.sub b a) (JSNum.fin 0))) = JSNum.ge a b := by
  cases a <;> cases b <;>
    simp [JSNum.sub, JSNum.neg, JSNum.add, JSNum.gt, JSNum.ge] at ha hb ⊢
  rw [← decide_not]
  exact decide_eq_decide.mpr not_le.symm

/-- `≥` is transitive on numbers. -/
theorem ge_trans_num (a b c : JSNum K) (hab : JSNum.ge a b = true)
    (hbc : JSNum.ge b c = true) : JSNum.ge a c = true := by
  cases a <;> cases b <;> cases c <;> simp [JSNum.ge] at hab hbc ⊢
  exact le_trans hbc hab

/-- `≥` is total on numbers that are not NaN. -/
theorem ge_total_num (a b : JSNum K) (ha : a ≠ JSNum.nan) (hb : b ≠ JSNum.nan)
    (hab : JSNum.ge a b = false) : JSNum.ge b a = true := by
  cases a <;> cases b <;> simp [JSNum.ge] at ha hb hab ⊢
  exact le_of_lt hab

/-- A prediction kept by the filter has a confidence that is not NaN. -/
theorem confidence_ne_nan_of_ge (x : JSNum K) (t : K)
    (h : JSNum.ge x (JSNum.fin t) = true) : x ≠ JSNum.nan := by
  intro hx
  rw [hx] at h
  simp [JSNum.ge] at h

/-- Two predictions of equal confidence: the comparator puts neither after the other. -/
theorem notAfter_of_confidence_eq (a b : Prediction K) (h : a.confidence = b.confidence) :
    MLFilter.notAfter a b = true := by
  unfold MLFilter.notAfter MLFilter.compareConfidence
  rw [h]
  cases b.confidence <;> simp [JSNum.sub, JSNum.neg, JSNum.add, JSNum.gt]

/-- What `predict` returns depends on the model and the configuration only. -/
theorem predict_fst_congr (B : Builtins K) (f g : MLFilter K) (signal : SignalInput K)
    (now : Nat) (hm : g.model = f.model) (hc : g.config = f.config) :
    (MLFilter.predict B g signal now).1 = (MLFilter.predict B f signal now).1 := by
  simp only [MLFilter.predict, hm, hc]

/-- The classifier after `predict`: the same model and configuration, one more entry in the
log. -/
theorem predict_snd (B : Builtins K) (f : MLFilter K) (signal : SignalInput K) (now : Nat) :
    (MLFilter.predict B f signal now).2.model = f.model ∧
    (MLFilter.predict B f signal now).2.config = f.config ∧
    (MLFilter.predict B f signal now).2.predictions
      = f.predictions ++ [(MLFilter.predict B f signal now).1] :=
  ⟨rfl, rfl, rfl⟩

/-- The predictions of a batch are those of each signal on the model as it stands at the
start, and all of them are logged. -/
theorem predictEach_spec (B : Builtins K) (now : Nat) (signals : List (SignalInput K)) :
    ∀ (f : MLFilter K) (acc : List (Prediction K)) (g : MLFilter K),
      g.model = f.model → g.config = f.config →
      (signals.foldl
        (fun acc signal =>
          (acc.1 ++ [(MLFilter.predict B acc.2 signal now).1],
            (MLFilter.predict B acc.2 signal now).2))
        (acc, g)).1
        = acc ++ signals.map (fun s => (MLFilter.predict B f s now).1) ∧
      (signals.foldl
        (fun acc signal =>
          (acc.1 ++ [(MLFilter.predict B acc.2 signal now).1],
            (MLFilter.predict B acc.2 signal now).2))
        (acc, g)).2.model = f.model ∧
      (signals.foldl
        (fun acc signal =>
          (acc.1 ++ [(MLFilter.predict B acc.2 signal now).1],
            (MLFilter.predict B acc.2 signal now).2))
        (acc, g)).2.predictions
        = g.predictions ++ signals.map (fun s => (MLFilter.predict B f s now).1) := by
  induction signals with
  | nil => intro f acc g hm _; simp [hm]
  | cons s rest ih =>
    intro f acc g hm hc
    have hp := predict_fst_congr B f g s now hm hc
    obtain ⟨h1, h2, h3⟩ := ih f (acc ++ [(MLFilter.predict B g s now).1])
      (MLFilter.predict B g s now).2 hm hc
    simp only [List.foldl_cons]
    refine ⟨?_, h2, ?_⟩
    · rw [h1, hp]
      simp
    · rw [h3, (predict_snd B g s now).2.2, hp]
      simp

end Filtering

/-- C21: with `signals` and `labels` of different lengths `train` throws (the message is
`Signals and labels must have the same length`) before it touches anything: every weight,
the bias, the recorded training data and the prediction log are as before. -/
theorem train_dimension_mismatch {K : Type} [LinearOrderedField K] (B : Builtins K)
    (random : Nat → K) (f : MLFilter K) (signals : List (SignalInput K))
    (labels : List (JSNum K)) (h : signals.length ≠ labels.length) :
    (MLFilter.train B random f signals labels).1
      = Except.error "Signals and labels must have the same length" ∧
    (MLFilter.train B random f signals labels).2.model.weights = f.model.weights ∧
    (MLFilter.train B random f signals labels).2.model.bias = f.model.bias ∧
    (MLFilter.train B random f signals labels).2.model.trainingData = f.model.trainingData ∧
    (MLFilter.train B random f signals labels).2.predictions = f.predictions := by
  simp only [MLFilter.train]
  rw [if_pos h]
  exact ⟨rfl, rfl, rfl, rfl, rfl⟩

/-- Witness of C21: one signal and no label, on a fresh classifier over the reals. -/
theorem train_dimension_mismatch_witness :
    (MLFilter.train (⟨Real.exp, fun _ => JSNum.nan, fun _ => JSNum.nan⟩ : Builtins ℝ)
      (fun _ => 1 / 2) (MLFilter.create {})
      [⟨JSValue.number (JSNum.fin 10), JSValue.number (JSNum.fin 2),
        JSValue.number (JSNum.fin 80), JSValue.undefined, JSValue.undefined⟩] []).1
      = Except.error "Signals and labels must have the same length" :=
  (train_dimension_mismatch (⟨Real.exp, fun _ => JSNum.nan, fun _ => JSNum.nan⟩ : Builtins ℝ)
    (fun _ => 1 / 2) (MLFilter.create {})
    [⟨JSValue.number (JSNum.fin 10), JSValue.number (JSNum.fin 2),
      JSValue.number (JSNum.fin 80), JSValue.undefined, JSValue.undefined⟩] []
    (by simp)).1

/-- C23: `filterSignals` returns a rearrangement of the predictions of the inputs whose
`shouldTrade` is true (each prediction being the one `predict` makes on the model as it
stands), arranged by non-increasing confidence, and the predictions of any one confidence
are in their input order. -/
theorem filterSignals_sorted {K : Type} [LinearOrderedField K] (B : Builtins K)
    (f : MLFilter K) (signals : List (SignalInput K)) (now : Nat) :
    (MLFilter.filterSignals B f signals now).1.Perm
      ((signals.map (fun s => (MLFilter.predict B f s now).1)).filter
        (fun pred => pred.shouldTrade)) ∧
    (MLFilter.filterSignals B f signals now).1.Pairwise
      (fun a b => JSNum.ge a.confidence b.confidence = true) ∧
    (∀ c : JSNum K,
      (MLFilter.filterSignals B f signals now).1.filter (fun pred => decide (pred.confidence = c))
        = ((signals.map (fun s => (MLFilter.predict B f s now).1)).filter
            (fun pred => pred.shouldTrade)).filter (fun pred => decide (pred.confidence = c))) := by
  have hpred : (MLFilter.predictEach B f signals now).1
      = signals.map (fun s => (MLFilter.predict B f s now).1) := by
    have := (predictEach_spec B now signals f [] f rfl rfl).1
    simpa [MLFilter.predictEach] using this
  have hkept : ∀ x ∈ (signals.map (fun s => (MLFilter.predict B f s now).1)).filter
      (fun pred => pred.shouldTrade), x.confidence ≠ JSNum.nan := by
    intro x hx
    obtain ⟨hmem, hst⟩ := List.mem_filter.mp hx
    obtain ⟨s, _, hs⟩ := List.mem_map.mp hmem
    rw [← hs] at hst ⊢
    exact confidence_ne_nan_of_ge _ _ hst
  simp only [MLFilter.filterSignals]
  rw [hpred]
  refine ⟨sortBy_perm _ _, ?_, ?_⟩
  · have hsorted := sortBy_pairwise MLFilter.notAfter
      (fun x : Prediction K => x.confidence ≠ JSNum.nan)
      (by
        intro a b c ha hb hc hab hbc
        unfold MLFilter.notAfter MLFilter.compareConfidence at hab hbc ⊢
        rw [not_gt_sub_iff_ge _ _ ha hb] at hab
        rw [not_gt_sub_iff_ge _ _ hb hc] at hbc
        rw [not_gt_sub_iff_ge _ _ ha hc]
        exact ge_trans_num _ _ _ hab hbc)
      (by
        intro a b ha hb hab
        unfold MLFilter.notAfter MLFilter.compareConfidence at hab ⊢
        rw [not_gt_sub_iff_ge _ _ ha hb] at hab
        rw [not_gt_sub_iff_ge _ _ hb ha]
        exact ge_total_num _ _ ha hb hab)
      _ hkept
    have hmem : ∀ x ∈ sortBy MLFilter.notAfter
        ((signals.map (fun s => (MLFilter.predict B f s now).1)).filter
          (fun pred => pred.shouldTrade)), x.confidence ≠ JSNum.nan :=
      fun x hx => hkept x ((sortBy_perm _ _).mem_iff.mp hx)
    refine List.Pairwise.imp_of_mem ?_ hsorted
    intro a b ha hb hab
    unfold MLFilter.notAfter MLFilter.compareConfidence at hab
    rw [not_gt_sub_iff_ge _ _ (hmem a ha) (hmem b hb)] at hab
    exact hab
  · intro c
    apply sortBy_filter
    intro a b ha hb
    apply notAfter_of_confidence_eq
    rw [of_decide_eq_true ha, of_decide_eq_true hb]

/-- C24: `predict` leaves the weights and the bias as they were and appends exactly one
entry, the prediction it returns, at the end of the prediction log; a later `predict` of the
same signal on a classifier with the same model and configuration (no `train` in between)
returns the same probability and the same `shouldTrade`. -/
theorem predict_frame {K : Type} [LinearOrderedField K] (B : Builtins K) (f : MLFilter K)
    (signal : SignalInput K) (now later : Nat) :
    (MLFilter.predict B f signal now).2.model.weights = f.model.weights ∧
    (MLFilter.predict B f signal now).2.model.bias = f.model.bias ∧
    (MLFilter.predict B f signal now).2.predictions
      = f.predictions ++ [(MLFilter.predict B f signal now).1] ∧
    (MLFilter.predict B (MLFilter.predict B f signal now).2 signal later).1.probability
      = (MLFilter.predict B f signal now).1.probability ∧
    (MLFilter.predict B (MLFilter.predict B f signal now).2 signal later).1.shouldTrade
      = (MLFilter.predict B f signal now).1.shouldTrade ∧
    (∀ g : MLFilter K, g.model = f.model → g.config = f.config →
      (MLFilter.predict B g signal later).1.probability
        = (MLFilter.predict B f signal now).1.probability ∧
      (MLFilter.predict B g signal later).1.shouldTrade
        = (MLFilter.predict B f signal now).1.shouldTrade) := by
  refine ⟨rfl, rfl, rfl, rfl, rfl, ?_⟩
  intro g hm hc
  constructor <;> simp only [MLFilter.predict, hm, hc]

/-- C25, at the failing input: for a signal whose `strength` is the string `abc` (the other
fields absent), `extractFeatures` returns that string as the `strength` feature, neither 0
nor a number, where the two parsed features are 0. -/
theorem extractFeatures_string_strength {K : Type} [LinearOrderedField K] (B : Builtins K) :
    MLFilter.extractFeatures B
        ⟨JSValue.undefined, JSValue.undefined, JSValue.string "abc", JSValue.undefined,
          JSValue.undefined⟩
      = [("bouncePercent", JSValue.number (JSNum.fin 0)),
         ("volumeRatio", JSValue.number (JSNum.fin 0)),
         ("strength", JSValue.string "abc"),
         ("priceChange", JSValue.number (JSNum.fin 0)),
         ("momentum", JSValue.number (JSNum.fin 0))] := by
  simp [MLFilter.extractFeatures, JSValue.parseFloat, JSValue.orZero, JSNum.orZero]

section Training

variable {K : Type} [LinearOrderedField K]

/-- The test `!weights[key]` holds for an absent weight, a zero weight and a NaN weight, and
for no other. -/
theorem weightMissing_iff (weights : String → Option (JSNum K)) (key : String) :
    MLFilter.weightMissing weights key = true ↔
      weights key = none ∨ weights key = some (JSNum.fin 0) ∨ weights key = some JSNum.nan := by
  unfold MLFilter.weightMissing
  cases h : weights key with
  | none => simp
  | some w => cases w <;> simp [JSNum.isTruthy]

/-- The loop that updates the weights, over features of distinct names: a name outside the
features keeps its weight; each feature ends with `w0 + learningRate * error * value`, where
`w0` is its weight before the loop when the test `!weights[key]` fails on it and a value
`Math.random() * 0.1 - 0.05` drawn during the loop when it holds; one value is drawn for
each feature on which the test holds. -/
theorem foldl_updateWeight_spec (B : Builtins K) (random : Nat → K) (learningRate : K)
    (error : JSNum K) (features : List (String × JSValue K)) :
    (features.map Prod.fst).Nodup →
    ∀ (weights : String → Option (JSNum K)) (n : Nat),
      (∀ k, k ∉ features.map Prod.fst →
        (features.foldl (MLFilter.updateWeight B random learningRate error) (weights, n)).1 k
          = weights k) ∧
      (∀ kv ∈ features, ∃ w0 : JSNum K,
        (features.foldl (MLFilter.updateWeight B random learningRate error) (weights, n)).1 kv.1
          = some (JSNum.add w0
              (JSNum.mul (JSNum.mul (JSNum.fin learningRate) error)
                (JSValue.toNumber B kv.2))) ∧
        (MLFilter.weightMissing weights kv.1 = false → weights kv.1 = some w0) ∧
        (MLFilter.weightMissing weights kv.1 = true →
          ∃ j, n ≤ j ∧
            j < (features.foldl (MLFilter.updateWeight B random learningRate error)
              (weights, n)).2 ∧
            w0 = JSNum.fin (random j * (1 / 10) - 1 / 20))) ∧
      (features.foldl (MLFilter.updateWeight B random learningRate error) (weights, n)).2
        = n + (features.filter (fun kv => MLFilter.weightMissing weights kv.1)).length := by
  induction features with
  | nil =>
    intro _ weights n
    simp
  | cons kv rest ih =>
    intro hnodup weights n
    simp only [List.map_cons, List.nodup_cons] at hnodup
    obtain ⟨hnotin, hrest⟩ := hnodup
    have hother : ∀ e ∈ rest, e.1 ≠ kv.1 := by
      intro e he heq
      exact hnotin (heq ▸ List.mem_map_of_mem Prod.fst he)
    obtain ⟨ih1, ih2, ih3⟩ := ih hrest
      (MLFilter.updateWeight B random learningRate error (weights, n) kv).1
      (MLFilter.updateWeight B random learningRate error (weights, n) kv).2
    have hmiss : ∀ e ∈ rest,
        MLFilter.weightMissing
          (MLFilter.updateWeight B random learningRate error (weights, n) kv).1 e.1
          = MLFilter.weightMissing weights e.1 := by
      intro e he
      simp [MLFilter.weightMissing, MLFilter.updateWeight, hother e he]
    have hcount : (MLFilter.updateWeight B random learningRate error (weights, n) kv).2
        = n + (if MLFilter.weightMissing weights kv.1 then 1 else 0) := by
      simp only [MLFilter.updateWeight]
      split <;> simp
    have hfilter : (rest.filter (fun e => MLFilter.weightMissing
        (MLFilter.updateWeight B random learningRate error (weights, n) kv).1 e.1))
        = rest.filter (fun e => MLFilter.weightMissing weights e.1) := by
      apply List.filter_congr
      intro e he
      exact hmiss e he
    have hmono : n ≤ (MLFilter.updateWeight B random learningRate error (weights, n) kv).2 := by
      rw [hcount]
      omega
    simp only [List.foldl_cons]
    refine ⟨?_, ?_, ?_⟩
    · intro k hk
      simp only [List.map_cons, List.mem_cons, not_or] at hk
      rw [ih1 k hk.2]
      simp [MLFilter.updateWeight, hk.1]
    · intro e he
      rcases List.mem_cons.mp he with he | he
      · rw [he, ih1 kv.1 hnotin]
        by_cases hm : MLFilter.weightMissing weights kv.1 = true
        · refine ⟨JSNum.fin (random n * (1 / 10) - 1 / 20), ?_, ?_, ?_⟩
          · simp [MLFilter.updateWeight, hm]
          · intro hf
            rw [hf] at hm
            cases hm
          · intro _
            refine ⟨n, le_refl n, ?_, rfl⟩
            rw [ih3, hcount, if_pos hm]
            omega
        · have hm' : MLFilter.weightMissing weights kv.1 = false := by simpa using hm
          have hsome : ∃ w, weights kv.1 = some w := by
            cases hw : weights kv.1 with
            | none => simp [MLFilter.weightMissing, hw] at hm'
            | some w => exact ⟨w, rfl⟩
          obtain ⟨w, hw⟩ := hsome
          refine ⟨w, ?_, ?_, ?_⟩
          · simp [MLFilter.updateWeight, hm', hw]
          · intro _
            exact hw
          · intro hf
            rw [hf] at hm'
            cases hm'
      · obtain ⟨w0, h1, h2, h3⟩ := ih2 e he
        rw [hmiss e he] at h2 h3
        refine ⟨w0, h1, ?_, ?_⟩
        · intro hf
          have := h2 hf
          simpa [MLFilter.updateWeight, hother e he] using this
        · intro ht
          obtain ⟨j, hj1, hj2, hj3⟩ := h3 ht
          exact ⟨j, le_trans hmono hj1, hj2, hj3⟩
    · rw [ih3, hfilter, hcount, List.filter_cons]
      by_cases hm : MLFilter.weightMissing weights kv.1 = true
      · simp [hm]
        omega
      · have hm' : MLFilter.weightMissing weights kv.1 = false := by simpa using hm
        simp [hm']

/-- The five feature names are distinct. -/
theorem extractFeatures_nodup (B : Builtins K) (signal : SignalInput K) :
    ((MLFilter.extractFeatures B signal).map Prod.fst).Nodup := by
  simp [MLFilter.extractFeatures]

end Training

/-- The weight of a feature whose value is the number 0, after one turn of the weight loop
on a finite error: the drawn value when the test `!weights[key]` holds. -/
theorem updateWeight_zero_value {K : Type} [LinearOrderedField K] (B : Builtins K)
    (random : Nat → K) (learningRate e : K) (weights : String → Option (JSNum K)) (n : Nat)
    (key : String) (hm : MLFilter.weightMissing weights key = true) :
    MLFilter.updateWeight B random learningRate (JSNum.fin e) (weights, n)
        (key, JSValue.number (JSNum.fin 0))
      = (fun k => if k = key then some (JSNum.fin (random n * (1 / 10) - 1 / 20)) else weights k,
         n + 1) := by
  simp [MLFilter.updateWeight, hm, JSValue.toNumber, JSNum.mul, JSNum.add]

/-- The error of a sample on finite numbers is finite, the exponential being positive. -/
theorem sampleError_of_finite {K : Type} [LinearOrderedField K] (B : Builtins K)
    (hexp : ∀ x, 0 < B.exp x) (m : Model K) (signal : SignalInput K) (label : K)
    (hbias : ∃ b, m.bias = JSNum.fin b)
    (hw : ∀ key w, m.weights key = some w → ∃ x, w = JSNum.fin x)
    (hv : ∀ kv ∈ MLFilter.extractFeatures B signal, ∃ x, kv.2 = JSValue.number (JSNum.fin x)) :
    MLFilter.sampleError B m (signal, JSNum.fin label)
      = JSNum.fin
          (label - 1 / (1 + B.exp (-(specScore m (MLFilter.extractFeatures B signal))))) := by
  obtain ⟨b, hb⟩ := hbias
  have hfold := foldl_score_of_finite B m hw (MLFilter.extractFeatures B signal) b hv
  have hscore : MLFilter.score B m (MLFilter.extractFeatures B signal)
      = JSNum.fin (specScore m (MLFilter.extractFeatures B signal)) := by
    unfold MLFilter.score specScore
    rw [hb, hfold]
    rfl
  unfold MLFilter.sampleError
  rw [hscore, sigmoid_of_finite B hexp]
  simp [JSNum.sub, JSNum.neg, JSNum.add, sub_eq_add_neg]

/-- One turn of `train` on a signal without any field, on finite numbers: every feature
whose weight is absent or zero gets a drawn weight, in the order of the features. -/
theorem trainSample_blank {K : Type} [LinearOrderedField K] (B : Builtins K)
    (hexp : ∀ x, 0 < B.exp x) (random : Nat → K) (learningRate : K) (m : Model K) (n : Nat)
    (label : K) (hbias : ∃ b, m.bias = JSNum.fin b)
    (hw : ∀ key, m.weights key = none ∨ m.weights key = some (JSNum.fin 0)) :
    (MLFilter.trainSample B random learningRate (m, n)
      (⟨JSValue.undefined, JSValue.undefined, JSValue.undefined, JSValue.undefined,
        JSValue.undefined⟩, JSNum.fin label)).1.weights "momentum"
      = some (JSNum.fin (random (n + 4) * (1 / 10) - 1 / 20)) ∧
    (∀ key, (MLFilter.trainSample B random learningRate (m, n)
      (⟨JSValue.undefined, JSValue.undefined, JSValue.undefined, JSValue.undefined,
        JSValue.undefined⟩, JSNum.fin label)).1.weights key = m.weights key ∨
      ∃ j, n ≤ j ∧ j < n + 5 ∧ (MLFilter.trainSample B random learningRate (m, n)
        (⟨JSValue.undefined, JSValue.undefined, JSValue.undefined, JSValue.undefined,
          JSValue.undefined⟩, JSNum.fin label)).1.weights key
        = some (JSNum.fin (random j * (1 / 10) - 1 / 20))) ∧
    (∃ b, (MLFilter.trainSample B random learningRate (m, n)
      (⟨JSValue.undefined, JSValue.undefined, JSValue.undefined, JSValue.undefined,
        JSValue.undefined⟩, JSNum.fin label)).1.bias = JSNum.fin b) ∧
    (MLFilter.trainSample B random learningRate (m, n)
      (⟨JSValue.undefined, JSValue.undefined, JSValue.undefined, JSValue.undefined,
        JSValue.undefined⟩, JSNum.fin label)).2 = n + 5 := by
  have hfeat : MLFilter.extractFeatures B
      (⟨JSValue.undefined, JSValue.undefined, JSValue.undefined, JSValue.undefined,
        JSValue.undefined⟩ : SignalInput K)
      = [("bouncePercent", JSValue.number (JSNum.fin 0)),
         ("volumeRatio", JSValue.number (JSNum.fin 0)),
         ("strength", JSValue.number (JSNum.fin 0)),
         ("priceChange", JSValue.number (JSNum.fin 0)),
         ("momentum", JSValue.number (JSNum.fin 0))] := by
    simp [MLFilter.extractFeatures, JSValue.parseFloat, JSValue.orZero, JSNum.orZero]
  have herr := sampleError_of_finite B hexp m
    (⟨JSValue.undefined, JSValue.undefined, JSValue.undefined, JSValue.undefined,
      JSValue.undefined⟩ : SignalInput K) label hbias
    (by
      intro key w hk
      rcases hw key with h | h
      · rw [h] at hk; cases hk
      · rw [h] at hk
        exact ⟨0, (Option.some.inj hk).symm⟩)
    (by
      intro kv hkv
      rw [hfeat] at hkv
      simp only [List.mem_cons, List.mem_singleton, List.not_mem_nil, or_false] at hkv
      rcases hkv with h | h | h | h | h <;> rw [h] <;> exact ⟨_, rfl⟩)
  have hmiss : ∀ (w : String → Option (JSNum K)) (key : String),
      (w key = none ∨ w key = some (JSNum.fin 0)) → MLFilter.weightMissing w key = true := by
    intro w key h
    rw [weightMissing_iff]
    rcases h with h | h
    · exact Or.inl h
    · exact Or.inr (Or.inl h)
  obtain ⟨b, hb⟩ := hbias
  simp only [MLFilter.trainSample, herr, hfeat, List.foldl_cons, List.foldl_nil]
  rw [updateWeight_zero_value B random learningRate _ m.weights n "bouncePercent"
    (hmiss _ _ (hw _))]
  rw [updateWeight_zero_value B random learningRate _ _ (n + 1) "volumeRatio"
    (hmiss _ _ (by simpa using hw "volumeRatio"))]
  rw [updateWeight_zero_value B random learningRate _ _ (n + 1 + 1) "strength"
    (hmiss _ _ (by simpa using hw "strength"))]
  rw [updateWeight_zero_value B random learningRate _ _ (n + 1 + 1 + 1) "priceChange"
    (hmiss _ _ (by simpa using hw "priceChange"))]
  rw [updateWeight_zero_value B random learningRate _ _ (n + 1 + 1 + 1 + 1) "momentum"
    (hmiss _ _ (by simpa using hw "momentum"))]
  refine ⟨by simp, ?_, ?_, by simp⟩
  · intro key
    simp only
    by_cases h5 : key = "momentum"
    · right; exact ⟨n + 1 + 1 + 1 + 1, by omega, by omega, by rw [if_pos h5]⟩
    · rw [if_neg h5]
      by_cases h4 : key = "priceChange"
      · right; exact ⟨n + 1 + 1 + 1, by omega, by omega, by rw [if_pos h4]⟩
      · rw [if_neg h4]
        by_cases h3 : key = "strength"
        · right; exact ⟨n + 1 + 1, by omega, by omega, by rw [if_pos h3]⟩
        · rw [if_neg h3]
          by_cases h2 : key = "volumeRatio"
          · right; exact ⟨n + 1, by omega, by omega, by rw [if_pos h2]⟩
          · rw [if_neg h2]
            by_cases h1 : key = "bouncePercent"
            · right; exact ⟨n, by omega, by omega, by rw [if_pos h1]⟩
            · rw [if_neg h1]
              left; trivial
  · rw [hb]
    simp [JSNum.mul, JSNum.add]

/-- C22, as stated, fails: a weight is drawn again when the feature has been encountered
before and its weight is 0. A fresh classifier over the reals is trained on two signals
without any field, both labelled 1, `Math.random()` returning 0.5 five times and 0.9
afterwards. After the first sample the weight of `momentum` exists and is 0; the second
sample draws it anew, and it ends at 0.04 where `0 + learningRate * error * 0` is 0. -/
theorem train_redraw_counterexample :
    (MLFilter.train (⟨Real.exp, fun _ => JSNum.nan, fun _ => JSNum.nan⟩ : Builtins ℝ)
      (fun j => if j < 5 then 1 / 2 else 9 / 10) (MLFilter.create {})
      [⟨JSValue.undefined, JSValue.undefined, JSValue.undefined, JSValue.undefined,
          JSValue.undefined⟩,
        ⟨JSValue.undefined, JSValue.undefined, JSValue.undefined, JSValue.undefined,
          JSValue.undefined⟩]
      [JSNum.fin 1, JSNum.fin 1]).1 = Except.ok () ∧
    (MLFilter.train (⟨Real.exp, fun _ => JSNum.nan, fun _ => JSNum.nan⟩ : Builtins ℝ)
      (fun j => if j < 5 then 1 / 2 else 9 / 10) (MLFilter.create {})
      [⟨JSValue.undefined, JSValue.undefined, JSValue.undefined, JSValue.undefined,
          JSValue.undefined⟩]
      [JSNum.fin 1]).2.model.weights "momentum" = some (JSNum.fin 0) ∧
    (MLFilter.train (⟨Real.exp, fun _ => JSNum.nan, fun _ => JSNum.nan⟩ : Builtins ℝ)
      (fun j => if j < 5 then 1 / 2 else 9 / 10) (MLFilter.create {})
      [⟨JSValue.undefined, JSValue.undefined, JSValue.undefined, JSValue.undefined,
          JSValue.undefined⟩,
        ⟨JSValue.undefined, JSValue.undefined, JSValue.undefined, JSValue.undefined,
          JSValue.undefined⟩]
      [JSNum.fin 1, JSNum.fin 1]).2.model.weights "momentum" = some (JSNum.fin (1 / 25)) ∧
    (1 / 25 : ℝ) ≠ 0 := by
  have h1 := trainSample_blank (⟨Real.exp, fun _ => JSNum.nan, fun _ => JSNum.nan⟩ : Builtins ℝ)
    Real.exp_pos (fun j => if j < 5 then 1 / 2 else 9 / 10) (1 / 100)
    (Model.mk (fun _ => none) (JSNum.fin 0)
      ([] ++ List.zip
        [(⟨JSValue.undefined, JSValue.undefined, JSValue.undefined, JSValue.undefined,
          JSValue.undefined⟩ : SignalInput ℝ)] [JSNum.fin 1]))
    0 1 ⟨0, rfl⟩ (fun _ => Or.inl rfl)
  have h1' := trainSample_blank
    (⟨Real.exp, fun _ => JSNum.nan, fun _ => JSNum.nan⟩ : Builtins ℝ)
    Real.exp_pos (fun j => if j < 5 then 1 / 2 else 9 / 10) (1 / 100)
    (Model.mk (fun _ => none) (JSNum.fin 0)
      ([] ++ List.zip
        [(⟨JSValue.undefined, JSValue.undefined, JSValue.undefined, JSValue.undefined,
          JSValue.undefined⟩ : SignalInput ℝ),
          ⟨JSValue.undefined, JSValue.undefined, JSValue.undefined, JSValue.undefined,
          JSValue.undefined⟩] [JSNum.fin 1, JSNum.fin 1]))
    0 1 ⟨0, rfl⟩ (fun _ => Or.inl rfl)
  obtain ⟨_, hkeys, hbias, hcount⟩ := h1'
  have h2 := trainSample_blank
    (⟨Real.exp, fun _ => JSNum.nan, fun _ => JSNum.nan⟩ : Builtins ℝ)
    Real.exp_pos (fun j => if j < 5 then 1 / 2 else 9 / 10) (1 / 100)
    (MLFilter.trainSample (⟨Real.exp, fun _ => JSNum.nan, fun _ => JSNum.nan⟩ : Builtins ℝ)
      (fun j => if j < 5 then 1 / 2 else 9 / 10) (1 / 100)
      (Model.mk (fun _ => none) (JSNum.fin 0)
        ([] ++ List.zip
          [(⟨JSValue.undefined, JSValue.undefined, JSValue.undefined, JSValue.undefined,
            JSValue.undefined⟩ : SignalInput ℝ),
            ⟨JSValue.undefined, JSValue.undefined, JSValue.undefined, JSValue.undefined,
            JSValue.undefined⟩] [JSNum.fin 1, JSNum.fin 1]), 0)
      (⟨JSValue.undefined, JSValue.undefined, JSValue.undefined, JSValue.undefined,
        JSValue.undefined⟩, JSNum.fin 1)).1
    5 1 hbias
    (by
      intro key
      rcases hkeys key with h | ⟨j, _, hj, h⟩
      · left
        rw [h]
      · right
        rw [h]
        have hj5 : j < 5 := by omega
        simp only [if_pos hj5]
        norm_num)
  refine ⟨?_, ?_, ?_, by norm_num⟩
  · simp [MLFilter.train]
  · have := h1.1
    norm_num at this
    simpa [MLFilter.train, MLFilter.create, spreadOverIn] using this
  · have h := h2.1
    norm_num at h
    have hpair : MLFilter.trainSample
        (⟨Real.exp, fun _ => JSNum.nan, fun _ => JSNum.nan⟩ : Builtins ℝ)
        (fun j => if j < 5 then 1 / 2 else 9 / 10) (1 / 100)
        (Model.mk (fun _ => none) (JSNum.fin 0)
          ([] ++ List.zip
            [(⟨JSValue.undefined, JSValue.undefined, JSValue.undefined, JSValue.undefined,
              JSValue.undefined⟩ : SignalInput ℝ),
              ⟨JSValue.undefined, JSValue.undefined, JSValue.undefined, JSValue.undefined,
              JSValue.undefined⟩] [JSNum.fin 1, JSNum.fin 1]), 0)
        (⟨JSValue.undefined, JSValue.undefined, JSValue.undefined, JSValue.undefined,
          JSValue.undefined⟩, JSNum.fin 1)
        = ((MLFilter.trainSample
          (⟨Real.exp, fun _ => JSNum.nan, fun _ => JSNum.nan⟩ : Builtins ℝ)
          (fun j => if j < 5 then 1 / 2 else 9 / 10) (1 / 100)
          (Model.mk (fun _ => none) (JSNum.fin 0)
            ([] ++ List.zip
              [(⟨JSValue.undefined, JSValue.undefined, JSValue.undefined, JSValue.undefined,
                JSValue.undefined⟩ : SignalInput ℝ),
                ⟨JSValue.undefined, JSValue.undefined, JSValue.undefined, JSValue.undefined,
                JSValue.undefined⟩] [JSNum.fin 1, JSNum.fin 1]), 0)
          (⟨JSValue.undefined, JSValue.undefined, JSValue.undefined, JSValue.undefined,
            JSValue.undefined⟩, JSNum.fin 1)).1, 5) := by
      apply Prod.ext
      · rfl
      · simpa using hcount
    simp only [MLFilter.train, MLFilter.create, spreadOverIn, List.length_cons, List.length_nil,
      ne_eq, not_true_eq_false, if_false, List.zip_cons_cons, List.zip_nil_right,
      List.foldl_cons, List.foldl_nil]
    simp only [List.zip_cons_cons, List.zip_nil_right] at hpair h
    rw [hpair]
    exact h

/-- C22, amended: `train` with as many labels as signals is one pass over the samples in
input order. At each sample, with the error `label - sigmoid(score)` computed from the model
as it stands, the bias becomes `bias + learningRate * error` and every feature weight becomes
`w0 + learningRate * error * value`, where `w0` is the feature's current weight when it has
one that is neither 0 nor NaN, and otherwise a value `Math.random() * 0.1 - 0.05` drawn at
that sample, which lies in `[-0.05, 0.05)`: a weight is drawn whenever the feature has no
weight or a weight of 0, not only the first time the feature is met. -/
theorem train_one_pass {K : Type} [LinearOrderedField K] (B : Builtins K) (random : Nat → K)
    (f : MLFilter K) (signals : List (SignalInput K)) (labels : List (JSNum K))
    (hlen : signals.length = labels.length) :
    (MLFilter.train B random f signals labels).1 = Except.ok () ∧
    (MLFilter.train B random f signals labels).2.model
      = ((signals.zip labels).foldl (MLFilter.trainSample B random f.config.learningRate)
          (Model.mk f.model.weights f.model.bias
            (f.model.trainingData ++ signals.zip labels), 0)).1 ∧
    (∀ (m : Model K) (n : Nat) (sample : SignalInput K × JSNum K),
      MLFilter.sampleError B m sample
        = JSNum.sub sample.2
            (MLFilter.sigmoid B (MLFilter.score B m (MLFilter.extractFeatures B sample.1))) ∧
      (MLFilter.trainSample B random f.config.learningRate (m, n) sample).1.bias
        = JSNum.add m.bias
            (JSNum.mul (JSNum.fin f.config.learningRate) (MLFilter.sampleError B m sample)) ∧
      (∀ kv ∈ MLFilter.extractFeatures B sample.1, ∃ w0 : JSNum K,
        (MLFilter.trainSample B random f.config.learningRate (m, n) sample).1.weights kv.1
          = some (JSNum.add w0
              (JSNum.mul
                (JSNum.mul (JSNum.fin f.config.learningRate) (MLFilter.sampleError B m sample))
                (JSValue.toNumber B kv.2))) ∧
        (¬ (m.weights kv.1 = none ∨ m.weights kv.1 = some (JSNum.fin 0)
            ∨ m.weights kv.1 = some JSNum.nan) → m.weights kv.1 = some w0) ∧
        ((m.weights kv.1 = none ∨ m.weights kv.1 = some (JSNum.fin 0)
            ∨ m.weights kv.1 = some JSNum.nan) →
          ∃ j, n ≤ j ∧
            j < (MLFilter.trainSample B random f.config.learningRate (m, n) sample).2 ∧
            w0 = JSNum.fin (random j * (1 / 10) - 1 / 20)))) ∧
    ((∀ j, 0 ≤ random j ∧ random j < 1) →
      ∀ j, -(1 / 20) ≤ random j * (1 / 10) - 1 / 20 ∧ random j * (1 / 10) - 1 / 20 < 1 / 20) := by
  refine ⟨?_, ?_, ?_, ?_⟩
  · simp [MLFilter.train, hlen]
  · simp [MLFilter.train, hlen]
  · intro m n sample
    refine ⟨rfl, rfl, ?_⟩
    intro kv hkv
    obtain ⟨_, hspec, _⟩ := foldl_updateWeight_spec B random f.config.learningRate
      (MLFilter.sampleError B m sample) (MLFilter.extractFeatures B sample.1)
      (extractFeatures_nodup B sample.1) m.weights n
    obtain ⟨w0, h1, h2, h3⟩ := hspec kv hkv
    refine ⟨w0, h1, ?_, ?_⟩
    · intro hnot
      apply h2
      rw [← weightMissing_iff] at hnot
      simpa using hnot
    · intro hyes
      exact h3 ((weightMissing_iff _ _).mpr hyes)
  · intro hr j
    obtain ⟨h0, h1⟩ := hr j
    constructor <;> linarith

/-- Witness of C22 (amended): one sample, a signal with bounce 10, volume ratio 2 and
strength 80 labelled 1, on a fresh classifier over the reals. -/
theorem train_one_pass_witness :
    (MLFilter.train (⟨Real.exp, fun _ => JSNum.nan, fun _ => JSNum.nan⟩ : Builtins ℝ)
      (fun _ => 1 / 4) (MLFilter.create {})
      [⟨JSValue.number (JSNum.fin 10), JSValue.number (JSNum.fin 2),
        JSValue.number (JSNum.fin 80), JSValue.undefined, JSValue.undefined⟩]
      [JSNum.fin 1]).1 = Except.ok () :=
  (train_one_pass (⟨Real.exp, fun _ => JSNum.nan, fun _ => JSNum.nan⟩ : Builtins ℝ)
    (fun _ => 1 / 4) (MLFilter.create {})
    [⟨JSValue.number (JSNum.fin 10), JSValue.number (JSNum.fin 2),
      JSValue.number (JSNum.fin 80), JSValue.undefined, JSValue.undefined⟩]
    [JSNum.fin 1] rfl).1

/-! ## Auxiliary lemmas on the backtesting engine -/

theorem orElse_fin_of_ne {K : Type} [LinearOrderedField K] (x : K) (b : JSNum K) (hx : x ≠ 0) :
    JSNum.orElse (JSNum.fin x) b = JSNum.fin x := by
  simp [JSNum.orElse, JSNum.isTruthy, hx]

theorem orElse_nan {K : Type} [LinearOrderedField K] (b : JSNum K) :
    JSNum.orElse JSNum.nan b = b := by
  simp [JSNum.orElse, JSNum.isTruthy]

theorem orElse_zero {K : Type} [LinearOrderedField K] (b : JSNum K) :
    JSNum.orElse (JSNum.fin 0) b = b := by
  simp [JSNum.orElse, JSNum.isTruthy]

/-- The outcome of `executeBacktestTrade` on a BUY. -/
theorem executeBacktestTrade_buy (e : BacktestEngine) (signal : Instruction)
    (dataPoint : DataPoint) (capital : JSNum ℚ) (positions : Positions)
    (haction : signal.action = "BUY") :
    e.executeBacktestTrade signal dataPoint capital positions =
      if JSNum.gt (e.buyTotalCost signal dataPoint capital) capital then
        BacktestResult.failure "Insufficient capital"
      else
        BacktestResult.ok
          { action := "BUY"
            symbol := signal.symbol
            quantity := BacktestEngine.tradeQuantity signal dataPoint capital
            price := BacktestEngine.tradePrice signal dataPoint
            cost := some (e.buyTotalCost signal dataPoint capital)
            revenue := none
            profit := none
            profitPercent := none
            holdTime := none
            timestamp := dataPoint.timestamp } := by
  simp only [BacktestEngine.executeBacktestTrade, haction, if_true]

/-- The outcome of `executeBacktestTrade` on a SELL of a symbol with no position. -/
theorem executeBacktestTrade_sell_none (e : BacktestEngine) (signal : Instruction)
    (dataPoint : DataPoint) (capital : JSNum ℚ) (positions : Positions)
    (haction : signal.action = "SELL")
    (hnone : lookupPosition positions signal.symbol = PositionLookup.absent) :
    e.executeBacktestTrade signal dataPoint capital positions =
      BacktestResult.failure "No position to sell" := by
  simp [BacktestEngine.executeBacktestTrade, haction, hnone, positionFields]

/-- The outcome of `executeBacktestTrade` on a SELL of a symbol with a position. -/
theorem executeBacktestTrade_sell_some (e : BacktestEngine) (signal : Instruction)
    (dataPoint : DataPoint) (capital : JSNum ℚ) (positions : Positions)
    (position : BacktestPosition) (haction : signal.action = "SELL")
    (hsome : lookupPosition positions signal.symbol = PositionLookup.found position) :
    e.executeBacktestTrade signal dataPoint capital positions =
      BacktestResult.ok
        { action := "SELL"
          symbol := signal.symbol
          quantity := JSNum.orElse (optNum signal.quantity) position.quantity
          price := BacktestEngine.tradePrice signal dataPoint
          cost := none
          revenue := some (JSNum.mul
            (JSNum.mul (JSNum.orElse (optNum signal.quantity) position.quantity)
              (BacktestEngine.tradePrice signal dataPoint).toNum)
            (JSNum.fin (1 - e.config.commission - e.config.slippage)))
          profit := some (JSNum.sub
            (JSNum.mul
              (JSNum.mul (JSNum.orElse (optNum signal.quantity) position.quantity)
                (BacktestEngine.tradePrice signal dataPoint).toNum)
              (JSNum.fin (1 - e.config.commission - e.config.slippage)))
            (JSNum.mul position.entryPrice.toNum
              (JSNum.orElse (optNum signal.quantity) position.quantity)))
          profitPercent := some (JSNum.toFixed2 (JSNum.mul
            (JSNum.div
              (JSNum.sub
                (JSNum.mul
                  (JSNum.mul (JSNum.orElse (optNum signal.quantity) position.quantity)
                    (BacktestEngine.tradePrice signal dataPoint).toNum)
                  (JSNum.fin (1 - e.config.commission - e.config.slippage)))
                (JSNum.mul position.entryPrice.toNum
                  (JSNum.orElse (optNum signal.quantity) position.quantity)))
              (JSNum.mul position.entryPrice.toNum
                (JSNum.orElse (optNum signal.quantity) position.quantity)))
            (JSNum.fin 100)))
          holdTime := some (JSNum.sub (JSNum.fin dataPoint.timestamp)
            (JSNum.fin position.entryTime))
          timestamp := dataPoint.timestamp } := by
  simp only [BacktestEngine.executeBacktestTrade, haction, hsome, positionFields]
  simp

/-- The outcome of `executeBacktestTrade` on a SELL of a symbol whose lookup in `positions`
finds a truthy value that is no position: the fields read from it are `undefined`. -/
theorem executeBacktestTrade_sell_member (e : BacktestEngine) (signal : Instruction)
    (dataPoint : DataPoint) (capital : JSNum ℚ) (positions : Positions)
    (haction : signal.action = "SELL")
    (hmember : lookupPosition positions signal.symbol = PositionLookup.member) :
    e.executeBacktestTrade signal dataPoint capital positions =
      BacktestResult.ok
        { action := "SELL"
          symbol := signal.symbol
          quantity := JSNum.orElse (optNum signal.quantity) JSNum.nan
          price := BacktestEngine.tradePrice signal dataPoint
          cost := none
          revenue := some (JSNum.mul
            (JSNum.mul (JSNum.orElse (optNum signal.quantity) JSNum.nan)
              (BacktestEngine.tradePrice signal dataPoint).toNum)
            (JSNum.fin (1 - e.config.commission - e.config.slippage)))
          profit := some JSNum.nan
          profitPercent := some JSNum.nan
          holdTime := some JSNum.nan
          timestamp := dataPoint.timestamp } := by
  simp only [BacktestEngine.executeBacktestTrade, haction, hmember, positionFields]
  have hmul : ∀ x : JSNum ℚ, JSNum.mul JSNum.nan x = JSNum.nan := fun x => by
    cases x <;> rfl
  have hsub : ∀ x : JSNum ℚ, JSNum.sub x JSNum.nan = JSNum.nan := fun x => by
    cases x <;> rfl
  simp [hmul, hsub, JSNum.div, JSNum.toFixed2]

/-- The price of a trade when the data point lists a price other than 0 for the symbol. -/
theorem tradePrice_of_listed (signal : Instruction) (dataPoint : DataPoint) (p : ℚ)
    (hp : dataPoint.prices signal.symbol = some p) (hne : p ≠ 0) :
    BacktestEngine.tradePrice signal dataPoint = Price.num (JSNum.fin p) := by
  simp [BacktestEngine.tradePrice, lookupIn, Lookup.orPrice, hp, hne]

/-- The price of a trade when the symbol names no member of `Object.prototype`: it is
`listed || own` on numbers. -/
theorem tradePrice_of_not_inherited (signal : Instruction) (dataPoint : DataPoint)
    (h : inheritedKey signal.symbol = false) :
    BacktestEngine.tradePrice signal dataPoint
      = Price.num (JSNum.orElse (optNum (dataPoint.prices signal.symbol))
          (optNum signal.price)) := by
  unfold BacktestEngine.tradePrice lookupIn
  cases hp : dataPoint.prices signal.symbol with
  | none => simp [h, Lookup.orPrice, optNum, JSNum.orElse, JSNum.isTruthy]
  | some p =>
    by_cases h0 : p = 0
    · simp [Lookup.orPrice, optNum, JSNum.orElse, JSNum.isTruthy, h0]
    · simp [Lookup.orPrice, optNum, JSNum.orElse, JSNum.isTruthy, h0]

/-- The fields of the state after one turn of the loop, from the handled signal. -/
theorem tick_fields {σ : Type} (e : BacktestEngine)
    (evaluate : σ → DataPoint → Positions → Option Instruction × σ) (st : RunState σ)
    (dataPoint : DataPoint) :
    (BacktestEngine.tick e evaluate st dataPoint).capital
      = (e.applySignal (evaluate st.strategy dataPoint st.positions).1 dataPoint st.capital
          st.positions st.trades).1 ∧
    (BacktestEngine.tick e evaluate st dataPoint).positions
      = (e.applySignal (evaluate st.strategy dataPoint st.positions).1 dataPoint st.capital
          st.positions st.trades).2.1 ∧
    (BacktestEngine.tick e evaluate st dataPoint).trades
      = (e.applySignal (evaluate st.strategy dataPoint st.positions).1 dataPoint st.capital
          st.positions st.trades).2.2 ∧
    (BacktestEngine.tick e evaluate st dataPoint).equity
      = st.equity ++
          [{ timestamp := some dataPoint.timestamp
             value := JSNum.add (BacktestEngine.tick e evaluate st dataPoint).capital
               (BacktestEngine.calculatePositionValue
                 (BacktestEngine.tick e evaluate st dataPoint).positions dataPoint.prices) }] ∧
    (BacktestEngine.tick e evaluate st dataPoint).strategy
      = (evaluate st.strategy dataPoint st.positions).2 :=
  ⟨rfl, rfl, rfl, rfl, rfl⟩

/-- C26, failing input: on an engine with the default configuration a strategy buys 10 units
of `X` at the first data point (price 1) and 5 more at the second (price 2). Both trades are
accepted and both costs are debited, but after the second the position of `X` is the second
purchase alone, 5 units entered at 2, not 15 units with cost basis 4/3: the first 10 units
are gone from the positions and from the equity. -/
theorem runBacktest_second_buy_replaces_position :
    (BacktestEngine.runLoop (BacktestEngine.create {})
      (fun (_ : Unit) dp _ =>
        (some ⟨"BUY", "X", some (if dp.timestamp = 1 then 10 else 5), none⟩, ()))
      () [⟨1, fun _ => some 1⟩]).positions
      = [("X", ⟨JSNum.fin 10, Price.num (JSNum.fin 1), 1⟩)] ∧
    (BacktestEngine.runLoop (BacktestEngine.create {})
      (fun (_ : Unit) dp _ =>
        (some ⟨"BUY", "X", some (if dp.timestamp = 1 then 10 else 5), none⟩, ()))
      () [⟨1, fun _ => some 1⟩, ⟨2, fun _ => some 2⟩]).trades.length = 2 ∧
    (BacktestEngine.runLoop (BacktestEngine.create {})
      (fun (_ : Unit) dp _ =>
        (some ⟨"BUY", "X", some (if dp.timestamp = 1 then 10 else 5), none⟩, ()))
      () [⟨1, fun _ => some 1⟩, ⟨2, fun _ => some 2⟩]).positions
      = [("X", ⟨JSNum.fin 5, Price.num (JSNum.fin 2), 2⟩)] ∧
    (BacktestEngine.runLoop (BacktestEngine.create {})
      (fun (_ : Unit) dp _ =>
        (some ⟨"BUY", "X", some (if dp.timestamp = 1 then 10 else 5), none⟩, ()))
      () [⟨1, fun _ => some 1⟩, ⟨2, fun _ => some 2⟩]).capital
      = JSNum.fin (10000 - 1003 / 100 - 1003 / 100) ∧
    (JSNum.fin 5 : JSNum ℚ) ≠ JSNum.fin (10 + 5) ∧
    (JSNum.fin 2 : JSNum ℚ) ≠ JSNum.fin ((1 * 10 + 2 * 5) / (10 + 5)) := by
  refine ⟨?_, ?_, ?_, ?_, ?_, ?_⟩
  · norm_num [BacktestEngine.runLoop, BacktestEngine.tick, BacktestEngine.initialState,
      BacktestEngine.create, BacktestEngine.applySignal, BacktestEngine.executeBacktestTrade,
      BacktestEngine.applyTrade, BacktestEngine.buyTotalCost, BacktestEngine.tradeQuantity,
      BacktestEngine.tradePrice, lookupIn, Lookup.orPrice,
      Price.toNum, JSNum.orElse, JSNum.isTruthy, optNum, spreadOver, orElse,
      JSNum.mul, JSNum.gt, JSNum.sub, JSNum.add, JSNum.neg, setPosition,
      show ("BUY" : String) ≠ "" from by decide]
  · norm_num [BacktestEngine.runLoop, BacktestEngine.tick, BacktestEngine.initialState,
      BacktestEngine.create, BacktestEngine.applySignal, BacktestEngine.executeBacktestTrade,
      BacktestEngine.applyTrade, BacktestEngine.buyTotalCost, BacktestEngine.tradeQuantity,
      BacktestEngine.tradePrice, lookupIn, Lookup.orPrice,
      Price.toNum, JSNum.orElse, JSNum.isTruthy, optNum, spreadOver, orElse,
      JSNum.mul, JSNum.gt, JSNum.sub, JSNum.add, JSNum.neg, setPosition,
      show ("BUY" : String) ≠ "" from by decide]
  · norm_num [BacktestEngine.runLoop, BacktestEngine.tick, BacktestEngine.initialState,
      BacktestEngine.create, BacktestEngine.applySignal, BacktestEngine.executeBacktestTrade,
      BacktestEngine.applyTrade, BacktestEngine.buyTotalCost, BacktestEngine.tradeQuantity,
      BacktestEngine.tradePrice, lookupIn, Lookup.orPrice,
      Price.toNum, JSNum.orElse, JSNum.isTruthy, optNum, spreadOver, orElse,
      JSNum.mul, JSNum.gt, JSNum.sub, JSNum.add, JSNum.neg, setPosition,
      show ("BUY" : String) ≠ "" from by decide]
  · norm_num [BacktestEngine.runLoop, BacktestEngine.tick, BacktestEngine.initialState,
      BacktestEngine.create, BacktestEngine.applySignal, BacktestEngine.executeBacktestTrade,
      BacktestEngine.applyTrade, BacktestEngine.buyTotalCost, BacktestEngine.tradeQuantity,
      BacktestEngine.tradePrice, lookupIn, Lookup.orPrice,
      Price.toNum, JSNum.orElse, JSNum.isTruthy, optNum, spreadOver, orElse,
      JSNum.mul, JSNum.gt, JSNum.sub, JSNum.add, JSNum.neg, setPosition,
      show ("BUY" : String) ≠ "" from by decide]
  · norm_num
  · norm_num

/-- A signal whose trade fails leaves the capital, the positions and the trade log as they
were. -/
theorem applySignal_of_failure (e : BacktestEngine) (signal : Instruction)
    (dataPoint : DataPoint) (capital : JSNum ℚ) (positions : Positions)
    (trades : List BacktestTrade) (error : String)
    (h : e.executeBacktestTrade signal dataPoint capital positions
      = BacktestResult.failure error) :
    e.applySignal (some signal) dataPoint capital positions trades
      = (capital, positions, trades) := by
  simp only [BacktestEngine.applySignal, h]
  split <;> rfl

/-- The equity curve of a turn is never empty. -/
theorem tick_equity_ne_nil {σ : Type} (e : BacktestEngine)
    (evaluate : σ → DataPoint → Positions → Option Instruction × σ) (st : RunState σ)
    (dataPoint : DataPoint) : (BacktestEngine.tick e evaluate st dataPoint).equity ≠ [] := by
  simp [BacktestEngine.tick]

/-- The equity curve is never empty during a run. -/
theorem foldl_tick_equity_ne_nil {σ : Type} (e : BacktestEngine)
    (evaluate : σ → DataPoint → Positions → Option Instruction × σ) :
    ∀ (historicalData : List DataPoint) (st : RunState σ), st.equity ≠ [] →
      (historicalData.foldl (BacktestEngine.tick e evaluate) st).equity ≠ [] := by
  intro historicalData
  induction historicalData with
  | nil => intro st h; exact h
  | cons d ds ih =>
    intro st _
    rw [List.foldl_cons]
    exact ih _ (tick_equity_ne_nil e evaluate st d)

/-- On a non-empty curve `calculateMetrics` returns a record. -/
theorem calculateMetrics_isSome (equity : List EquityPoint) (trades : List BacktestTrade)
    (h : equity ≠ []) : (BacktestEngine.calculateMetrics equity trades).isSome = true := by
  cases equity with
  | nil => exact absurd rfl h
  | cons first rest =>
    have hlast : ∃ last, (first :: rest).getLast? = some last := by
      refine ⟨(first :: rest).getLast (by simp), ?_⟩
      exact List.getLast?_eq_getLast _ (by simp)
    obtain ⟨last, hl⟩ := hlast
    simp only [BacktestEngine.calculateMetrics, List.head?_cons, hl]
    rfl

/-- A run returns a record, whatever the strategy and the series. -/
theorem runBacktest_isSome {σ : Type} (e : BacktestEngine)
    (evaluate : σ → DataPoint → Positions → Option Instruction × σ) (strategy : σ)
    (historicalData : List DataPoint) (startTime endTime : Nat) :
    (BacktestEngine.runBacktest e evaluate strategy historicalData startTime endTime).1.isSome
      = true := by
  have hne : (BacktestEngine.runLoop e evaluate strategy historicalData).equity ≠ [] := by
    apply foldl_tick_equity_ne_nil
    simp [BacktestEngine.initialState]
  have hm := calculateMetrics_isSome _
    (BacktestEngine.runLoop e evaluate strategy historicalData).trades hne
  obtain ⟨m, hm'⟩ := Option.isSome_iff_exists.mp hm
  simp only [BacktestEngine.runBacktest, hm']
  rfl

/-- The lookup of a symbol in `positions` finds nothing when no entry has the symbol for its
key, no prototype was installed and the symbol names no member of `Object.prototype`. -/
theorem lookupPosition_absent_of (positions : Positions) (symbol : String)
    (hown : ∀ kv ∈ positions, kv.1 ≠ symbol) (hproto : ∀ kv ∈ positions, kv.1 ≠ "__proto__")
    (hkey : inheritedKey symbol = false) :
    lookupPosition positions symbol = PositionLookup.absent := by
  have h1 : positions.find? (fun kv => decide (kv.1 = symbol)) = none := by
    rw [List.find?_eq_none]
    intro kv hkv
    simpa using hown kv hkv
  have h2 : positions.find? (fun kv => decide (kv.1 = "__proto__")) = none := by
    rw [List.find?_eq_none]
    intro kv hkv
    simpa using hproto kv hkv
  simp [lookupPosition, installedPrototype, h1, h2, hkey]

/-- C28, as stated, fails for a symbol that names a member of `Object.prototype`: with no
open position at all, a SELL of 5 units of `toString` at a data point that lists `toString`
at 1 is not rejected, because `positions['toString']` is the inherited method, which is
truthy. The trade is appended to the log and the capital grows by the net revenue 4.985. -/
theorem tick_sell_inherited_symbol_counterexample :
    (∀ kv ∈ ([] : Positions), kv.1 ≠ "toString") ∧
    (BacktestEngine.tick (BacktestEngine.create {})
      (fun (_ : Unit) _ _ => (some ⟨"SELL", "toString", some 5, none⟩, ()))
      ⟨(), JSNum.fin 10000, [], [⟨some 0, JSNum.fin 10000⟩], []⟩
      ⟨1, fun key => if key = "toString" then some 1 else none⟩).trades.length = 1 ∧
    (BacktestEngine.tick (BacktestEngine.create {})
      (fun (_ : Unit) _ _ => (some ⟨"SELL", "toString", some 5, none⟩, ()))
      ⟨(), JSNum.fin 10000, [], [⟨some 0, JSNum.fin 10000⟩], []⟩
      ⟨1, fun key => if key = "toString" then some 1 else none⟩).capital
      = JSNum.fin (10000 + 4985 / 1000) := by
  refine ⟨by simp, ?_, ?_⟩
  · norm_num [BacktestEngine.tick, BacktestEngine.create, BacktestEngine.applySignal,
      BacktestEngine.executeBacktestTrade, BacktestEngine.applyTrade,
      BacktestEngine.tradePrice, lookupIn, Lookup.orPrice, Price.toNum, lookupPosition,
      positionFields, installedPrototype, fieldTruthy, inheritedKey, objectPrototypeKeys,
      JSNum.orElse, JSNum.isTruthy, optNum, spreadOver, orElse, JSNum.mul, JSNum.sub,
      JSNum.add, JSNum.neg, deletePosition,
      show ("SELL" : String) ≠ "" from by decide,
      show ("SELL" : String) ≠ "BUY" from by decide,
      show ¬ (PositionLookup.member = PositionLookup.absent) from by simp]
  · norm_num [BacktestEngine.tick, BacktestEngine.create, BacktestEngine.applySignal,
      BacktestEngine.executeBacktestTrade, BacktestEngine.applyTrade,
      BacktestEngine.tradePrice, lookupIn, Lookup.orPrice, Price.toNum, lookupPosition,
      positionFields, installedPrototype, fieldTruthy, inheritedKey, objectPrototypeKeys,
      JSNum.orElse, JSNum.isTruthy, optNum, spreadOver, orElse, JSNum.mul, JSNum.sub,
      JSNum.add, JSNum.neg, deletePosition,
      show ("SELL" : String) ≠ "" from by decide,
      show ("SELL" : String) ≠ "BUY" from by decide,
      show ¬ (PositionLookup.member = PositionLookup.absent) from by simp]

/-- C28, amended: at a data point where the strategy returns a BUY whose total cost exceeds
the capital, or a SELL of a symbol for which `positions[symbol]` is `undefined` (it has no
open position and names no member that the `positions` object inherits),
`executeBacktestTrade` returns a failure record (`Insufficient capital`,
`No position to sell`) and the turn of the loop leaves the trade log, the capital and the
positions unchanged while it still appends the equity sample of the data point; no error is
raised: the turn yields a state, and the run returns its record for every strategy and
series. -/
theorem tick_rejected_instruction {σ : Type} (e : BacktestEngine)
    (evaluate : σ → DataPoint → Positions → Option Instruction × σ) (st : RunState σ)
    (dataPoint : DataPoint) (signal : Instruction)
    (hsignal : (evaluate st.strategy dataPoint st.positions).1 = some signal)
    (hrejected :
      (signal.action = "BUY" ∧
        JSNum.gt (e.buyTotalCost signal dataPoint st.capital) st.capital = true) ∨
      (signal.action = "SELL" ∧
        lookupPosition st.positions signal.symbol = PositionLookup.absent)) :
    (e.executeBacktestTrade signal dataPoint st.capital st.positions
        = BacktestResult.failure "Insufficient capital" ∨
      e.executeBacktestTrade signal dataPoint st.capital st.positions
        = BacktestResult.failure "No position to sell") ∧
    (BacktestEngine.tick e evaluate st dataPoint).trades = st.trades ∧
    (BacktestEngine.tick e evaluate st dataPoint).capital = st.capital ∧
    (BacktestEngine.tick e evaluate st dataPoint).positions = st.positions ∧
    (BacktestEngine.tick e evaluate st dataPoint).equity
      = st.equity ++
          [{ timestamp := some dataPoint.timestamp
             value := JSNum.add st.capital
               (BacktestEngine.calculatePositionValue st.positions dataPoint.prices) }] ∧
    (∀ (strategy : σ) (historicalData : List DataPoint) (startTime endTime : Nat),
      (BacktestEngine.runBacktest e evaluate strategy historicalData startTime endTime).1.isSome
        = true) := by
  have hfail : ∃ error, e.executeBacktestTrade signal dataPoint st.capital st.positions
      = BacktestResult.failure error ∧
      (error = "Insufficient capital" ∨ error = "No position to sell") := by
    rcases hrejected with ⟨ha, hgt⟩ | ⟨ha, hnone⟩
    · refine ⟨"Insufficient capital", ?_, Or.inl rfl⟩
      rw [executeBacktestTrade_buy e signal dataPoint st.capital st.positions ha, if_pos hgt]
    · exact ⟨"No position to sell",
        executeBacktestTrade_sell_none e signal dataPoint st.capital st.positions ha hnone,
        Or.inr rfl⟩
  obtain ⟨error, herr, hkind⟩ := hfail
  have happly := applySignal_of_failure e signal dataPoint st.capital st.positions st.trades
    error herr
  obtain ⟨hc, hp, ht, heq, _⟩ := tick_fields e evaluate st dataPoint
  rw [hsignal, happly] at hc hp ht
  refine ⟨?_, ht, hc, hp, ?_, fun strategy historicalData startTime endTime =>
    runBacktest_isSome e evaluate strategy historicalData startTime endTime⟩
  · rcases hkind with h | h
    · left; rw [herr, h]
    · right; rw [herr, h]
  · rw [heq, hc, hp]

/-- Witness of C28 (amended), on both branches, with the default configuration and capital
10000: a BUY of 20000 units at price 1 costs more than the capital, and a SELL of 5 units of
`X` finds no position while 10 units of `Y` are held. -/
theorem tick_rejected_instruction_witness :
    ((BacktestEngine.tick (BacktestEngine.create {})
      (fun (_ : Unit) _ _ => (some ⟨"BUY", "X", some 20000, none⟩, ()))
      ⟨(), JSNum.fin 10000, [], [⟨some 0, JSNum.fin 10000⟩], []⟩
      ⟨1, fun _ => some 1⟩).trades = [] ∧
    (BacktestEngine.tick (BacktestEngine.create {})
      (fun (_ : Unit) _ _ => (some ⟨"BUY", "X", some 20000, none⟩, ()))
      ⟨(), JSNum.fin 10000, [], [⟨some 0, JSNum.fin 10000⟩], []⟩
      ⟨1, fun _ => some 1⟩).capital = JSNum.fin 10000) ∧
    ((BacktestEngine.tick (BacktestEngine.create {})
      (fun (_ : Unit) _ _ => (some ⟨"SELL", "X", some 5, none⟩, ()))
      ⟨(), JSNum.fin 10000, [("Y", ⟨JSNum.fin 10, Price.num (JSNum.fin 1), 0⟩)],
        [⟨some 0, JSNum.fin 10000⟩], []⟩
      ⟨1, fun _ => some 1⟩).trades = [] ∧
    (BacktestEngine.tick (BacktestEngine.create {})
      (fun (_ : Unit) _ _ => (some ⟨"SELL", "X", some 5, none⟩, ()))
      ⟨(), JSNum.fin 10000, [("Y", ⟨JSNum.fin 10, Price.num (JSNum.fin 1), 0⟩)],
        [⟨some 0, JSNum.fin 10000⟩], []⟩
      ⟨1, fun _ => some 1⟩).capital = JSNum.fin 10000 ∧
    (BacktestEngine.tick (BacktestEngine.create {})
      (fun (_ : Unit) _ _ => (some ⟨"SELL", "X", some 5, none⟩, ()))
      ⟨(), JSNum.fin 10000, [("Y", ⟨JSNum.fin 10, Price.num (JSNum.fin 1), 0⟩)],
        [⟨some 0, JSNum.fin 10000⟩], []⟩
      ⟨1, fun _ => some 1⟩).positions
      = [("Y", ⟨JSNum.fin 10, Price.num (JSNum.fin 1), 0⟩)]) :=
  have hbuy := tick_rejected_instruction (BacktestEngine.create {})
    (fun (_ : Unit) _ _ => (some ⟨"BUY", "X", some 20000, none⟩, ()))
    ⟨(), JSNum.fin 10000, [], [⟨some 0, JSNum.fin 10000⟩], []⟩
    ⟨1, fun _ => some 1⟩ ⟨"BUY", "X", some 20000, none⟩ rfl
    (Or.inl ⟨rfl, by
      norm_num [BacktestEngine.buyTotalCost, BacktestEngine.tradeQuantity,
        BacktestEngine.tradePrice, lookupIn, Lookup.orPrice, Price.toNum,
        BacktestEngine.create, JSNum.orElse, JSNum.isTruthy, optNum, spreadOver, orElse,
        JSNum.mul, JSNum.gt]⟩)
  have hsell := tick_rejected_instruction (BacktestEngine.create {})
    (fun (_ : Unit) _ _ => (some ⟨"SELL", "X", some 5, none⟩, ()))
    ⟨(), JSNum.fin 10000, [("Y", ⟨JSNum.fin 10, Price.num (JSNum.fin 1), 0⟩)],
      [⟨some 0, JSNum.fin 10000⟩], []⟩
    ⟨1, fun _ => some 1⟩ ⟨"SELL", "X", some 5, none⟩ rfl
    (Or.inr ⟨rfl, by
      simp [lookupPosition, installedPrototype, fieldTruthy, inheritedKey,
        objectPrototypeKeys]⟩)
  ⟨⟨hbuy.2.1, hbuy.2.2.1⟩, hsell.2.1, hsell.2.2.1, hsell.2.2.2.1⟩

/-- The quantity of a trade whose instruction carries a non-zero quantity. -/
theorem tradeQuantity_of_given (signal : Instruction) (dataPoint : DataPoint)
    (capital : JSNum ℚ) (q : ℚ) (hquantity : signal.quantity = some q) (hq : q ≠ 0) :
    BacktestEngine.tradeQuantity signal dataPoint capital = JSNum.fin q := by
  simp only [BacktestEngine.tradeQuantity, hquantity, optNum]
  exact orElse_fin_of_ne q _ hq

/-- The total cost of a BUY of a given quantity at a listed price. -/
theorem buyTotalCost_of_listed (e : BacktestEngine) (signal : Instruction)
    (dataPoint : DataPoint) (capital : JSNum ℚ) (q p : ℚ)
    (hquantity : signal.quantity = some q) (hq : q ≠ 0)
    (hprice : dataPoint.prices signal.symbol = some p) (hp : p ≠ 0) :
    e.buyTotalCost signal dataPoint capital
      = JSNum.fin (q * p * (1 + e.config.commission + e.config.slippage)) := by
  simp only [BacktestEngine.buyTotalCost, tradePrice_of_listed signal dataPoint p hprice hp,
    tradeQuantity_of_given signal dataPoint capital q hquantity hq, JSNum.mul, Price.toNum]

/-! ## The two cost models in binary64 -/

/-- An integer within less than a half of `x` is the rounding of `x`. -/
theorem roundHalfEven_of_near (x : ℚ) (n : ℤ) (h : |x - n| < 1 / 2) :
    roundHalfEven x = n := by
  have h1 := abs_lt.mp h
  have hfl : (⌊x⌋ : ℚ) ≤ x := Int.floor_le x
  have hfu : x < ⌊x⌋ + 1 := Int.lt_floor_add_one x
  unfold roundHalfEven
  split_ifs with ha hb hc
  · have : (⌊x⌋ : ℚ) - n < 1 ∧ -1 < (⌊x⌋ : ℚ) - n := by constructor <;> linarith [h1.1, h1.2]
    have h2 : (⌊x⌋ - n : ℤ) < 1 := by exact_mod_cast this.1
    have h3 : -1 < (⌊x⌋ - n : ℤ) := by exact_mod_cast this.2
    omega
  · have : (⌊x⌋ : ℚ) + 1 - n < 1 ∧ -1 < (⌊x⌋ : ℚ) + 1 - n := by
      constructor <;> linarith [h1.1, h1.2]
    have h2 : (⌊x⌋ + 1 - n : ℤ) < 1 := by exact_mod_cast this.1
    have h3 : -1 < (⌊x⌋ + 1 - n : ℤ) := by exact_mod_cast this.2
    omega
  · exfalso
    have hx : x - ⌊x⌋ = 1 / 2 := le_antisymm (not_lt.mp hb) (not_lt.mp ha)
    have : (0 : ℚ) < (⌊x⌋ : ℚ) - n + 1 ∧ (⌊x⌋ : ℚ) - n < 0 := by
      constructor <;> linarith [h1.1, h1.2]
    have h2 : (0 : ℤ) < ⌊x⌋ - n + 1 := by exact_mod_cast this.1
    have h3 : (⌊x⌋ - n : ℤ) < 0 := by exact_mod_cast this.2
    omega
  · exfalso
    have hx : x - ⌊x⌋ = 1 / 2 := le_antisymm (not_lt.mp hb) (not_lt.mp ha)
    have : (0 : ℚ) < (⌊x⌋ : ℚ) - n + 1 ∧ (⌊x⌋ : ℚ) - n < 0 := by
      constructor <;> linarith [h1.1, h1.2]
    have h2 : (0 : ℤ) < ⌊x⌋ - n + 1 := by exact_mod_cast this.1
    have h3 : (⌊x⌋ - n : ℤ) < 0 := by exact_mod_cast this.2
    omega

/-- A tie above an odd integer is rounded up, to the even one. -/
theorem roundHalfEven_of_tie (x : ℚ) (n : ℤ) (h : x = n + 1 / 2) (hodd : n % 2 = 1) :
    roundHalfEven x = n + 1 := by
  have hfloor : ⌊x⌋ = n := by
    rw [Int.floor_eq_iff, h]
    constructor <;> linarith
  unfold roundHalfEven
  rw [hfloor, h]
  have h1 : ¬ ((n : ℚ) + 1 / 2 - n < 1 / 2) := by norm_num
  have h2 : ¬ ((1 : ℚ) / 2 < (n : ℚ) + 1 / 2 - n) := by norm_num
  have h3 : ¬ (n % 2 = 0) := by omega
  rw [if_neg h1, if_neg h2, if_neg h3]

/-- The double nearest to `x`, from the binade of `x`. -/
theorem roundDouble_eq (x : ℚ) (e : ℤ) (hlo : (2 : ℚ) ^ e ≤ |x|)
    (hhi : |x| < (2 : ℚ) ^ (e + 1)) :
    roundDouble x = (roundHalfEven (x / 2 ^ (e - 52)) : ℚ) * 2 ^ (e - 52) := by
  have hpos : 0 < |x| := lt_of_lt_of_le (by positivity) hlo
  have hx : x ≠ 0 := abs_pos.mp hpos
  have hlog : Int.log 2 |x| = e := by
    have h1 : e ≤ Int.log 2 |x| := by
      have := (Int.zpow_le_iff_le_log (b := 2) (by norm_num) hpos (x := e)).mp
      exact this (by exact_mod_cast hlo)
    have h2 : Int.log 2 |x| < e + 1 := by
      have := (Int.lt_zpow_iff_log_lt (b := 2) (by norm_num) hpos (x := e + 1)).mp
      exact this (by exact_mod_cast hhi)
    omega
  unfold roundDouble
  rw [if_neg hx, hlog]


/-- The double nearest to `x`, from its binade and a significand within less than half a
unit of `x`. -/
theorem roundDouble_near (x : ℚ) (e n : ℤ) (hlo : (2 : ℚ) ^ e ≤ |x|)
    (hhi : |x| < (2 : ℚ) ^ (e + 1)) (hn : |x / 2 ^ (e - 52) - n| < 1 / 2) :
    roundDouble x = (n : ℚ) * 2 ^ (e - 52) := by
  rw [roundDouble_eq x e hlo hhi, roundHalfEven_of_near _ n hn]

/-- The double nearest to `x`, from its binade, when `x` is half a unit above an odd
significand. -/
theorem roundDouble_tie (x : ℚ) (e n : ℤ) (hlo : (2 : ℚ) ^ e ≤ |x|)
    (hhi : |x| < (2 : ℚ) ^ (e + 1)) (hn : x / 2 ^ (e - 52) = n + 1 / 2) (hodd : n % 2 = 1) :
    roundDouble x = ((n + 1 : ℤ) : ℚ) * 2 ^ (e - 52) := by
  rw [roundDouble_eq x e hlo hhi, roundHalfEven_of_tie _ n hn hodd]

/-- The double of the literal `0.001`. -/
theorem roundDouble_commission :
    roundDouble (1 / 1000) = 1152921504606847 / 1152921504606846976 := by
  rw [roundDouble_near (1 / 1000) (-10) 4611686018427388 (by norm_num [abs_of_pos])
    (by norm_num [abs_of_pos]) (by norm_num [abs_lt])]
  norm_num

/-- The double of the literal `0.002`. -/
theorem roundDouble_slippage :
    roundDouble (2 / 1000) = 1152921504606847 / 576460752303423488 := by
  rw [roundDouble_near (2 / 1000) (-9) 4611686018427388 (by norm_num [abs_of_pos])
    (by norm_num [abs_of_pos]) (by norm_num [abs_lt])]
  norm_num

/-- The double of the literal `9.027`. -/
theorem roundDouble_capital :
    roundDouble (9027 / 1000) = 5081749229534183 / 562949953421312 := by
  rw [roundDouble_near (9027 / 1000) 3 5081749229534183 (by norm_num [abs_of_pos])
    (by norm_num [abs_of_pos]) (by norm_num [abs_lt])]
  norm_num

/-- The total cost the ledger computes for 9 units at price 1 with the default rates:
`9.027000000000001`. -/
theorem ledger_totalCostDouble :
    SimulatedTrading.totalCostDouble 9 1 (roundDouble (1 / 1000)) (roundDouble (2 / 1000))
      = 635218653691773 / 70368744177664 := by
  have hcost : roundDouble (9 * 1) = 9 := by
    rw [roundDouble_near (9 * 1) 3 5066549580791808 (by norm_num [abs_of_pos])
      (by norm_num [abs_of_pos]) (by norm_num [abs_lt])]
    norm_num
  have hc : roundDouble (9 * (1152921504606847 / 1152921504606846976))
      = 1297036692682703 / 144115188075855872 := by
    rw [roundDouble_tie _ (-7) 5188146770730811 (by norm_num [abs_of_pos])
      (by norm_num [abs_of_pos]) (by norm_num) (by norm_num)]
    norm_num
  have hs : roundDouble (9 * (1152921504606847 / 576460752303423488))
      = 1297036692682703 / 72057594037927936 := by
    rw [roundDouble_tie _ (-6) 5188146770730811 (by norm_num [abs_of_pos])
      (by norm_num [abs_of_pos]) (by norm_num) (by norm_num)]
    norm_num
  have h1 : roundDouble (9 + 1297036692682703 / 144115188075855872)
      = 633952016296575 / 70368744177664 := by
    rw [roundDouble_near _ 3 5071616130372600 (by norm_num [abs_of_pos])
      (by norm_num [abs_of_pos]) (by norm_num [abs_lt])]
    norm_num
  have h2 : roundDouble (633952016296575 / 70368744177664
        + 1297036692682703 / 72057594037927936)
      = 635218653691773 / 70368744177664 := by
    rw [roundDouble_near _ 3 5081749229534184 (by norm_num [abs_of_pos])
      (by norm_num [abs_of_pos]) (by norm_num [abs_lt])]
    norm_num
  simp only [SimulatedTrading.totalCostDouble, roundDouble_commission, roundDouble_slippage,
    hcost, hc, hs, h1, h2]

/-- The total cost the engine computes for 9 units at price 1 with the default rates:
`9.027`. -/
theorem engine_totalCostDouble :
    BacktestEngine.totalCostDouble 9 1 (roundDouble (1 / 1000)) (roundDouble (2 / 1000))
      = 5081749229534183 / 562949953421312 := by
  have hcost : roundDouble (9 * 1) = 9 := by
    rw [roundDouble_near (9 * 1) 3 5066549580791808 (by norm_num [abs_of_pos])
      (by norm_num [abs_of_pos]) (by norm_num [abs_lt])]
    norm_num
  have h1 : roundDouble (1 + 1152921504606847 / 1152921504606846976)
      = 2254051613498933 / 2251799813685248 := by
    rw [roundDouble_near _ 0 4508103226997866 (by norm_num [abs_of_pos])
      (by norm_num [abs_of_pos]) (by norm_num [abs_lt])]
    norm_num
  have h2 : roundDouble (2254051613498933 / 2251799813685248
        + 1152921504606847 / 576460752303423488)
      = 4517110426252607 / 4503599627370496 := by
    rw [roundDouble_near _ 0 4517110426252607 (by norm_num [abs_of_pos])
      (by norm_num [abs_of_pos]) (by norm_num [abs_lt])]
    norm_num
  have h3 : roundDouble (9 * (4517110426252607 / 4503599627370496))
      = 5081749229534183 / 562949953421312 := by
    rw [roundDouble_near _ 3 5081749229534183 (by norm_num [abs_of_pos])
      (by norm_num [abs_of_pos]) (by norm_num [abs_lt])]
    norm_num
  simp only [BacktestEngine.totalCostDouble, roundDouble_commission, roundDouble_slippage,
    hcost, h1, h2, h3]

/-- C27, as stated, fails in the arithmetic of the source, which rounds every operation to
a double. For 9 units at price 1 with the default rates and a balance and a capital of
`9.027`, the ledger computes `9 + 9 * 0.001 + 9 * 0.002 = 9.027000000000001`, which exceeds
the balance, so `buy` is rejected; the engine computes `9 * (1 + 0.001 + 0.002) = 9.027`,
which does not exceed the capital, so the BUY is accepted; and the two costs differ. -/
theorem cost_model_double_rounding_counterexample :
    SimulatedTrading.totalCostDouble 9 1 (roundDouble (1 / 1000)) (roundDouble (2 / 1000))
      > roundDouble (9027 / 1000) ∧
    ¬ (BacktestEngine.totalCostDouble 9 1 (roundDouble (1 / 1000)) (roundDouble (2 / 1000))
      > roundDouble (9027 / 1000)) ∧
    SimulatedTrading.totalCostDouble 9 1 (roundDouble (1 / 1000)) (roundDouble (2 / 1000))
      ≠ BacktestEngine.totalCostDouble 9 1 (roundDouble (1 / 1000)) (roundDouble (2 / 1000)) := by
  rw [ledger_totalCostDouble, engine_totalCostDouble, roundDouble_capital]
  refine ⟨?_, ?_, ?_⟩ <;> norm_num

/-- C27, amended: in exact arithmetic the engine and the ledger apply the same cost model.
With equal commission and slippage rates, a quantity `q > 0`, a listed price `p > 0` and the
capital equal to the balance of the ledger: the BUY of the engine is rejected exactly when
`buy` of the ledger is; when it is accepted its `cost` is the `totalCost` of the ledger and
the capital after it is the balance of the ledger after `buy`; and a SELL of a position whose
`entryPrice` is the `averagePrice` of the position of the ledger, which holds at least `q`,
is accepted by both, with `revenue` equal to `netRevenue`, `profit` equal to `pnl` and the
capital after it equal to the balance of the ledger after `sell`. The numbers are exact
rationals here; in binary64 the two ways of writing the products agree only up to rounding. -/
theorem cost_model_agrees (e : BacktestEngine) (s : SimulatedTrading) (symbol : String)
    (q p : ℚ) (signalPrice : Option ℚ) (dataPoint : DataPoint) (positions : Positions)
    (now : Nat) (hq : 0 < q) (hp : 0 < p)
    (hcommission : e.config.commission = s.config.commissionRate)
    (hslippage : e.config.slippage = s.config.slippage)
    (hprice : dataPoint.prices symbol = some p) :
    ((e.executeBacktestTrade ⟨"BUY", symbol, some q, signalPrice⟩ dataPoint
          (JSNum.fin s.balance) positions = BacktestResult.failure "Insufficient capital") ↔
      (s.buy symbol q p now).1 = Result.failure "Insufficient balance") ∧
    ((s.buy symbol q p now).1.success = true →
      ∃ t lt,
        e.executeBacktestTrade ⟨"BUY", symbol, some q, signalPrice⟩ dataPoint
          (JSNum.fin s.balance) positions = BacktestResult.ok t ∧
        (s.buy symbol q p now).1 = Result.ok lt ∧
        t.cost = lt.totalCost.map JSNum.fin ∧
        (BacktestEngine.applyTrade ⟨"BUY", symbol, some q, signalPrice⟩ dataPoint t
          (JSNum.fin s.balance) positions).1 = JSNum.fin (s.buy symbol q p now).2.balance) ∧
    (∀ (bp : BacktestPosition) (lp : Position),
      lookupPosition positions symbol = PositionLookup.found bp →
      findPosition s.positions symbol = some lp →
      bp.entryPrice = Price.num (JSNum.fin lp.averagePrice) →
      q ≤ lp.quantity →
      ∃ t lt,
        e.executeBacktestTrade ⟨"SELL", symbol, some q, signalPrice⟩ dataPoint
          (JSNum.fin s.balance) positions = BacktestResult.ok t ∧
        (s.sell symbol q p now).1 = Result.ok lt ∧
        t.revenue = lt.netRevenue.map JSNum.fin ∧
        t.profit = lt.pnl.map JSNum.fin ∧
        (BacktestEngine.applyTrade ⟨"SELL", symbol, some q, signalPrice⟩ dataPoint t
          (JSNum.fin s.balance) positions).1 = JSNum.fin (s.sell symbol q p now).2.balance) := by
  have hq0 : q ≠ 0 := ne_of_gt hq
  have hp0 : p ≠ 0 := ne_of_gt hp
  have hcost := buyTotalCost_of_listed e ⟨"BUY", symbol, some q, signalPrice⟩ dataPoint
    (JSNum.fin s.balance) q p rfl hq0 hprice hp0
  have hexec := executeBacktestTrade_buy e ⟨"BUY", symbol, some q, signalPrice⟩ dataPoint
    (JSNum.fin s.balance) positions rfl
  have hsame : q * p * (1 + e.config.commission + e.config.slippage)
      = q * p + q * p * s.config.commissionRate + q * p * s.config.slippage := by
    rw [hcommission, hslippage]; ring
  rw [hcost, hsame] at hexec
  simp only [JSNum.gt, decide_eq_true_eq] at hexec
  refine ⟨?_, ?_, ?_⟩
  · by_cases hgt : q * p + q * p * s.config.commissionRate + q * p * s.config.slippage
        > s.balance
    · rw [hexec, if_pos hgt, buy_of_gt s symbol q p now hgt]
      simp
    · rw [hexec, if_neg hgt, buy_result_of_not_gt s symbol q p now hgt]
      simp
  · intro hsuccess
    by_cases hgt : q * p + q * p * s.config.commissionRate + q * p * s.config.slippage
        > s.balance
    · rw [buy_of_gt s symbol q p now hgt] at hsuccess
      simp [Result.success] at hsuccess
    · rw [hexec, if_neg hgt, buy_result_of_not_gt s symbol q p now hgt,
        (buy_of_not_gt s symbol q p now hgt).2.2]
      refine ⟨_, _, rfl, rfl, ?_, ?_⟩
      · simp [hcost, hsame]
      · simp [BacktestEngine.applyTrade, hcost, hsame, JSNum.sub, JSNum.neg, JSNum.add,
          sub_eq_add_neg]
  · intro bp lp hbp hlp hentry hle
    have hnot : ¬ lp.quantity < q := not_lt.mpr hle
    have hsell := executeBacktestTrade_sell_some e ⟨"SELL", symbol, some q, signalPrice⟩
      dataPoint (JSNum.fin s.balance) positions bp rfl hbp
    have htp := tradePrice_of_listed ⟨"SELL", symbol, some q, signalPrice⟩ dataPoint p
      hprice hp0
    have hqq : JSNum.orElse (optNum (some q)) bp.quantity = JSNum.fin q :=
      orElse_fin_of_ne q _ hq0
    rw [hsell, sell_result_of_not_lt s symbol q p now lp hlp hnot,
      (sell_of_not_lt s symbol q p now lp hlp hnot).2.2.1]
    refine ⟨_, _, rfl, rfl, ?_, ?_, ?_⟩
    · simp only [htp, hqq, JSNum.mul, Option.map_some', hcommission, hslippage, Price.toNum]
      congr 2
      ring
    · simp only [htp, hqq, hentry, JSNum.mul, JSNum.sub, JSNum.neg, JSNum.add,
        Option.map_some', hcommission, hslippage, Price.toNum]
      congr 2
      ring
    · have hfound : lookupPosition positions symbol ≠ PositionLookup.absent := by
        rw [hbp]; simp
      simp only [BacktestEngine.applyTrade, htp, hqq, JSNum.mul, JSNum.add, hcommission,
        hslippage, Option.getD_some, Price.toNum]
      simp [hfound]
      ring

/-- Witness of C27 (amended): the engine and the ledger with their default configurations,
10 units of `X` at the listed price 1. -/
theorem cost_model_agrees_witness :
    (BacktestEngine.executeBacktestTrade (BacktestEngine.create {})
        ⟨"BUY", "X", some 10, none⟩ ⟨1, fun _ => some 1⟩
        (JSNum.fin (SimulatedTrading.create {}).balance) []
          = BacktestResult.failure "Insufficient capital") ↔
      ((SimulatedTrading.create {}).buy "X" 10 1 0).1 = Result.failure "Insufficient balance" :=
  (cost_model_agrees (BacktestEngine.create {}) (SimulatedTrading.create {}) "X" 10 1 none
    ⟨1, fun _ => some 1⟩ [] 0 (by norm_num) (by norm_num) rfl rfl rfl).1

/-- Associativity of `+` on numbers. -/
theorem JSNum.add_assoc_num (a b c : JSNum ℚ) :
    JSNum.add (JSNum.add a b) c = JSNum.add a (JSNum.add b c) := by
  cases a <;> cases b <;> cases c <;> simp [JSNum.add, add_assoc]

/-- Zero is neutral on the right of `+`. -/
theorem JSNum.add_zero_num (a : JSNum ℚ) : JSNum.add a (JSNum.fin 0) = a := by
  cases a <;> simp [JSNum.add]

/-- The value `reduce` accumulates from `z` is `z` plus the sum of the terms. -/
theorem foldl_add_eq_add_sumNum {α : Type} (f : α → JSNum ℚ) :
    ∀ (l : List α) (z : JSNum ℚ),
      l.foldl (fun total a => JSNum.add total (f a)) z = JSNum.add z (sumNum (l.map f)) := by
  intro l
  induction l with
  | nil => intro z; simp [sumNum, JSNum.add_zero_num]
  | cons a l ih =>
    intro z
    rw [List.foldl_cons, ih, JSNum.add_assoc_num]
    rfl

/-- The price `calculatePositionValue` marks a position at. -/
theorem orPrice_listed_eq_markPrice (prices : String → Option ℚ)
    (kv : String × BacktestPosition) :
    (Lookup.orPrice (lookupIn prices kv.1) kv.2.entryPrice).toNum = markPrice prices kv := by
  unfold markPrice lookupIn
  cases h : prices kv.1 with
  | none =>
    cases hk : inheritedKey kv.1 <;> simp [Lookup.orPrice, Price.toNum]
  | some p =>
    by_cases hp : p = 0
    · simp [Lookup.orPrice, hp]
    · simp [Lookup.orPrice, Price.toNum, hp]

/-- The value of the positions is the sum of `quantity * markPrice` over the own entries. -/
theorem calculatePositionValue_eq_sum (positions : Positions) (prices : String → Option ℚ) :
    BacktestEngine.calculatePositionValue positions prices
      = sumNum ((ownEntries positions).map
          (fun kv => JSNum.mul kv.2.quantity (markPrice prices kv))) := by
  have h := foldl_add_eq_add_sumNum
    (fun kv : String × BacktestPosition => JSNum.mul kv.2.quantity (markPrice prices kv))
    (ownEntries positions) (JSNum.fin 0)
  have hz : ∀ x : JSNum ℚ, JSNum.add (JSNum.fin 0) x = x := by
    intro x; cases x <;> simp [JSNum.add]
  rw [hz] at h
  rw [← h]
  simp only [BacktestEngine.calculatePositionValue, orPrice_listed_eq_markPrice]

/-- Where no key is `__proto__`, every entry of the `positions` object is an own entry. -/
theorem ownEntries_eq_self (positions : Positions)
    (h : ∀ kv ∈ positions, kv.1 ≠ "__proto__") : ownEntries positions = positions := by
  unfold ownEntries
  rw [List.filter_eq_self]
  intro kv hkv
  simpa using h kv hkv

/-- A key that names no member of `Object.prototype` is not `__proto__`. -/
theorem ne_proto_of_not_inherited (key : String) (h : inheritedKey key = false) :
    key ≠ "__proto__" := by
  intro hk
  rw [hk] at h
  exact absurd h (by decide)

/-- C29, as stated, fails when the data point lists a price of 0. With the default
configuration a strategy buys 10 units of `X` at the first data point (price 1) and does
nothing at the second, which lists `X` at 0. The sample appended for the second data point is
the capital plus 10 (the position marked at its entry price 1), not the capital plus
`10 * 0`. -/
theorem equity_sample_zero_price_counterexample :
    (BacktestEngine.runLoop (BacktestEngine.create {})
      (fun (_ : Unit) dp _ =>
        (if dp.timestamp = 1 then some ⟨"BUY", "X", some 10, none⟩ else none, ()))
      () [⟨1, fun _ => some 1⟩, ⟨2, fun _ => some 0⟩]).capital
      = JSNum.fin (998997 / 100) ∧
    (BacktestEngine.runLoop (BacktestEngine.create {})
      (fun (_ : Unit) dp _ =>
        (if dp.timestamp = 1 then some ⟨"BUY", "X", some 10, none⟩ else none, ()))
      () [⟨1, fun _ => some 1⟩, ⟨2, fun _ => some 0⟩]).positions
      = [("X", ⟨JSNum.fin 10, Price.num (JSNum.fin 1), 1⟩)] ∧
    (BacktestEngine.runLoop (BacktestEngine.create {})
      (fun (_ : Unit) dp _ =>
        (if dp.timestamp = 1 then some ⟨"BUY", "X", some 10, none⟩ else none, ()))
      () [⟨1, fun _ => some 1⟩, ⟨2, fun _ => some 0⟩]).equity.getLast?
      = some ⟨some 2, JSNum.fin (998997 / 100 + 10)⟩ ∧
    JSNum.add (JSNum.fin (998997 / 100))
      (sumNum (([("X", ⟨JSNum.fin 10, Price.num (JSNum.fin 1), 1⟩)] : Positions).map
        (fun kv => JSNum.mul kv.2.quantity (listedOrEntryPrice (fun _ => some 0) kv))))
      = JSNum.fin (998997 / 100) ∧
    (JSNum.fin (998997 / 100 + 10) : JSNum ℚ) ≠ JSNum.fin (998997 / 100) := by
  refine ⟨?_, ?_, ?_, ?_, ?_⟩
  · norm_num [BacktestEngine.runLoop, BacktestEngine.tick, BacktestEngine.initialState,
      BacktestEngine.create, BacktestEngine.applySignal, BacktestEngine.executeBacktestTrade,
      BacktestEngine.applyTrade, BacktestEngine.buyTotalCost, BacktestEngine.tradeQuantity,
      BacktestEngine.tradePrice, lookupIn, Lookup.orPrice,
      Price.toNum, JSNum.orElse, JSNum.isTruthy, optNum, spreadOver, orElse,
      JSNum.mul, JSNum.gt, JSNum.sub, JSNum.add, JSNum.neg, setPosition,
      show ("BUY" : String) ≠ "" from by decide]
  · norm_num [BacktestEngine.runLoop, BacktestEngine.tick, BacktestEngine.initialState,
      BacktestEngine.create, BacktestEngine.applySignal, BacktestEngine.executeBacktestTrade,
      BacktestEngine.applyTrade, BacktestEngine.buyTotalCost, BacktestEngine.tradeQuantity,
      BacktestEngine.tradePrice, lookupIn, Lookup.orPrice,
      Price.toNum, JSNum.orElse, JSNum.isTruthy, optNum, spreadOver, orElse,
      JSNum.mul, JSNum.gt, JSNum.sub, JSNum.add, JSNum.neg, setPosition,
      show ("BUY" : String) ≠ "" from by decide]
  · norm_num [BacktestEngine.runLoop, BacktestEngine.tick, BacktestEngine.initialState,
      BacktestEngine.create, BacktestEngine.applySignal, BacktestEngine.executeBacktestTrade,
      BacktestEngine.applyTrade, BacktestEngine.buyTotalCost, BacktestEngine.tradeQuantity,
      BacktestEngine.tradePrice, lookupIn, Lookup.orPrice,
      Price.toNum, BacktestEngine.calculatePositionValue, ownEntries, List.filter, lookupIn,
      Lookup.orPrice, Price.toNum, JSNum.orElse,
      JSNum.isTruthy, optNum, spreadOver, orElse, JSNum.mul, JSNum.gt, JSNum.sub, JSNum.add,
      JSNum.neg, setPosition, show ("BUY" : String) ≠ "" from by decide,
      show ("X" : String) ≠ "__proto__" from by decide]
  · norm_num [sumNum, listedOrEntryPrice, JSNum.mul, JSNum.add, Price.toNum]
  · norm_num

/-- C29, amended: the equity sample appended for a data point has value
`capital + Σ quantity * m` over the own entries of the `positions` object, where the capital
and the positions are those after the instruction of the turn has been applied or skipped
and `m` is the price the data point lists for the symbol of the position when it lists one
that is not 0; the entry price of the position when the data point lists 0, or lists no
price for a symbol that names no member of `Object.prototype`; and NaN when the data point
lists no price for a symbol that names such a member (the lookup finds the inherited
member). When no held symbol names such a member, every entry is an own entry and `m` is the
listed price that is not 0, the entry price otherwise. -/
theorem tick_equity_sample {σ : Type} (e : BacktestEngine)
    (evaluate : σ → DataPoint → Positions → Option Instruction × σ) (st : RunState σ)
    (dataPoint : DataPoint) :
    (BacktestEngine.tick e evaluate st dataPoint).equity
      = st.equity ++
          [{ timestamp := some dataPoint.timestamp
             value := JSNum.add (BacktestEngine.tick e evaluate st dataPoint).capital
               (sumNum ((ownEntries (BacktestEngine.tick e evaluate st dataPoint).positions).map
                 (fun kv => JSNum.mul kv.2.quantity (markPrice dataPoint.prices kv)))) }] ∧
    (BacktestEngine.tick e evaluate st dataPoint).capital
      = (e.applySignal (evaluate st.strategy dataPoint st.positions).1 dataPoint st.capital
          st.positions st.trades).1 ∧
    (BacktestEngine.tick e evaluate st dataPoint).positions
      = (e.applySignal (evaluate st.strategy dataPoint st.positions).1 dataPoint st.capital
          st.positions st.trades).2.1 ∧
    ((∀ kv ∈ (BacktestEngine.tick e evaluate st dataPoint).positions,
        inheritedKey kv.1 = false) →
      ownEntries (BacktestEngine.tick e evaluate st dataPoint).positions
        = (BacktestEngine.tick e evaluate st dataPoint).positions ∧
      ∀ kv ∈ (BacktestEngine.tick e evaluate st dataPoint).positions,
        markPrice dataPoint.prices kv
          = match dataPoint.prices kv.1 with
            | some p => if p = 0 then kv.2.entryPrice.toNum else JSNum.fin p
            | none => kv.2.entryPrice.toNum) := by
  obtain ⟨hc, hp, _, heq, _⟩ := tick_fields e evaluate st dataPoint
  refine ⟨?_, hc, hp, ?_⟩
  · rw [heq, calculatePositionValue_eq_sum]
  · intro hkeys
    refine ⟨ownEntries_eq_self _ (fun kv hkv =>
      ne_proto_of_not_inherited kv.1 (hkeys kv hkv)), ?_⟩
    intro kv hkv
    unfold markPrice
    cases hprice : dataPoint.prices kv.1 with
    | none => simp [hkeys kv hkv]
    | some p => rfl

/-! ## Auxiliary lemmas on the drawdown -/

theorem foldl_max_ge_init (l : List ℚ) : ∀ a : ℚ, a ≤ l.foldl max a := by
  induction l with
  | nil => intro a; exact le_refl a
  | cons x l ih =>
    intro a
    rw [List.foldl_cons]
    exact le_trans (le_max_left a x) (ih (max a x))

theorem foldl_max_ge_mem (l : List ℚ) : ∀ a : ℚ, ∀ x ∈ l, x ≤ l.foldl max a := by
  induction l with
  | nil => intro a x hx; simp at hx
  | cons y l ih =>
    intro a x hx
    rw [List.foldl_cons]
    rcases List.mem_cons.mp hx with h | h
    · rw [h]
      exact le_trans (le_max_right a y) (foldl_max_ge_init l (max a y))
    · exact ih (max a y) x h

theorem foldl_max_mem (l : List ℚ) : ∀ a : ℚ, l.foldl max a = a ∨ l.foldl max a ∈ l := by
  induction l with
  | nil => intro a; left; rfl
  | cons y l ih =>
    intro a
    rw [List.foldl_cons]
    rcases ih (max a y) with h | h
    · rcases max_choice a y with hm | hm
      · left; rw [h, hm]
      · right; rw [h, hm]; exact List.mem_cons_self y l
    · right; exact List.mem_cons_of_mem y h

/-- The peak at the first sample is the first sample. -/
theorem runningPeak_zero (v0 : ℚ) (rest : List ℚ) : runningPeak (v0 :: rest) 0 = v0 := by
  simp [runningPeak]

/-- The peak at a sample is the larger of the peak before it and the sample. -/
theorem runningPeak_succ (vs : List ℚ) (t : Nat) (ht : t + 1 < vs.length) :
    runningPeak vs (t + 1) = max (runningPeak vs t) (vs.getD (t + 1) 0) := by
  unfold runningPeak
  rw [List.take_succ, List.foldl_append, List.getElem?_eq_getElem ht,
    List.getD_eq_getElem vs 0 ht]
  rfl

/-- The peak is at least the first sample. -/
theorem runningPeak_ge_first (v0 : ℚ) (rest : List ℚ) (t : Nat) :
    v0 ≤ runningPeak (v0 :: rest) t := by
  unfold runningPeak
  exact foldl_max_ge_init _ v0

/-- The largest drawdown of one more sample. -/
theorem maxDrawdownUpTo_succ (vs : List ℚ) (n : Nat) :
    maxDrawdownUpTo vs (n + 1) = max (maxDrawdownUpTo vs n) (drawdownAt vs n) := by
  unfold maxDrawdownUpTo
  rw [List.range_succ, List.map_append, List.foldl_append]
  rfl

/-- The drawdown at the first sample is 0. -/
theorem drawdownAt_zero (v0 : ℚ) (rest : List ℚ) : drawdownAt (v0 :: rest) 0 = 0 := by
  simp [drawdownAt, runningPeak_zero]

/-- One turn of the drawdown loop on finite values with a positive peak. -/
theorem drawdownStep_fin (p d v : ℚ) (timestamp : Option ℚ) (hp : 0 < p) :
    BacktestEngine.drawdownStep (JSNum.fin p, JSNum.fin d) ⟨timestamp, JSNum.fin v⟩
      = (JSNum.fin (max p v), JSNum.fin (max d ((max p v - v) / max p v * 100))) := by
  have hpeak : (if JSNum.gt (JSNum.fin v) (JSNum.fin p) = true then JSNum.fin v
      else JSNum.fin p) = JSNum.fin (max p v) := by
    simp only [JSNum.gt, decide_eq_true_eq]
    by_cases h : p < v
    · rw [if_pos h, max_eq_right (le_of_lt h)]
    · rw [if_neg h, max_eq_left (not_lt.mp h)]
  have hpos : max p v ≠ 0 := ne_of_gt (lt_of_lt_of_le hp (le_max_left p v))
  dsimp only [BacktestEngine.drawdownStep]
  rw [hpeak]
  simp only [JSNum.sub, JSNum.neg, JSNum.add, JSNum.div, if_neg hpos, JSNum.mul, JSNum.gt,
    decide_eq_true_eq, ← sub_eq_add_neg]
  congr 1
  by_cases h : d < (max p v - v) / max p v * 100
  · rw [if_pos h, max_eq_right (le_of_lt h)]
  · rw [if_neg h, max_eq_left (not_lt.mp h)]

/-- The drawdown loop reads the values of the curve only. -/
theorem foldl_drawdownStep_values (equity : List EquityPoint) :
    ∀ acc : JSNum ℚ × JSNum ℚ,
      equity.foldl BacktestEngine.drawdownStep acc
        = (equity.map EquityPoint.value).foldl
            (fun a x => BacktestEngine.drawdownStep a ⟨none, x⟩) acc := by
  induction equity with
  | nil => intro acc; rfl
  | cons pt l ih =>
    intro acc
    rw [List.foldl_cons, List.map_cons, List.foldl_cons, ih]
    rfl

/-- The state of the drawdown loop after the samples `0..k` of a positive curve: the running
peak and the largest drawdown so far. -/
theorem foldl_drawdownStep_take (v0 : ℚ) (rest : List ℚ) (hv0 : 0 < v0) :
    ∀ k, k < (v0 :: rest).length →
      ((v0 :: rest).take (k + 1)).foldl
          (fun a v => BacktestEngine.drawdownStep a ⟨none, JSNum.fin v⟩)
          (JSNum.fin v0, JSNum.fin 0)
        = (JSNum.fin (runningPeak (v0 :: rest) k),
            JSNum.fin (maxDrawdownUpTo (v0 :: rest) (k + 1))) := by
  intro k
  induction k with
  | zero =>
    intro _
    have h1 : maxDrawdownUpTo (v0 :: rest) 1 = 0 := by
      rw [maxDrawdownUpTo_succ, drawdownAt_zero]
      simp [maxDrawdownUpTo]
    rw [runningPeak_zero, h1]
    simp only [List.take_succ_cons, List.take_zero, List.foldl_cons, List.foldl_nil]
    rw [drawdownStep_fin v0 0 v0 none hv0]
    simp
  | succ k ih =>
    intro hk
    have hk' : k < (v0 :: rest).length := Nat.lt_of_succ_lt hk
    rw [List.take_succ, List.foldl_append, ih hk', List.getElem?_eq_getElem hk]
    simp only [Option.toList, List.foldl_cons, List.foldl_nil]
    have hpk : 0 < runningPeak (v0 :: rest) k :=
      lt_of_lt_of_le hv0 (runningPeak_ge_first v0 rest k)
    rw [drawdownStep_fin _ _ _ none hpk, runningPeak_succ (v0 :: rest) k hk,
      maxDrawdownUpTo_succ (v0 :: rest) (k + 1)]
    simp only [drawdownAt, runningPeak_succ (v0 :: rest) k hk,
      List.getD_eq_getElem (v0 :: rest) 0 hk]

/-- The `maxDrawdown` field of the record is the formatted result of the drawdown loop. -/
theorem calculateMetrics_maxDrawdown (first : EquityPoint) (rest : List EquityPoint)
    (trades : List BacktestTrade) :
    ∃ m, BacktestEngine.calculateMetrics (first :: rest) trades = some m ∧
      m.maxDrawdown
        = JSNum.toFixed2 (BacktestEngine.maxDrawdownLoop first (first :: rest)) := by
  have hlast : ∃ last, (first :: rest).getLast? = some last :=
    ⟨(first :: rest).getLast (by simp), List.getLast?_eq_getLast _ (by simp)⟩
  obtain ⟨last, hl⟩ := hlast
  simp only [BacktestEngine.calculateMetrics, List.head?_cons, hl]
  exact ⟨_, rfl, rfl⟩

/-- No drawdown among the first `n` samples exceeds the largest. -/
theorem drawdownAt_le_maxDrawdownUpTo (vs : List ℚ) (n t : Nat) (ht : t < n) :
    drawdownAt vs t ≤ maxDrawdownUpTo vs n := by
  unfold maxDrawdownUpTo
  apply foldl_max_ge_mem
  exact List.mem_map.mpr ⟨t, List.mem_range.mpr ht, rfl⟩

/-- The largest drawdown among the first `n` samples is the drawdown at one of them. -/
theorem maxDrawdownUpTo_attained (v0 : ℚ) (rest : List ℚ) (n : Nat) (hn : 0 < n) :
    ∃ t, t < n ∧ drawdownAt (v0 :: rest) t = maxDrawdownUpTo (v0 :: rest) n := by
  rcases foldl_max_mem ((List.range n).map (drawdownAt (v0 :: rest))) 0 with h | h
  · refine ⟨0, hn, ?_⟩
    rw [drawdownAt_zero]
    exact h.symm
  · obtain ⟨t, ht, heq⟩ := List.mem_map.mp h
    exact ⟨t, List.mem_range.mp ht, heq⟩

/-- No sample up to `t` exceeds the peak at `t`. -/
theorem sample_le_runningPeak (vs : List ℚ) (t i : Nat) (hi : i ≤ t) (ht : t < vs.length) :
    vs.getD i 0 ≤ runningPeak vs t := by
  unfold runningPeak
  apply foldl_max_ge_mem
  have hil : i < vs.length := lt_of_le_of_lt hi ht
  rw [List.getD_eq_getElem vs 0 hil]
  refine List.mem_take_iff_getElem.mpr ⟨i, ?_, rfl⟩
  exact lt_min (Nat.lt_succ_of_le hi) hil

/-- The peak at `t` is one of the samples up to `t`. -/
theorem runningPeak_attained (v0 : ℚ) (rest : List ℚ) (t : Nat) :
    ∃ i, i ≤ t ∧ (v0 :: rest).getD i 0 = runningPeak (v0 :: rest) t := by
  rcases foldl_max_mem ((v0 :: rest).take (t + 1)) v0 with h | h
  · refine ⟨0, Nat.zero_le t, ?_⟩
    unfold runningPeak
    rw [List.headD_cons, h]
    rfl
  · obtain ⟨i, hi, heq⟩ := List.mem_take_iff_getElem.mp h
    have hit : i < t + 1 := lt_of_lt_of_le hi (min_le_left _ _)
    have hil : i < (v0 :: rest).length := lt_of_lt_of_le hi (min_le_right _ _)
    refine ⟨i, Nat.le_of_lt_succ hit, ?_⟩
    rw [List.getD_eq_getElem (v0 :: rest) 0 hil, heq]
    unfold runningPeak
    rw [List.headD_cons]

/-- C30: on a non-empty equity curve of positive values the drawdown loop of
`calculateMetrics` ends with `maxDrawdown` equal to the largest over the samples `t` of
`(peak_t - equity_t) / peak_t * 100`, where `peak_t` is the largest value among the samples
`0..t`: no sample has a larger drawdown and one sample has exactly that drawdown. The field
`maxDrawdown` of the record returned is that number formatted with two decimals. -/
theorem maxDrawdown_is_largest_drawdown (equity : List EquityPoint)
    (trades : List BacktestTrade) (v0 : ℚ) (rest : List ℚ)
    (hvalues : equity.map EquityPoint.value = (v0 :: rest).map JSNum.fin)
    (hpos : ∀ v ∈ v0 :: rest, 0 < v) :
    ∃ first m,
      equity.head? = some first ∧
      BacktestEngine.calculateMetrics equity trades = some m ∧
      BacktestEngine.maxDrawdownLoop first equity
        = JSNum.fin (maxDrawdownUpTo (v0 :: rest) (v0 :: rest).length) ∧
      m.maxDrawdown
        = JSNum.fin (toFixed2 (maxDrawdownUpTo (v0 :: rest) (v0 :: rest).length)) ∧
      (∀ t, t < (v0 :: rest).length →
        drawdownAt (v0 :: rest) t ≤ maxDrawdownUpTo (v0 :: rest) (v0 :: rest).length) ∧
      (∃ t, t < (v0 :: rest).length ∧
        drawdownAt (v0 :: rest) t = maxDrawdownUpTo (v0 :: rest) (v0 :: rest).length) ∧
      (∀ t, t < (v0 :: rest).length →
        (∀ i, i ≤ t → (v0 :: rest).getD i 0 ≤ runningPeak (v0 :: rest) t) ∧
        ∃ i, i ≤ t ∧ (v0 :: rest).getD i 0 = runningPeak (v0 :: rest) t) := by
  cases equity with
  | nil => simp at hvalues
  | cons first restE =>
    have hfirst : first.value = JSNum.fin v0 := by
      simp only [List.map_cons] at hvalues
      exact (List.cons.inj hvalues).1
    have hv0 : 0 < v0 := hpos v0 (List.mem_cons_self v0 rest)
    have hloop : BacktestEngine.maxDrawdownLoop first (first :: restE)
        = JSNum.fin (maxDrawdownUpTo (v0 :: rest) (v0 :: rest).length) := by
      unfold BacktestEngine.maxDrawdownLoop
      rw [foldl_drawdownStep_values, hvalues, List.foldl_map, hfirst]
      have h := foldl_drawdownStep_take v0 rest hv0 rest.length (by simp)
      have htake : (v0 :: rest).take (rest.length + 1) = v0 :: rest :=
        List.take_length (v0 :: rest)
      rw [htake] at h
      rw [h]
      rfl
    obtain ⟨m, hm, hmd⟩ := calculateMetrics_maxDrawdown first restE trades
    refine ⟨first, m, rfl, hm, hloop, ?_, ?_, ?_, ?_⟩
    · rw [hmd, hloop]
      rfl
    · intro t ht
      exact drawdownAt_le_maxDrawdownUpTo (v0 :: rest) _ t ht
    · exact maxDrawdownUpTo_attained v0 rest _ (by simp)
    · intro t ht
      exact ⟨fun i hi => sample_le_runningPeak (v0 :: rest) t i hi ht,
        runningPeak_attained v0 rest t⟩

/-- Witness of C30: the curve 100, 120, 90. -/
theorem maxDrawdown_is_largest_drawdown_witness :
    ∃ first m,
      ([⟨some 0, JSNum.fin 100⟩, ⟨some 1, JSNum.fin 120⟩, ⟨some 2, JSNum.fin 90⟩] :
        List EquityPoint).head? = some first ∧
      BacktestEngine.calculateMetrics
        [⟨some 0, JSNum.fin 100⟩, ⟨some 1, JSNum.fin 120⟩, ⟨some 2, JSNum.fin 90⟩] []
        = some m ∧
      BacktestEngine.maxDrawdownLoop first
        [⟨some 0, JSNum.fin 100⟩, ⟨some 1, JSNum.fin 120⟩, ⟨some 2, JSNum.fin 90⟩]
        = JSNum.fin (maxDrawdownUpTo [100, 120, 90] 3) :=
  have h := maxDrawdown_is_largest_drawdown
    [⟨some 0, JSNum.fin 100⟩, ⟨some 1, JSNum.fin 120⟩, ⟨some 2, JSNum.fin 90⟩] [] 100
    [120, 90] rfl
    (by
      intro v hv
      simp only [List.mem_cons, List.mem_singleton, List.not_mem_nil, or_false] at hv
      rcases hv with h | h | h <;> rw [h] <;> norm_num)
  match h with
  | ⟨first, m, h1, h2, h3, _⟩ => ⟨first, m, h1, h2, h3⟩

/-! ## Auxiliary lemmas on the trade statistics -/

/-- The formatted statistics of the record are those of the trade log. -/
theorem calculateMetrics_statistics (first : EquityPoint) (rest : List EquityPoint)
    (trades : List BacktestTrade) :
    ∃ m, BacktestEngine.calculateMetrics (first :: rest) trades = some m ∧
      m.avgWin = JSNum.toFixed2 (BacktestEngine.avgWinOf trades) ∧
      m.avgLoss = JSNum.toFixed2 (BacktestEngine.avgLossOf trades) ∧
      m.profitFactor = JSNum.toFixed2 (BacktestEngine.profitFactorOf trades) ∧
      m.completedTrades = (BacktestEngine.completedTradesOf trades).length ∧
      m.winningTrades = (BacktestEngine.winningTradesOf trades).length ∧
      m.losingTrades = (BacktestEngine.losingTradesOf trades).length ∧
      m.totalTrades = trades.length ∧
      m.equityCurve = first :: rest := by
  have hlast : ∃ last, (first :: rest).getLast? = some last :=
    ⟨(first :: rest).getLast (by simp), List.getLast?_eq_getLast _ (by simp)⟩
  obtain ⟨last, hl⟩ := hlast
  simp only [BacktestEngine.calculateMetrics, List.head?_cons, hl]
  exact ⟨_, rfl, rfl, rfl, rfl, rfl, rfl, rfl, rfl, rfl⟩

/-- A record with a non-zero profit value has a finite profit. -/
theorem profit_of_profitValue_ne (t : BacktestTrade) (h : profitValue t ≠ 0) :
    t.profit = some (JSNum.fin (profitValue t)) := by
  unfold profitValue at h ⊢
  cases hp : t.profit with
  | none => rw [hp] at h; exact absurd rfl h
  | some x =>
    cases x with
    | fin y => rfl
    | posInf => rw [hp] at h; exact absurd rfl h
    | negInf => rw [hp] at h; exact absurd rfl h
    | nan => rw [hp] at h; exact absurd rfl h

/-- The test `t.profit > 0` on a record without an infinite profit. -/
theorem gt_profit_iff (t : BacktestTrade) (h1 : t.profit ≠ some JSNum.posInf) :
    JSNum.gt (t.profit.getD JSNum.nan) (JSNum.fin 0) = decide (0 < profitValue t) := by
  unfold profitValue
  cases hp : t.profit with
  | none => simp [JSNum.gt]
  | some x =>
    cases x with
    | fin y => simp [JSNum.gt]
    | posInf => exact absurd hp h1
    | negInf => simp [JSNum.gt]
    | nan => simp [JSNum.gt]

/-- The test `t.profit < 0` on a record without an infinite profit. -/
theorem lt_profit_iff (t : BacktestTrade) (h1 : t.profit ≠ some JSNum.negInf) :
    JSNum.lt (t.profit.getD JSNum.nan) (JSNum.fin 0) = decide (profitValue t < 0) := by
  unfold profitValue JSNum.lt
  cases hp : t.profit with
  | none => simp [JSNum.gt]
  | some x =>
    cases x with
    | fin y => simp [JSNum.gt]
    | posInf => simp [JSNum.gt]
    | negInf => exact absurd hp h1
    | nan => simp [JSNum.gt]

/-- The winning trades of a log without infinite profits. -/
theorem winningTradesOf_eq (trades : List BacktestTrade)
    (hfinite : ∀ t ∈ trades, t.action = "SELL" →
      t.profit ≠ some JSNum.posInf ∧ t.profit ≠ some JSNum.negInf) :
    BacktestEngine.winningTradesOf trades = sellWinners trades := by
  unfold BacktestEngine.winningTradesOf BacktestEngine.completedTradesOf sellWinners
  rw [List.filter_filter]
  apply List.filter_congr
  intro t ht
  by_cases ha : t.action = "SELL"
  · rw [gt_profit_iff t (hfinite t ht ha).1]
    simp [ha]
  · simp [ha]

/-- The losing trades of a log without infinite profits. -/
theorem losingTradesOf_eq (trades : List BacktestTrade)
    (hfinite : ∀ t ∈ trades, t.action = "SELL" →
      t.profit ≠ some JSNum.posInf ∧ t.profit ≠ some JSNum.negInf) :
    BacktestEngine.losingTradesOf trades = sellLosers trades := by
  unfold BacktestEngine.losingTradesOf BacktestEngine.completedTradesOf sellLosers
  rw [List.filter_filter]
  apply List.filter_congr
  intro t ht
  by_cases ha : t.action = "SELL"
  · rw [lt_profit_iff t (hfinite t ht ha).2]
    simp [ha]
  · simp [ha]

/-- The sum of the profits of records with finite profits. -/
theorem foldl_profit_of_finite (ts : List BacktestTrade)
    (h : ∀ t ∈ ts, t.profit = some (JSNum.fin (profitValue t))) :
    ∀ a : ℚ, ts.foldl (fun sum t => JSNum.add sum (t.profit.getD JSNum.nan)) (JSNum.fin a)
      = JSNum.fin (a + (ts.map profitValue).sum) := by
  induction ts with
  | nil => intro a; simp
  | cons t l ih =>
    intro a
    have ht := h t (List.mem_cons_self t l)
    have hadd : JSNum.add (JSNum.fin a) (JSNum.fin (profitValue t))
        = JSNum.fin (a + profitValue t) := rfl
    simp only [List.foldl_cons, ht, Option.getD_some]
    rw [hadd, ih (fun x hx => h x (List.mem_cons_of_mem t hx))]
    simp [add_assoc]

/-- The mean computed by `calculateMetrics` on records with finite profits. -/
theorem mean_of_finite (ts : List BacktestTrade)
    (h : ∀ t ∈ ts, t.profit = some (JSNum.fin (profitValue t))) :
    (if 0 < ts.length then
        JSNum.div (BacktestEngine.sumProfit ts) (JSNum.fin (ts.length : ℚ))
      else JSNum.fin 0) = JSNum.fin (meanProfit ts) := by
  unfold meanProfit BacktestEngine.sumProfit
  cases ts with
  | nil => simp
  | cons t l =>
    have hlen : ((t :: l).length : ℚ) ≠ 0 := by
      simp only [List.length_cons]
      exact_mod_cast Nat.succ_ne_zero l.length
    rw [if_pos (by simp), foldl_profit_of_finite (t :: l) h 0, if_neg (by simp)]
    simp only [JSNum.div, if_neg hlen, zero_add]

/-- The mean of a non-empty list of negative profits is negative. -/
theorem meanProfit_neg (ts : List BacktestTrade) (hne : ts ≠ [])
    (h : ∀ t ∈ ts, profitValue t < 0) : meanProfit ts < 0 := by
  unfold meanProfit
  rw [if_neg hne]
  have hsum : (ts.map profitValue).sum < 0 := by
    cases ts with
    | nil => exact absurd rfl hne
    | cons t l =>
      have hall : ∀ l' : List BacktestTrade, (∀ x ∈ l', profitValue x < 0) →
          (l'.map profitValue).sum ≤ 0 := by
        intro l'
        induction l' with
        | nil => intro _; simp
        | cons y ys ihy =>
          intro hy
          have h1 := hy y (List.mem_cons_self y ys)
          have h2 := ihy (fun x hx => hy x (List.mem_cons_of_mem y hx))
          simp only [List.map_cons, List.sum_cons]
          linarith
      have hl : (l.map profitValue).sum ≤ 0 :=
        hall l (fun x hx => h x (List.mem_cons_of_mem t hx))
      have ht := h t (List.mem_cons_self t l)
      simp only [List.map_cons, List.sum_cons]
      linarith
  have hlen : (0 : ℚ) < (ts.length : ℚ) := by
    exact_mod_cast List.length_pos.mpr hne
  exact div_neg_of_neg_of_pos hsum hlen

/-- C31: on a trade log without infinite profits `calculateMetrics` computes `avgWin` as the
mean profit of the SELL records with profit above 0 (0 when there is none), `avgLoss` as the
mean profit of the SELL records with profit below 0 (0 when there is none) and `profitFactor`
as `|avgWin / avgLoss|` when `avgLoss` is not 0 and as 0 when it is; `avgLoss` is 0 exactly
when there is no losing record, so the quotient is never taken with a zero divisor. The
record returned holds the three values formatted with two decimals. -/
theorem metrics_averages (equity : List EquityPoint) (trades : List BacktestTrade)
    (hequity : equity ≠ [])
    (hfinite : ∀ t ∈ trades, t.action = "SELL" →
      t.profit ≠ some JSNum.posInf ∧ t.profit ≠ some JSNum.negInf) :
    ∃ m, BacktestEngine.calculateMetrics equity trades = some m ∧
      BacktestEngine.avgWinOf trades = JSNum.fin (meanProfit (sellWinners trades)) ∧
      BacktestEngine.avgLossOf trades = JSNum.fin (meanProfit (sellLosers trades)) ∧
      BacktestEngine.profitFactorOf trades
        = JSNum.fin (if meanProfit (sellLosers trades) = 0 then 0
            else |meanProfit (sellWinners trades) / meanProfit (sellLosers trades)|) ∧
      (meanProfit (sellLosers trades) = 0 ↔ sellLosers trades = []) ∧
      m.avgWin = JSNum.fin (toFixed2 (meanProfit (sellWinners trades))) ∧
      m.avgLoss = JSNum.fin (toFixed2 (meanProfit (sellLosers trades))) ∧
      m.profitFactor
        = JSNum.fin (toFixed2 (if meanProfit (sellLosers trades) = 0 then 0
            else |meanProfit (sellWinners trades) / meanProfit (sellLosers trades)|)) := by
  cases equity with
  | nil => exact absurd rfl hequity
  | cons first rest =>
    obtain ⟨m, hm, hmw, hml, hmf, _⟩ := calculateMetrics_statistics first rest trades
    have hwfin : ∀ t ∈ sellWinners trades, t.profit = some (JSNum.fin (profitValue t)) := by
      intro t ht
      have h := (List.mem_filter.mp ht).2
      exact profit_of_profitValue_ne t (ne_of_gt (of_decide_eq_true h).2)
    have hlneg : ∀ t ∈ sellLosers trades, profitValue t < 0 := by
      intro t ht
      exact (of_decide_eq_true (List.mem_filter.mp ht).2).2
    have hlfin : ∀ t ∈ sellLosers trades, t.profit = some (JSNum.fin (profitValue t)) :=
      fun t ht => profit_of_profitValue_ne t (ne_of_lt (hlneg t ht))
    have hwin : BacktestEngine.avgWinOf trades = JSNum.fin (meanProfit (sellWinners trades)) := by
      unfold BacktestEngine.avgWinOf
      rw [winningTradesOf_eq trades hfinite]
      exact mean_of_finite _ hwfin
    have hloss : BacktestEngine.avgLossOf trades
        = JSNum.fin (meanProfit (sellLosers trades)) := by
      unfold BacktestEngine.avgLossOf
      rw [losingTradesOf_eq trades hfinite]
      exact mean_of_finite _ hlfin
    have hzero : meanProfit (sellLosers trades) = 0 ↔ sellLosers trades = [] := by
      constructor
      · intro h0
        by_contra hne
        have := meanProfit_neg _ hne hlneg
        linarith
      · intro hnil
        simp [meanProfit, hnil]
    have hfactor : BacktestEngine.profitFactorOf trades
        = JSNum.fin (if meanProfit (sellLosers trades) = 0 then 0
            else |meanProfit (sellWinners trades) / meanProfit (sellLosers trades)|) := by
      unfold BacktestEngine.profitFactorOf
      rw [hloss, hwin]
      by_cases h0 : meanProfit (sellLosers trades) = 0
      · rw [h0]
        simp
      · have hne : JSNum.fin (meanProfit (sellLosers trades)) ≠ (JSNum.fin 0 : JSNum ℚ) := by
          intro h
          exact h0 (JSNum.fin.inj h)
        rw [if_pos hne, if_neg h0]
        simp only [JSNum.div, if_neg h0, JSNum.abs]
    refine ⟨m, hm, hwin, hloss, hfactor, hzero, ?_, ?_, ?_⟩
    · rw [hmw, hwin]; rfl
    · rw [hml, hloss]; rfl
    · rw [hmf, hfactor]; rfl

/-- Witness of C31: a curve of one sample and a log of two SELL records, with profits 10
and -5. -/
theorem metrics_averages_witness :
    ∃ m, BacktestEngine.calculateMetrics [⟨some 0, JSNum.fin 100⟩]
        [⟨"SELL", "X", JSNum.fin 1, Price.num (JSNum.fin 1), none, some (JSNum.fin 11),
           some (JSNum.fin 10), some (JSNum.fin 10), some (JSNum.fin 1), 1⟩,
          ⟨"SELL", "X", JSNum.fin 1, Price.num (JSNum.fin 1), none, some (JSNum.fin 6),
            some (JSNum.fin (-5)), some (JSNum.fin (-5)), some (JSNum.fin 1), 2⟩] = some m ∧
      BacktestEngine.avgWinOf
        [⟨"SELL", "X", JSNum.fin 1, Price.num (JSNum.fin 1), none, some (JSNum.fin 11),
           some (JSNum.fin 10), some (JSNum.fin 10), some (JSNum.fin 1), 1⟩,
          ⟨"SELL", "X", JSNum.fin 1, Price.num (JSNum.fin 1), none, some (JSNum.fin 6),
            some (JSNum.fin (-5)), some (JSNum.fin (-5)), some (JSNum.fin 1), 2⟩]
        = JSNum.fin (meanProfit (sellWinners
          [⟨"SELL", "X", JSNum.fin 1, Price.num (JSNum.fin 1), none, some (JSNum.fin 11),
             some (JSNum.fin 10), some (JSNum.fin 10), some (JSNum.fin 1), 1⟩,
            ⟨"SELL", "X", JSNum.fin 1, Price.num (JSNum.fin 1), none, some (JSNum.fin 6),
              some (JSNum.fin (-5)), some (JSNum.fin (-5)), some (JSNum.fin 1), 2⟩])) :=
  have h := metrics_averages [⟨some 0, JSNum.fin 100⟩]
    [⟨"SELL", "X", JSNum.fin 1, Price.num (JSNum.fin 1), none, some (JSNum.fin 11),
       some (JSNum.fin 10), some (JSNum.fin 10), some (JSNum.fin 1), 1⟩,
      ⟨"SELL", "X", JSNum.fin 1, Price.num (JSNum.fin 1), none, some (JSNum.fin 6),
        some (JSNum.fin (-5)), some (JSNum.fin (-5)), some (JSNum.fin 1), 2⟩]
    (by simp)
    (by
      intro t ht _
      simp only [List.mem_cons, List.mem_singleton, List.not_mem_nil, or_false] at ht
      rcases ht with h | h <;> rw [h] <;> simp)
  match h with
  | ⟨m, h1, h2, _⟩ => ⟨m, h1, h2⟩

/-! ## Auxiliary lemmas on a run -/

/-- The loop reads the configuration of the engine only. -/
theorem runLoop_of_config {σ : Type} (e e' : BacktestEngine) (h : e.config = e'.config)
    (evaluate : σ → DataPoint → Positions → Option Instruction × σ) (strategy : σ)
    (historicalData : List DataPoint) :
    BacktestEngine.runLoop e evaluate strategy historicalData
      = BacktestEngine.runLoop e' evaluate strategy historicalData := by
  cases e with
  | mk c r t =>
    cases e' with
    | mk c' r' t' =>
      simp only at h
      subst h
      rfl

/-- The record and the trade log of a run, from the state the loop ends in. -/
theorem runBacktest_of_runLoop {σ : Type} (e : BacktestEngine)
    (evaluate : σ → DataPoint → Positions → Option Instruction × σ) (strategy : σ)
    (historicalData : List DataPoint) (startTime endTime : Nat) :
    (BacktestEngine.runBacktest e evaluate strategy historicalData startTime endTime).1.map
        (fun m => { m with executionTime := none })
      = BacktestEngine.calculateMetrics
          (BacktestEngine.runLoop e evaluate strategy historicalData).equity
          (BacktestEngine.runLoop e evaluate strategy historicalData).trades ∧
    (BacktestEngine.runBacktest e evaluate strategy historicalData startTime endTime).2.trades
      = (BacktestEngine.runLoop e evaluate strategy historicalData).trades ∧
    (BacktestEngine.runBacktest e evaluate strategy historicalData startTime endTime).2.config
      = e.config := by
  have htime : ∀ (eq : List EquityPoint) (ts : List BacktestTrade) (m : Metrics),
      BacktestEngine.calculateMetrics eq ts = some m → m.executionTime = none := by
    intro eq ts m hm
    unfold BacktestEngine.calculateMetrics at hm
    split at hm
    · simp only [Option.some.injEq] at hm
      rw [← hm]
    · exact absurd hm (by simp)
  cases hm : BacktestEngine.calculateMetrics
      (BacktestEngine.runLoop e evaluate strategy historicalData).equity
      (BacktestEngine.runLoop e evaluate strategy historicalData).trades with
  | none => simp [BacktestEngine.runBacktest, hm]
  | some m =>
    have ht := htime _ _ m hm
    simp only [BacktestEngine.runBacktest, hm, Option.map_some', and_self, and_true]
    congr 1
    cases m
    simp only at ht
    subst ht
    rfl

/-- C32: a run is a function of the configuration of the engine, the strategy and the
series. Two runs of the same strategy (the same `evaluate`, started in the same state) over
the same series, on engines with the same configuration whatever results and trades they
hold from earlier runs, and whatever the clock reads, end with the same equity curve and the
same trade log and return records that agree in every field but `executionTime`; so does a
second run on the engine the first run leaves. -/
theorem runBacktest_deterministic {σ : Type} (config : BacktestConfig)
    (results1 results2 : Option Metrics) (trades1 trades2 : List BacktestTrade)
    (evaluate : σ → DataPoint → Positions → Option Instruction × σ) (strategy : σ)
    (historicalData : List DataPoint) (start1 end1 start2 end2 : Nat) :
    (BacktestEngine.runLoop ⟨config, results1, trades1⟩ evaluate strategy historicalData).equity
      = (BacktestEngine.runLoop ⟨config, results2, trades2⟩ evaluate strategy
          historicalData).equity ∧
    (BacktestEngine.runBacktest ⟨config, results1, trades1⟩ evaluate strategy historicalData
        start1 end1).2.trades
      = (BacktestEngine.runBacktest ⟨config, results2, trades2⟩ evaluate strategy
          historicalData start2 end2).2.trades ∧
    (BacktestEngine.runBacktest ⟨config, results1, trades1⟩ evaluate strategy historicalData
        start1 end1).1.map (fun m => { m with executionTime := none })
      = (BacktestEngine.runBacktest ⟨config, results2, trades2⟩ evaluate strategy
          historicalData start2 end2).1.map (fun m => { m with executionTime := none }) ∧
    (BacktestEngine.runBacktest
        (BacktestEngine.runBacktest ⟨config, results1, trades1⟩ evaluate strategy
          historicalData start1 end1).2
        evaluate strategy historicalData start2 end2).1.map
          (fun m => { m with executionTime := none })
      = (BacktestEngine.runBacktest ⟨config, results1, trades1⟩ evaluate strategy
          historicalData start1 end1).1.map (fun m => { m with executionTime := none }) ∧
    (BacktestEngine.runBacktest
        (BacktestEngine.runBacktest ⟨config, results1, trades1⟩ evaluate strategy
          historicalData start1 end1).2
        evaluate strategy historicalData start2 end2).2.trades
      = (BacktestEngine.runBacktest ⟨config, results1, trades1⟩ evaluate strategy
          historicalData start1 end1).2.trades := by
  have h12 := runLoop_of_config ⟨config, results1, trades1⟩ ⟨config, results2, trades2⟩ rfl
    evaluate strategy historicalData
  obtain ⟨a1, b1, c1⟩ := runBacktest_of_runLoop ⟨config, results1, trades1⟩ evaluate strategy
    historicalData start1 end1
  obtain ⟨a2, b2, _⟩ := runBacktest_of_runLoop ⟨config, results2, trades2⟩ evaluate strategy
    historicalData start2 end2
  obtain ⟨a3, b3, _⟩ := runBacktest_of_runLoop
    (BacktestEngine.runBacktest ⟨config, results1, trades1⟩ evaluate strategy historicalData
      start1 end1).2 evaluate strategy historicalData start2 end2
  have h31 := runLoop_of_config
    (BacktestEngine.runBacktest ⟨config, results1, trades1⟩ evaluate strategy historicalData
      start1 end1).2 ⟨config, results1, trades1⟩ c1 evaluate strategy historicalData
  refine ⟨?_, ?_, ?_, ?_, ?_⟩
  · rw [h12]
  · rw [b1, b2, h12]
  · rw [a1, a2, h12]
  · rw [a3, a1, h31]
  · rw [b3, b1, h31]

/-- The loop appends one sample per data point, stamped with the time of the data point. -/
theorem foldl_tick_equity {σ : Type} (e : BacktestEngine)
    (evaluate : σ → DataPoint → Positions → Option Instruction × σ) :
    ∀ (historicalData : List DataPoint) (st : RunState σ),
      ∃ samples : List EquityPoint,
        (historicalData.foldl (BacktestEngine.tick e evaluate) st).equity
          = st.equity ++ samples ∧
        samples.map EquityPoint.timestamp
          = historicalData.map (fun d => some d.timestamp) := by
  intro historicalData
  induction historicalData with
  | nil => intro st; exact ⟨[], by simp, rfl⟩
  | cons d ds ih =>
    intro st
    obtain ⟨samples, h1, h2⟩ := ih (BacktestEngine.tick e evaluate st d)
    obtain ⟨_, _, _, heq, _⟩ := tick_fields e evaluate st d
    refine ⟨(⟨some d.timestamp,
      JSNum.add (BacktestEngine.tick e evaluate st d).capital
        (BacktestEngine.calculatePositionValue
          (BacktestEngine.tick e evaluate st d).positions d.prices)⟩ : EquityPoint)
      :: samples, ?_, ?_⟩
    · rw [List.foldl_cons, h1, heq, List.append_assoc]
      rfl
    · rw [List.map_cons, h2]
      rfl

/-- C33, as stated, fails: the curve is not strictly ordered by timestamp. On a series of one
data point, at time 1, the curve of the default engine has two samples, the seed and the
sample of the data point, and both carry the timestamp 1. -/
theorem equity_curve_repeats_first_timestamp :
    (BacktestEngine.runLoop (BacktestEngine.create {})
      (fun (_ : Unit) _ _ => (none, ())) () [⟨1, fun _ => none⟩]).equity
      = [⟨some 1, JSNum.fin 10000⟩, ⟨some 1, JSNum.fin 10000⟩] ∧
    ¬ ((1 : ℚ) < 1) := by
  constructor
  · norm_num [BacktestEngine.runLoop, BacktestEngine.tick, BacktestEngine.initialState,
      BacktestEngine.create, BacktestEngine.applySignal, BacktestEngine.calculatePositionValue, ownEntries, List.filter, lookupIn,
      Lookup.orPrice, Price.toNum,
      spreadOver, orElse, JSNum.add]
  · norm_num

/-- C33, amended: for a non-empty series with strictly increasing timestamps the equity curve
is a seed sample followed by one sample per data point. The seed is the starting capital
(`config.initialCapital`) stamped with the time of the first data point, so the first two
samples of the curve carry the same timestamp; the samples that follow the seed are strictly
ordered by timestamp, and the whole curve is ordered by timestamp without being strictly
so. -/
theorem equity_curve_ordered {σ : Type} (e : BacktestEngine)
    (evaluate : σ → DataPoint → Positions → Option Instruction × σ) (strategy : σ)
    (d0 : DataPoint) (rest : List DataPoint)
    (hincreasing : List.Chain' (fun a b : DataPoint => a.timestamp < b.timestamp) (d0 :: rest)) :
    ∃ (first : EquityPoint) (samples : List EquityPoint),
      (BacktestEngine.runLoop e evaluate strategy (d0 :: rest)).equity
        = ⟨some d0.timestamp, JSNum.fin e.config.initialCapital⟩ :: first :: samples ∧
      first.timestamp = some d0.timestamp ∧
      (first :: samples).map EquityPoint.timestamp
        = (d0 :: rest).map (fun d => some d.timestamp) ∧
      List.Chain'
        (fun a b : EquityPoint =>
          ∃ x y, a.timestamp = some x ∧ b.timestamp = some y ∧ x < y)
        (first :: samples) ∧
      List.Chain'
        (fun a b : EquityPoint =>
          ∃ x y, a.timestamp = some x ∧ b.timestamp = some y ∧ x ≤ y)
        (⟨some d0.timestamp, JSNum.fin e.config.initialCapital⟩ :: first :: samples) := by
  obtain ⟨all, h1, h2⟩ := foldl_tick_equity e evaluate (d0 :: rest)
    (BacktestEngine.initialState e strategy (d0 :: rest))
  cases all with
  | nil => simp at h2
  | cons first samples =>
    have hfirst : first.timestamp = some d0.timestamp := by
      simp only [List.map_cons] at h2
      exact (List.cons.inj h2).1
    have hstrict : List.Chain'
        (fun a b : EquityPoint =>
          ∃ x y, a.timestamp = some x ∧ b.timestamp = some y ∧ x < y)
        (first :: samples) := by
      have hmap : List.Chain'
          (fun a b : Option ℚ => ∃ x y, a = some x ∧ b = some y ∧ x < y)
          ((first :: samples).map EquityPoint.timestamp) := by
        rw [h2, List.chain'_map]
        exact hincreasing.imp (fun a b hab => ⟨a.timestamp, b.timestamp, rfl, rfl, hab⟩)
      exact (List.chain'_map _).mp hmap
    refine ⟨first, samples, ?_, hfirst, h2, hstrict, ?_⟩
    · unfold BacktestEngine.runLoop
      rw [h1]
      rfl
    · rw [List.chain'_cons]
      refine ⟨⟨d0.timestamp, d0.timestamp, rfl, hfirst, le_refl _⟩, ?_⟩
      exact hstrict.imp (fun a b ⟨x, y, hx, hy, hxy⟩ => ⟨x, y, hx, hy, le_of_lt hxy⟩)

/-- Witness of C33 (amended): a series of two data points, at times 1 and 2, and a strategy
that never trades. -/
theorem equity_curve_ordered_witness :
    ∃ (first : EquityPoint) (samples : List EquityPoint),
      (BacktestEngine.runLoop (BacktestEngine.create {})
        (fun (_ : Unit) _ _ => (none, ())) ()
        [⟨1, fun _ => none⟩, ⟨2, fun _ => none⟩]).equity
        = ⟨some 1, JSNum.fin (BacktestEngine.create {}).config.initialCapital⟩
            :: first :: samples ∧
      first.timestamp = some 1 :=
  have h := equity_curve_ordered (BacktestEngine.create {})
    (fun (_ : Unit) _ _ => (none, ())) () ⟨1, fun _ => none⟩ [⟨2, fun _ => none⟩]
    (by simp)
  match h with
  | ⟨first, samples, h1, h2, _⟩ => ⟨first, samples, h1, h2⟩

/-- C35, as stated, fails when the data point lists a price of 0: for an instruction to buy
one unit of `X` with its own price 5 at a data point that lists `X` at 0, the execution price
is 5, the price of the instruction, although the data point provides a price for the
symbol. -/
theorem tradePrice_zero_listed_counterexample :
    BacktestEngine.tradePrice ⟨"BUY", "X", some 1, some 5⟩ ⟨1, fun _ => some 0⟩
      = Price.num (JSNum.fin 5) ∧
    listedOrOwnPrice ⟨"BUY", "X", some 1, some 5⟩ ⟨1, fun _ => some 0⟩ = JSNum.fin 0 ∧
    (∃ t, BacktestEngine.executeBacktestTrade (BacktestEngine.create {})
        ⟨"BUY", "X", some 1, some 5⟩ ⟨1, fun _ => some 0⟩ (JSNum.fin 10000) []
          = BacktestResult.ok t ∧ t.price = Price.num (JSNum.fin 5)) ∧
    (JSNum.fin 5 : JSNum ℚ) ≠ JSNum.fin 0 := by
  refine ⟨?_, ?_, ?_, ?_⟩
  · simp [BacktestEngine.tradePrice, lookupIn, Lookup.orPrice, optNum]
  · simp [listedOrOwnPrice]
  · refine ⟨⟨"BUY", "X", JSNum.fin 1, Price.num (JSNum.fin 5), some (JSNum.fin (1003 / 200)),
      none, none, none, none, 1⟩, ?_, rfl⟩
    rw [executeBacktestTrade_buy _ _ _ _ _ rfl]
    norm_num [BacktestEngine.buyTotalCost, BacktestEngine.tradeQuantity,
      BacktestEngine.tradePrice, lookupIn, Lookup.orPrice,
      Price.toNum, BacktestEngine.create, optNum, JSNum.orElse, JSNum.isTruthy,
      spreadOver, orElse, JSNum.mul, JSNum.gt]
  · norm_num

/-- C35, amended: the execution price is the price the data point lists for the symbol of
the instruction when it lists one that is not 0; the price field of the instruction (NaN
when the instruction has none) when the data point lists 0, or lists no price for a symbol
that names no member of `Object.prototype`; and the inherited member, not the price field of
the instruction, when the data point lists no price for a symbol that names such a member
(`toString`, say). It is the price of every record `executeBacktestTrade` returns. -/
theorem tradePrice_resolution (e : BacktestEngine) (signal : Instruction)
    (dataPoint : DataPoint) :
    BacktestEngine.tradePrice signal dataPoint
      = (match dataPoint.prices signal.symbol with
        | some p => if p = 0 then Price.num (optNum signal.price) else Price.num (JSNum.fin p)
        | none =>
          if inheritedKey signal.symbol then Price.member
          else Price.num (optNum signal.price)) ∧
    (∀ (capital : JSNum ℚ) (positions : Positions) (t : BacktestTrade),
      e.executeBacktestTrade signal dataPoint capital positions = BacktestResult.ok t →
      t.price = BacktestEngine.tradePrice signal dataPoint) := by
  constructor
  · unfold BacktestEngine.tradePrice lookupIn
    cases h : dataPoint.prices signal.symbol with
    | none => cases hk : inheritedKey signal.symbol <;> simp [Lookup.orPrice]
    | some p =>
      by_cases hp : p = 0
      · simp [Lookup.orPrice, hp]
      · simp [Lookup.orPrice, hp]
  · intro capital positions t ht
    by_cases hb : signal.action = "BUY"
    · rw [executeBacktestTrade_buy e signal dataPoint capital positions hb] at ht
      split at ht
      · exact absurd ht (by simp)
      · simp only [BacktestResult.ok.injEq] at ht
        rw [← ht]
    · by_cases hs : signal.action = "SELL"
      · cases hl : lookupPosition positions signal.symbol with
        | absent =>
          rw [executeBacktestTrade_sell_none e signal dataPoint capital positions hs hl] at ht
          exact absurd ht (by simp)
        | found position =>
          rw [executeBacktestTrade_sell_some e signal dataPoint capital positions position
            hs hl] at ht
          simp only [BacktestResult.ok.injEq] at ht
          rw [← ht]
        | member =>
          rw [executeBacktestTrade_sell_member e signal dataPoint capital positions hs hl]
            at ht
          simp only [BacktestResult.ok.injEq] at ht
          rw [← ht]
      · simp [BacktestEngine.executeBacktestTrade, hb, hs] at ht

/-- A capped score of `calculateStrength` is 50 as soon as its input passes a positive
threshold: for a finite input the quotient is at least 1, for `Infinity` the cap applies. -/
theorem cappedScore_of_ge (x : JSNum ℚ) (threshold : ℚ) (hpos : 0 < threshold)
    (h : JSNum.ge x (JSNum.fin threshold) = true) :
    JSNum.min (JSNum.mul (JSNum.div x (JSNum.fin threshold)) (JSNum.fin 50)) (JSNum.fin 50)
      = JSNum.fin 50 := by
  cases x with
  | fin b =>
    simp only [JSNum.ge, decide_eq_true_eq] at h
    have hq : 1 ≤ b / threshold := by
      rw [le_div_iff₀ hpos]
      linarith
    simp only [JSNum.div, if_neg hpos.ne', JSNum.mul, JSNum.min]
    congr 1
    apply min_eq_right
    linarith
  | posInf =>
    simp [JSNum.div, not_lt.mpr hpos.le, JSNum.mul, JSNum.signedInf, JSNum.min]
  | negInf => simp [JSNum.ge] at h
  | nan => simp [JSNum.ge] at h

/-- C37: with `minBouncePercent > 0` and `volumeThreshold > 0`, every signal `addPricePoint`
returns has strength exactly 100: the two tests that let the signal fire,
`bouncePercent >= minBouncePercent` and `volumeRatio >= volumeThreshold`, make each capped
term of the strength formula 50 (also when a ratio is `Infinity`). -/
theorem fired_signal_strength (d : BounceDetector) (price volume timestamp : ℚ)
    (signal : Signal) (hmin : 0 < d.config.minBouncePercent)
    (hthreshold : 0 < d.config.volumeThreshold)
    (hfired : (d.addPricePoint price volume timestamp).1 = some signal) :
    signal.strength = JSNum.fin 100 := by
  have hsome : (d.addPricePoint price volume timestamp).1.isSome = true := by
    rw [hfired]; rfl
  obtain ⟨_, hb, hv⟩ := (addPricePoint_isSome_iff d price volume timestamp).mp hsome
  obtain ⟨_, _, _, _, _, _, hs⟩ := addPricePoint_signal_fields d price volume timestamp signal
    hfired
  rw [hs]
  unfold BounceDetector.calculateStrength
  simp only []
  rw [cappedScore_of_ge _ _ hmin hb, cappedScore_of_ge _ _ hthreshold hv]
  simp only [JSNum.add, JSNum.round]
  congr 1
  have : (⌊(50 : ℚ) + 50 + 1 / 2⌋ : ℤ) = 100 := by
    rw [Int.floor_eq_iff]
    constructor <;> norm_num
  rw [this]
  norm_num

/-- A model without weights and with bias 0 scores every signal with finite features 0. -/
theorem score_of_blank_model {K : Type} [LinearOrderedField K] (B : Builtins K) (m : Model K)
    (hweights : m.weights = fun _ => none) (hbias : m.bias = JSNum.fin 0)
    (features : List (String × JSValue K))
    (hv : ∀ kv ∈ features, ∃ x, kv.2 = JSValue.number (JSNum.fin x)) :
    MLFilter.score B m features = JSNum.fin 0 := by
  have hw : ∀ key w, m.weights key = some w → ∃ x, w = JSNum.fin x := by
    intro key w h
    rw [hweights] at h
    exact absurd h (by simp)
  have h := foldl_score_of_finite B m hw features 0 hv
  unfold MLFilter.score
  rw [hbias, h]
  congr 1
  rw [zero_add]
  apply List.sum_eq_zero
  intro x hx
  obtain ⟨kv, _, hkv⟩ := List.mem_map.mp hx
  rw [← hkv]
  simp [specWeight, hweights, JSNum.toFin]

/-- Witness of C37: the fourth observation of the bounce scenario, on thresholds 5 and
1.5. -/
theorem fired_signal_strength_witness :
    ((feedAll (BounceDetector.create ⟨some 5, none, some (3 / 2)⟩)
      [(1, 1000, 1000), (9 / 10, 1000, 2000), (7 / 10, 1000, 3000)]).addPricePoint
        (11 / 10) 3000 4000).1
      = some
          { type := "BOUNCE"
            timestamp := 4000
            price := 11 / 10
            low := JSNum.fin (7 / 10)
            bouncePercent := JSNum.fin (5714 / 100)
            volumeRatio := JSNum.fin 2
            strength := JSNum.fin 100 } ∧
    ({ type := "BOUNCE"
       timestamp := 4000
       price := 11 / 10
       low := JSNum.fin (7 / 10)
       bouncePercent := JSNum.fin (5714 / 100)
       volumeRatio := JSNum.fin 2
       strength := JSNum.fin 100 } : Signal).strength = JSNum.fin 100 :=
  ⟨(scenario_fourth 1000 2000 3000 4000 (by norm_num) (by norm_num) (by norm_num)
      (by norm_num)).2.2,
    fired_signal_strength
      (feedAll (BounceDetector.create ⟨some 5, none, some (3 / 2)⟩)
        [(1, 1000, 1000), (9 / 10, 1000, 2000), (7 / 10, 1000, 3000)])
      (11 / 10) 3000 4000 _
      (by rw [scenario_config]; norm_num) (by rw [scenario_config]; norm_num)
      (scenario_fourth 1000 2000 3000 4000 (by norm_num) (by norm_num) (by norm_num)
        (by norm_num)).2.2⟩

/-- C39, as stated, fails for a signal with a feature that is not finite: on a fresh
classifier over the reals, a signal whose `strength` is `Infinity` gets the score
`0 * Infinity`, which is NaN, and `predict` returns the probability NaN, not 0.5. -/
theorem predict_blank_infinite_feature_counterexample :
    (MLFilter.predict (⟨Real.exp, fun _ => JSNum.nan, fun _ => JSNum.nan⟩ : Builtins ℝ)
      (MLFilter.create {})
      ⟨JSValue.undefined, JSValue.undefined, JSValue.number JSNum.posInf, JSValue.undefined,
        JSValue.undefined⟩ 0).1.probability = JSNum.nan ∧
    (JSNum.nan : JSNum ℝ) ≠ JSNum.fin (1 / 2) := by
  constructor
  · simp [MLFilter.predict, MLFilter.create, MLFilter.score, MLFilter.extractFeatures,
      MLFilter.sigmoid, MLFilter.weightOrZero, JSValue.parseFloat, JSValue.orZero,
      JSValue.toNumber, JSNum.orZero, JSNum.mul, JSNum.add, JSNum.signedInf, JSNum.neg,
      JSNum.exp, JSNum.div]
  · simp

/-- C39, amended: on a classifier whose model has no weight and bias 0, as a freshly
constructed or reset one has, `predict` returns the probability exactly 0.5 for every signal
whose five feature values are finite numbers (a missing field counting as 0), provided
`exp(0) = 1`; `shouldTrade` is then false whenever `confidenceThreshold > 0.5`, as with the
default 0.7. -/
theorem predict_blank_model {K : Type} [LinearOrderedField K] (B : Builtins K)
    (f : MLFilter K) (signal : SignalInput K) (now : Nat)
    (hexp : B.exp 0 = 1)
    (hweights : f.model.weights = fun _ => none) (hbias : f.model.bias = JSNum.fin 0)
    (hv : ∀ kv ∈ MLFilter.extractFeatures B signal, ∃ x, kv.2 = JSValue.number (JSNum.fin x)) :
    (MLFilter.predict B f signal now).1.probability = JSNum.fin (1 / 2) ∧
    (1 / 2 < f.config.confidenceThreshold →
      (MLFilter.predict B f signal now).1.shouldTrade = false) ∧
    (MLFilter.create ({} : FilterConfigInput K)).model.weights = (fun _ => none) ∧
    (MLFilter.create ({} : FilterConfigInput K)).model.bias = JSNum.fin 0 ∧
    (MLFilter.create ({} : FilterConfigInput K)).config.confidenceThreshold = 7 / 10 ∧
    (MLFilter.reset f).model.weights = (fun _ => none) ∧
    (MLFilter.reset f).model.bias = JSNum.fin 0 := by
  have hscore := score_of_blank_model B f.model hweights hbias
    (MLFilter.extractFeatures B signal) hv
  have hprob : (MLFilter.predict B f signal now).1.probability = JSNum.fin (1 / 2) := by
    show MLFilter.sigmoid B (MLFilter.score B f.model (MLFilter.extractFeatures B signal)) = _
    rw [hscore]
    have h2 : (1 : K) + 1 ≠ 0 := by norm_num
    simp only [MLFilter.sigmoid, JSNum.neg, neg_zero, JSNum.exp, hexp, JSNum.add, JSNum.div,
      if_neg h2]
    congr 1
    norm_num
  refine ⟨hprob, ?_, rfl, rfl, ?_, rfl, rfl⟩
  · intro hthreshold
    show JSNum.ge (MLFilter.predict B f signal now).1.probability
      (JSNum.fin f.config.confidenceThreshold) = false
    rw [hprob]
    simp only [JSNum.ge, decide_eq_false_iff_not, not_le]
    exact hthreshold
  · simp [MLFilter.create, spreadOverIn]

/-- Witness of C39 (amended): a fresh classifier over the reals and the signal of the test
suite, with bounce 10, volume ratio 2 and strength 80. -/
theorem predict_blank_model_witness :
    (MLFilter.predict (⟨Real.exp, fun _ => JSNum.nan, fun _ => JSNum.nan⟩ : Builtins ℝ)
      (MLFilter.create {})
      ⟨JSValue.number (JSNum.fin 10), JSValue.number (JSNum.fin 2),
        JSValue.number (JSNum.fin 80), JSValue.undefined, JSValue.undefined⟩ 0).1.probability
      = JSNum.fin (1 / 2) :=
  (predict_blank_model (⟨Real.exp, fun _ => JSNum.nan, fun _ => JSNum.nan⟩ : Builtins ℝ)
    (MLFilter.create {})
    ⟨JSValue.number (JSNum.fin 10), JSValue.number (JSNum.fin 2),
      JSValue.number (JSNum.fin 80), JSValue.undefined, JSValue.undefined⟩ 0
    Real.exp_zero rfl rfl
    (by
      intro kv hkv
      simp only [MLFilter.extractFeatures, JSValue.parseFloat, JSValue.orZero, JSNum.orZero,
        List.mem_cons, List.mem_singleton, List.not_mem_nil, or_false] at hkv
      rcases hkv with h | h | h | h | h <;> rw [h] <;> exact ⟨_, rfl⟩)).1

/-- C38, failing input: on an engine with the default configuration a strategy buys 10 units
of `X` at the first data point and sells 20 units of `X` at the second, both at the listed
price 1. The SELL is accepted and recorded with quantity 20, twice the 10 units held when it
executed, its revenue for 20 units is credited, and the position is deleted: the symbol then
holds 0 where the recorded BUY quantity minus the recorded SELL quantity is `10 - 20`. -/
theorem runBacktest_sells_more_than_held :
    (BacktestEngine.runLoop (BacktestEngine.create {})
      (fun (_ : Unit) dp _ =>
        (some (if dp.timestamp = 1 then ⟨"BUY", "X", some 10, none⟩
          else ⟨"SELL", "X", some 20, none⟩), ()))
      () [⟨1, fun _ => some 1⟩]).positions
      = [("X", ⟨JSNum.fin 10, Price.num (JSNum.fin 1), 1⟩)] ∧
    (BacktestEngine.runLoop (BacktestEngine.create {})
      (fun (_ : Unit) dp _ =>
        (some (if dp.timestamp = 1 then ⟨"BUY", "X", some 10, none⟩
          else ⟨"SELL", "X", some 20, none⟩), ()))
      () [⟨1, fun _ => some 1⟩, ⟨2, fun _ => some 1⟩]).positions = [] ∧
    tradedQuantity "BUY" "X"
      (BacktestEngine.runLoop (BacktestEngine.create {})
        (fun (_ : Unit) dp _ =>
          (some (if dp.timestamp = 1 then ⟨"BUY", "X", some 10, none⟩
            else ⟨"SELL", "X", some 20, none⟩), ()))
        () [⟨1, fun _ => some 1⟩, ⟨2, fun _ => some 1⟩]).trades = JSNum.fin 10 ∧
    tradedQuantity "SELL" "X"
      (BacktestEngine.runLoop (BacktestEngine.create {})
        (fun (_ : Unit) dp _ =>
          (some (if dp.timestamp = 1 then ⟨"BUY", "X", some 10, none⟩
            else ⟨"SELL", "X", some 20, none⟩), ()))
        () [⟨1, fun _ => some 1⟩, ⟨2, fun _ => some 1⟩]).trades = JSNum.fin 20 ∧
    heldQuantity
      (BacktestEngine.runLoop (BacktestEngine.create {})
        (fun (_ : Unit) dp _ =>
          (some (if dp.timestamp = 1 then ⟨"BUY", "X", some 10, none⟩
            else ⟨"SELL", "X", some 20, none⟩), ()))
        () [⟨1, fun _ => some 1⟩, ⟨2, fun _ => some 1⟩]).positions "X" = JSNum.fin 0 ∧
    (BacktestEngine.runLoop (BacktestEngine.create {})
      (fun (_ : Unit) dp _ =>
        (some (if dp.timestamp = 1 then ⟨"BUY", "X", some 10, none⟩
          else ⟨"SELL", "X", some 20, none⟩), ()))
      () [⟨1, fun _ => some 1⟩, ⟨2, fun _ => some 1⟩]).capital
      = JSNum.fin (10000 - 1003 / 100 + 20 * (997 / 1000)) ∧
    (JSNum.fin 0 : JSNum ℚ) ≠ JSNum.sub (JSNum.fin 10) (JSNum.fin 20) := by
  refine ⟨?_, ?_, ?_, ?_, ?_, ?_, ?_⟩
  · norm_num [BacktestEngine.runLoop, BacktestEngine.tick, BacktestEngine.initialState,
      BacktestEngine.create, BacktestEngine.applySignal, BacktestEngine.executeBacktestTrade,
      BacktestEngine.applyTrade, BacktestEngine.buyTotalCost, BacktestEngine.tradeQuantity,
      BacktestEngine.tradePrice, lookupIn, Lookup.orPrice,
      Price.toNum, JSNum.orElse, JSNum.isTruthy, optNum, spreadOver, orElse,
      JSNum.mul, JSNum.gt, JSNum.sub, JSNum.add, JSNum.neg, setPosition,
      show ("BUY" : String) ≠ "" from by decide]
  · norm_num [BacktestEngine.runLoop, BacktestEngine.tick, BacktestEngine.initialState,
      BacktestEngine.create, BacktestEngine.applySignal, BacktestEngine.executeBacktestTrade,
      BacktestEngine.applyTrade, BacktestEngine.buyTotalCost, BacktestEngine.tradeQuantity,
      BacktestEngine.tradePrice, lookupIn, Lookup.orPrice,
      Price.toNum, JSNum.orElse, JSNum.isTruthy, optNum, spreadOver, orElse,
      JSNum.mul, JSNum.gt, JSNum.sub, JSNum.add, JSNum.neg, setPosition, deletePosition,
      lookupPosition, positionFields, installedPrototype,
      fieldTruthy, show inheritedKey "X" = false from by decide, List.filter,
      show ("X" : String) ≠ "__proto__" from by decide,
      show ∀ p, ¬ (PositionLookup.found p = PositionLookup.absent) from fun p => by simp, show ("BUY" : String) ≠ "" from by decide,
      show ("SELL" : String) ≠ "" from by decide,
      show ("SELL" : String) ≠ "BUY" from by decide]
  · norm_num [tradedQuantity, sumNum, BacktestEngine.runLoop, BacktestEngine.tick,
      BacktestEngine.initialState,
      BacktestEngine.create, BacktestEngine.applySignal, BacktestEngine.executeBacktestTrade,
      BacktestEngine.applyTrade, BacktestEngine.buyTotalCost, BacktestEngine.tradeQuantity,
      BacktestEngine.tradePrice, lookupIn, Lookup.orPrice,
      Price.toNum, JSNum.orElse, JSNum.isTruthy, optNum, spreadOver, orElse,
      JSNum.mul, JSNum.gt, JSNum.sub, JSNum.add, JSNum.neg, setPosition, deletePosition,
      lookupPosition, positionFields, installedPrototype,
      fieldTruthy, show inheritedKey "X" = false from by decide, List.filter,
      show ("X" : String) ≠ "__proto__" from by decide,
      show ∀ p, ¬ (PositionLookup.found p = PositionLookup.absent) from fun p => by simp, show ("BUY" : String) ≠ "" from by decide,
      show ("SELL" : String) ≠ "" from by decide,
      show ("SELL" : String) ≠ "BUY" from by decide]
  · norm_num [tradedQuantity, sumNum, BacktestEngine.runLoop, BacktestEngine.tick,
      BacktestEngine.initialState,
      BacktestEngine.create, BacktestEngine.applySignal, BacktestEngine.executeBacktestTrade,
      BacktestEngine.applyTrade, BacktestEngine.buyTotalCost, BacktestEngine.tradeQuantity,
      BacktestEngine.tradePrice, lookupIn, Lookup.orPrice,
      Price.toNum, JSNum.orElse, JSNum.isTruthy, optNum, spreadOver, orElse,
      JSNum.mul, JSNum.gt, JSNum.sub, JSNum.add, JSNum.neg, setPosition, deletePosition,
      lookupPosition, positionFields, installedPrototype,
      fieldTruthy, show inheritedKey "X" = false from by decide, List.filter,
      show ("X" : String) ≠ "__proto__" from by decide,
      show ∀ p, ¬ (PositionLookup.found p = PositionLookup.absent) from fun p => by simp, show ("BUY" : String) ≠ "" from by decide,
      show ("SELL" : String) ≠ "" from by decide,
      show ("SELL" : String) ≠ "BUY" from by decide,
      show ("BUY" : String) ≠ "SELL" from by decide]
  · norm_num [heldQuantity, BacktestEngine.runLoop, BacktestEngine.tick,
      BacktestEngine.initialState,
      BacktestEngine.create, BacktestEngine.applySignal, BacktestEngine.executeBacktestTrade,
      BacktestEngine.applyTrade, BacktestEngine.buyTotalCost, BacktestEngine.tradeQuantity,
      BacktestEngine.tradePrice, lookupIn, Lookup.orPrice,
      Price.toNum, JSNum.orElse, JSNum.isTruthy, optNum, spreadOver, orElse,
      JSNum.mul, JSNum.gt, JSNum.sub, JSNum.add, JSNum.neg, setPosition, deletePosition,
      lookupPosition, positionFields, installedPrototype,
      fieldTruthy, show inheritedKey "X" = false from by decide, List.filter,
      show ("X" : String) ≠ "__proto__" from by decide,
      show ∀ p, ¬ (PositionLookup.found p = PositionLookup.absent) from fun p => by simp, show ("BUY" : String) ≠ "" from by decide,
      show ("SELL" : String) ≠ "" from by decide,
      show ("SELL" : String) ≠ "BUY" from by decide]
  · norm_num [BacktestEngine.runLoop, BacktestEngine.tick, BacktestEngine.initialState,
      BacktestEngine.create, BacktestEngine.applySignal, BacktestEngine.executeBacktestTrade,
      BacktestEngine.applyTrade, BacktestEngine.buyTotalCost, BacktestEngine.tradeQuantity,
      BacktestEngine.tradePrice, lookupIn, Lookup.orPrice,
      Price.toNum, JSNum.orElse, JSNum.isTruthy, optNum, spreadOver, orElse,
      JSNum.mul, JSNum.gt, JSNum.sub, JSNum.add, JSNum.neg, setPosition, deletePosition,
      lookupPosition, positionFields, installedPrototype,
      fieldTruthy, show inheritedKey "X" = false from by decide, List.filter,
      show ("X" : String) ≠ "__proto__" from by decide,
      show ∀ p, ¬ (PositionLookup.found p = PositionLookup.absent) from fun p => by simp, show ("BUY" : String) ≠ "" from by decide,
      show ("SELL" : String) ≠ "" from by decide,
      show ("SELL" : String) ≠ "BUY" from by decide]
  · norm_num [JSNum.sub, JSNum.neg, JSNum.add]

/-! ## Auxiliary lemmas on the equity of the ledger -/

theorem costValue_cons (p : Position) (l : List Position) :
    costValue (p :: l) = p.quantity * p.averagePrice + costValue l := by
  simp [costValue]

theorem costValue_append_single (l : List Position) (x : Position) :
    costValue (l ++ [x]) = costValue l + x.quantity * x.averagePrice := by
  simp [costValue]

/-- The position `find` returns carries the symbol looked for. -/
theorem findPosition_symbol (l : List Position) (symbol : String) (p : Position)
    (h : findPosition l symbol = some p) : p.symbol = symbol := by
  unfold findPosition at h
  have := List.find?_some h
  simpa using this

/-- A symbol `find` does not find is the symbol of no position. -/
theorem not_mem_of_findPosition_none (l : List Position) (symbol : String)
    (h : findPosition l symbol = none) : symbol ∉ l.map Position.symbol := by
  unfold findPosition at h
  rw [List.find?_eq_none] at h
  intro hmem
  obtain ⟨x, hx, hxs⟩ := List.mem_map.mp hmem
  have := h x hx
  simp [hxs] at this

/-- The cost value after the in-place update of the position found. -/
theorem costValue_modifyFirst (symbol : String) (f : Position → Position) (l : List Position)
    (p : Position) (h : findPosition l symbol = some p) :
    costValue (modifyFirst symbol f l)
      = costValue l - p.quantity * p.averagePrice + (f p).quantity * (f p).averagePrice := by
  induction l with
  | nil => simp [findPosition] at h
  | cons x xs ih =>
    unfold findPosition at h ih
    by_cases hx : x.symbol = symbol
    · simp only [List.find?_cons, hx, decide_True] at h
      have hxp : x = p := Option.some.inj h
      subst hxp
      simp only [modifyFirst, hx, if_true, costValue_cons]
      ring
    · simp only [List.find?_cons, hx, decide_False] at h
      simp only [modifyFirst, hx, if_false, costValue_cons]
      rw [ih h]
      ring

/-- The symbols of the positions after an in-place update that keeps the symbol. -/
theorem map_symbol_modifyFirst (symbol : String) (f : Position → Position)
    (hf : ∀ p, (f p).symbol = p.symbol) (l : List Position) :
    (modifyFirst symbol f l).map Position.symbol = l.map Position.symbol := by
  induction l with
  | nil => rfl
  | cons x xs ih =>
    by_cases hx : x.symbol = symbol
    · simp [modifyFirst, hx, hf]
    · simp only [modifyFirst, hx, if_false, List.map_cons, ih]

/-- The cost value after the removal of the one position of a symbol. -/
theorem costValue_filter_ne (symbol : String) (l : List Position) (p : Position)
    (hnodup : (l.map Position.symbol).Nodup) (h : findPosition l symbol = some p) :
    costValue (l.filter (fun x => decide (x.symbol ≠ symbol)))
      = costValue l - p.quantity * p.averagePrice := by
  induction l with
  | nil => simp [findPosition] at h
  | cons x xs ih =>
    simp only [List.map_cons, List.nodup_cons] at hnodup
    by_cases hx : x.symbol = symbol
    · have hxp : x = p := by
        unfold findPosition at h
        simp only [List.find?_cons, hx, decide_True] at h
        exact Option.some.inj h
      subst hxp
      have hrest : xs.filter (fun y => decide (y.symbol ≠ symbol)) = xs := by
        rw [List.filter_eq_self]
        intro y hy
        have hne : y.symbol ≠ symbol := by
          intro hys
          apply hnodup.1
          rw [hx, ← hys]
          exact List.mem_map_of_mem _ hy
        simpa using hne
      simp only [List.filter_cons, hx, ne_eq, not_true_eq_false, decide_False, hrest,
        costValue_cons]
      simp
    · have hfind : findPosition xs symbol = some p := by
        unfold findPosition at h ⊢
        simpa only [List.find?_cons, hx, decide_False] using h
      have hkeep : decide (x.symbol ≠ symbol) = true := by simpa using hx
      simp only [List.filter_cons, hkeep, if_true, costValue_cons]
      rw [ih hnodup.2 hfind]
      ring

/-- What an accepted `buy` records. -/
theorem buy_fields_of_ok (s : SimulatedTrading) (symbol : String) (q p : ℚ) (now : Nat)
    (t : Trade) (h : (s.buy symbol q p now).1 = Result.ok t) :
    ¬ q * p + q * p * s.config.commissionRate + q * p * s.config.slippage > s.balance ∧
    (s.buy symbol q p now).2.trades = s.trades ++ [t] ∧
    t.type = TradeType.BUY ∧
    t.commission = q * p * s.config.commissionRate ∧
    t.slippage = q * p * s.config.slippage := by
  by_cases hgt : q * p + q * p * s.config.commissionRate + q * p * s.config.slippage
      > s.balance
  · rw [buy_of_gt s symbol q p now hgt] at h
    exact absurd h (by simp)
  · rw [buy_result_of_not_gt s symbol q p now hgt] at h
    have ht := Result.ok.inj h
    refine ⟨hgt, ?_, ?_, ?_, ?_⟩
    · rw [← ht]
      simp only [SimulatedTrading.buy]
      rw [if_neg hgt]
      simp [SimulatedTrading.recordEquity]
    · rw [← ht]
    · rw [← ht]
    · rw [← ht]

/-- What an accepted `sell` records. -/
theorem sell_fields_of_ok (s : SimulatedTrading) (symbol : String) (q p : ℚ) (now : Nat)
    (t : Trade) (h : (s.sell symbol q p now).1 = Result.ok t) :
    ∃ position, findPosition s.positions symbol = some position ∧
      ¬ position.quantity < q ∧
      (s.sell symbol q p now).2.trades = s.trades ++ [t] ∧
      t.type = TradeType.SELL ∧
      t.pnl = some ((p - position.averagePrice) * q - q * p * s.config.commissionRate
        - q * p * s.config.slippage) := by
  cases hf : findPosition s.positions symbol with
  | none =>
    rw [sell_of_none s symbol q p now hf] at h
    exact absurd h (by simp)
  | some position =>
    by_cases hlt : position.quantity < q
    · rw [sell_of_lt s symbol q p now position hf hlt] at h
      exact absurd h (by simp)
    · rw [sell_result_of_not_lt s symbol q p now position hf hlt] at h
      have ht := Result.ok.inj h
      refine ⟨position, rfl, hlt, ?_, ?_, ?_⟩
      · rw [← ht]
        simp only [SimulatedTrading.sell, hf]
        rw [if_neg hlt]
        simp [SimulatedTrading.recordEquity]
      · rw [← ht]
      · rw [← ht]

/-- An accepted `buy` lowers the equity at cost by its commission and slippage. -/
theorem buy_equity_of_ok (s : SimulatedTrading) (symbol : String) (q p : ℚ) (now : Nat)
    (t : Trade) (hpos : ∀ x ∈ s.positions, 0 < x.quantity) (hq : 0 < q)
    (h : (s.buy symbol q p now).1 = Result.ok t) :
    (s.buy symbol q p now).2.balance + costValue (s.buy symbol q p now).2.positions
      = s.balance + costValue s.positions - (t.commission + t.slippage) := by
  obtain ⟨hgt, _, _, hc, hsl⟩ := buy_fields_of_ok s symbol q p now t h
  rw [(buy_of_not_gt s symbol q p now hgt).2.2, buy_positions_of_not_gt s symbol q p now hgt,
    hc, hsl]
  cases hf : findPosition s.positions symbol with
  | none =>
    simp only [costValue_append_single]
    ring
  | some held =>
    simp only []
    rw [costValue_modifyFirst symbol _ s.positions held hf]
    have hheld : 0 < held.quantity := by
      unfold findPosition at hf
      exact hpos held (List.mem_of_find?_eq_some hf)
    have hne : held.quantity + q ≠ 0 := by linarith
    simp only []
    field_simp
    ring

/-- An accepted `sell` changes the equity at cost by its `pnl`. -/
theorem sell_equity_of_ok (s : SimulatedTrading) (symbol : String) (q p : ℚ) (now : Nat)
    (t : Trade) (hnodup : (s.positions.map Position.symbol).Nodup)
    (h : (s.sell symbol q p now).1 = Result.ok t) :
    (s.sell symbol q p now).2.balance + costValue (s.sell symbol q p now).2.positions
      = s.balance + costValue s.positions + t.pnl.getD 0 := by
  obtain ⟨held, hf, hlt, _, _, hpnl⟩ := sell_fields_of_ok s symbol q p now t h
  obtain ⟨_, _, hb, hp⟩ := sell_of_not_lt s symbol q p now held hf hlt
  rw [hb, hp, hpnl]
  by_cases heq : held.quantity = q
  · rw [if_pos heq, costValue_filter_ne symbol s.positions held hnodup hf, heq]
    simp only [Option.getD_some]
    ring
  · rw [if_neg heq, costValue_modifyFirst symbol _ s.positions held hf]
    simp only [Option.getD_some]
    ring

/-- One call keeps the symbols of the positions distinct. -/
theorem applyCall_nodup (s : SimulatedTrading) (c : Call)
    (hnodup : (s.positions.map Position.symbol).Nodup) :
    ((applyCall s c).positions.map Position.symbol).Nodup := by
  cases c with
  | buy symbol q p now =>
    simp only [applyCall]
    by_cases hgt : q * p + q * p * s.config.commissionRate + q * p * s.config.slippage
        > s.balance
    · rw [buy_of_gt s symbol q p now hgt]
      exact hnodup
    · rw [buy_positions_of_not_gt s symbol q p now hgt]
      cases hf : findPosition s.positions symbol with
      | none =>
        simp only [List.map_append, List.map_cons, List.map_nil]
        rw [List.nodup_append]
        refine ⟨hnodup, List.nodup_singleton _, ?_⟩
        intro a ha hb
        rw [List.mem_singleton] at hb
        rw [hb] at ha
        exact not_mem_of_findPosition_none s.positions symbol hf ha
      | some held =>
        simp only []
        rw [map_symbol_modifyFirst]
        · exact hnodup
        · intro _; rfl
  | sell symbol q p now =>
    simp only [applyCall]
    cases hf : findPosition s.positions symbol with
    | none =>
      rw [sell_of_none s symbol q p now hf]
      exact hnodup
    | some held =>
      by_cases hlt : held.quantity < q
      · rw [sell_of_lt s symbol q p now held hf hlt]
        exact hnodup
      · rw [(sell_of_not_lt s symbol q p now held hf hlt).2.2.2]
        by_cases heq : held.quantity = q
        · rw [if_pos heq]
          exact hnodup.sublist ((List.filter_sublist _).map _)
        · rw [if_neg heq, map_symbol_modifyFirst]
          · exact hnodup
          · intro _; rfl

/-- The two sums of the trade log after one more BUY record. -/
theorem sums_append_buy (trades : List Trade) (t : Trade) (ht : t.type = TradeType.BUY) :
    realizedPnl (trades ++ [t]) = realizedPnl trades ∧
    buyCosts (trades ++ [t]) = buyCosts trades + (t.commission + t.slippage) := by
  simp [realizedPnl, buyCosts, List.filter_append, ht]

/-- The two sums of the trade log after one more SELL record. -/
theorem sums_append_sell (trades : List Trade) (t : Trade) (ht : t.type = TradeType.SELL) :
    realizedPnl (trades ++ [t]) = realizedPnl trades + t.pnl.getD 0 ∧
    buyCosts (trades ++ [t]) = buyCosts trades := by
  simp [realizedPnl, buyCosts, List.filter_append, ht]

/-- The configuration is the same after a call. -/
theorem applyCall_config (s : SimulatedTrading) (c : Call) :
    (applyCall s c).config = s.config := by
  cases c with
  | buy symbol q p now =>
    simp only [applyCall]
    by_cases hgt : q * p + q * p * s.config.commissionRate + q * p * s.config.slippage
        > s.balance
    · rw [buy_of_gt s symbol q p now hgt]
    · exact (buy_of_not_gt s symbol q p now hgt).2.1
  | sell symbol q p now =>
    simp only [applyCall]
    cases hf : findPosition s.positions symbol with
    | none => rw [sell_of_none s symbol q p now hf]
    | some held =>
      by_cases hlt : held.quantity < q
      · rw [sell_of_lt s symbol q p now held hf hlt]
      · exact (sell_of_not_lt s symbol q p now held hf hlt).2.1

/-- One call with positive quantity and price keeps the accounting identity, together with
the two facts it rests on: held quantities are positive and symbols are distinct. -/
theorem applyCall_accounting (s : SimulatedTrading) (c : Call)
    (hs : (∀ x ∈ s.positions, 0 < x.quantity) ∧ (s.positions.map Position.symbol).Nodup ∧
      s.balance + costValue s.positions - s.config.initialBalance
        = realizedPnl s.trades - buyCosts s.trades)
    (hc : 0 < c.quantity ∧ 0 < c.price) :
    (∀ x ∈ (applyCall s c).positions, 0 < x.quantity) ∧
    ((applyCall s c).positions.map Position.symbol).Nodup ∧
    (applyCall s c).balance + costValue (applyCall s c).positions
        - (applyCall s c).config.initialBalance
      = realizedPnl (applyCall s c).trades - buyCosts (applyCall s c).trades := by
  obtain ⟨hpos, hnodup, hid⟩ := hs
  refine ⟨applyCall_quantity_pos s c hpos hc, applyCall_nodup s c hnodup, ?_⟩
  rw [applyCall_config]
  cases c with
  | buy symbol q p now =>
    simp only [applyCall]
    simp only [Call.quantity] at hc
    cases hr : (s.buy symbol q p now).1 with
    | failure err =>
      by_cases hgt : q * p + q * p * s.config.commissionRate + q * p * s.config.slippage
          > s.balance
      · rw [buy_of_gt s symbol q p now hgt]
        exact hid
      · rw [buy_result_of_not_gt s symbol q p now hgt] at hr
        exact absurd hr (by simp)
    | ok t =>
      obtain ⟨_, htr, hty, _, _⟩ := buy_fields_of_ok s symbol q p now t hr
      rw [buy_equity_of_ok s symbol q p now t hpos hc.1 hr, htr,
        (sums_append_buy s.trades t hty).1, (sums_append_buy s.trades t hty).2]
      linarith
  | sell symbol q p now =>
    simp only [applyCall]
    cases hr : (s.sell symbol q p now).1 with
    | failure err =>
      cases hf : findPosition s.positions symbol with
      | none =>
        rw [sell_of_none s symbol q p now hf]
        exact hid
      | some held =>
        by_cases hlt : held.quantity < q
        · rw [sell_of_lt s symbol q p now held hf hlt]
          exact hid
        · rw [sell_result_of_not_lt s symbol q p now held hf hlt] at hr
          exact absurd hr (by simp)
    | ok t =>
      obtain ⟨_, _, _, htr, hty, _⟩ := sell_fields_of_ok s symbol q p now t hr
      rw [sell_equity_of_ok s symbol q p now t hnodup hr, htr,
        (sums_append_sell s.trades t hty).1, (sums_append_sell s.trades t hty).2]
      linarith

/-- C36, as stated, fails for a symbol that names a member of `Object.prototype`: after
`buy('toString', 1, 1)` on a fresh default ledger the total equity `getAccount` reports is
NaN, because the symbol is looked up in the empty table `{}` and the inherited method is
found, while the sum of `pnl` over the SELL records minus the sum of
`commission + slippage` over the BUY records is `-0.003`. -/
theorem equity_accounting_inherited_symbol_counterexample :
    (applyCalls (SimulatedTrading.create {})
      [Call.buy "toString" 1 1 0]).getAccount.totalEquity = JSNum.nan ∧
    JSNum.sub
        (applyCalls (SimulatedTrading.create {})
          [Call.buy "toString" 1 1 0]).getAccount.totalEquity
        (JSNum.fin (applyCalls (SimulatedTrading.create {})
          [Call.buy "toString" 1 1 0]).config.initialBalance) = JSNum.nan ∧
    realizedPnl (applyCalls (SimulatedTrading.create {}) [Call.buy "toString" 1 1 0]).trades
      - buyCosts (applyCalls (SimulatedTrading.create {}) [Call.buy "toString" 1 1 0]).trades
      = -(3 / 1000) ∧
    (JSNum.nan : JSNum ℚ) ≠ JSNum.fin (-(3 / 1000)) := by
  have hequity : (applyCalls (SimulatedTrading.create {})
      [Call.buy "toString" 1 1 0]).getAccount.totalEquity = JSNum.nan := by
    norm_num [applyCalls, applyCall, SimulatedTrading.create, SimulatedTrading.buy, spreadOver,
      orElse, SimulatedTrading.recordEquity, SimulatedTrading.getAccount,
      SimulatedTrading.calculatePositionValue, findPosition, lookupIn, noPrices, inheritedKey,
      objectPrototypeKeys, Lookup.orElse, JSNum.mul, JSNum.add]
  refine ⟨hequity, ?_, ?_, ?_⟩
  · rw [hequity]
    rfl
  · have hbuy : decide (TradeType.BUY = TradeType.SELL) = false := by decide
    have hbuy2 : decide (TradeType.BUY = TradeType.BUY) = true := by decide
    norm_num [applyCalls, applyCall, SimulatedTrading.create, SimulatedTrading.buy, spreadOver,
      orElse, SimulatedTrading.recordEquity, findPosition, realizedPnl, buyCosts, List.filter,
      hbuy, hbuy2]
  · simp

/-- C36, amended: in exact arithmetic, on a ledger none of whose held symbols names a member
of `Object.prototype`, the equity `getAccount` reports, `balance + Σ quantity * averagePrice`,
obeys an accounting identity. An accepted `buy` (on a ledger whose held quantities are
positive, of a positive quantity of a symbol that names no such member) lowers it by exactly
the commission plus the slippage of the trade; an accepted `sell` (on a ledger with one
position per symbol) changes it by exactly the `pnl` of the trade; and after any sequence of
calls with positive quantity and price and such symbols on a constructed ledger, the equity
minus `initialBalance` is the sum of `pnl` over the SELL records minus the sum of
`commission + slippage` over the BUY records, the ledger having positive held quantities and
one position per symbol throughout. -/
theorem equity_accounting (config : ConfigInput) (calls : List Call)
    (hcalls : ∀ c ∈ calls, 0 < c.quantity ∧ 0 < c.price ∧ inheritedKey c.symbol = false) :
    (∀ k,
      JSNum.sub
          (applyCalls (SimulatedTrading.create config) (calls.take k)).getAccount.totalEquity
          (JSNum.fin
            (applyCalls (SimulatedTrading.create config) (calls.take k)).config.initialBalance)
        = JSNum.fin
            (realizedPnl (applyCalls (SimulatedTrading.create config) (calls.take k)).trades
              - buyCosts (applyCalls (SimulatedTrading.create config) (calls.take k)).trades)) ∧
    (∀ k,
      (∀ x ∈ (applyCalls (SimulatedTrading.create config) (calls.take k)).positions,
        0 < x.quantity ∧ inheritedKey x.symbol = false) ∧
      ((applyCalls (SimulatedTrading.create config) (calls.take k)).positions.map
        Position.symbol).Nodup) ∧
    (∀ (s : SimulatedTrading) (symbol : String) (q p : ℚ) (now : Nat) (t : Trade),
      (∀ x ∈ s.positions, 0 < x.quantity ∧ inheritedKey x.symbol = false) →
      inheritedKey symbol = false → 0 < q →
      (s.buy symbol q p now).1 = Result.ok t →
      (s.buy symbol q p now).2.getAccount.totalEquity
        = JSNum.sub s.getAccount.totalEquity (JSNum.fin (t.commission + t.slippage))) ∧
    (∀ (s : SimulatedTrading) (symbol : String) (q p : ℚ) (now : Nat) (t : Trade),
      (∀ x ∈ s.positions, inheritedKey x.symbol = false) →
      (s.positions.map Position.symbol).Nodup →
      (s.sell symbol q p now).1 = Result.ok t →
      (s.sell symbol q p now).2.getAccount.totalEquity
        = JSNum.add s.getAccount.totalEquity (JSNum.fin (t.pnl.getD 0))) := by
  have hreach : ∀ k,
      ((∀ x ∈ (applyCalls (SimulatedTrading.create config) (calls.take k)).positions,
        0 < x.quantity) ∧
      ((applyCalls (SimulatedTrading.create config) (calls.take k)).positions.map
        Position.symbol).Nodup ∧
      (applyCalls (SimulatedTrading.create config) (calls.take k)).balance
          + costValue (applyCalls (SimulatedTrading.create config) (calls.take k)).positions
          - (applyCalls (SimulatedTrading.create config) (calls.take k)).config.initialBalance
        = realizedPnl (applyCalls (SimulatedTrading.create config) (calls.take k)).trades
          - buyCosts (applyCalls (SimulatedTrading.create config) (calls.take k)).trades) ∧
      (∀ x ∈ (applyCalls (SimulatedTrading.create config) (calls.take k)).positions,
        inheritedKey x.symbol = false) := by
    intro k
    apply applyCalls_preserves
      (fun s => ((∀ x ∈ s.positions, 0 < x.quantity) ∧
        (s.positions.map Position.symbol).Nodup ∧
        s.balance + costValue s.positions - s.config.initialBalance
          = realizedPnl s.trades - buyCosts s.trades) ∧
        (∀ x ∈ s.positions, inheritedKey x.symbol = false))
      (fun c => 0 < c.quantity ∧ 0 < c.price ∧ inheritedKey c.symbol = false)
      (fun s c hs hc => ⟨applyCall_accounting s c hs.1 ⟨hc.1, hc.2.1⟩,
        applyCall_not_inherited s c hs.2 hc.2.2⟩)
    · simp [SimulatedTrading.create, costValue, realizedPnl, buyCosts]
    · exact fun c hc => hcalls c (List.mem_of_mem_take hc)
  refine ⟨?_, ?_, ?_, ?_⟩
  · intro k
    rw [totalEquity_eq _ (hreach k).2]
    simp only [JSNum.sub, JSNum.neg, JSNum.add, ← sub_eq_add_neg]
    rw [(hreach k).1.2.2]
  · intro k
    exact ⟨fun x hx => ⟨(hreach k).1.1 x hx, (hreach k).2 x hx⟩, (hreach k).1.2.1⟩
  · intro s symbol q p now t hpos hsymbol hq h
    have hheld : ∀ x ∈ s.positions, inheritedKey x.symbol = false := fun x hx => (hpos x hx).2
    have hafter := applyCall_not_inherited s (Call.buy symbol q p now) hheld hsymbol
    simp only [applyCall] at hafter
    rw [totalEquity_eq _ hafter, totalEquity_eq s hheld,
      buy_equity_of_ok s symbol q p now t (fun x hx => (hpos x hx).1) hq h]
    simp [JSNum.sub, JSNum.neg, JSNum.add, sub_eq_add_neg]
  · intro s symbol q p now t hheld hnodup h
    obtain ⟨held, hf, _, _, _, _⟩ := sell_fields_of_ok s symbol q p now t h
    have hsym : inheritedKey (Call.sell symbol q p now).symbol = false := by
      have hmem : held ∈ s.positions := by
        unfold findPosition at hf
        exact List.mem_of_find?_eq_some hf
      simp only [Call.symbol]
      rw [← findPosition_symbol s.positions symbol held hf]
      exact hheld held hmem
    have hafter := applyCall_not_inherited s (Call.sell symbol q p now) hheld hsym
    simp only [applyCall] at hafter
    rw [totalEquity_eq _ hafter, totalEquity_eq s hheld,
      sell_equity_of_ok s symbol q p now t hnodup h]
    simp [JSNum.add]

/-- Witness of C36 (amended): a buy, a second buy of the same symbol and a sale of
everything, on a ledger with the default configuration. -/
theorem equity_accounting_witness :
    (∀ c ∈ [Call.buy "MEME" 100 1 0, Call.buy "MEME" 50 2 1, Call.sell "MEME" 150 3 2],
      0 < c.quantity ∧ 0 < c.price ∧ inheritedKey c.symbol = false) ∧
    JSNum.sub
        (applyCalls (SimulatedTrading.create {})
          ([Call.buy "MEME" 100 1 0, Call.buy "MEME" 50 2 1,
            Call.sell "MEME" 150 3 2].take 3)).getAccount.totalEquity
        (JSNum.fin (applyCalls (SimulatedTrading.create {})
            ([Call.buy "MEME" 100 1 0, Call.buy "MEME" 50 2 1,
              Call.sell "MEME" 150 3 2].take 3)).config.initialBalance)
      = JSNum.fin
          (realizedPnl (applyCalls (SimulatedTrading.create {})
              ([Call.buy "MEME" 100 1 0, Call.buy "MEME" 50 2 1,
                Call.sell "MEME" 150 3 2].take 3)).trades
            - buyCosts (applyCalls (SimulatedTrading.create {})
              ([Call.buy "MEME" 100 1 0, Call.buy "MEME" 50 2 1,
                Call.sell "MEME" 150 3 2].take 3)).trades) :=
  ⟨by simp [Call.quantity, Call.price, Call.symbol, inheritedKey, objectPrototypeKeys],
   (equity_accounting {}
    [Call.buy "MEME" 100 1 0, Call.buy "MEME" 50 2 1, Call.sell "MEME" 150 3 2]
    (by simp [Call.quantity, Call.price, Call.symbol, inheritedKey,
      objectPrototypeKeys])).1 3⟩

/-! ## Auxiliary lemmas on the capital and the held quantities of a run -/

/-- An entry of the positions after an assignment is the entry assigned or an old one. -/
theorem mem_setPosition (symbol : String) (p : BacktestPosition) (l : Positions)
    (kv : String × BacktestPosition) (h : kv ∈ setPosition symbol p l) :
    kv = (symbol, p) ∨ kv ∈ l := by
  induction l with
  | nil =>
    simp only [setPosition, List.mem_singleton] at h
    exact Or.inl h
  | cons x xs ih =>
    by_cases hx : x.1 = symbol
    · simp only [setPosition, hx, if_true, List.mem_cons] at h
      rcases h with h | h
      · exact Or.inl h
      · exact Or.inr (List.mem_cons_of_mem _ h)
    · simp only [setPosition, hx, if_false, List.mem_cons] at h
      rcases h with h | h
      · exact Or.inr (by rw [h]; exact List.mem_cons_self _ _)
      · rcases ih h with h' | h'
        · exact Or.inl h'
        · exact Or.inr (List.mem_cons_of_mem _ h')

/-- The position looked up is one of the entries. -/
theorem lookupPosition_mem (l : Positions) (symbol : String) (p : BacktestPosition)
    (h : lookupPosition l symbol = PositionLookup.found p) : (symbol, p) ∈ l := by
  unfold lookupPosition at h
  cases hf : l.find? (fun kv => decide (kv.1 = symbol)) with
  | none =>
    rw [hf] at h
    simp only at h
    split at h
    · exact absurd h (by simp)
    · exact absurd h (by simp)
    · split at h <;> exact absurd h (by simp)
  | some kv =>
    rw [hf] at h
    simp only [PositionLookup.found.injEq] at h
    have hmem := List.mem_of_find?_eq_some hf
    have hsym : kv.1 = symbol := by simpa using List.find?_some hf
    have : kv = (symbol, p) := Prod.ext hsym h
    rw [← this]
    exact hmem

/-- Where no prototype was installed, the lookup of a symbol that names no member of
`Object.prototype` does not find a value that is no position. -/
theorem lookupPosition_ne_member (l : Positions) (symbol : String)
    (hproto : ∀ kv ∈ l, kv.1 ≠ "__proto__") (hkey : inheritedKey symbol = false) :
    lookupPosition l symbol ≠ PositionLookup.member := by
  have h2 : l.find? (fun kv => decide (kv.1 = "__proto__")) = none := by
    rw [List.find?_eq_none]
    intro kv hkv
    simpa using hproto kv hkv
  unfold lookupPosition
  cases hf : l.find? (fun kv => decide (kv.1 = symbol)) with
  | none => simp [installedPrototype, h2, hkey]
  | some kv => simp

/-- An entry of the positions after a `delete` is an old one. -/
theorem mem_deletePosition (symbol : String) (l : Positions) (kv : String × BacktestPosition)
    (h : kv ∈ deletePosition symbol l) : kv ∈ l := by
  unfold deletePosition at h
  split at h
  · exact h
  · exact List.mem_of_mem_filter h

/-- The position size on a finite capital and a positive price. -/
theorem calculatePositionSize_fin (c p : ℚ) (hp : 0 < p) :
    BacktestEngine.calculatePositionSize (JSNum.fin c) (JSNum.fin p)
      = JSNum.fin ((⌊c * (1 / 10) / p⌋ : ℤ) : ℚ) := by
  simp only [BacktestEngine.calculatePositionSize, JSNum.mul, JSNum.div, if_neg hp.ne',
    JSNum.floor]

/-- The quantity of a trade at a positive price on a non-negative capital, for an
instruction without quantity or with a positive one, is a non-negative finite number. -/
theorem tradeQuantity_nonneg (signal : Instruction) (dataPoint : DataPoint) (c p : ℚ)
    (hprice : BacktestEngine.tradePrice signal dataPoint = Price.num (JSNum.fin p))
    (hp : 0 < p) (hc : 0 ≤ c)
    (hq : signal.quantity = none ∨ ∃ q, 0 < q ∧ signal.quantity = some q) :
    ∃ Q, 0 ≤ Q ∧ BacktestEngine.tradeQuantity signal dataPoint (JSNum.fin c) = JSNum.fin Q := by
  rcases hq with hnone | ⟨q, hq0, hsome⟩
  · refine ⟨((⌊c * (1 / 10) / p⌋ : ℤ) : ℚ), ?_, ?_⟩
    · have : 0 ≤ c * (1 / 10) / p := by positivity
      exact_mod_cast Int.floor_nonneg.mpr this
    · simp only [BacktestEngine.tradeQuantity, hnone, optNum, orElse_nan, hprice, Price.toNum]
      exact calculatePositionSize_fin c p hp
  · exact ⟨q, hq0.le, tradeQuantity_of_given signal dataPoint (JSNum.fin c) q hsome hq0.ne'⟩

/-- Handling one admissible signal keeps the capital finite and non-negative, the held
quantities finite and non-negative and the `positions` object without an installed
prototype, when `commission + slippage ≤ 1`. -/
theorem applySignal_invariant (e : BacktestEngine) (signal : Option Instruction)
    (dataPoint : DataPoint) (capital : JSNum ℚ) (positions : Positions)
    (trades : List BacktestTrade)
    (hrates : e.config.commission + e.config.slippage ≤ 1)
    (hcapital : ∃ c, 0 ≤ c ∧ capital = JSNum.fin c)
    (hheld : ∀ kv ∈ positions,
      (∃ q, 0 ≤ q ∧ kv.2.quantity = JSNum.fin q) ∧ kv.1 ≠ "__proto__")
    (hsignal : ∀ sg, signal = some sg →
      (∃ p, 0 < p ∧ BacktestEngine.tradePrice sg dataPoint = Price.num (JSNum.fin p)) ∧
      (sg.quantity = none ∨ ∃ q, 0 < q ∧ sg.quantity = some q) ∧
      inheritedKey sg.symbol = false) :
    (∃ c, 0 ≤ c ∧ (e.applySignal signal dataPoint capital positions trades).1 = JSNum.fin c) ∧
    (∀ kv ∈ (e.applySignal signal dataPoint capital positions trades).2.1,
      (∃ q, 0 ≤ q ∧ kv.2.quantity = JSNum.fin q) ∧ kv.1 ≠ "__proto__") := by
  obtain ⟨c, hc0, hc⟩ := hcapital
  cases signal with
  | none => exact ⟨⟨c, hc0, hc⟩, hheld⟩
  | some sg =>
    obtain ⟨⟨p, hp0, hprice⟩, hquantity, hkey⟩ := hsignal sg rfl
    by_cases hempty : sg.action = ""
    · simp only [BacktestEngine.applySignal, hempty, if_true]
      exact ⟨⟨c, hc0, hc⟩, hheld⟩
    · cases hexec : e.executeBacktestTrade sg dataPoint capital positions with
      | failure err =>
        rw [applySignal_of_failure e sg dataPoint capital positions trades err hexec]
        exact ⟨⟨c, hc0, hc⟩, hheld⟩
      | ok trade =>
        simp only [BacktestEngine.applySignal, hempty, if_false, hexec]
        by_cases hbuy : sg.action = "BUY"
        · obtain ⟨Q, hQ0, hQ⟩ := tradeQuantity_nonneg sg dataPoint c p hprice hp0 hc0 hquantity
          have hcost : e.buyTotalCost sg dataPoint (JSNum.fin c)
              = JSNum.fin (Q * p * (1 + e.config.commission + e.config.slippage)) := by
            simp only [BacktestEngine.buyTotalCost, hQ, hprice, JSNum.mul, Price.toNum]
          rw [hc, executeBacktestTrade_buy e sg dataPoint (JSNum.fin c) positions hbuy, hcost]
            at hexec
          simp only [JSNum.gt, decide_eq_true_eq] at hexec
          by_cases hgt : c < Q * p * (1 + e.config.commission + e.config.slippage)
          · rw [if_pos hgt] at hexec
            exact absurd hexec (by simp)
          · rw [if_neg hgt] at hexec
            have ht := BacktestResult.ok.inj hexec
            simp only [BacktestEngine.applyTrade, hbuy, if_true]
            rw [← ht, hc]
            constructor
            · refine ⟨c - Q * p * (1 + e.config.commission + e.config.slippage), ?_, ?_⟩
              · linarith [not_lt.mp hgt]
              · simp [hcost, JSNum.sub, JSNum.neg, JSNum.add, sub_eq_add_neg]
            · intro kv hkv
              rcases mem_setPosition _ _ _ _ hkv with h | h
              · rw [h]
                exact ⟨⟨Q, hQ0, hQ⟩, ne_proto_of_not_inherited sg.symbol hkey⟩
              · exact hheld kv h
        · by_cases hsell : sg.action = "SELL"
          · cases hl : lookupPosition positions sg.symbol with
            | absent =>
              rw [executeBacktestTrade_sell_none e sg dataPoint capital positions hsell hl]
                at hexec
              exact absurd hexec (by simp)
            | member =>
              exact absurd hl
                (lookupPosition_ne_member positions sg.symbol (fun kv hkv => (hheld kv hkv).2)
                  hkey)
            | found held =>
              obtain ⟨qh, hqh0, hqh⟩ :=
                (hheld _ (lookupPosition_mem positions sg.symbol held hl)).1
              have hsold : ∃ S, 0 ≤ S ∧
                  JSNum.orElse (optNum sg.quantity) held.quantity = JSNum.fin S := by
                rcases hquantity with hnone | ⟨q, hq0, hsome⟩
                · exact ⟨qh, hqh0, by simp only [hnone, optNum, orElse_nan]; exact hqh⟩
                · exact ⟨q, hq0.le, by
                    simp only [hsome, optNum]
                    exact orElse_fin_of_ne q _ hq0.ne'⟩
              obtain ⟨S, hS0, hS⟩ := hsold
              rw [executeBacktestTrade_sell_some e sg dataPoint capital positions held hsell hl]
                at hexec
              have ht := BacktestResult.ok.inj hexec
              have hfound : lookupPosition positions sg.symbol ≠ PositionLookup.absent := by
                rw [hl]; simp
              simp only [BacktestEngine.applyTrade, hbuy, if_false, hsell, hfound, true_and,
                ne_eq, not_false_eq_true, if_true]
              rw [← ht, hc]
              constructor
              · refine ⟨c + S * p * (1 - e.config.commission - e.config.slippage), ?_, ?_⟩
                · have h1 : 0 ≤ 1 - e.config.commission - e.config.slippage := by linarith
                  have h2 : 0 ≤ S * p := mul_nonneg hS0 hp0.le
                  have h3 := mul_nonneg h2 h1
                  linarith
                · simp [hS, hprice, JSNum.mul, JSNum.add, Price.toNum]
              · intro kv hkv
                exact hheld kv (mem_deletePosition _ _ _ hkv)
          · simp [BacktestEngine.executeBacktestTrade, hbuy, hsell] at hexec

/-- The loop keeps the capital finite and non-negative, the held quantities finite and
non-negative and the `positions` object without an installed prototype, when
`commission + slippage ≤ 1` and every instruction the strategy returns on the data points at
hand executes at a positive price, carries no quantity or a positive one and names a symbol
that is no member of `Object.prototype`. -/
theorem foldl_tick_invariant {σ : Type} (e : BacktestEngine)
    (evaluate : σ → DataPoint → Positions → Option Instruction × σ)
    (hrates : e.config.commission + e.config.slippage ≤ 1) :
    ∀ (data : List DataPoint) (st : RunState σ),
      (∀ (s : σ) (dp : DataPoint) (positions : Positions) (sg : Instruction),
        dp ∈ data → (evaluate s dp positions).1 = some sg →
        (∃ p, 0 < p ∧ BacktestEngine.tradePrice sg dp = Price.num (JSNum.fin p)) ∧
        (sg.quantity = none ∨ ∃ q, 0 < q ∧ sg.quantity = some q) ∧
        inheritedKey sg.symbol = false) →
      ((∃ c, 0 ≤ c ∧ st.capital = JSNum.fin c) ∧
        ∀ kv ∈ st.positions,
          (∃ q, 0 ≤ q ∧ kv.2.quantity = JSNum.fin q) ∧ kv.1 ≠ "__proto__") →
      ((∃ c, 0 ≤ c ∧ (data.foldl (BacktestEngine.tick e evaluate) st).capital = JSNum.fin c) ∧
        ∀ kv ∈ (data.foldl (BacktestEngine.tick e evaluate) st).positions,
          (∃ q, 0 ≤ q ∧ kv.2.quantity = JSNum.fin q) ∧ kv.1 ≠ "__proto__") := by
  intro data
  induction data with
  | nil => intro st _ h; exact h
  | cons d ds ih =>
    intro st hgood hst
    rw [List.foldl_cons]
    apply ih
    · intro s dp positions sg hdp hsg
      exact hgood s dp positions sg (List.mem_cons_of_mem d hdp) hsg
    · obtain ⟨hc, hp, _, _, _⟩ := tick_fields e evaluate st d
      rw [hc, hp]
      exact applySignal_invariant e _ d st.capital st.positions st.trades hrates hst.1 hst.2
        (fun sg hsg => hgood st.strategy d st.positions sg (List.mem_cons_self d ds) hsg)

/-- The quantity the engine sizes on a capital of 10000 at a price of 2000. -/
theorem tradeQuantity_sized_zero :
    BacktestEngine.tradeQuantity ⟨"BUY", "X", none, none⟩ ⟨1, fun _ => some 2000⟩
      (JSNum.fin 10000) = JSNum.fin 0 := by
  have hprice : BacktestEngine.tradePrice ⟨"BUY", "X", none, none⟩ ⟨1, fun _ => some 2000⟩
      = Price.num (JSNum.fin 2000) :=
    tradePrice_of_listed _ _ 2000 rfl (by norm_num)
  simp only [BacktestEngine.tradeQuantity, optNum, orElse_nan, hprice, Price.toNum]
  rw [calculatePositionSize_fin 10000 2000 (by norm_num)]
  have hfloor : (⌊(10000 : ℚ) * (1 / 10) / 2000⌋ : ℤ) = 0 := by
    rw [Int.floor_eq_iff]
    constructor <;> norm_num
  rw [hfloor]
  norm_num

/-- C34, as stated, fails: a position can hold the quantity 0. On the default engine
(capital 10000) a strategy returns a BUY of `X` without quantity at a data point that lists
`X` at 2000; the engine sizes the trade at `floor(10000 * 0.1 / 2000) = 0`, accepts it at cost
0 and stores a position of quantity 0. -/
theorem sized_position_zero_quantity_counterexample :
    (BacktestEngine.runLoop (BacktestEngine.create {})
      (fun (_ : Unit) _ _ => (some ⟨"BUY", "X", none, none⟩, ()))
      () [⟨1, fun _ => some 2000⟩]).positions
      = [("X", ⟨JSNum.fin 0, Price.num (JSNum.fin 2000), 1⟩)] ∧
    ¬ ((0 : ℚ) < 0) := by
  constructor
  · have hq := tradeQuantity_sized_zero
    have hprice : BacktestEngine.tradePrice ⟨"BUY", "X", none, none⟩
        ⟨1, fun _ => some 2000⟩ = Price.num (JSNum.fin 2000) :=
      tradePrice_of_listed _ _ 2000 rfl (by norm_num)
    have hexec := executeBacktestTrade_buy (BacktestEngine.create {})
      ⟨"BUY", "X", none, none⟩ ⟨1, fun _ => some 2000⟩ (JSNum.fin 10000) [] rfl
    have hcost : BacktestEngine.buyTotalCost (BacktestEngine.create {})
        ⟨"BUY", "X", none, none⟩ ⟨1, fun _ => some 2000⟩ (JSNum.fin 10000) = JSNum.fin 0 := by
      simp only [BacktestEngine.buyTotalCost, hq, hprice, JSNum.mul, Price.toNum]
      norm_num
    rw [hcost, hq, hprice] at hexec
    have hnot : JSNum.gt (JSNum.fin (0 : ℚ)) (JSNum.fin 10000) = false := by
      simp [JSNum.gt]
    rw [hnot] at hexec
    simp only [Bool.false_eq_true, if_false] at hexec
    have hcap : (BacktestEngine.create {}).config.initialCapital = 10000 := by
      simp [BacktestEngine.create, spreadOver, orElse]
    simp only [BacktestEngine.runLoop, List.foldl_cons, List.foldl_nil, BacktestEngine.tick,
      BacktestEngine.initialState, hcap, BacktestEngine.applySignal, hexec,
      BacktestEngine.applyTrade, if_true, setPosition]
    simp
  · norm_num

/-- Why the symbols of the two invariants below must name no member of `Object.prototype`:
on the default engine a SELL of `toString` without quantity, at a data point that lists
`toString` at 1 and with nothing held, finds the inherited method in `positions`, sells the
quantity `undefined` and turns the capital into NaN; the BUY of `X` without quantity that
follows is sized on that capital and stores a position whose quantity is NaN. -/
theorem sell_inherited_symbol_stores_nan_quantity :
    (BacktestEngine.runLoop (BacktestEngine.create {})
      (fun (_ : Unit) dp _ =>
        (some (if dp.timestamp = 1 then ⟨"SELL", "toString", none, none⟩
          else ⟨"BUY", "X", none, none⟩), ()))
      () [⟨1, fun _ => some 1⟩, ⟨2, fun _ => some 1⟩]).capital = JSNum.nan ∧
    (BacktestEngine.runLoop (BacktestEngine.create {})
      (fun (_ : Unit) dp _ =>
        (some (if dp.timestamp = 1 then ⟨"SELL", "toString", none, none⟩
          else ⟨"BUY", "X", none, none⟩), ()))
      () [⟨1, fun _ => some 1⟩, ⟨2, fun _ => some 1⟩]).positions
      = [("X", ⟨JSNum.nan, Price.num (JSNum.fin 1), 2⟩)] := by
  constructor
  · norm_num [BacktestEngine.runLoop, BacktestEngine.tick, BacktestEngine.initialState,
      BacktestEngine.create, BacktestEngine.applySignal, BacktestEngine.executeBacktestTrade,
      BacktestEngine.applyTrade, BacktestEngine.buyTotalCost, BacktestEngine.tradeQuantity,
      BacktestEngine.calculatePositionSize, BacktestEngine.tradePrice, lookupIn,
      Lookup.orPrice, Price.toNum, lookupPosition, positionFields, installedPrototype,
      fieldTruthy, inheritedKey, objectPrototypeKeys, List.filter, JSNum.orElse,
      JSNum.isTruthy, optNum, spreadOver, orElse, JSNum.mul, JSNum.div, JSNum.floor, JSNum.gt,
      JSNum.sub, JSNum.add, JSNum.neg, JSNum.toFixed2, setPosition, deletePosition,
      show ("SELL" : String) ≠ "" from by decide,
      show ("SELL" : String) ≠ "BUY" from by decide,
      show ("BUY" : String) ≠ "" from by decide,
      show ("toString" : String) ≠ "__proto__" from by decide,
      show ¬ (PositionLookup.member = PositionLookup.absent) from by simp]
  · norm_num [BacktestEngine.runLoop, BacktestEngine.tick, BacktestEngine.initialState,
      BacktestEngine.create, BacktestEngine.applySignal, BacktestEngine.executeBacktestTrade,
      BacktestEngine.applyTrade, BacktestEngine.buyTotalCost, BacktestEngine.tradeQuantity,
      BacktestEngine.calculatePositionSize, BacktestEngine.tradePrice, lookupIn,
      Lookup.orPrice, Price.toNum, lookupPosition, positionFields, installedPrototype,
      fieldTruthy, inheritedKey, objectPrototypeKeys, List.filter, JSNum.orElse,
      JSNum.isTruthy, optNum, spreadOver, orElse, JSNum.mul, JSNum.div, JSNum.floor, JSNum.gt,
      JSNum.sub, JSNum.add, JSNum.neg, JSNum.toFixed2, setPosition, deletePosition,
      show ("SELL" : String) ≠ "" from by decide,
      show ("SELL" : String) ≠ "BUY" from by decide,
      show ("BUY" : String) ≠ "" from by decide,
      show ("toString" : String) ≠ "__proto__" from by decide,
      show ¬ (PositionLookup.member = PositionLookup.absent) from by simp]

/-- C34, amended: on an engine with non-negative initial capital and
`commission + slippage ≤ 1`, for a strategy whose instructions carry no quantity or a
quantity above 0, execute at positive prices and name symbols that are no member of
`Object.prototype`, every position present at any point of a run has a finite quantity that
is at least 0. It need not be above 0: an instruction without quantity is sized at
`floor(capital * 0.1 / price)`, which is 0 as soon as the price exceeds a tenth of the
capital, and the position is stored all the same. -/
theorem held_quantities_nonneg {σ : Type} (e : BacktestEngine)
    (evaluate : σ → DataPoint → Positions → Option Instruction × σ) (strategy : σ)
    (historicalData : List DataPoint)
    (hcapital : 0 ≤ e.config.initialCapital)
    (hrates : e.config.commission + e.config.slippage ≤ 1)
    (hgood : ∀ (s : σ) (dp : DataPoint) (positions : Positions) (sg : Instruction),
      dp ∈ historicalData → (evaluate s dp positions).1 = some sg →
      (∃ p, 0 < p ∧ BacktestEngine.tradePrice sg dp = Price.num (JSNum.fin p)) ∧
      (sg.quantity = none ∨ ∃ q, 0 < q ∧ sg.quantity = some q) ∧
      inheritedKey sg.symbol = false) :
    (∀ k, ∀ kv ∈ ((historicalData.take k).foldl (BacktestEngine.tick e evaluate)
        (BacktestEngine.initialState e strategy historicalData)).positions,
      ∃ q, 0 ≤ q ∧ kv.2.quantity = JSNum.fin q) ∧
    (∀ (sg : Instruction) (dp : DataPoint) (c p : ℚ),
      BacktestEngine.tradePrice sg dp = Price.num (JSNum.fin p) → 0 < p →
      sg.quantity = none →
      BacktestEngine.tradeQuantity sg dp (JSNum.fin c)
          = JSNum.fin ((⌊c * (1 / 10) / p⌋ : ℤ) : ℚ) ∧
      (0 ≤ c → c * (1 / 10) < p →
        BacktestEngine.tradeQuantity sg dp (JSNum.fin c) = JSNum.fin 0)) := by
  constructor
  · intro k kv hkv
    refine ((foldl_tick_invariant e evaluate hrates (historicalData.take k)
      (BacktestEngine.initialState e strategy historicalData) ?_ ?_).2 kv hkv).1
    · intro s dp positions sg hdp hsg
      exact hgood s dp positions sg (List.mem_of_mem_take hdp) hsg
    · refine ⟨⟨e.config.initialCapital, hcapital, rfl⟩, ?_⟩
      intro kv hkv
      simp [BacktestEngine.initialState] at hkv
  · intro sg dp c p hprice hp hnone
    have hsize : BacktestEngine.tradeQuantity sg dp (JSNum.fin c)
        = JSNum.fin ((⌊c * (1 / 10) / p⌋ : ℤ) : ℚ) := by
      simp only [BacktestEngine.tradeQuantity, hnone, optNum, orElse_nan, hprice, Price.toNum]
      exact calculatePositionSize_fin c p hp
    refine ⟨hsize, ?_⟩
    intro hc hlt
    rw [hsize]
    have hfloor : (⌊c * (1 / 10) / p⌋ : ℤ) = 0 := by
      rw [Int.floor_eq_iff]
      constructor
      · have : 0 ≤ c * (1 / 10) / p := by positivity
        simpa using this
      · have : c * (1 / 10) / p < 1 := by
          rw [div_lt_one hp]
          exact hlt
        simpa using this
    rw [hfloor]
    norm_num

/-- Witness of C34 (amended): the default engine and a strategy that buys `X` without
quantity at a data point listing `X` at 1; the trade is sized at `floor(10000 * 0.1 / 1)`. -/
theorem held_quantities_nonneg_witness :
    BacktestEngine.tradeQuantity ⟨"BUY", "X", none, none⟩ ⟨1, fun _ => some 1⟩
        (JSNum.fin 10000)
      = JSNum.fin ((⌊(10000 : ℚ) * (1 / 10) / 1⌋ : ℤ) : ℚ) :=
  ((held_quantities_nonneg (BacktestEngine.create {})
    (fun (_ : Unit) _ _ => (some ⟨"BUY", "X", none, none⟩, ())) ()
    [⟨1, fun _ => some 1⟩]
    (by norm_num [BacktestEngine.create, spreadOver, orElse])
    (by norm_num [BacktestEngine.create, spreadOver, orElse])
    (by
      intro s dp positions sg hdp hsg
      simp only [List.mem_singleton] at hdp
      simp only [Option.some.injEq] at hsg
      rw [hdp, ← hsg]
      exact ⟨⟨1, by norm_num, tradePrice_of_listed _ _ 1 rfl (by norm_num)⟩,
        Or.inl rfl, by decide⟩)).2
    ⟨"BUY", "X", none, none⟩ ⟨1, fun _ => some 1⟩ 10000 1
    (tradePrice_of_listed _ _ 1 rfl (by norm_num)) (by norm_num) rfl).1

/-- C40, as stated, fails: the price of an instruction need not be positive where the series
lists none. On the default engine a strategy buys 10 units of `X` at a data point that lists
`X` at 1, then sells 10 units of `X` with its own price -100000 at a data point that lists no
price for `X`; the SELL is accepted, its revenue `10 * -100000 * 0.997` is added and the
capital is -987010.03. -/
theorem capital_negative_instruction_price_counterexample :
    (0 : ℚ) ≤ (BacktestEngine.create {}).config.initialCapital ∧
    (BacktestEngine.create {}).config.commission + (BacktestEngine.create {}).config.slippage
      ≤ 1 ∧
    (BacktestEngine.runLoop (BacktestEngine.create {})
      (fun (_ : Unit) dp _ =>
        (some (if dp.timestamp = 1 then ⟨"BUY", "X", some 10, none⟩
          else ⟨"SELL", "X", some 10, some (-100000)⟩), ()))
      () [⟨1, fun _ => some 1⟩, ⟨2, fun _ => none⟩]).capital
      = JSNum.fin (-(98701003 / 100)) ∧
    ¬ ((0 : ℚ) ≤ -(98701003 / 100)) := by
  refine ⟨?_, ?_, ?_, ?_⟩
  · norm_num [BacktestEngine.create, spreadOver, orElse]
  · norm_num [BacktestEngine.create, spreadOver, orElse]
  · norm_num [BacktestEngine.runLoop, BacktestEngine.tick, BacktestEngine.initialState,
      BacktestEngine.create, BacktestEngine.applySignal, BacktestEngine.executeBacktestTrade,
      BacktestEngine.applyTrade, BacktestEngine.buyTotalCost, BacktestEngine.tradeQuantity,
      BacktestEngine.tradePrice, lookupIn, Lookup.orPrice, Price.toNum, lookupPosition,
      positionFields, installedPrototype, fieldTruthy, show inheritedKey "X" = false from by decide,
      List.filter, JSNum.orElse, JSNum.isTruthy, optNum, spreadOver, orElse, JSNum.mul,
      JSNum.gt, JSNum.sub, JSNum.add, JSNum.neg, setPosition, deletePosition,
      show ("SELL" : String) ≠ "" from by decide,
      show ("SELL" : String) ≠ "BUY" from by decide,
      show ("BUY" : String) ≠ "" from by decide,
      show ("X" : String) ≠ "__proto__" from by decide,
      show ∀ p, ¬ (PositionLookup.found p = PositionLookup.absent) from fun p => by simp]
  · norm_num

/-- C40, amended: on an engine with non-negative initial capital and
`commission + slippage ≤ 1`, for a strategy whose instructions execute at a positive price
(the price the data point lists for the symbol, or the price of the instruction where the
data point lists none or 0), carry no quantity or a quantity above 0 and name symbols that
are no member of `Object.prototype`, the capital after any number of turns of the loop of a
run is a finite number that is not negative: a BUY is accepted only when its cost does not
exceed the capital, and a SELL adds a revenue that is not negative. -/
theorem capital_never_negative {σ : Type} (e : BacktestEngine)
    (evaluate : σ → DataPoint → Positions → Option Instruction × σ) (strategy : σ)
    (historicalData : List DataPoint)
    (hcapital : 0 ≤ e.config.initialCapital)
    (hrates : e.config.commission + e.config.slippage ≤ 1)
    (hgood : ∀ (s : σ) (dp : DataPoint) (positions : Positions) (sg : Instruction),
      dp ∈ historicalData → (evaluate s dp positions).1 = some sg →
      (∃ p, 0 < p ∧ BacktestEngine.tradePrice sg dp = Price.num (JSNum.fin p)) ∧
      (sg.quantity = none ∨ ∃ q, 0 < q ∧ sg.quantity = some q) ∧
      inheritedKey sg.symbol = false) :
    ∀ k, ∃ c, 0 ≤ c ∧
      ((historicalData.take k).foldl (BacktestEngine.tick e evaluate)
        (BacktestEngine.initialState e strategy historicalData)).capital = JSNum.fin c := by
  intro k
  refine (foldl_tick_invariant e evaluate hrates (historicalData.take k)
    (BacktestEngine.initialState e strategy historicalData) ?_ ?_).1
  · intro s dp positions sg hdp hsg
    exact hgood s dp positions sg (List.mem_of_mem_take hdp) hsg
  · refine ⟨⟨e.config.initialCapital, hcapital, rfl⟩, ?_⟩
    intro kv hkv
    simp [BacktestEngine.initialState] at hkv

/-- Witness of C40 (amended): the default engine and a strategy that buys 10 units of `X` at
a data point listing `X` at 1. -/
theorem capital_never_negative_witness :
    ∃ c, 0 ≤ c ∧
      ((([⟨1, fun _ => some 1⟩] : List DataPoint).take 1).foldl
        (BacktestEngine.tick (BacktestEngine.create {})
          (fun (_ : Unit) _ _ => (some ⟨"BUY", "X", some 10, none⟩, ())))
        (BacktestEngine.initialState (BacktestEngine.create {}) ()
          [⟨1, fun _ => some 1⟩])).capital = JSNum.fin c :=
  capital_never_negative (BacktestEngine.create {})
    (fun (_ : Unit) _ _ => (some ⟨"BUY", "X", some 10, none⟩, ())) ()
    [⟨1, fun _ => some 1⟩]
    (by norm_num [BacktestEngine.create, spreadOver, orElse])
    (by norm_num [BacktestEngine.create, spreadOver, orElse])
    (by
      intro s dp positions sg hdp hsg
      simp only [List.mem_singleton] at hdp
      simp only [Option.some.injEq] at hsg
      rw [hdp, ← hsg]
      exact ⟨⟨1, by norm_num, tradePrice_of_listed _ _ 1 rfl (by norm_num)⟩,
        Or.inr ⟨10, by norm_num, rfl⟩, by decide⟩) 1

end RedPill
